import Mathlib

/-!
FreeRADIUS dictionary engine and RADIUS attribute encoder: a shallow embedding
of `src/lib/radius_encode.c` and `src/lib/dict.c`.

* Pointers to dictionary attributes are indices into a heap of `fr_dict_attr_t`
  records, `none` is `NULL`.
* The output buffer is a memory region addressed by byte offsets from `out`;
  every store is recorded in a high-water mark so that the extent of the
  writes of a call can be stated.
* C integers are natural numbers, reduced modulo the width of their type where
  the C code can wrap.
-/

namespace FR

/-! ## Constants and external primitives -/

/-- Constants declared in headers outside `src/` and the primitives the
library consumes as black boxes (MD5, the random source, the Ascend secret
derivation). They are parameters of the development. -/
structure Env where
  /-- The digest function `fr_md5_calc` / `fr_md5_final` compute. -/
  md5 : List Nat → List Nat
  /-- The value returned by the k-th call of `fr_rand()`. -/
  rand : Nat → Nat
  /-- The external primitive `fr_radius_make_secret(vector, secret, data)`. -/
  make_secret : List Nat → List Nat → List Nat → List Nat
  /-- The vendor number `VENDORPEC_WIMAX`. -/
  VENDORPEC_WIMAX : Nat
  /-- The size `FR_DICT_MAX_TLV_STACK` of the nesting stack. -/
  FR_DICT_MAX_TLV_STACK : Nat
  /-- The attribute number `PW_CHARGEABLE_USER_IDENTITY`. -/
  PW_CHARGEABLE_USER_IDENTITY : Nat
  /-- The vendor number `DHCP_MAGIC_VENDOR`. -/
  DHCP_MAGIC_VENDOR : Nat
  /-- The bound `FR_DICT_ATTR_MAX_NAME_LEN`. -/
  FR_DICT_ATTR_MAX_NAME_LEN : Nat
  /-- The macro `TAG_VALID(x)`. -/
  TAG_VALID : Int → Bool
  /-- The constant `TAG_NONE`. -/
  TAG_NONE : Nat
  /-- The constant `ULONG_MAX` of `limits.h`. -/
  ULONG_MAX : Nat
  /-- The bound `FR_DICT_ENUM_MAX_NAME_LEN`. -/
  FR_DICT_ENUM_MAX_NAME_LEN : Nat

/-- Modelled from the spec: `AUTH_PASS_LEN`, the 16-byte cipher block of the
password schemes (declared in a header outside `src/`). -/
def AUTH_PASS_LEN : Nat := 16

/-- Modelled from the spec: `AUTH_VECTOR_LEN`, the length of the 16-byte
request authenticator (declared in a header outside `src/`). -/
def AUTH_VECTOR_LEN : Nat := 16

/-- Modelled from the spec: `MAX_PASS_LEN`, the 128-byte maximum of a
User-Password (declared in a header outside `src/`). -/
def MAX_PASS_LEN : Nat := 128

/-- Modelled from the spec: `PW_VENDOR_SPECIFIC`, the standard Vendor-Specific
attribute 26 (declared in a header outside `src/`). -/
def PW_VENDOR_SPECIFIC : Nat := 26

/-- The attribute number `PW_MESSAGE_AUTHENTICATOR`; `encode_rfc_hdr` traces
its record as `50 12`. -/
def PW_MESSAGE_AUTHENTICATOR : Nat := 80

/-- Modelled from the spec: the encrypt flag value of the User-Password
scheme, `FLAG_ENCRYPT_USER_PASSWORD`. -/
def FLAG_ENCRYPT_USER_PASSWORD : Nat := 1

/-- The encrypt flag value `FLAG_ENCRYPT_TUNNEL_PASSWORD`; `fr_dict_attr_add`
names it `encrypt=2`. -/
def FLAG_ENCRYPT_TUNNEL_PASSWORD : Nat := 2

/-- Modelled from the spec: the encrypt flag value of the Ascend scheme,
`FLAG_ENCRYPT_ASCEND_SECRET`. -/
def FLAG_ENCRYPT_ASCEND_SECRET : Nat := 3

/-- Modelled from the spec: RADIUS packet code Accounting-Request of RFC 2866
(`PW_CODE_ACCOUNTING_REQUEST`, declared in a header outside `src/`). -/
def PW_CODE_ACCOUNTING_REQUEST : Nat := 4

/-- Modelled from the spec: RADIUS packet code Disconnect-Request
(`PW_CODE_DISCONNECT_REQUEST`, declared in a header outside `src/`). -/
def PW_CODE_DISCONNECT_REQUEST : Nat := 40

/-- Modelled from the spec: RADIUS packet code CoA-Request
(`PW_CODE_COA_REQUEST`, declared in a header outside `src/`). -/
def PW_CODE_COA_REQUEST : Nat := 43

/-- The range of `size_t`. -/
def SIZE_MOD : Nat := 2 ^ 64

/-- Subtraction of `size_t` values, wrapping below zero. -/
def size_sub (a b : Nat) : Nat := (a % SIZE_MOD + (SIZE_MOD - b % SIZE_MOD)) % SIZE_MOD

/-- The cast `(ssize_t) x` of a `size_t`. -/
def to_ssize (x : Nat) : Int :=
  if x % SIZE_MOD < 2 ^ 63 then ((x % SIZE_MOD : Nat) : Int) else ((x % SIZE_MOD : Nat) : Int) - (SIZE_MOD : Int)

/-- The cast `(size_t) x` of an `ssize_t`. -/
def of_ssize (x : Int) : Nat := (x % (SIZE_MOD : Int)).toNat

/-! ## Memory -/

/-- A memory region addressed from a base pointer. `hi` is one past the highest
offset stored to so far. -/
structure Mem where
  byte : Nat → Nat
  hi : Nat

/-- A region nothing has been stored to, holding `f`. -/
def Mem.init (f : Nat → Nat) : Mem := { byte := f, hi := 0 }

/-- The store `p[i] = v` of one `uint8_t`. -/
def Mem.write (m : Mem) (i v : Nat) : Mem :=
  { byte := fun j => if j = i then v % 256 else m.byte j, hi := max m.hi (i + 1) }

/-- The `n` bytes at `p + off`. -/
def Mem.read (m : Mem) (off n : Nat) : List Nat := (List.range n).map (fun i => m.byte (off + i))

/-- Stores the bytes of `data` at the offsets `off`, `off + 1`, ... as one
block. -/
def Mem.store (m : Mem) (off : Nat) (data : List Nat) : Mem :=
  { byte := fun j => if off ≤ j ∧ j < off + data.length then data.getD (j - off) 0 % 256 else m.byte j,
    hi := if data.length = 0 then m.hi else max m.hi (off + data.length) }

/-- The first `n` bytes of the object at `data`; bytes past its end read as 0. -/
def read_bytes (data : List Nat) (n : Nat) : List Nat := (List.range n).map (fun i => data.getD i 0)

/-- The call `memcpy(p + off, data, n)`. -/
def Mem.memcpy (m : Mem) (off : Nat) (data : List Nat) (n : Nat) : Mem := m.store off (read_bytes data n)

/-- The call `memset(p + off, v, n)`. -/
def Mem.memset (m : Mem) (off v n : Nat) : Mem := m.store off (List.replicate n v)

/-- The call `memmove(p + dst, p + src, n)`. -/
def Mem.memmove (m : Mem) (dst src n : Nat) : Mem := m.store dst (m.read src n)

/-- The loop `for (i = 0; i < n; i++) p[i + off] ^= digest[i]`. -/
def Mem.xor_loop (m : Mem) (off : Nat) (digest : List Nat) : Nat → Nat → Mem
  | 0, _ => m
  | k + 1, i => Mem.xor_loop ((m.write (i + off) (Nat.xor (m.byte (i + off)) (digest.getD i 0)))) off digest k (i + 1)

/-- The 16 bytes of a digest as the C array `digest[AUTH_VECTOR_LEN]`. -/
def digest_of (E : Env) (input : List Nat) : List Nat :=
  (List.range AUTH_VECTOR_LEN).map (fun i => (E.md5 input).getD i 0 % 256)

/-- Big-endian bytes of a 32-bit value: `htonl` followed by `memcpy`. -/
def htonl_bytes (v : Nat) : List Nat :=
  [(v / 2 ^ 24) % 256, (v / 2 ^ 16) % 256, (v / 2 ^ 8) % 256, v % 256]

/-- Big-endian bytes of a 64-bit value: `htonll` followed by `memcpy`. -/
def htonll_bytes (v : Nat) : List Nat :=
  htonl_bytes ((v / 2 ^ 32) % 2 ^ 32) ++ htonl_bytes (v % 2 ^ 32)

/-! ## Process-wide state -/

/-- The static counter `salt_offset` and the position in the stream of
`fr_rand()` results. -/
structure Globals where
  salt_offset : Nat
  rand_calls : Nat

/-- A call of `fr_rand()`, a `uint32_t`. -/
def fr_rand (E : Env) (g : Globals) : Nat × Globals :=
  (E.rand g.rand_calls % 2 ^ 32, { g with rand_calls := g.rand_calls + 1 })

/-- The statement pair that draws the salt:
`salt[0] = (0x80 | (((salt_offset++) & 0x0f) << 3) | (fr_rand() & 0x07)); salt[1] = fr_rand();` -/
def make_salt (E : Env) (g : Globals) : Nat × Nat × Globals :=
  let c := g.salt_offset
  let g1 := { g with salt_offset := (g.salt_offset + 1) % 2 ^ 32 }
  let r0 := fr_rand E g1
  let r1 := fr_rand E r0.2
  (((0x80 ||| (((c &&& 0x0f) <<< 3))) ||| (r0.1 &&& 0x07)) % 256, r1.1 % 256, r1.2)

/-! ## Password obscuring (`radius_encode.c`) -/

/-- The block loop of `fr_radius_encode_password` and `encode_password`:
`for (n = 0; n < len; n += AUTH_PASS_LEN)` with the digest keyed by the vector
for the first block and by the previous cipher block afterwards. `k` counts the
iterations left. -/
def password_loop (E : Env) (secret vector : List Nat) (base : Nat) : Nat → Nat → Mem → Mem
  | 0, _, m => m
  | k + 1, n, m =>
    let ctx := if n = 0 then secret ++ read_bytes vector AUTH_PASS_LEN
               else secret ++ m.read (base + n - AUTH_PASS_LEN) AUTH_PASS_LEN
    let digest := digest_of E ctx
    password_loop E secret vector base k (n + AUTH_PASS_LEN) (m.xor_loop (base + n) digest AUTH_PASS_LEN 0)

/-- Number of iterations of `for (n = 0; n < len; n += step)`. -/
def loop_count (len step : Nat) : Nat := (len + step - 1) / step

/-- The padding step of `fr_radius_encode_password`: an empty password becomes
one zero block, a length that is not a multiple of 16 is zero-filled up to the
next one. Returns the buffer and the padded length. -/
def password_pad (m : Mem) (len : Nat) : Mem × Nat :=
  if len = 0 then (m.memset 0 0 AUTH_PASS_LEN, AUTH_PASS_LEN)
  else if len % AUTH_PASS_LEN ≠ 0 then
    (m.memset len 0 (AUTH_PASS_LEN - len % AUTH_PASS_LEN), len + (AUTH_PASS_LEN - len % AUTH_PASS_LEN))
  else (m, len)

/-- The function `fr_radius_encode_password`: `m` is the caller's `passwd` buffer,
`pwlen` the value of `*pwlen`. The C code reads it into an `int`; lengths of
2^31 and more, which no `passwd` buffer has, are outside the model. Returns the
buffer and the new `*pwlen`. -/
def fr_radius_encode_password (E : Env) (m : Mem) (pwlen : Nat) (secret vector : List Nat) : Mem × Nat :=
  let len := pwlen
  let len := if len > 128 then 128 else len
  let padded := password_pad m len
  (password_loop E secret vector 0 (loop_count padded.2 AUTH_PASS_LEN) 0 padded.1, padded.2)

/-- The function `encode_password`: returns the bytes copied to `out` and the value
stored in `*outlen`. The local array `passwd[MAX_PASS_LEN]` is a scratch
region. -/
def encode_password (E : Env) (input : List Nat) (inlen : Nat) (secret vector : List Nat) : List Nat × Nat :=
  let len := inlen
  let len := if len > MAX_PASS_LEN then MAX_PASS_LEN else len
  let passwd := (Mem.init (fun _ => 0)).memcpy 0 input len
  let passwd := if len < MAX_PASS_LEN then passwd.memset len 0 (MAX_PASS_LEN - len) else passwd
  let len := if len = 0 then AUTH_PASS_LEN
             else if len &&& 0x0f ≠ 0 then (len + 0x0f) / 16 * 16 else len
  let passwd := password_loop E secret vector 0 (loop_count len AUTH_PASS_LEN) 0 passwd
  (passwd.read 0 len, len)

/-- The block loop of `encode_tunnel_password`: the digest of the first block is
keyed by vector and salt, the XOR is clipped to `freespace`. -/
def tunnel_loop (E : Env) (secret vector : List Nat) (out freespace : Nat) : Nat → Nat → Mem → Mem
  | 0, _, m => m
  | k + 1, n, m =>
    let ctx := if n = 0 then secret ++ read_bytes vector AUTH_VECTOR_LEN ++ m.read out 2
               else secret ++ m.read (out + 2 + n - AUTH_PASS_LEN) AUTH_PASS_LEN
    let digest := digest_of E ctx
    let block_len := if 2 + n + AUTH_PASS_LEN < freespace then AUTH_PASS_LEN else size_sub (size_sub freespace 2) n
    tunnel_loop E secret vector out freespace k (n + AUTH_PASS_LEN) (m.xor_loop (out + 2 + n) digest block_len 0)

/-- The function `encode_tunnel_password`, writing at `p + out`. Returns the memory,
the value stored in `*outlen` and the process state. -/
def encode_tunnel_password (E : Env) (g : Globals) (m : Mem) (out : Nat) (input : List Nat) (inlen freespace : Nat)
    (secret vector : List Nat) : Mem × Nat × Globals :=
  let freespace := if freespace > 253 then 253 else freespace
  let inlen := if inlen > size_sub freespace 3 then size_sub freespace 3 else inlen
  let encrypted_len := inlen + 1
  let encrypted_len := if encrypted_len &&& 0x0f ≠ 0 then (encrypted_len + 0x0f) / 16 * 16 else encrypted_len
  let encrypted_len := if encrypted_len > size_sub freespace 2 then size_sub freespace 2 else encrypted_len
  let outlen := encrypted_len + 2
  let m := m.memcpy (out + 3) input inlen
  let m := m.memset (out + 3 + inlen) 0 (size_sub (size_sub outlen 3) inlen)
  let salt := make_salt E g
  let m := m.write out salt.1
  let m := m.write (out + 1) salt.2.1
  let m := m.write (out + 2) inlen
  let m := tunnel_loop E secret vector out freespace (loop_count encrypted_len AUTH_PASS_LEN) 0 m
  (m, outlen, salt.2.2)

/-- The shift loop `for (n = len; n >= 0; n--) passwd[n + 3] = passwd[n]` of
`fr_radius_encode_tunnel_password`; `k` counts the iterations left. -/
def shift3_loop : Nat → Nat → Mem → Mem
  | 0, _, m => m
  | k + 1, n, m => shift3_loop k (n - 1) (m.write (n + 3) (m.byte n))

/-- The padding loop `for (; n > 0; n--, len++) passwd[len] = 0` of
`fr_radius_encode_tunnel_password`, `passwd` being the buffer advanced by 2. -/
def pad_loop : Nat → Nat → Mem → Mem × Nat
  | 0, len, m => (m, len)
  | n + 1, len, m => pad_loop n (len + 1) (m.write (2 + len) 0)

/-- The block loop of `fr_radius_encode_tunnel_password`, `passwd` being the
buffer advanced by 2 and `salt` its first two bytes. -/
def tunnel_loop_inplace (E : Env) (secret vector : List Nat) : Nat → Nat → Mem → Mem
  | 0, _, m => m
  | k + 1, n2, m =>
    let ctx := if n2 = 0 then secret ++ read_bytes vector AUTH_VECTOR_LEN ++ m.read 0 2
               else secret ++ m.read (2 + n2 - AUTH_PASS_LEN) AUTH_PASS_LEN
    let digest := digest_of E ctx
    tunnel_loop_inplace E secret vector k (n2 + AUTH_PASS_LEN) (m.xor_loop (2 + n2) digest AUTH_PASS_LEN 0)

/-- The function `fr_radius_encode_tunnel_password`: `m` is the caller's `passwd`
buffer, `pwlen` the value of `*pwlen`. Returns the buffer, the new `*pwlen`
and the process state. -/
def fr_radius_encode_tunnel_password (E : Env) (g : Globals) (m : Mem) (pwlen : Nat) (secret vector : List Nat) :
    Mem × Nat × Globals :=
  let len := pwlen % 2 ^ 32
  let len := if len > 127 then 127 else len
  let m := shift3_loop (len + 1) len m
  let m := m.write 2 len
  let len := len + 1
  let salt := make_salt E g
  let m := m.write 0 salt.1
  let m := m.write 1 salt.2.1
  let n := len % AUTH_PASS_LEN
  let padded := if n ≠ 0 then pad_loop (AUTH_PASS_LEN - n) len m else (m, len)
  let pwlen := padded.2 + 2
  let count := loop_count padded.2 AUTH_PASS_LEN
  let m := tunnel_loop_inplace E secret vector count 0 padded.1
  let m := m.write (2 + count * AUTH_PASS_LEN) 0
  (m, pwlen, salt.2.2)

/-! ## Dictionary attributes (`dict.h`, `dict.c`) -/

/-- Modelled from the spec: the attribute types `PW_TYPE_*` (the enumeration
is declared in a header outside `src/`); the constructors are the names the
sources use. -/
inductive PW_TYPE
  | INVALID | STRING | INTEGER | IPV4_ADDR | DATE | ABINARY | OCTETS | IFID | IPV6_ADDR
  | IPV6_PREFIX | BYTE | SHORT | ETHERNET | SIGNED | COMBO_IP_ADDR | TLV | STRUCT | EXTENDED
  | LONG_EXTENDED | VSA | EVS | VENDOR | INTEGER64 | IPV4_PREFIX | TIMEVAL | BOOLEAN
  | COMBO_IP_PREFIX | DECIMAL | MAX
  deriving DecidableEq, Repr

/-- Modelled from the spec: the case list `PW_TYPE_STRUCTURAL` (a macro declared
in a header outside `src/`): TLV, Vendor, VSA, Extended, Long-Extended, EVS and
Struct are the structural types. -/
def PW_TYPE.is_structural : PW_TYPE → Bool
  | .TLV | .STRUCT | .EXTENDED | .LONG_EXTENDED | .VSA | .EVS | .VENDOR => true
  | _ => false

/-- The record `fr_dict_attr_flags_t`. -/
structure fr_dict_attr_flags_t where
  is_root : Bool := false
  is_unknown : Bool := false
  internal : Bool := false
  has_tag : Bool := false
  array : Bool := false
  has_value : Bool := false
  concat : Bool := false
  is_pointer : Bool := false
  virtual : Bool := false
  encrypt : Nat := 0
  length : Nat := 0
  type_size : Nat := 0
  deriving DecidableEq, Repr

/-- The record `fr_dict_attr_t`. Pointers to attributes are indices into the heap
of attributes. The `children` array of 256 bin heads and the `next` links of
the siblings are kept together: `children` is `none` while the array is not
allocated, else it gives for each bin its sibling chain from head to tail. -/
structure fr_dict_attr_t where
  vendor : Nat
  attr : Nat
  type : PW_TYPE
  parent : Option Nat
  children : Option (Nat → List Nat)
  depth : Nat
  flags : fr_dict_attr_flags_t
  name : String

/-- The heap of dictionary attributes. -/
abbrev Heap := List fr_dict_attr_t

/-- The function `fr_dict_attr_child_by_num`. -/
def fr_dict_attr_child_by_num (heap : Heap) (parent : fr_dict_attr_t) (attr : Nat) : Option Nat :=
  match parent.children with
  | none => none
  | some bins =>
    if parent.type.is_structural then
      (bins (attr % 256)).find? (fun i => match heap[i]? with
        | some c => c.attr == attr
        | none => false)
    else none

/-! ## The dictionary (`dict.c`) -/

/-- The record `fr_dict_vendor_t`. -/
structure fr_dict_vendor_t where
  name : String
  vendorpec : Nat
  type : Nat
  length : Nat
  deriving DecidableEq, Repr

/-- The record `fr_dict_enum_t`: the attribute the value belongs to (`NULL` while
it waits in the fixup list), its name and its number. -/
structure fr_dict_enum_t where
  da : Option Nat
  name : String
  value : Int
  deriving DecidableEq, Repr

/-- The record `struct fr_dict`, as far as attributes, vendors and values go,
together with the heap its attribute pointers refer to, the static counter
`max_attr` of `fr_dict_attr_add` and the static pointer `last_attr` of
`fr_dict_enum_add`. The hash tables are modelled from the spec (their code is
outside `src/`): `attributes_by_name` and `vendors_by_name` hold at most one
entry per name, compared without case; `vendors_by_num` one entry per number;
`attributes_combo` one entry per (type, vendor, number); `values_by_name` one
entry per (attribute, name) and `values_by_da` one per (attribute, number). A
table lists the most recent entry first; `enum_fixup` is the list of the
values whose attribute was not known, with the attribute name given. -/
structure fr_dict where
  heap : Heap
  root : Nat
  attributes_by_name : List Nat
  attributes_combo : List Nat
  vendors_by_name : List fr_dict_vendor_t
  vendors_by_num : List fr_dict_vendor_t
  max_attr : Nat
  values_by_da : List fr_dict_enum_t := []
  values_by_name : List fr_dict_enum_t := []
  enum_fixup : List (String × fr_dict_enum_t) := []
  last_attr : Option Nat := none

/-- The test `strcasecmp(a, b) == 0`. -/
def name_eq (a b : String) : Bool := a.data.map Char.toLower == b.data.map Char.toLower

/-- A zero-filled `fr_dict_attr_t`, as `talloc_zero` and `memset` leave it. -/
def fr_dict_attr_t.zero : fr_dict_attr_t :=
  { vendor := 0, attr := 0, type := .INVALID, parent := none, children := none, depth := 0, flags := {}, name := "" }

/-- The table `fr_dict_attr_allowed_chars`: its entries are 1 for `-`, `.`, `/`,
the digits, the upper-case letters, `_` and the lower-case letters. -/
def fr_dict_attr_allowed_chars (c : Nat) : Bool :=
  (0x2d ≤ c ∧ c ≤ 0x39) ∨ (0x41 ≤ c ∧ c ≤ 0x5a) ∨ c = 0x5f ∨ (0x61 ≤ c ∧ c ≤ 0x7a)

/-- The loop of `fr_dict_valid_name` from offset `i` on. -/
def fr_dict_valid_name_from : List Char → Nat → Int
  | [], _ => 0
  | c :: cs, i => if ¬ fr_dict_attr_allowed_chars (c.toNat % 256) then -(i : Int) else fr_dict_valid_name_from cs (i + 1)

/-- The function `fr_dict_valid_name`: 0, or minus the offset of the first character
that is not allowed. -/
def fr_dict_valid_name (name : String) : Int := fr_dict_valid_name_from name.data 0

/-- The function `fr_dict_attr_by_name`. -/
def fr_dict_attr_by_name (E : Env) (d : fr_dict) (name : String) : Option Nat :=
  let key := String.mk (name.data.take E.FR_DICT_ATTR_MAX_NAME_LEN)
  d.attributes_by_name.find? (fun i => match d.heap[i]? with
    | some a => name_eq a.name key
    | none => false)

/-- The function `fr_dict_vendor_by_num`. -/
def fr_dict_vendor_by_num (d : fr_dict) (vendorpec : Nat) : Option fr_dict_vendor_t :=
  d.vendors_by_num.find? (fun dv => dv.vendorpec == vendorpec)

/-- The function `fr_dict_vendor_by_name`: the vendor's number, 0 when there is none. -/
def fr_dict_vendor_by_name (d : fr_dict) (name : String) : Nat :=
  match d.vendors_by_name.find? (fun dv => name_eq dv.name name) with
  | some dv => dv.vendorpec
  | none => 0

/-- The function `fr_dict_vendor_add`, the name being shorter than
`FR_DICT_VENDOR_MAX_NAME_LEN`. -/
def fr_dict_vendor_add (d : fr_dict) (name : String) (num : Nat) : Int × fr_dict :=
  let dv : fr_dict_vendor_t := { name := name, vendorpec := num, type := 1, length := 1 }
  match d.vendors_by_name.find? (fun v => name_eq v.name name) with
  | some old_dv => if old_dv.vendorpec ≠ num then (-1, d) else (0, d)
  | none =>
    (0, { d with vendors_by_name := dv :: d.vendors_by_name,
                 vendors_by_num := dv :: d.vendors_by_num.filter (fun v => v.vendorpec != num) })

/-- The attributes from `v` upwards along the `parent` links, `v` first:
the values the loops `for (v = parent; v != NULL; v = v->parent)` run over. -/
def parent_chain (heap : Heap) : Nat → Option Nat → List fr_dict_attr_t
  | 0, _ => []
  | k + 1, v =>
    match v.bind (fun i => heap[i]?) with
    | none => []
    | some a => a :: parent_chain heap k a.parent

/-- The place `fr_dict_attr_child_add` finds for `child` in a sibling chain: in
front of the first entry at which its loop breaks. -/
def chain_insert (heap : Heap) (child : fr_dict_attr_t) (ci : Nat) : List Nat → List Nat
  | [] => [ci]
  | b :: rest =>
    match heap[b]? with
    | none => ci :: b :: rest
    | some bin =>
      if child.type.is_structural ∧ ¬ bin.type.is_structural then ci :: b :: rest
      else if child.vendor ≤ bin.vendor then ci :: b :: rest
      else if child.attr ≤ bin.attr then ci :: b :: rest
      else b :: chain_insert heap child ci rest

/-- The function `fr_dict_attr_child_add`; `parent` and `child` point into the heap. -/
def fr_dict_attr_child_add (heap : Heap) (parent child : Nat) : Heap :=
  match heap[parent]?, heap[child]? with
  | some p, some c =>
    let c := { c with parent := some parent, depth := p.depth + 1 }
    let heap := heap.set child c
    let bins := p.children.getD (fun _ => [])
    let b := c.attr % 256
    let chain := chain_insert heap c child (bins b)
    heap.set parent { p with children := some (fun i => if i = b then chain else bins i) }
  | _, _ => heap

/-- The function `fr_dict_attr_alloc`: the new attribute is put at the end of the heap,
its address is the heap's previous size. -/
def fr_dict_attr_alloc (heap : Heap) (name : String) (vendor attr : Nat) (type : PW_TYPE)
    (flags : fr_dict_attr_flags_t) : Heap :=
  heap ++ [{ fr_dict_attr_t.zero with name := name, attr := attr % 2 ^ 32, vendor := vendor, type := type,
                                      flags := flags }]

/-- The value `1 << (8 * type_size)`. -/
def attr_limit (type_size : Nat) : Int := ((2 ^ (8 * type_size) : Nat) : Int)

/-- The checks of `fr_dict_attr_add` on the attribute number once it is known,
from "If attributes have number greater than 255" to the end of the flag
checks: `true` when one of them fails. -/
def attr_add_flag_error (E : Env) (heap : Heap) (parent : fr_dict_attr_t) (pi : Nat) (attr : Int)
    (type : PW_TYPE) (flags : fr_dict_attr_flags_t) : Bool :=
  let chain := parent_chain heap (heap.length + 1) (some pi)
  let range_error : Bool :=
    if attr > 255 ∧ ¬ flags.internal then
      if parent.flags.is_root ∧ attr ≥ 0x2b00 ∧ attr < 0x2d00 then false
      else
        match chain.find? (fun v => v.type = .TLV ∨ v.type = .VENDOR) with
        | some v => decide (v.flags.type_size < 4 ∧ attr ≥ attr_limit v.flags.type_size)
        | none => false
    else false
  let virtual_error : Bool :=
    flags.virtual && (!parent.flags.is_root || decide (attr ≤ attr_limit parent.flags.type_size))
  let grand := parent.parent.bind (fun i => heap[i]?)
  let under_vsa_vendor : Bool :=
    decide (parent.type = .VENDOR) && (match grand with
      | some g => decide (g.type = .VSA)
      | none => false)
  let tag_error : Bool :=
    flags.has_tag &&
      (decide (type ≠ .INTEGER ∧ type ≠ .STRING) ||
       !(parent.flags.is_root || under_vsa_vendor) ||
       (flags.array || flags.has_value || flags.concat || flags.virtual || decide (flags.length ≠ 0)) ||
       decide (flags.encrypt ≠ 0 ∧ flags.encrypt ≠ FLAG_ENCRYPT_TUNNEL_PASSWORD))
  let concat_error : Bool :=
    flags.concat &&
      (decide (type ≠ .OCTETS) || !parent.flags.is_root ||
       (flags.array || flags.internal || flags.has_value || flags.virtual || decide (flags.encrypt ≠ 0) ||
        decide (flags.length ≠ 0)))
  let length_error : Bool :=
    decide (flags.length ≠ 0) &&
      ((flags.array || flags.has_value || flags.virtual) || decide (flags.length > 253) ||
       (if type = .TLV ∨ type = .VENDOR then decide (flags.length ≠ 1 ∧ flags.length ≠ 2 ∧ flags.length ≠ 4)
        else decide (type ≠ .OCTETS)))
  let array_error : Bool :=
    flags.array &&
      ((match chain.find? (fun v => v.type = .VENDOR) with
        | some v => decide (v.attr ≠ 34673 ∧ v.attr ≠ E.DHCP_MAGIC_VENDOR)
        | none => false) ||
       !(decide (type = .IPV4_ADDR ∨ type = .IPV6_ADDR ∨ type = .BYTE ∨ type = .SHORT ∨ type = .INTEGER ∨
          type = .DATE ∨ type = .STRING)) ||
       (flags.internal || flags.has_value || decide (flags.encrypt ≠ 0) || flags.virtual))
  let value_error : Bool :=
    flags.has_value && (decide (type ≠ .INTEGER) || decide (flags.encrypt ≠ 0) || flags.virtual)
  let encrypt_error : Bool :=
    decide (flags.encrypt ≠ 0) &&
      (decide (flags.encrypt = FLAG_ENCRYPT_USER_PASSWORD ∧ type ≠ .STRING ∧ (type ≠ .OCTETS ∨ flags.length = 0)) ||
       decide (flags.encrypt > FLAG_ENCRYPT_ASCEND_SECRET) ||
       (decide (flags.encrypt ≠ FLAG_ENCRYPT_TUNNEL_PASSWORD) &&
          chain.any (fun v => v.type = .EXTENDED ∨ v.type = .LONG_EXTENDED ∨ v.type = .EVS)) ||
       (if type = .IPV4_ADDR ∨ type = .INTEGER ∨ type = .OCTETS then
          decide (flags.encrypt = FLAG_ENCRYPT_ASCEND_SECRET)
        else decide (type ≠ .STRING)))
  range_error || virtual_error || tag_error || concat_error || length_error || array_error || value_error ||
    encrypt_error

/-- The switch of `fr_dict_attr_add` that enforces which data types can appear where:
`none` when it fails, else the flags with the format fields it sets. -/
def attr_add_parent_check (d : fr_dict) (parent : fr_dict_attr_t) (pi : Nat) (attr : Int) (type : PW_TYPE)
    (flags : fr_dict_attr_flags_t) : Option fr_dict_attr_flags_t :=
  let chain := parent_chain d.heap (d.heap.length + 1) (some pi)
  match type with
  | .EXTENDED | .LONG_EXTENDED | .VSA => if ¬ parent.flags.is_root then none else some flags
  | .EVS => if parent.type ≠ .EXTENDED ∧ parent.type ≠ .LONG_EXTENDED then none else some flags
  | .VENDOR =>
    if parent.type ≠ .VSA ∧ parent.type ≠ .EVS then none
    else if parent.type = .VSA then
      match fr_dict_vendor_by_num d (attr.toNat % 2 ^ 32) with
      | some dv => some { flags with type_size := dv.type % 256, length := dv.length % 256 }
      | none => some { flags with type_size := 1, length := 1 }
    else some { flags with type_size := 1, length := 1 }
  | .TLV =>
    match chain.find? (fun v => v.type = .TLV ∨ v.type = .VENDOR) with
    | none => none
    | some v => some { flags with type_size := v.flags.type_size, length := v.flags.length }
  | .COMBO_IP_ADDR => if chain.any (fun v => v.type = .VSA) then some flags else none
  | .INVALID | .TIMEVAL | .BOOLEAN | .DECIMAL | .COMBO_IP_PREFIX => none
  | _ => some flags

/-- The switch of `fr_dict_attr_add` that forces the length of the fixed-size types:
`none` when it fails. -/
def attr_add_force_length (parent : fr_dict_attr_t) (attr : Int) (type : PW_TYPE)
    (flags : fr_dict_attr_flags_t) : Option fr_dict_attr_flags_t :=
  match type with
  | .BYTE => some { flags with length := 1 }
  | .SHORT => some { flags with length := 2 }
  | .DATE | .IPV4_ADDR | .INTEGER | .SIGNED => some { flags with length := 4 }
  | .INTEGER64 => some { flags with length := 8 }
  | .ETHERNET => some { flags with length := 6 }
  | .IFID => some { flags with length := 8 }
  | .IPV6_ADDR => some { flags with length := 16 }
  | .EXTENDED | .LONG_EXTENDED =>
    if ¬ parent.flags.is_root ∨ attr < 241 then none else some { flags with length := 0 }
  | .EVS => if attr ≠ PW_VENDOR_SPECIFIC then none else some { flags with length := 0 }
  | .STRUCT => some { flags with length := 0 }
  | .STRING | .OCTETS | .TLV => some { flags with is_pointer := true }
  | _ => some flags

/-- The function `fr_dict_attr_add`, `dict` being not `NULL`. Returns the result and the
dictionary. -/
def fr_dict_attr_add (E : Env) (d : fr_dict) (parent : Nat) (name : String) (attr : Int) (type : PW_TYPE)
    (flags : fr_dict_attr_flags_t) : Int × fr_dict :=
  match d.heap[parent]? with
  | none => (-1, d)
  | some par =>
    if name.data.length ≥ E.FR_DICT_ATTR_MAX_NAME_LEN then (-1, d)
    else if fr_dict_valid_name name < 0 then (-1, d)
    else if flags.type_size ≠ 0 ∧
        ((type ≠ .TLV ∧ type ≠ .VENDOR) ∨
         (flags.type_size ≠ 1 ∧ flags.type_size ≠ 2 ∧ flags.type_size ≠ 4)) then (-1, d)
    else
      -- sanity check attribute number
      let numbered : Option (Option (Int × fr_dict_attr_flags_t × Nat)) :=
        if par.flags.is_root then
          if attr = -1 then
            if (fr_dict_attr_by_name E d name).isSome then some none
            else some (some ((((d.max_attr + 1) % 2 ^ 32 : Nat) : Int), { flags with internal := true },
              (d.max_attr + 1) % 2 ^ 32))
          else if attr ≤ 0 then none
          else if attr.toNat > d.max_attr then some (some (attr, flags, attr.toNat))
          else some (some (attr, flags, d.max_attr))
        else some (some (attr, flags, d.max_attr))
      match numbered with
      | none => (-1, d)
      | some none => (0, d)
      | some (some (attr, flags, max_attr)) =>
        let d := { d with max_attr := max_attr }
        let flags := if par.flags.is_root ∧ par.flags.type_size = 1 ∧ attr ≥ 3000 ∧ attr < 4000 then
                       { flags with internal := true } else flags
        if attr < 0 then (-1, d)
        else if attr_add_flag_error E d.heap par parent attr type flags then (-1, d)
        else
          match attr_add_parent_check d par parent attr type flags with
          | none => (-1, d)
          | some flags =>
            match attr_add_force_length par attr type flags with
            | none => (-1, d)
            | some flags =>
              -- validate attribute based on parent
              let checked : Option fr_dict :=
                if par.type = .STRUCT then
                  if type ≠ .STRUCT ∧ flags.length = 0 then none
                  else if attr > 1 ∧ par.flags.length = 0 then none
                  else
                    let pflags := { par.flags with length := (par.flags.length + flags.length) % 256 }
                    some { d with heap := d.heap.set parent { par with flags := pflags } }
                else some d
              match checked with
              | none => (-1, d)
              | some d =>
                let vendor := if par.type = .VENDOR then par.attr else par.vendor
                let n := d.heap.length
                let heap := fr_dict_attr_alloc d.heap name vendor attr.toNat type flags
                -- insert the attribute, only if it is not a duplicate
                let old := d.attributes_by_name.find? (fun i => match d.heap[i]? with
                  | some a => name_eq a.name name
                  | none => false)
                let duplicate := match old.bind (fun i => d.heap[i]?) with
                  | some a => decide (a.attr ≠ attr.toNat % 2 ^ 32)
                  | none => false
                if duplicate then (-1, d)
                else
                  let by_name := n :: d.attributes_by_name.filter (fun i => some i != old)
                  let d := { d with heap := heap, attributes_by_name := by_name }
                  -- hacks for combo-IP
                  let d :=
                    if type = .COMBO_IP_ADDR then
                      match d.heap[n]? with
                      | none => d
                      | some nn =>
                        let v4 := d.heap.length
                        let v6 := d.heap.length + 1
                        let same := fun (t : PW_TYPE) (i : Nat) => match d.heap[i]? with
                          | some a => decide (a.type = t ∧ a.vendor = nn.vendor ∧ a.attr = nn.attr)
                          | none => false
                        let others := d.attributes_combo.filter (fun i => !(same .IPV4_ADDR i) && !(same .IPV6_ADDR i))
                        let copies := [{ nn with type := .IPV4_ADDR }, { nn with type := .IPV6_ADDR }]
                        { d with heap := d.heap ++ copies, attributes_combo := v6 :: v4 :: others }
                    else d
                  -- setup parenting for the attribute
                  (0, { d with heap := fr_dict_attr_child_add d.heap parent n })

/-- The dictionary `fr_dict_init` sets up before it reads any file: empty tables and
the root attribute, a TLV of format 1,1 flagged `is_root`. -/
def fr_dict_init_root (name : String) : fr_dict :=
  let flags : fr_dict_attr_flags_t := { is_root := true, type_size := 1, length := 1 }
  let root : fr_dict_attr_t := { fr_dict_attr_t.zero with name := name, type := .TLV, flags := flags }
  { heap := [root], root := 0, attributes_by_name := [], attributes_combo := [], vendors_by_name := [],
    vendors_by_num := [], max_attr := 256 }

/-- The `BEGIN-VENDOR name` branch of `dict_read_init` without a `format=` argument:
the attribute Vendor-Specific (26) and the vendor attribute are created when
they are missing. Returns the new `parent`, `none` when the line is rejected. -/
def dict_begin_vendor (d : fr_dict) (parent : Nat) (name : String) : Option Nat × fr_dict :=
  let vendor := fr_dict_vendor_by_name d name
  if vendor = 0 then (none, d)
  else
    match d.heap[parent]? with
    | none => (none, d)
    | some par =>
      let found := fr_dict_attr_child_by_num d.heap par PW_VENDOR_SPECIFIC
      let created : Nat × Heap :=
        match found with
        | some vsa => (vsa, d.heap)
        | none =>
          let n := d.heap.length
          let flags : fr_dict_attr_flags_t := {}
          let heap := fr_dict_attr_alloc d.heap "Vendor-Specific" 0 PW_VENDOR_SPECIFIC .VSA flags
          (n, fr_dict_attr_child_add heap parent n)
      let vsa_da := created.1
      let heap := created.2
      match heap[vsa_da]? with
      | none => (none, { d with heap := heap })
      | some vsa =>
        match fr_dict_attr_child_by_num heap vsa vendor with
        | some p => (some p, { d with heap := heap })
        | none =>
          let flags : fr_dict_attr_flags_t :=
            if vsa.type = .VSA then
              match fr_dict_vendor_by_num d vendor with
              | some dv => { type_size := dv.type % 256, length := dv.length % 256 }
              | none => { type_size := 1, length := 1 }
            else { type_size := 1, length := 1 }
          let n := heap.length
          let heap := fr_dict_attr_alloc heap name 0 vendor .VENDOR flags
          (some n, { d with heap := fr_dict_attr_child_add heap vsa_da n })

/-- The function `fr_dict_verify`: `true` when no consistency check fails. `da` is not
`NULL`; a `NULL` dereference in the depth loop counts as a failure. -/
def fr_dict_verify_loop (heap : Heap) : Nat → Option Nat → Bool
  | 0, da_p =>
    match da_p.bind (fun i => heap[i]?) with
    | none => false
    | some a => a.depth == 0
  | i + 1, da_p =>
    match da_p.bind (fun j => heap[j]?) with
    | none => false
    | some a => (a.depth == i + 1) && fr_dict_verify_loop heap i a.parent

/-- The function `fr_dict_verify`. -/
def fr_dict_verify (E : Env) (heap : Heap) (da : Nat) : Bool :=
  match heap[da]? with
  | none => false
  | some a =>
    if ¬ a.flags.is_root ∧ a.depth = 0 then false
    else if a.depth > E.FR_DICT_MAX_TLV_STACK then false
    else fr_dict_verify_loop heap a.depth (some da)

/-- The function `fr_dict_attr_by_type`. -/
def fr_dict_attr_by_type (d : fr_dict) (vendor attr : Nat) (type : PW_TYPE) : Option Nat :=
  d.attributes_combo.find? (fun i => match d.heap[i]? with
    | some a => decide (a.type = type ∧ a.vendor = vendor ∧ a.attr = attr)
    | none => false)

/-! ## Pairs, cursor and encoder state (`radius_encode.c`) -/

/-- The union `value_data_t`: the pointer member of strings and octets, the
integer member of the scalar types, the in-place bytes of addresses, prefixes,
interface ids and filters, and the member `length` that `value.c` reads (the
encoder reads the length of a pair as `vp_length`). -/
structure value_data_t where
  ptr : Option (List Nat) := none
  scalar : Nat := 0
  raw : List Nat := []
  length : Nat := 0

/-- The record `VALUE_PAIR`, as far as the encoder reads it. -/
structure VALUE_PAIR where
  da : Nat
  vp_length : Nat
  tag : Int := 0
  data : value_data_t := {}

/-- The cursor `vp_cursor_t` over a list of pairs: `pos` is the index of the
current pair, past the end when there is none. -/
structure vp_cursor_t where
  vps : List VALUE_PAIR
  pos : Nat

/-- Modelled from the spec: `fr_cursor_current` (defined outside `src/`), the
pair the cursor is positioned on. -/
def fr_cursor_current (c : vp_cursor_t) : Option VALUE_PAIR := c.vps[c.pos]?

/-- Modelled from the spec: `fr_cursor_next` (defined outside `src/`), which
advances the cursor by one pair. -/
def fr_cursor_next (c : vp_cursor_t) : vp_cursor_t :=
  if c.pos < c.vps.length then { c with pos := c.pos + 1 } else c

/-- The record `RADIUS_PACKET`, as far as the encoder reads it. -/
structure RADIUS_PACKET where
  code : Nat
  vector : List Nat

/-- The record `fr_radius_ctx_t`. -/
structure fr_radius_ctx_t where
  packet : RADIUS_PACKET
  original : Option RADIUS_PACKET
  secret : List Nat

/-- What a call of the encoder reads and changes: the memory at `out`, the
cursor, the array `tlv_stack` and the process state. -/
structure Enc where
  mem : Mem
  cursor : vp_cursor_t
  tlv_stack : List (Option Nat)
  g : Globals

/-- The entry `tlv_stack[i]`. -/
def Enc.stack_at (s : Enc) (i : Nat) : Option Nat := (s.tlv_stack.getD i none)

/-- The attribute `*tlv_stack[i]`; `none` when the entry is `NULL`. -/
def Enc.da_at (heap : Heap) (s : Enc) (i : Nat) : Option fr_dict_attr_t :=
  (s.stack_at i).bind (fun j => heap[j]?)

/-- The fill loop of `fr_proto_tlv_stack_build`: stores `da_p` and its ancestors
from the slot `depth - 1` down to slot 0. -/
def tlv_stack_fill (heap : Heap) : Nat → Option Nat → List (Option Nat) → List (Option Nat)
  | 0, _, acc => acc
  | k + 1, da_p, acc =>
    tlv_stack_fill heap k (da_p.bind (fun i => (heap[i]?).bind (fun d => d.parent))) (da_p :: acc)

/-- Modelled from the spec: `fr_proto_tlv_stack_build` (defined outside `src/`)
rebuilds the TLV stack, the array of attribute pointers from the top-level
ancestor of `da` (slot 0) to `da` (slot `depth - 1`), the other slots `NULL`.
A `NULL` attribute leaves the stack as it is. -/
def fr_proto_tlv_stack_build (E : Env) (heap : Heap) (stack : List (Option Nat)) (da : Option Nat) :
    List (Option Nat) :=
  match da with
  | none => stack
  | some i =>
    match heap[i]? with
    | none => stack
    | some d =>
      if d.depth > E.FR_DICT_MAX_TLV_STACK then stack
      else tlv_stack_fill heap d.depth (some i) [] ++ List.replicate (E.FR_DICT_MAX_TLV_STACK + 1 - d.depth) none

/-- The statement pair `vp = fr_cursor_next(cursor); fr_proto_tlv_stack_build(tlv_stack, vp ? vp->da : NULL);`. -/
def Enc.advance (E : Env) (heap : Heap) (s : Enc) : Enc :=
  let c := fr_cursor_next s.cursor
  { s with cursor := c,
           tlv_stack := fr_proto_tlv_stack_build E heap s.tlv_stack ((fr_cursor_current c).map (fun vp => vp.da)) }

/-- The update `p[i] += d` of one `uint8_t`. -/
def Mem.add_byte (m : Mem) (i : Nat) (d : Int) : Mem :=
  m.write i ((((m.byte i : Nat) : Int) + d) % 256).toNat

/-- The source bytes `data` and the length `len` that `encode_value` sets up for
a leaf type: `none` for the types it rejects and for a `NULL` string. -/
def value_source (da : fr_dict_attr_t) (vp : VALUE_PAIR) : Option (List Nat × Int) :=
  let len : Int := vp.vp_length
  match da.type with
  | .OCTETS =>
    let len := if da.flags.length ≠ 0 ∧ len > da.flags.length then (da.flags.length : Int) else len
    vp.data.ptr.map (fun d => (d, len))
  | .STRING => vp.data.ptr.map (fun d => (d, len))
  | .IFID | .IPV4_ADDR | .IPV6_ADDR | .IPV6_PREFIX | .IPV4_PREFIX | .ABINARY | .ETHERNET =>
    some (vp.data.raw, len)
  | .BYTE => some ([vp.data.scalar % 256], 1)
  | .SHORT => some ([(vp.data.scalar % 65536 / 256) % 256, vp.data.scalar % 65536 % 256], 2)
  | .INTEGER => some (htonl_bytes (vp.data.scalar % 2 ^ 32), 4)
  | .INTEGER64 => some (htonll_bytes (vp.data.scalar % 2 ^ 64), 8)
  | .DATE => some (htonl_bytes (vp.data.scalar % 2 ^ 32), 4)
  | .SIGNED => some (htonl_bytes (vp.data.scalar % 2 ^ 32), 4)
  | _ => none

/-- The byte a tag is stored as. -/
def tag_byte (t : Int) : Nat := (t % 256).toNat

/-- The leaf part of `encode_value`, from `len = vp->vp_length` on: the value
of the pair is written at `out`, obscured as the encrypt flag asks. -/
def encode_value_leaf (E : Env) (heap : Heap) (ctx : Option fr_radius_ctx_t) (out outlen : Nat)
    (da : fr_dict_attr_t) (vp : VALUE_PAIR) (s : Enc) : Option (Int × Enc) :=
  match value_source da vp with
  | none => some (-1, s)
  | some (data, len) =>
    if len = 0 then some (0, s.advance E heap)
    else
      let len := if len > to_ssize outlen then to_ssize outlen else len
      if da.flags.encrypt ≠ 0 ∧ ctx.isNone then some (-1, s)
      else if da.flags.encrypt = FLAG_ENCRYPT_USER_PASSWORD then
        match ctx with
        | none => none
        | some c =>
          let r := encode_password E data (of_ssize len) c.secret c.packet.vector
          some ((r.2 : Int), ({ s with mem := s.mem.store out r.1 } : Enc).advance E heap)
      else if da.flags.encrypt = FLAG_ENCRYPT_TUNNEL_PASSWORD then
        match ctx with
        | none => none
        | some c =>
          let lvalue := if da.flags.has_tag then 1 else 0
          if outlen < 18 + lvalue then some (0, s)
          else if c.packet.code = PW_CODE_ACCOUNTING_REQUEST ∨ c.packet.code = PW_CODE_DISCONNECT_REQUEST ∨
              c.packet.code = PW_CODE_COA_REQUEST then
            let m := s.mem.write out (if E.TAG_VALID vp.tag then tag_byte vp.tag else E.TAG_NONE)
            let r := encode_tunnel_password E s.g m (out + 1) data (of_ssize len) (size_sub outlen 1) c.secret
              c.packet.vector
            some ((r.2.1 : Int) + lvalue, ({ s with mem := r.1, g := r.2.2 } : Enc).advance E heap)
          else
            match c.original with
            | none => some (-1, s)
            | some orig =>
              let m := if lvalue ≠ 0 then s.mem.write out (if E.TAG_VALID vp.tag then tag_byte vp.tag else E.TAG_NONE)
                       else s.mem
              let r := encode_tunnel_password E s.g m (out + lvalue) data (of_ssize len) (size_sub outlen lvalue)
                c.secret orig.vector
              some ((r.2.1 : Int) + lvalue, ({ s with mem := r.1, g := r.2.2 } : Enc).advance E heap)
      else if da.flags.encrypt = FLAG_ENCRYPT_ASCEND_SECRET then
        match ctx with
        | none => none
        | some c =>
          if len ≠ 16 then some (0, s)
          else
            let m := s.mem.store out (read_bytes (E.make_secret c.packet.vector c.secret data) AUTH_VECTOR_LEN)
            some ((AUTH_VECTOR_LEN : Int), ({ s with mem := m } : Enc).advance E heap)
      else
        if da.flags.has_tag ∧ E.TAG_VALID vp.tag then
          if da.type = .STRING then
            let len := if len > to_ssize (size_sub outlen 1) then to_ssize (size_sub outlen 1) else len
            let m := s.mem.write out (tag_byte vp.tag)
            let m := m.memcpy (out + 1) data (of_ssize len)
            some (len + 1, ({ s with mem := m } : Enc).advance E heap)
          else if da.type = .INTEGER then
            let m := s.mem.memcpy out (tag_byte vp.tag :: data.drop 1) (of_ssize len)
            some (len, ({ s with mem := m } : Enc).advance E heap)
          else
            some (len, ({ s with mem := s.mem.memcpy out data (of_ssize len) } : Enc).advance E heap)
        else
          some (len, ({ s with mem := s.mem.memcpy out data (of_ssize len) } : Enc).advance E heap)

/-- Whether the loops of `encode_struct` and `encode_tlv_hdr_internal` stop
after an iteration: `if (!fr_cursor_current(cursor) || (vp == fr_cursor_current(cursor))) break;
if (da != tlv_stack[depth]) break;`. `vp` is the position the pair held. -/
def loop_stops (s : Enc) (vp : Nat) (da : Option Nat) (depth : Nat) : Bool :=
  (fr_cursor_current s.cursor).isNone || (vp == s.cursor.pos) || (da != s.stack_at depth)

mutual

/-- The function `encode_struct`. `child_num`, `p`, `vp` and `da` are its
locals, passed from one iteration of `while (outlen)` to the next; a call with
`first := true` runs the checks before the loop. -/
def encode_struct (E : Env) (heap : Heap) (ctx : Option fr_radius_ctx_t) :
    Nat → (first : Bool) → (out outlen depth child_num p vp : Nat) → (da : Option Nat) → Enc → Option (Int × Enc)
  | 0, _, _, _, _, _, _, _, _, _ => none
  | fuel + 1, true, out, outlen, depth, child_num, p, vp, da, s =>
    match s.da_at heap depth with
    | none => none
    | some top =>
      if top.type ≠ .STRUCT then some (-1, s)
      else if (s.stack_at (depth + 1)).isNone then some (-1, s)
      else encode_struct E heap ctx fuel false out outlen depth child_num p vp da s
  | fuel + 1, false, out, outlen, depth, child_num, p, vp, da, s =>
    if outlen = 0 then some ((p : Int) - out, s)
    else
      match s.cursor.vps[vp]?, da.bind (fun i => heap[i]?) with
      | some pair, some dad =>
        match heap[pair.da]? with
        | none => none
        | some child_da =>
          if child_da.attr ≠ child_num then
            match (fr_dict_attr_child_by_num heap dad child_num).bind (fun i => heap[i]?) with
            | none => some ((p : Int) - out, s)
            | some cd =>
              if cd.flags.length < outlen then some ((p : Int) - out, s)
              else
                encode_struct E heap ctx fuel false out (size_sub outlen cd.flags.length) depth (child_num + 1)
                  (p + cd.flags.length) vp da { s with mem := s.mem.memset p 0 cd.flags.length }
          else
            match encode_value E heap ctx fuel p outlen (depth + 1) s with
            | none => none
            | some (len, s1) =>
              if len ≤ 0 then some (len, s1)
              else if loop_stops s1 vp da depth then some ((p : Int) + len - out, s1)
              else
                encode_struct E heap ctx fuel false out (size_sub outlen (of_ssize len)) depth (child_num + 1)
                  (p + of_ssize len) s1.cursor.pos da s1
      | _, _ => none
termination_by structural fuel => fuel

/-- The function `encode_tlv_hdr_internal`. `p`, `vp` and `da` are its locals, passed
from one iteration of `while (outlen >= 5)` to the next. -/
def encode_tlv_hdr_internal (E : Env) (heap : Heap) (ctx : Option fr_radius_ctx_t) :
    Nat → (out outlen depth p vp : Nat) → (da : Option Nat) → Enc → Option (Int × Enc)
  | 0, _, _, _, _, _, _, _ => none
  | fuel + 1, out, outlen, depth, p, vp, da, s =>
    if outlen < 5 then some ((p : Int) - out, s)
    else
      let sublen := if outlen > 255 then 255 else outlen
      match s.da_at heap (depth + 1) with
      | none => none
      | some next =>
        let r := if next.type = .TLV then encode_tlv_hdr E heap ctx fuel p sublen (depth + 1) s
                 else encode_rfc_hdr_internal E heap ctx fuel p sublen (depth + 1) s
        match r with
        | none => none
        | some (len, s1) =>
          if len ≤ 0 then some (len, s1)
          else if loop_stops s1 vp da depth then some ((p : Int) + len - out, s1)
          else
            encode_tlv_hdr_internal E heap ctx fuel out (size_sub outlen (of_ssize len)) depth (p + of_ssize len)
              s1.cursor.pos da s1
termination_by structural fuel => fuel

/-- The function `encode_tlv_hdr`. -/
def encode_tlv_hdr (E : Env) (heap : Heap) (ctx : Option fr_radius_ctx_t) :
    Nat → (out outlen depth : Nat) → Enc → Option (Int × Enc)
  | 0, _, _, _, _ => none
  | fuel + 1, out, outlen, depth, s =>
    match s.da_at heap depth with
    | none => none
    | some top =>
      if top.type ≠ .TLV then some (-1, s)
      else if (s.stack_at (depth + 1)).isNone then some (-1, s)
      else if outlen < 5 then some (0, s)
      else
        let m := (s.mem.write out (top.attr &&& 0xff)).write (out + 1) 2
        let outlen := if outlen > 255 then 255 else outlen
        match encode_tlv_hdr_internal E heap ctx fuel (out + 2) (size_sub outlen 2) depth (out + 2) s.cursor.pos
            (s.stack_at depth) { s with mem := m } with
        | none => none
        | some (len, s1) =>
          if len ≤ 0 then some (len, s1)
          else
            let m1 := s1.mem.add_byte (out + 1) len
            some ((m1.byte (out + 1) : Int), { s1 with mem := m1 })
termination_by structural fuel => fuel

/-- The function `encode_value`. -/
def encode_value (E : Env) (heap : Heap) (ctx : Option fr_radius_ctx_t) :
    Nat → (out outlen depth : Nat) → Enc → Option (Int × Enc)
  | 0, _, _, _, _ => none
  | fuel + 1, out, outlen, depth, s =>
    match s.da_at heap depth with
    | none => none
    | some da =>
      if da.type = .TLV then encode_tlv_hdr E heap ctx fuel out outlen depth s
      else if da.type = .STRUCT then
        match encode_struct E heap ctx fuel true out outlen depth 1 out s.cursor.pos (s.stack_at depth) s with
        | none => none
        | some (len, s1) => if len < 0 then some (len, s1) else some (len, s1.advance E heap)
      else if (s.stack_at (depth + 1)).isSome then some (-1, s)
      else
        match fr_cursor_current s.cursor with
        | none => none
        | some vp =>
          if some vp.da ≠ s.stack_at depth then some (-1, s)
          else if da.type.is_structural then some (-1, s)
          else encode_value_leaf E heap ctx out outlen da vp s
termination_by structural fuel => fuel

/-- The function `encode_rfc_hdr_internal`. -/
def encode_rfc_hdr_internal (E : Env) (heap : Heap) (ctx : Option fr_radius_ctx_t) :
    Nat → (out outlen depth : Nat) → Enc → Option (Int × Enc)
  | 0, _, _, _, _ => none
  | fuel + 1, out, outlen, depth, s =>
    match s.da_at heap depth with
    | none => none
    | some da =>
      if da.type.is_structural then some (-1, s)
      else if (da.vendor = 0 ∧ da.attr = 0) ∨ da.attr > 255 then some (-1, s)
      else if outlen ≤ 2 then some (0, s)
      else
        let m := (s.mem.write out (da.attr &&& 0xff)).write (out + 1) 2
        let outlen := if outlen > 255 then 255 else outlen
        match encode_value E heap ctx fuel (out + 2) (size_sub outlen 2) depth { s with mem := m } with
        | none => none
        | some (len, s1) =>
          if len ≤ 0 then some (len, s1)
          else
            let m1 := s1.mem.add_byte (out + 1) len
            some ((m1.byte (out + 1) : Int), { s1 with mem := m1 })
termination_by structural fuel => fuel

end

/-- Pass 1 of `attr_shift`: `while (check_len > (255 - hdr_len)) { total += hdr_len; check_len -= (255 - hdr_len); }`. -/
def attr_shift_total (hdr_len : Int) : Nat → Int → Int → Int
  | 0, _, total => total
  | k + 1, check_len, total =>
    if check_len > 255 - hdr_len then attr_shift_total hdr_len k (check_len - (255 - hdr_len)) (total + hdr_len)
    else total

/-- Pass 2 of `attr_shift`, the loop `while (1)` that moves the data up in strides
of 255 bytes and copies the header in front of each; it ends with the length
update of the last fragment. Returns the memory and the final `ptr`. -/
def attr_shift_move (hdr_len flag_offset vsa_offset : Nat) : Nat → Mem → Nat → Int → Option (Mem × Nat)
  | 0, _, _, _ => none
  | k + 1, m, ptr, len =>
    let sublen : Int := 255 - (m.byte (ptr + 1) : Nat)
    if len ≤ sublen then
      let m := m.add_byte (ptr + 1) len
      let m := if vsa_offset ≠ 0 then m.add_byte (ptr + vsa_offset) len else m
      some (m, ptr)
    else
      let m := m.memmove (ptr + 255 + hdr_len) (ptr + 255) (of_ssize sublen)
      let m := m.memmove (ptr + 255) ptr hdr_len
      let m := m.add_byte (ptr + 1) sublen
      let m := if vsa_offset ≠ 0 then m.add_byte (ptr + vsa_offset) sublen else m
      let m := m.write (ptr + flag_offset) (m.byte (ptr + flag_offset) ||| 0x80)
      let ptr := ptr + 255
      let m := m.write (ptr + 1) hdr_len
      let m := if vsa_offset ≠ 0 then m.write (ptr + vsa_offset) 3 else m
      attr_shift_move hdr_len flag_offset vsa_offset k m ptr (len - sublen)

/-- The function `attr_shift`; `start`, `end_` and `ptr` are offsets into the memory
at `out`. Returns the result and the memory. -/
def attr_shift (m : Mem) (start end_ ptr hdr_len : Nat) (len : Int) (flag_offset vsa_offset : Nat) :
    Option (Int × Mem) :=
  let check_len : Int := len - (m.byte (ptr + 1) : Nat)
  let total : Int := len + hdr_len
  let total := attr_shift_total hdr_len check_len.toNat check_len total
  if (ptr : Int) + (m.byte (ptr + 1) : Nat) + total > end_ then
    some ((ptr : Int) + (m.byte (ptr + 1) : Nat) - start, m)
  else
    match attr_shift_move hdr_len flag_offset vsa_offset (len.toNat + 1) m ptr len with
    | none => none
    | some r => some ((r.2 : Int) + (r.1.byte (r.2 + 1) : Nat) - start, r.1)

/-- The EVS part of `encode_extended_hdr`: the 4-byte vendor number and the
1-byte attribute number behind the extended header. The outer `none` is a
`NULL` stack entry, the inner one the `return 0` for want of space; else the
memory and the depth of the attribute under the vendor. -/
def encode_evs_hdr (heap : Heap) (out outlen depth : Nat) (s : Enc) (m : Mem) : Option (Option (Mem × Nat)) :=
  if outlen < m.byte (out + 1) + 5 then some none
  else
    match s.da_at heap (depth + 1) with
    | none => none
    | some vendor =>
      match s.da_at heap (depth + 2) with
      | none => none
      | some leaf =>
        let e := out + m.byte (out + 1)
        let m := m.store e (htonl_bytes (vendor.attr % 2 ^ 32))
        let m := m.write (e + 4) (leaf.attr &&& 0xff)
        let m := m.add_byte (out + 1) 5
        some (some (m, depth + 2))

/-- The function `encode_extended_hdr`. -/
def encode_extended_hdr (E : Env) (heap : Heap) (ctx : Option fr_radius_ctx_t) (fuel : Nat)
    (out outlen depth : Nat) (s : Enc) : Option (Int × Enc) :=
  match s.da_at heap depth with
  | none => none
  | some top =>
    if top.type ≠ .EXTENDED ∧ top.type ≠ .LONG_EXTENDED then some (-1, s)
    else
      let m := s.mem.write out (top.attr &&& 0xff)
      let depth := depth + 1
      match s.da_at heap 0, s.da_at heap 1 with
      | some d0, some _ =>
        let attr_type := d0.type
        if attr_type = .EXTENDED ∧ outlen < 3 then some (0, { s with mem := m })
        else if attr_type ≠ .EXTENDED ∧ outlen < 4 then some (0, { s with mem := m })
        else
          match s.da_at heap depth with
          | none => none
          | some sub =>
            let m := if attr_type = .EXTENDED then (m.write (out + 1) 3).write (out + 2) (sub.attr &&& 0xff)
                     else ((m.write (out + 1) 4).write (out + 2) (sub.attr &&& 0xff)).write (out + 3) 0
            let evs : Option (Option (Mem × Nat)) :=
              if sub.type = .EVS then encode_evs_hdr heap out outlen depth s m else some (some (m, depth))
            match evs with
            | none => none
            | some none => some (0, { s with mem := m })
            | some (some (m, depth)) =>
              let outlen := if attr_type = .EXTENDED ∧ outlen > 255 then 255 else outlen
              match s.da_at heap depth with
              | none => none
              | some cur =>
                let hdr := m.byte (out + 1)
                let s0 : Enc := { s with mem := m }
                let r := if cur.type = .TLV then
                           encode_tlv_hdr_internal E heap ctx fuel (out + hdr) (size_sub outlen hdr) depth
                             (out + hdr) s.cursor.pos (s.stack_at depth) s0
                         else encode_value E heap ctx fuel (out + hdr) (size_sub outlen hdr) depth s0
                match r with
                | none => none
                | some (len, s1) =>
                  if len ≤ 0 then some (len, s1)
                  else if len > 255 - (s1.mem.byte (out + 1) : Nat) then
                    match attr_shift s1.mem out (out + outlen) out 4 len 3 0 with
                    | none => none
                    | some r => some (r.1, { s1 with mem := r.2 })
                  else
                    let m1 := s1.mem.add_byte (out + 1) len
                    some ((m1.byte (out + 1) : Int), { s1 with mem := m1 })
      | _, _ => none

/-- The loop of `encode_concat`; `ptr`, `p` (an offset into the value), `len`
and `outlen` are its locals. Returns the memory and the final `ptr`; `none`
when a pointer the body dereferences is `NULL`. -/
def encode_concat_loop (attr : Option Nat) (data : Option (List Nat)) :
    Nat → Mem → (ptr p len outlen : Nat) → Option (Mem × Nat)
  | 0, _, _, _, _, _ => none
  | k + 1, m, ptr, p, len, outlen =>
    if len = 0 then some (m, ptr)
    else if outlen ≤ 2 then some (m, ptr)
    else
      match attr, data with
      | some a, some d =>
        let m := (m.write ptr (a &&& 0xff)).write (ptr + 1) 2
        let left := if len > 253 then 253 else len
        let left := if outlen < left + 2 then outlen - 2 else left
        let m := m.memcpy (ptr + 2) (d.drop p) left
        let m := m.add_byte (ptr + 1) left
        encode_concat_loop attr data k m (ptr + m.byte (ptr + 1)) (p + left) (len - left) (size_sub outlen left)
      | _, _ => none

/-- The function `encode_concat`. -/
def encode_concat (E : Env) (heap : Heap) (out outlen depth : Nat) (s : Enc) : Option (Int × Enc) :=
  match fr_cursor_current s.cursor with
  | none => none
  | some vp =>
    match encode_concat_loop ((s.da_at heap depth).map (fun d => d.attr)) vp.data.ptr (vp.vp_length + 1) s.mem
        out 0 vp.vp_length outlen with
    | none => none
    | some (m, ptr) => some ((ptr : Int) - out, ({ s with mem := m } : Enc).advance E heap)

/-- The function `encode_vendor_attr_hdr`. -/
def encode_vendor_attr_hdr (E : Env) (heap : Heap) (ctx : Option fr_radius_ctx_t) (fuel : Nat)
    (out outlen depth : Nat) (s : Enc) : Option (Int × Enc) :=
  match s.da_at heap depth with
  | none => none
  | some dv =>
    if dv.type ≠ .VENDOR then some (-1, s)
    else
      let depth := depth + 1
      match s.da_at heap depth with
      | none => none
      | some da =>
        if da.type ≠ .TLV ∧ dv.flags.type_size = 1 ∧ dv.flags.length = 1 then
          encode_rfc_hdr_internal E heap ctx fuel out outlen depth s
        else
          let hdr_len := dv.flags.type_size + dv.flags.length
          let typed : Option Mem :=
            if dv.flags.type_size = 4 then
              some ((((s.mem.write out 0).write (out + 1) ((da.attr >>> 16) &&& 0xff)).write (out + 2)
                ((da.attr >>> 8) &&& 0xff)).write (out + 3) (da.attr &&& 0xff))
            else if dv.flags.type_size = 2 then
              some ((s.mem.write out ((da.attr >>> 8) &&& 0xff)).write (out + 1) (da.attr &&& 0xff))
            else if dv.flags.type_size = 1 then some (s.mem.write out (da.attr &&& 0xff))
            else none
          match typed with
          | none => some (-1, s)
          | some m =>
            let sized : Option Mem :=
              if dv.flags.length = 0 then some m
              else if dv.flags.length = 2 then
                some ((m.write (out + dv.flags.type_size) 0).write (out + dv.flags.type_size + 1)
                  (dv.flags.type_size + 2))
              else if dv.flags.length = 1 then some (m.write (out + dv.flags.type_size) (dv.flags.type_size + 1))
              else none
            match sized with
            | none => some (-1, { s with mem := m })
            | some m =>
              let outlen := if outlen > 255 then 255 else outlen
              let s0 : Enc := { s with mem := m }
              let r := if da.type = .TLV then
                         encode_tlv_hdr_internal E heap ctx fuel (out + hdr_len) (size_sub outlen hdr_len) depth
                           (out + hdr_len) s.cursor.pos (s.stack_at depth) s0
                       else encode_value E heap ctx fuel (out + hdr_len) (size_sub outlen hdr_len) depth s0
              match r with
              | none => none
              | some (len, s1) =>
                if len ≤ 0 then some (len, s1)
                else
                  let m1 := if dv.flags.length ≠ 0 then s1.mem.add_byte (out + hdr_len - 1) len else s1.mem
                  some ((hdr_len : Int) + len, { s1 with mem := m1 })

/-- The function `encode_wimax_hdr`. -/
def encode_wimax_hdr (E : Env) (heap : Heap) (ctx : Option fr_radius_ctx_t) (fuel : Nat)
    (out outlen depth : Nat) (s : Enc) : Option (Int × Enc) :=
  if outlen < 9 then some (0, s)
  else
    match s.da_at heap depth with
    | none => none
    | some d1 =>
      if d1.attr ≠ PW_VENDOR_SPECIFIC then some (-1, s)
      else
        match s.da_at heap (depth + 1) with
        | none => none
        | some d2 =>
          if d2.attr ≠ E.VENDORPEC_WIMAX then some (-1, s)
          else
            let depth := depth + 2
            match fr_cursor_current s.cursor, s.da_at heap depth with
            | some vp, some cur =>
              match heap[vp.da]? with
              | none => none
              | some vpda =>
                let m := (s.mem.write out PW_VENDOR_SPECIFIC).write (out + 1) 9
                let m := m.store (out + 2) (htonl_bytes (vpda.vendor % 2 ^ 32))
                let m := ((m.write (out + 6) cur.attr).write (out + 7) 3).write (out + 8) 0
                let s0 : Enc := { s with mem := m }
                let r := if cur.type = .TLV then
                           encode_tlv_hdr_internal E heap ctx fuel (out + 9) (size_sub outlen 9) depth (out + 9)
                             s.cursor.pos (s.stack_at depth) s0
                         else encode_value E heap ctx fuel (out + 9) (size_sub outlen 9) depth s0
                match r with
                | none => none
                | some (len, s1) =>
                  if len ≤ 0 then some (len, s1)
                  else if len > 255 - (s1.mem.byte (out + 1) : Nat) then
                    match attr_shift s1.mem out (out + outlen) out (s1.mem.byte (out + 1)) len 8 7 with
                    | none => none
                    | some r => some (r.1, { s1 with mem := r.2 })
                  else
                    let m1 := (s1.mem.add_byte (out + 1) len).add_byte (out + 7) len
                    some ((m1.byte (out + 1) : Int), { s1 with mem := m1 })
            | _, _ => none

/-- The function `encode_vsa_hdr`. -/
def encode_vsa_hdr (E : Env) (heap : Heap) (ctx : Option fr_radius_ctx_t) (fuel : Nat)
    (out outlen depth : Nat) (s : Enc) : Option (Int × Enc) :=
  match s.da_at heap depth with
  | none => none
  | some da =>
    if da.type ≠ .VSA then some (-1, s)
    else if da.vendor = E.VENDORPEC_WIMAX then encode_wimax_hdr E heap ctx fuel out outlen (depth + 1) s
    else if outlen < 6 then some (0, s)
    else
      let m := (s.mem.write out PW_VENDOR_SPECIFIC).write (out + 1) 6
      let depth := depth + 1
      match s.da_at heap depth with
      | none => none
      | some dv =>
        if dv.type ≠ .VENDOR then some (-1, { s with mem := m })
        else
          let m := m.store (out + 2) (htonl_bytes (dv.attr % 2 ^ 32))
          let outlen := if outlen > 255 then 255 else outlen
          match encode_vendor_attr_hdr E heap ctx fuel (out + 6) (size_sub outlen 6) depth { s with mem := m } with
          | none => none
          | some (len, s1) =>
            if len < 0 then some (len, s1)
            else
              let m1 := s1.mem.add_byte (out + 1) len
              some ((m1.byte (out + 1) : Int), { s1 with mem := m1 })

/-- The function `encode_rfc_hdr`. -/
def encode_rfc_hdr (E : Env) (heap : Heap) (ctx : Option fr_radius_ctx_t) (fuel : Nat)
    (out outlen depth : Nat) (s : Enc) : Option (Int × Enc) :=
  match fr_cursor_current s.cursor, s.da_at heap depth with
  | some vp, some top =>
    match heap[vp.da]? with
    | none => none
    | some vpda =>
      if top.type.is_structural then some (-1, s)
      else if (top.vendor = 0 ∧ top.attr = 0) ∨ top.attr > 255 then some (-1, s)
      else if vp.vp_length = 0 ∧ vpda.attr = E.PW_CHARGEABLE_USER_IDENTITY then
        let m := (s.mem.write out E.PW_CHARGEABLE_USER_IDENTITY).write (out + 1) 2
        some (2, ({ s with mem := m } : Enc).advance E heap)
      else if vpda.vendor = 0 ∧ vpda.attr = PW_MESSAGE_AUTHENTICATOR then
        if outlen < 18 then some (-1, s)
        else
          let m := (s.mem.write out PW_MESSAGE_AUTHENTICATOR).write (out + 1) 18
          let m := m.memset (out + 2) 0 16
          some (18, ({ s with mem := m } : Enc).advance E heap)
      else encode_rfc_hdr_internal E heap ctx fuel out outlen depth s
  | _, _ => none

/-- The function `fr_radius_encode_pair`. The arguments `out` and `cursor` are not
`NULL`; the memory at `out` and the cursor are in `s`, whose `tlv_stack` is the
content of the uninitialised local array. -/
def fr_radius_encode_pair (E : Env) (heap : Heap) (ctx : Option fr_radius_ctx_t) (fuel : Nat)
    (outlen : Nat) (s : Enc) : Option (Int × Enc) :=
  if outlen ≤ 2 then some (-1, s)
  else
    match fr_cursor_current s.cursor with
    | none => some (-1, s)
    | some vp =>
      match heap[vp.da]? with
      | none => none
      | some vpda =>
        if vpda.depth > E.FR_DICT_MAX_TLV_STACK then some (-1, s)
        else if vpda.vendor = 0 ∧ vpda.attr > 255 then some (0, { s with cursor := fr_cursor_next s.cursor })
        else if vp.vp_length = 0 ∧ (vpda.vendor ≠ 0 ∨
            (vpda.attr ≠ E.PW_CHARGEABLE_USER_IDENTITY ∧ vpda.attr ≠ PW_MESSAGE_AUTHENTICATOR)) then
          some (0, { s with cursor := fr_cursor_next s.cursor })
        else
          let attr_len := if outlen > 255 then 255 else outlen
          match vpda.parent.bind (fun i => heap[i]?) with
          | none => none
          | some par =>
            if par.flags.is_root ∧ ¬ vpda.flags.concat ∧ vpda.type ≠ .TLV then
              let stack := (some vp.da) :: none :: s.tlv_stack.drop 2
              encode_rfc_hdr E heap ctx fuel 0 attr_len 0 { s with tlv_stack := stack }
            else
              let s := { s with tlv_stack := fr_proto_tlv_stack_build E heap s.tlv_stack (some vp.da) }
              match s.da_at heap 0 with
              | none => none
              | some da =>
                let r : Option (Option (Int × Enc)) :=
                  match da.type with
                  | .VSA =>
                    if vpda.vendor = E.VENDORPEC_WIMAX then some (encode_wimax_hdr E heap ctx fuel 0 outlen 0 s)
                    else some (encode_vsa_hdr E heap ctx fuel 0 attr_len 0 s)
                  | .TLV => some (encode_tlv_hdr E heap ctx fuel 0 attr_len 0 s)
                  | .EXTENDED => some (encode_extended_hdr E heap ctx fuel 0 attr_len 0 s)
                  | .LONG_EXTENDED => some (encode_extended_hdr E heap ctx fuel 0 outlen 0 s)
                  | .INVALID | .VENDOR | .TIMEVAL | .DECIMAL | .EVS | .MAX => none
                  | _ =>
                    if da.flags.concat then some (encode_concat E heap 0 outlen 0 s)
                    else some (encode_rfc_hdr E heap ctx fuel 0 attr_len 0 s)
                match r with
                | none => some (-1, s)
                | some none => none
                | some (some (ret, s1)) =>
                  if ret < 0 then some (ret, s1)
                  else if s1.cursor.pos = s.cursor.pos then some (-1, s1)
                  else some (ret, s1)

/-! ## OID strings (`dict.c`) -/

/-- The decimal digits of `n`, most significant first, put in front of `acc`;
`fuel` bounds the number of digits. -/
def u_digits : Nat → Nat → List Char → List Char
  | 0, _, acc => acc
  | fuel + 1, n, acc =>
    if n / 10 = 0 then Char.ofNat (48 + n % 10) :: acc
    else u_digits fuel (n / 10) (Char.ofNat (48 + n % 10) :: acc)

/-- The text `snprintf` produces for the conversion `%u` of an `unsigned int`:
at most 10 decimal digits. -/
def format_u (x : Nat) : List Char := u_digits 10 (x % 2 ^ 32) []

/-- The loop `for (i = depth + 1; i < (int)da->depth; i++)` of
`dict_print_attr_oid`. `buf` is the text between `out` and `p`; the result is
the return value and the C string left at `out`. -/
def dict_print_attr_oid_loop (heap : Heap) (stack : List (Option Nat)) (da_depth outlen : Nat) :
    Nat → Nat → List Char → Option (Nat × List Char)
  | 0, _, _ => none
  | fuel + 1, i, buf =>
    if i < da_depth then
      match (stack.getD i none).bind (fun j => heap[j]?) with
      | none => none
      | some a =>
        let text := '.' :: format_u a.attr
        if buf.length + text.length ≥ outlen then some (buf.length, buf ++ text.take (outlen - buf.length - 1))
        else dict_print_attr_oid_loop heap stack da_depth outlen fuel (i + 1) (buf ++ text)
    else some (buf.length, buf)

/-- The function `dict_print_attr_oid`. `out0` is the C string in the buffer
before the call, `stack` the content of the uninitialised local `tlv_stack`;
the result is the return value (a `size_t`) and the C string at `out`, `none`
when an array is read out of its bounds or `NULL` is dereferenced. -/
def dict_print_attr_oid (E : Env) (heap : Heap) (stack : List (Option Nat)) (out0 : List Char) (outlen : Nat)
    (ancestor : Option Nat) (da : Nat) : Option (Nat × List Char) :=
  if outlen = 0 then some (0, out0)
  else if ancestor = some da then some (0, [])
  else
    match heap[da]? with
    | none => none
    | some d =>
      let stack := fr_proto_tlv_stack_build E heap stack (some da)
      let start : Option (Option Nat) :=
        match ancestor with
        | none => some (some 0)
        | some a =>
          match heap[a]? with
          | none => none
          | some anc =>
            if anc.depth = 0 then none
            else if stack.getD (anc.depth - 1) none ≠ some a then some none
            else some (some anc.depth)
      match start with
      | none => none
      | some none => some (SIZE_MOD - 1, out0)
      | some (some depth) =>
        match (stack.getD depth none).bind (fun j => heap[j]?) with
        | none => none
        | some top =>
          let text := format_u top.attr
          if text.length ≥ outlen then some (0, text.take (outlen - 1))
          else dict_print_attr_oid_loop heap stack d.depth outlen (d.depth + 1) (depth + 1) text

/-- The test `isspace(c)` of the C locale. -/
def isspace (c : Char) : Bool := c.toNat == 32 || (9 ≤ c.toNat && c.toNat ≤ 13)

/-- The test `isdigit(c)`. -/
def isdigit (c : Char) : Bool := 48 ≤ c.toNat && c.toNat ≤ 57

/-- The digit loop of `strtoul`: the value of the longest prefix of decimal
digits, the start value being `v`, and the text after it. -/
def strtoul_digits : List Char → Nat → Nat × List Char
  | [], v => (v, [])
  | c :: cs, v => if isdigit c then strtoul_digits cs (10 * v + (c.toNat - 48)) else (v, c :: cs)

/-- The C library call `num = strtoul(p, &q, 10)`: white space is skipped, a sign
is accepted, the digits are converted; the result is `ULONG_MAX` when the value
does not fit, and `q` is `p` when there is no digit. Returns `num` and `q`. -/
def strtoul (E : Env) (p : List Char) : Nat × List Char :=
  let t := p.dropWhile isspace
  let neg : Bool := t.head? == some '-'
  let u := if t.head? == some '-' ∨ t.head? == some '+' then t.tail else t
  if (u.head?.map isdigit) = some true then
    let r := strtoul_digits u 0
    if r.1 > E.ULONG_MAX then (E.ULONG_MAX, r.2)
    else if neg then ((E.ULONG_MAX + 1 - r.1) % (E.ULONG_MAX + 1), r.2)
    else (r.1, r.2)
  else (0, p)

/-- The function `fr_dict_oid_component`: the return code, `*out` and `*oid`
after the call. -/
def fr_dict_oid_component (E : Env) (oid : List Char) : Int × Nat × List Char :=
  let r := strtoul E oid
  if r.2.length = oid.length ∨ r.1 = E.ULONG_MAX then (-1, 0, oid)
  else
    match r.2 with
    | [] => (0, r.1 % 2 ^ 32, r.2)
    | c :: _ => if c = '.' then (0, r.1 % 2 ^ 32, r.2) else (-1, 0, oid)

/-- The function `fr_dict_attr_by_oid` for a dictionary and a `parent` that are
not `NULL`. The strings are suffixes of the argument `oid`, so that `p - oid`
is the difference of the lengths. The result is the return value and
`*parent`, `*vendor`, `*attr` after the call; `none` when a pointer outside the
heap is dereferenced. -/
def fr_dict_attr_by_oid (E : Env) (d : fr_dict) :
    Nat → (parent vendor : Nat) → (oid : List Char) → Option (Int × Nat × Nat × Nat)
  | 0, _, _, _ => none
  | fuel + 1, parent, vendor, oid =>
    let c1 := fr_dict_oid_component E oid
    let p := c1.2.2
    if c1.1 < 0 then some (-((oid.length - p.length : Nat) : Int), parent, vendor, 0)
    else
      let num := c1.2.1
      match d.heap[parent]? with
      | none => none
      | some pa =>
        if pa.flags.is_root ∧ vendor = 0 ∧ num = PW_VENDOR_SPECIFIC then
          if p = [] then some (-((oid.length - p.length : Nat) : Int), parent, vendor, num)
          else
            let p := p.tail
            let c2 := fr_dict_oid_component E p
            let p2 := c2.2.2
            if c2.1 < 0 then some (-((oid.length - p2.length : Nat) : Int), parent, vendor, num)
            else if p2 = [] then some (-((oid.length - p2.length : Nat) : Int), parent, vendor, num)
            else
              let p3 := p2.tail
              match fr_dict_vendor_by_num d c2.2.1 with
              | none => some (-((oid.length - p3.length : Nat) : Int), parent, vendor, num)
              | some dv =>
                match fr_dict_attr_by_oid E d fuel parent dv.vendorpec p3 with
                | none => none
                | some (slen, r) =>
                  if slen ≤ 0 then some (slen - ((oid.length - p3.length : Nat) : Int), r)
                  else some (slen + ((oid.length - p3.length : Nat) : Int), r)
        else if ¬ pa.type.is_structural then some (0, parent, vendor, num)
        else if pa.type ≠ .VENDOR ∧ ¬ pa.flags.is_root ∧ num > 255 then some (0, parent, vendor, num)
        else
          match p with
          | [] => some (((oid.length - p.length : Nat) : Int), parent, vendor, num)
          | c :: rest =>
            if c = '.' then
              match fr_dict_attr_child_by_num d.heap pa num with
              | none => some (0, parent, vendor, num)
              | some child =>
                match fr_dict_attr_by_oid E d fuel child vendor rest with
                | none => none
                | some (slen, r) =>
                  if slen ≤ 0 then some (slen - ((oid.length - rest.length : Nat) : Int), r)
                  else some (slen + ((oid.length - rest.length : Nat) : Int), r)
            else some (-((oid.length - p.length : Nat) : Int), parent, vendor, num)

/-- The number `da->attr` of the attribute at a heap address, 0 for an address
outside the heap. -/
def attr_of (heap : Heap) (n : Nat) : Nat := ((heap[n]?).map (fun a => a.attr)).getD 0

/-- The text `a1.a2. ... .ak` of a list of attribute numbers. -/
def oid_text : List Nat → List Char
  | [] => []
  | a :: rest => format_u a ++ (rest.map (fun b => '.' :: format_u b)).flatten

/-- The attributes of a list are a descending chain of the tree below `parent`
(of depth `dep`): each one is in the heap, has its predecessor as parent and a
depth one more. -/
def tree_chain (heap : Heap) : (parent dep : Nat) → List Nat → Prop
  | _, _, [] => True
  | p, dep, n :: rest =>
    (∃ a, heap[n]? = some a ∧ a.parent = some p ∧ a.depth = dep + 1) ∧ tree_chain heap n (dep + 1) rest

/-- Byte-wise XOR of a plaintext block with a digest. -/
def xor_block (p d : List Nat) : List Nat := List.zipWith Nat.xor p d

/-- The password truncated to 128 bytes and zero-padded to a non-zero multiple
of 16 bytes. -/
def rfc2865_pad (pw : List Nat) : List Nat :=
  let p := pw.take 128
  if p.length = 0 then List.replicate 16 0
  else p ++ List.replicate ((16 - p.length % 16) % 16) 0

/-- The cipher blocks `c_i = p_i XOR MD5(secret || c_(i-1))`, `prev` being the
request authenticator for the first block; `k` is the number of blocks. -/
def rfc2865_blocks (E : Env) (secret : List Nat) : Nat → List Nat → List Nat → List Nat
  | 0, _, _ => []
  | k + 1, prev, p =>
    let c := xor_block (p.take 16) (digest_of E (secret ++ prev))
    c ++ rfc2865_blocks E secret k c (p.drop 16)

/-- The RFC 2865 section 5.2 ciphertext of a password. -/
def rfc2865_cipher (E : Env) (secret auth pw : List Nat) : List Nat :=
  rfc2865_blocks E secret ((rfc2865_pad pw).length / 16) auth (rfc2865_pad pw)

/-- A call of one of the two Tunnel-Password encoders with its arguments. -/
inductive tunnel_call
  | internal (m : Mem) (out : Nat) (input : List Nat) (inlen freespace : Nat) (secret vector : List Nat)
  | api (m : Mem) (pwlen : Nat) (secret vector : List Nat)

/-- Runs a Tunnel-Password encoder call: the two salt bytes it leaves at the
start of its output and the process state after the call. -/
def tunnel_call.run (E : Env) (g : Globals) : tunnel_call → List Nat × Globals
  | .internal m out input inlen freespace secret vector =>
    let r := encode_tunnel_password E g m out input inlen freespace secret vector
    (r.1.read out 2, r.2.2)
  | .api m pwlen secret vector =>
    let r := fr_radius_encode_tunnel_password E g m pwlen secret vector
    (r.1.read 0 2, r.2.2)

/-! ## A concrete environment -/

/-- An environment for evaluating the definitions on concrete inputs: the
header constants as the upstream tree declares them, a toy digest, a constant
random source. -/
def sample_env : Env where
  md5 := fun x => List.replicate 16 (x.sum % 256)
  rand := fun _ => 0
  make_secret := fun _ _ _ => List.replicate 16 0
  VENDORPEC_WIMAX := 24757
  FR_DICT_MAX_TLV_STACK := 10
  PW_CHARGEABLE_USER_IDENTITY := 89
  DHCP_MAGIC_VENDOR := 54
  FR_DICT_ATTR_MAX_NAME_LEN := 128
  TAG_VALID := fun t => decide (0 < t ∧ t < 0x20)
  TAG_NONE := 0
  ULONG_MAX := 2 ^ 64 - 1
  FR_DICT_ENUM_MAX_NAME_LEN := 128

/-! ## Concrete dictionaries and pairs -/

/-- A dictionary with the Long-Extended attribute 245 and the octets attribute 1
under it, built by `fr_dict_attr_add`. -/
def long_ext_dict : fr_dict :=
  let d := fr_dict_init_root "radius"
  let d := (fr_dict_attr_add sample_env d 0 "Extended-Attribute-5" 245 .LONG_EXTENDED {}).2
  (fr_dict_attr_add sample_env d 1 "Ext-Octets" 1 .OCTETS {}).2

/-- The encoder state at the start of a call: zeroed memory, the cursor on the
only pair, which carries `n` bytes `A` for the attribute at heap address `da`. -/
def octets_state (da n : Nat) : Enc :=
  { mem := Mem.init (fun _ => 0),
    cursor := { vps := [{ da := da, vp_length := n, data := { ptr := some (List.replicate n 65) } }], pos := 0 },
    tlv_stack := [], g := { salt_offset := 0, rand_calls := 0 } }

/-- A dictionary with the root attribute Tunnel-Password (69), a tagged string with
`encrypt=2`, built by `fr_dict_attr_add`. -/
def tunnel_dict : fr_dict :=
  (fr_dict_attr_add sample_env (fr_dict_init_root "radius") 0 "Tunnel-Password" 69 .STRING
    { has_tag := true, encrypt := 2 }).2

/-- A packet context for an Access-Accept (code 2) that answers a request. -/
def accept_ctx : fr_radius_ctx_t :=
  { packet := { code := 2, vector := List.replicate 16 0 },
    original := some { code := 1, vector := List.replicate 16 7 },
    secret := [115, 101, 99, 114, 101, 116] }

/-- The sibling chain of bin `b` of the attribute at `parent`, as attribute
addresses from head to tail. -/
def sibling_chain (heap : Heap) (parent b : Nat) : List Nat :=
  match heap[parent]? with
  | some a => (a.children.getD (fun _ => [])) b
  | none => []

/-- The attributes of a list of addresses as (is structural, vendor, number). -/
def chain_keys (heap : Heap) (chain : List Nat) : List (Bool × Nat × Nat) :=
  chain.filterMap (fun i => (heap[i]?).map (fun a => (a.type.is_structural, a.vendor, a.attr)))

/-- The order the comment of `fr_dict_attr_child_add` and the specification
describe for a chain: structural attributes before the others, then lower
vendor first, then lower attribute number first. -/
def chain_key_le (x y : Bool × Nat × Nat) : Bool :=
  (x.1 && !y.1) || (x.1 == y.1 && (x.2.1 < y.2.1 || (x.2.1 == y.2.1 && x.2.2 ≤ y.2.2)))

/-- A dictionary to which attribute 1 (a TLV) and then attribute 11009 (an integer
of the same bin) are added under the root. -/
def two_sibling_dict : fr_dict :=
  let d := fr_dict_init_root "radius"
  let d := (fr_dict_attr_add sample_env d 0 "Sub-Attrs" 1 .TLV {}).2
  (fr_dict_attr_add sample_env d 0 "Vmps-1" 11009 .INTEGER {}).2

/-- A dictionary with the vendor Cisco (9, format 1,1) whose block holds the integer
attribute 3, built by `fr_dict_vendor_add`, `BEGIN-VENDOR` and
`fr_dict_attr_add`. -/
def cisco_dict : fr_dict :=
  let d := (fr_dict_vendor_add (fr_dict_init_root "radius") "Cisco" 9).2
  let d := (dict_begin_vendor d 0 "Cisco").2
  (fr_dict_attr_add sample_env d 2 "Cisco-Foo" 3 .INTEGER {}).2

/-- The dictionary `cisco_dict` with the combo-ip attribute 4 added to the vendor. -/
def combo_dict : fr_dict :=
  (fr_dict_attr_add sample_env cisco_dict 2 "Cisco-IP" 4 .COMBO_IP_ADDR {}).2

/-! ## Vendor-specific attributes in the dictionary tree -/

/-- The attribute at heap address `li` is a sub-attribute of a vendor: its parent
`vi` is a `VENDOR` node, whose parent `si` is a `VSA` attribute directly under
the root, so that the leaf has depth 3. -/
structure vsa_path (heap : Heap) (si vi li : Nat) (vsa dv leaf : fr_dict_attr_t) : Prop where
  hvsa : heap[si]? = some vsa
  hdv : heap[vi]? = some dv
  hleaf : heap[li]? = some leaf
  vsa_type : vsa.type = .VSA
  dv_type : dv.type = .VENDOR
  dv_parent : dv.parent = some si
  dv_not_root : dv.flags.is_root = false
  leaf_parent : leaf.parent = some vi
  leaf_depth : leaf.depth = 3

/-- The TLV stack of a vendor sub-attribute: the `VSA` attribute, the vendor, the
leaf, and `NULL` in the remaining slots. -/
def stack3 (E : Env) (si vi li : Nat) : List (Option Nat) :=
  [some si, some vi, some li] ++ List.replicate (E.FR_DICT_MAX_TLV_STACK + 1 - 3) none

/-- The `k` big-endian bytes of `v`. -/
def be_bytes (k v : Nat) : List Nat := (List.range k).map (fun i => (v / 256 ^ (k - 1 - i)) % 256)

/-- The encoder state at the start of a call: zeroed memory, the cursor on the
only pair, which carries the 32-bit integer `v` for the attribute at heap
address `da`. -/
def integer_state (da v : Nat) : Enc :=
  { mem := Mem.init (fun _ => 0),
    cursor := { vps := [{ da := da, vp_length := 4, data := { scalar := v } }], pos := 0 },
    tlv_stack := [], g := { salt_offset := 0, rand_calls := 0 } }

/-! ## More concrete dictionaries and pairs; the general path of the encoder -/

/-- A dictionary with the root attribute EAP-Message (79), octets with the
`concat` flag, built by `fr_dict_attr_add`. -/
def concat_dict : fr_dict :=
  (fr_dict_attr_add sample_env (fr_dict_init_root "radius") 0 "EAP-Message" 79 .OCTETS { concat := true }).2

/-- A dictionary with the root TLV attribute 100 and the string sub-attributes 1
and 2 under it, built by `fr_dict_attr_add`. -/
def tlv_dict : fr_dict :=
  let d := (fr_dict_attr_add sample_env (fr_dict_init_root "radius") 0 "Test-TLV" 100 .TLV {}).2
  let d := (fr_dict_attr_add sample_env d 1 "Sub-One" 1 .STRING {}).2
  (fr_dict_attr_add sample_env d 1 "Sub-Two" 2 .STRING {}).2

/-- The encoder state at the start of a call: zeroed memory and the cursor on the
first of the given pairs. -/
def pairs_state (vps : List VALUE_PAIR) : Enc :=
  { mem := Mem.init (fun _ => 0), cursor := { vps := vps, pos := 0 }, tlv_stack := [],
    g := { salt_offset := 0, rand_calls := 0 } }

/-- A pair of a string or octets attribute at heap address `da` with the value
`v`. -/
def string_pair (da : Nat) (v : List Nat) : VALUE_PAIR :=
  { da := da, vp_length := v.length, data := { ptr := some v } }

/-- The general path of `fr_radius_encode_pair`: the statements that follow the
fast path, from `fr_proto_tlv_stack_build(tlv_stack, vp->da)` to the final
`return ret`, for the pair `vp` the cursor is on and its attribute `vpda`. -/
def encode_pair_general_path (E : Env) (heap : Heap) (ctx : Option fr_radius_ctx_t) (fuel : Nat)
    (outlen : Nat) (vp : VALUE_PAIR) (vpda : fr_dict_attr_t) (s : Enc) : Option (Int × Enc) :=
  let attr_len := if outlen > 255 then 255 else outlen
  let s := { s with tlv_stack := fr_proto_tlv_stack_build E heap s.tlv_stack (some vp.da) }
  match s.da_at heap 0 with
  | none => none
  | some da =>
    let r : Option (Option (Int × Enc)) :=
      match da.type with
      | .VSA =>
        if vpda.vendor = E.VENDORPEC_WIMAX then some (encode_wimax_hdr E heap ctx fuel 0 outlen 0 s)
        else some (encode_vsa_hdr E heap ctx fuel 0 attr_len 0 s)
      | .TLV => some (encode_tlv_hdr E heap ctx fuel 0 attr_len 0 s)
      | .EXTENDED => some (encode_extended_hdr E heap ctx fuel 0 attr_len 0 s)
      | .LONG_EXTENDED => some (encode_extended_hdr E heap ctx fuel 0 outlen 0 s)
      | .INVALID | .VENDOR | .TIMEVAL | .DECIMAL | .EVS | .MAX => none
      | _ =>
        if da.flags.concat then some (encode_concat E heap 0 outlen 0 s)
        else some (encode_rfc_hdr E heap ctx fuel 0 attr_len 0 s)
    match r with
    | none => some (-1, s)
    | some none => none
    | some (some (ret, s1)) =>
      if ret < 0 then some (ret, s1)
      else if s1.cursor.pos = s.cursor.pos then some (-1, s1)
      else some (ret, s1)

/-- A dictionary with the root attribute Ascend-Send-Secret (214), a string with
`encrypt=3`, built by `fr_dict_attr_add`. -/
def ascend_dict : fr_dict :=
  (fr_dict_attr_add sample_env (fr_dict_init_root "radius") 0 "Ascend-Send-Secret" 214 .STRING
    { encrypt := 3 }).2

/-- A dictionary with the root attributes Tunnel-Type (64, integer) and
Tunnel-Client-Endpoint (66, string), both with `has_tag`, built by
`fr_dict_attr_add`. -/
def tagged_dict : fr_dict :=
  let d := (fr_dict_attr_add sample_env (fr_dict_init_root "radius") 0 "Tunnel-Type" 64 .INTEGER
    { has_tag := true }).2
  (fr_dict_attr_add sample_env d 0 "Tunnel-Client-Endpoint" 66 .STRING { has_tag := true }).2

/-- The encoder state inside a call for a root attribute: zeroed memory, the
cursor on the only pair `vp`, the TLV stack holding the attribute of the pair. -/
def leaf_state (vp : VALUE_PAIR) : Enc :=
  { mem := Mem.init (fun _ => 0), cursor := { vps := [vp], pos := 0 }, tlv_stack := [some vp.da, none],
    g := { salt_offset := 0, rand_calls := 0 } }

/-- A dictionary with the root attribute User-Name (1, string), built by
`fr_dict_attr_add`. -/
def user_name_dict : fr_dict :=
  (fr_dict_attr_add sample_env (fr_dict_init_root "radius") 0 "User-Name" 1 .STRING {}).2

/-! ## Attributes with the `concat` flag, as the specification words them -/

/-- The value cut into consecutive pieces of 253 bytes, the last one holding the
remainder. -/
def value_chunks (v : List Nat) : List (List Nat) :=
  (List.range ((v.length + 252) / 253)).map (fun i => (v.drop (253 * i)).take 253)

/-- One record per piece of the value: the attribute number, the length byte and
the piece. -/
def concat_records (a : Nat) (v : List Nat) : List Nat :=
  ((value_chunks v).map (fun c => a :: (2 + c.length) :: c)).flatten

/-! ## Values and dictionary lines (`dict.c`) -/

/-- The comparison `dict_enum_name_cmp(a, b) == 0`. -/
def dict_enum_name_cmp (a b : fr_dict_enum_t) : Bool := a.da == b.da && name_eq a.name b.name

/-- The comparison `dict_enum_value_cmp(a, b) == 0`. -/
def dict_enum_value_cmp (a b : fr_dict_enum_t) : Bool := a.da == b.da && a.value == b.value

/-- The function `fr_dict_enum_by_name`, `name` being not `NULL`. -/
def fr_dict_enum_by_name (E : Env) (d : fr_dict) (da : Option Nat) (name : String) : Option fr_dict_enum_t :=
  let dv := d.values_by_name.find? (fun e => dict_enum_name_cmp e { da := da, name := "", value := 0 })
  let da := match dv with
    | some v => v.da
    | none => da
  let key := String.mk (name.data.take E.FR_DICT_ENUM_MAX_NAME_LEN)
  d.values_by_name.find? (fun e => dict_enum_name_cmp e { da := da, name := key, value := 0 })

/-- The function `fr_dict_enum_by_da`. -/
def fr_dict_enum_by_da (d : fr_dict) (da : Option Nat) (value : Int) : Option fr_dict_enum_t :=
  let dv := d.values_by_name.find? (fun e => dict_enum_name_cmp e { da := da, name := "", value := 0 })
  let da := match dv with
    | some v => v.da
    | none => da
  d.values_by_da.find? (fun e => dict_enum_value_cmp e { da := da, name := "", value := value })

/-- The function `fr_dict_enum_add`. The result is the return value and the
dictionary; `none` when `last_attr` or the attribute found points outside the
heap. -/
def fr_dict_enum_add (E : Env) (d : fr_dict) (attr alias_ : String) (value : Int) : Option (Int × fr_dict) :=
  if alias_.data = [] then some (-1, d)
  else if alias_.data.length ≥ E.FR_DICT_ENUM_MAX_NAME_LEN then some (-1, d)
  else
    let looked : Option (Option Nat) :=
      match d.last_attr with
      | none => some (fr_dict_attr_by_name E d attr)
      | some l =>
        match d.heap[l]? with
        | none => none
        | some la => if name_eq attr la.name then some (some l) else some (fr_dict_attr_by_name E d attr)
    match looked with
    | none => none
    | some da =>
      let d := { d with last_attr := da }
      let dval : fr_dict_enum_t := { da := da, name := alias_, value := value }
      match da with
      | none =>
        let attrstr := String.mk (attr.data.take (E.FR_DICT_ATTR_MAX_NAME_LEN - 1))
        some (0, { d with enum_fixup := (attrstr, dval) :: d.enum_fixup })
      | some i =>
        match d.heap[i]? with
        | none => none
        | some a =>
          let invalid : Bool :=
            match a.type with
            | .BYTE => decide (value > 255)
            | .SHORT => decide (value > 65535)
            | .INTEGER => false
            | _ => true
          if invalid then some (-1, d)
          else if d.values_by_name.any (fun e => dict_enum_name_cmp e dval) then
            match fr_dict_enum_by_name E d da alias_ with
            | some old => if old.value = value then some (0, d) else some (-1, d)
            | none => some (-1, d)
          else
            let d := { d with values_by_name := dval :: d.values_by_name }
            some (0, { d with values_by_da :=
              dval :: d.values_by_da.filter (fun e => !(dict_enum_value_cmp e dval)) })

/-- The constant `MAX_ARGV`. -/
def MAX_ARGV : Nat := 16

/-- The characters `fr_dict_str_to_argv` splits at: space, tab, CR, LF. -/
def is_blank (c : Char) : Bool := c.toNat == 32 || c.toNat == 9 || c.toNat == 13 || c.toNat == 10

/-- The loop of `fr_dict_str_to_argv`; `argv` holds the words found so far. A
word ends where the next iteration zeroes the blanks after it; when that
iteration stops at `max_argc` instead, the last word runs to the end of the
line. -/
def fr_dict_str_to_argv_loop (max_argc : Nat) : Nat → List Char → List (List Char) → List (List Char)
  | 0, _, argv => argv
  | fuel + 1, str, argv =>
    match str with
    | [] => argv
    | c :: _ =>
      if argv.length ≥ max_argc then argv
      else if c = '#' then argv
      else
        let s1 := str.dropWhile is_blank
        if s1 = [] then argv
        else
          let word := s1.takeWhile (fun x => !(is_blank x))
          let rest := s1.dropWhile (fun x => !(is_blank x))
          if rest ≠ [] ∧ argv.length + 1 ≥ max_argc then argv ++ [s1]
          else fr_dict_str_to_argv_loop max_argc fuel rest (argv ++ [word])

/-- The function `fr_dict_str_to_argv`: the words it leaves in `argv`; `argc` is
their number. -/
def fr_dict_str_to_argv (str : List Char) (max_argc : Nat) : List (List Char) :=
  fr_dict_str_to_argv_loop max_argc (str.length + 1) str []

/-- The value of a digit in base 10 or 16: the offset `memchr` finds in the
table `0123456789abcdef`, looking at its first `base` characters. -/
def digit_value (c : Char) (base : Nat) : Option Nat :=
  let l := c.toLower
  let v := if 48 ≤ l.toNat ∧ l.toNat ≤ 57 then some (l.toNat - 48)
           else if 97 ≤ l.toNat ∧ l.toNat ≤ 102 then some (l.toNat - 87)
           else none
  v.bind (fun k => if k < base then some k else none)

/-- The digit loop of `dict_read_sscanf_i`: `none` when a character is not a
digit, else the value read up to the end or the first `.`. -/
def sscanf_i_loop (base : Nat) : List Char → Nat → Option Nat
  | [], rcode => some rcode
  | c :: cs, rcode =>
    if c = '.' then some rcode
    else
      match digit_value c base with
      | none => none
      | some k => sscanf_i_loop base cs (rcode * base + k)

/-- The function `dict_read_sscanf_i`: `none` when it returns 0, else `*pvalue`.
The `int` it accumulates wraps to 32 bits. -/
def dict_read_sscanf_i (str : List Char) : Option Nat :=
  let hex : Bool := str.head? == some '0' && (str.tail.head? == some 'x' || str.tail.head? == some 'X')
  let r := if hex then sscanf_i_loop 16 (str.drop 2) 0 else sscanf_i_loop 10 str 0
  r.map (fun v => v % 2 ^ 32)

/-- The table `dict_attr_types`. -/
def dict_attr_types : List (String × PW_TYPE) :=
  [("integer", .INTEGER), ("string", .STRING), ("ipaddr", .IPV4_ADDR), ("date", .DATE),
   ("abinary", .ABINARY), ("octets", .OCTETS), ("ifid", .IFID), ("ipv6addr", .IPV6_ADDR),
   ("ipv6prefix", .IPV6_PREFIX), ("byte", .BYTE), ("short", .SHORT), ("ether", .ETHERNET),
   ("combo-ip", .COMBO_IP_ADDR), ("tlv", .TLV), ("signed", .SIGNED), ("extended", .EXTENDED),
   ("long-extended", .LONG_EXTENDED), ("evs", .EVS), ("uint8", .BYTE), ("uint16", .SHORT),
   ("uint32", .INTEGER), ("int32", .SIGNED), ("integer64", .INTEGER64), ("uint64", .INTEGER64),
   ("ipv4prefix", .IPV4_PREFIX), ("cidr", .IPV4_PREFIX), ("vsa", .VSA), ("vendor", .VENDOR),
   ("struct", .STRUCT)]

/-- Modelled from the spec: `fr_str2int` (defined outside `src/`) returns the
number of the first entry of the table whose name equals `name` without case,
`none` standing for the default. -/
def fr_str2int (table : List (String × PW_TYPE)) (name : List Char) : Option PW_TYPE :=
  (table.find? (fun e => name_eq e.1 (String.mk name))).map (fun e => e.2)

/-- The conversion of an `unsigned int` to `int`. -/
def to_int (x : Nat) : Int := if x % 2 ^ 32 < 2 ^ 31 then ((x % 2 ^ 32 : Nat) : Int) else ((x % 2 ^ 32 : Nat) : Int) - 2 ^ 32

/-- The type field of an `ATTRIBUTE` line: `none` when it is rejected, else the
type and the value of `flags.length`. -/
def attribute_type_field (arg : List Char) : Option (PW_TYPE × Nat) :=
  if ¬ ("octets[".data.isPrefixOf arg) then (fr_str2int dict_attr_types arg).map (fun t => (t, 0))
  else
    let tail := arg.drop 7
    if ¬ (tail.contains ']') then none
    else
      match dict_read_sscanf_i (tail.takeWhile (fun c => c != ']')) with
      | none => none
      | some length => if length = 0 ∨ length > 253 then none else some (.OCTETS, length)

/-- The function `dict_read_process_attribute` for the fields `argv` of the line
after the keyword. A line with a fourth field (the options) is outside the
model, and so is a pointer outside the heap: `none`. -/
def dict_read_process_attribute (E : Env) (d : fr_dict) (parent : Nat) (block_vendor : Nat)
    (argv : List (List Char)) : Option (Int × fr_dict) :=
  if argv.length < 3 ∨ argv.length > 4 then some (-1, d)
  else
    let name := argv.getD 0 []
    let num := argv.getD 1 []
    if "Attr-".data.isPrefixOf name then some (-1, d)
    else
      let located : Option (Option (Nat × Nat)) :=
        if ¬ (num.contains '.') then
          match dict_read_sscanf_i num with
          | none => some none
          | some attr => some (some (parent, attr))
        else
          match fr_dict_attr_by_oid E d (num.length + 1) parent block_vendor num with
          | none => none
          | some (slen, p, _, attr) => if slen ≤ 0 then some none else some (some (p, attr))
      match located with
      | none => none
      | some none => some (-1, d)
      | some (some (parent, attr)) =>
        match attribute_type_field (argv.getD 2 []) with
        | none => some (-1, d)
        | some (type, length) =>
          if argv.length ≥ 4 then none
          else
            let flags : fr_dict_attr_flags_t := { length := length }
            let r := fr_dict_attr_add E d parent (String.mk name) (to_int attr) type flags
            if r.1 < 0 then some (-1, r.2) else some (0, r.2)

/-- The function `dict_read_process_value` for the fields `argv` of the line
after the keyword. -/
def dict_read_process_value (E : Env) (d : fr_dict) (argv : List (List Char)) : Option (Int × fr_dict) :=
  if argv.length ≠ 3 then some (-1, d)
  else
    match dict_read_sscanf_i (argv.getD 2 []) with
    | none => some (-1, d)
    | some value =>
      match fr_dict_enum_add E d (String.mk (argv.getD 0 [])) (String.mk (argv.getD 1 [])) (to_int value) with
      | none => none
      | some r => if r.1 < 0 then some (-1, r.2) else some (0, r.2)

/-- The function `fr_dict_parse_str` for a dictionary that is not `NULL`: one
line is split and dispatched on its keyword. The `VENDOR` branch is outside
the model: `none`. -/
def fr_dict_parse_str (E : Env) (d : fr_dict) (buf : String) (parent : Option Nat) (vendor : Nat) :
    Option (Int × fr_dict) :=
  let argv := fr_dict_str_to_argv buf.data MAX_ARGV
  match argv with
  | [] => some (0, d)
  | kw :: args =>
    if name_eq (String.mk kw) "VALUE" then dict_read_process_value E d args
    else if name_eq (String.mk kw) "ATTRIBUTE" then
      dict_read_process_attribute E d (parent.getD d.root) vendor args
    else if name_eq (String.mk kw) "VENDOR" then none
    else some (-1, d)

/-! ## Packet codes and contexts for the Tunnel-Password cipher -/

/-- Modelled from the spec: RADIUS packet code Access-Request of RFC 2865
(`PW_CODE_ACCESS_REQUEST`, declared in a header outside `src/`). -/
def PW_CODE_ACCESS_REQUEST : Nat := 1

/-- A packet context for a packet of the given code and authenticator, with
the original packet given or `NULL`. -/
def code_ctx (code : Nat) (vector : List Nat) (original : Option (List Nat)) : fr_radius_ctx_t :=
  { packet := { code := code, vector := vector },
    original := original.map (fun v => { code := PW_CODE_ACCESS_REQUEST, vector := v }),
    secret := [115, 101, 99, 114, 101, 116] }

/-! ## Fixed-size types, as the specification words them -/

/-- The canonical size of the fixed-size types the specification lists: Byte 1,
Short 2, Integer, Date, IPv4Addr and Signed 4, Integer64 8, IfId 8, Ethernet 6,
IPv6Addr 16; `none` for every other type. -/
def fixed_size : PW_TYPE → Option Nat
  | .BYTE => some 1
  | .SHORT => some 2
  | .INTEGER | .DATE | .IPV4_ADDR | .SIGNED => some 4
  | .INTEGER64 => some 8
  | .IFID => some 8
  | .ETHERNET => some 6
  | .IPV6_ADDR => some 16
  | _ => none

/-! ## A dictionary with a value -/

/-- The dictionary after the lines `ATTRIBUTE Test-Attr 25 integer` and
`VALUE Test-Attr Foo 1`, read by `fr_dict_parse_str` into a dictionary that
holds only its root. -/
def enum_dict : fr_dict :=
  match (fr_dict_parse_str sample_env (fr_dict_init_root "radius") "ATTRIBUTE Test-Attr 25 integer" none 0).bind
      (fun r => fr_dict_parse_str sample_env r.2 "VALUE Test-Attr Foo 1" none 0) with
  | some r => r.2
  | none => fr_dict_init_root "radius"

/-! ## The values that wait for their attribute (`fr_dict_init`) -/

/-- The loop of `fr_dict_init` over the list `dict->enum_fixup`, run after the
files are read: each value gets the attribute its name now finds and is put
into the tables. The result is -1 when an attribute is not found (`goto
error`), else 0, and the dictionary; `none` when `NULL` is dereferenced. -/
def enum_fixup_loop (E : Env) : List (String × fr_dict_enum_t) → fr_dict → Option (Int × fr_dict)
  | [], d => some (0, { d with enum_fixup := [] })
  | (attrstr, dval) :: next, d =>
    match fr_dict_attr_by_name E d attrstr with
    | none => some (-1, d)
    | some ai =>
      match d.heap[ai]? with
      | none => none
      | some a =>
        let dval : fr_dict_enum_t := { dval with da := some ai }
        let d := { d with values_by_name :=
          dval :: d.values_by_name.filter (fun e => !(dict_enum_name_cmp e dval)) }
        match a.parent.bind (fun i => d.heap[i]?) with
        | none => none
        | some p =>
          let old_name : Option Bool :=
            if p.flags.is_root then some true
            else if p.type = .VENDOR then
              match p.parent.bind (fun i => d.heap[i]?) with
              | none => none
              | some g => some (decide (g.type = .VSA))
            else some false
          match old_name with
          | none => none
          | some c =>
            let d :=
              if c ∧ (d.values_by_da.find? (fun e => dict_enum_value_cmp e dval)).isNone then
                { d with values_by_da := dval :: d.values_by_da.filter (fun e => !(dict_enum_value_cmp e dval)) }
              else d
            enum_fixup_loop E next { d with enum_fixup := next }

/-- The block `if (dict->enum_fixup) { ... }` of `fr_dict_init`. -/
def fr_dict_init_fixup (E : Env) (d : fr_dict) : Option (Int × fr_dict) := enum_fixup_loop E d.enum_fixup d

/-- The lines of a dictionary file read one after the other by
`fr_dict_parse_str` with no parent and no vendor given, up to the first line
that fails: the return value of the last line read and the dictionary. -/
def read_lines (E : Env) : List String → fr_dict → Option (Int × fr_dict)
  | [], d => some (0, d)
  | line :: rest, d =>
    match fr_dict_parse_str E d line none 0 with
    | none => none
    | some r => if r.1 < 0 then some r else read_lines E rest r.2

/-- The type of the attribute a value belongs to and the value, for every
entry of a table of values. -/
def enum_types (d : fr_dict) (table : List fr_dict_enum_t) : List (String × Option PW_TYPE × Int) :=
  table.map (fun e => (e.name, (e.da.bind (fun i => d.heap[i]?)).map (fun a => a.type), e.value))

/-! ## Common ancestors (`dict.c`) -/

/-- The loop `for (p = a, i = n; p && (i > 0); p = p->parent, i--);` of
`fr_dict_parent_common`: the value of `p` after it, `none` when a pointer
outside the heap is dereferenced. -/
def parent_walk (heap : Heap) : Nat → Option Nat → Option (Option Nat)
  | 0, p => some p
  | _ + 1, none => some none
  | i + 1, some x =>
    match heap[x]? with
    | none => none
    | some a => parent_walk heap i a.parent

/-- The loop `while (p_a && p_b)` of `fr_dict_parent_common`; the fuel bounds
the number of iterations, `none` when it runs out (the parent links form a
cycle) or a pointer outside the heap is dereferenced. -/
def parent_common_loop (heap : Heap) : Nat → Option Nat → Option Nat → Option (Option Nat)
  | 0, _, _ => none
  | fuel + 1, some x, some y =>
    if x = y then some (some x)
    else
      match heap[x]?, heap[y]? with
      | some a, some b => parent_common_loop heap fuel a.parent b.parent
      | _, _ => none
  | _ + 1, _, _ => some none

/-- The function `fr_dict_parent_common`: the attribute it returns, `some none`
for `NULL`. The loop gets one iteration more than the heap has attributes. -/
def fr_dict_parent_common (heap : Heap) (a b : Option Nat) (is_ancestor : Bool) : Option (Option Nat) :=
  match a, b with
  | some x, some y =>
    match heap[x]?, heap[y]? with
    | some da, some db =>
      if da.parent.isNone ∨ db.parent.isNone then some none
      else if is_ancestor = true ∧ db.depth ≤ da.depth then some none
      else
        let start : Option (Option Nat × Option Nat) :=
          if da.depth > db.depth then
            (parent_walk heap (da.depth - db.depth) (some x)).map (fun p => (p, some y))
          else if da.depth < db.depth then
            (parent_walk heap (db.depth - da.depth) (some y)).map (fun p => (some x, p))
          else some (some x, some y)
        match start with
        | none => none
        | some (p_a, p_b) => parent_common_loop heap (heap.length + 1) p_a p_b
    | _, _ => none
  | _, _ => some none

/-- A dictionary with the TLVs First (1) and Second (2) under the root and the
string Leaf (1) under Second, built by `fr_dict_attr_add`: heap addresses 1,
2 and 3. -/
def two_tlv_dict : fr_dict :=
  let d := (fr_dict_attr_add sample_env (fr_dict_init_root "radius") 0 "First" 1 .TLV {}).2
  let d := (fr_dict_attr_add sample_env d 0 "Second" 2 .TLV {}).2
  (fr_dict_attr_add sample_env d 2 "Leaf" 1 .STRING {}).2

/-! ## OID strings that end in a new number, as the specification words them -/

/-- A component `num` read under the parent `pa` with the vendor `vendor` is
one `fr_dict_attr_by_oid` goes past: the parent is structural, the component is
not the Vendor-Specific number 26 read at a root outside of a vendor, a
number under a parent that is neither a vendor nor a root is at most 255, and
the number fits an `unsigned int` and is below `ULONG_MAX`. -/
def oid_component_ok (E : Env) (vendor : Nat) (pa : fr_dict_attr_t) (num : Nat) : Bool :=
  pa.type.is_structural && !(pa.flags.is_root && vendor == 0 && num == PW_VENDOR_SPECIFIC) &&
    (pa.type == .VENDOR || pa.flags.is_root || decide (num ≤ 255)) &&
    decide (num < 2 ^ 32) && decide (num < E.ULONG_MAX)

/-- The components `nums` resolve one after the other through existing
children, starting at `parent`, and the last component `last` is one the
parser goes past under the attribute they lead to: the result is that
attribute, `none` when a component does not resolve. -/
def oid_resolves (E : Env) (d : fr_dict) (vendor : Nat) : Nat → List Nat → Nat → Option Nat
  | p, [], last =>
    match d.heap[p]? with
    | some pa => if oid_component_ok E vendor pa last then some p else none
    | none => none
  | p, n :: rest, last =>
    match d.heap[p]? with
    | some pa =>
      if oid_component_ok E vendor pa n then
        match fr_dict_attr_child_by_num d.heap pa n with
        | some c => oid_resolves E d vendor c rest last
        | none => none
      else none
    | none => none

/-! ## Unknown attributes (`dict.c`) -/

/-- The constant `UINT_MAX` of `limits.h` for the 32-bit `unsigned int` the
model uses throughout. -/
def UINT_MAX : Nat := 2 ^ 32 - 1

/-- The test `strncasecmp(p, prefix, strlen(prefix)) == 0`. -/
def strncasecmp_eq (p : List Char) (pre : String) : Bool :=
  (p.take pre.data.length).map Char.toLower == pre.data.map Char.toLower

/-- The function `fr_dict_unknown_from_fields`. The struct `da` is the storage
at the heap address `da`; `stack` is the content of the uninitialised array
of `dict_print_attr_oid`. The result is the return value and the heap, `none`
when a pointer outside the heap is dereferenced or the name buffer is too
short for the text `Attr-` (the OID would be written past its end). -/
def fr_dict_unknown_from_fields (E : Env) (heap : Heap) (stack : List (Option Nat)) (da parent vendor attr : Nat) :
    Option (Int × Heap) :=
  match heap[parent]? with
  | none => none
  | some p =>
    if da ≥ heap.length ∨ E.FR_DICT_ATTR_MAX_NAME_LEN ≤ 5 then none
    else
      let flags : fr_dict_attr_flags_t := { is_unknown := true, is_pointer := true }
      let rec0 : fr_dict_attr_t :=
        { fr_dict_attr_t.zero with attr := attr % 2 ^ 32, vendor := vendor % 2 ^ 32, type := .OCTETS, flags := flags,
                                   parent := some parent, depth := p.depth + 1 }
      let heap := heap.set da rec0
      match dict_print_attr_oid E heap stack [] (E.FR_DICT_ATTR_MAX_NAME_LEN - 5) none da with
      | none => none
      | some r => some (0, heap.set da { rec0 with name := String.mk ("Attr-".data ++ r.2) })

/-- The function `fr_dict_unknown_from_oid` for a dictionary that is not
`NULL`. The structs `vendor_da` and `da` are storage at heap addresses, or
`NULL`. The result is the return value and the heap, `none` when a pointer
outside the heap is dereferenced. -/
def fr_dict_unknown_from_oid (E : Env) (d : fr_dict) (stack : List (Option Nat)) (vendor_da da : Option Nat)
    (parent : Nat) (name : String) : Option (Int × Heap) :=
  if fr_dict_valid_name name < 0 then some (-1, d.heap)
  else
    let heap := match vendor_da with
      | some v => d.heap.set v fr_dict_attr_t.zero
      | none => d.heap
    let heap := match da with
      | some a => heap.set a fr_dict_attr_t.zero
      | none => heap
    let p := name.data
    -- pull off the vendor prefix first
    let prefixed : Option (Option (Nat × Nat × List Char)) :=
      if ¬ strncasecmp_eq p "Attr-" then
        let named : Option (Nat × List Char) :=
          if strncasecmp_eq p "Vendor-" then
            let r := strtoul E (p.drop 7)
            if r.1 = 0 ∨ r.1 ≥ UINT_MAX then none else some (r.1 % 2 ^ 32, r.2)
          else
            if ¬ p.contains '-' then none
            else
              let buffer := p.takeWhile (fun c => c != '-')
              if buffer.length ≥ 256 then none
              else
                let vendor := fr_dict_vendor_by_name d (String.mk buffer)
                if vendor = 0 then none else some (vendor, p.dropWhile (fun c => c != '-'))
        match named with
        | none => some none
        | some (vendor, q) =>
          match heap[parent]? with
          | none => none
          | some pa =>
            if ¬ pa.flags.is_root then some none
            else
              match fr_dict_attr_child_by_num heap pa PW_VENDOR_SPECIFIC with
              | none => some none
              | some child => if q.head? ≠ some '-' then some none else some (some (vendor, child, q.tail))
      else some (some (0, parent, p))
    match prefixed with
    | none => none
    | some none => some (-1, heap)
    | some (some (vendor, parent, p)) =>
      if ¬ strncasecmp_eq p "Attr-" then some (-1, heap)
      else
        let r := strtoul E (p.drop 5)
        if r.1 = 0 ∨ r.1 ≥ UINT_MAX then some (-1, heap)
        else
          let attr := r.1 % 2 ^ 32
          let p := r.2
          if (vendor ≠ 0 ∧ p ≠ []) ∨ (vendor = 0 ∧ p ≠ [] ∧ p.head? ≠ some '.') then some (-1, heap)
          else
            -- the vendor portion of an OID
            let dotted : Option (Option (Nat × Nat × Nat × List Char)) :=
              if p.head? = some '.' then
                match heap[parent]? with
                | none => none
                | some pa =>
                  match fr_dict_attr_child_by_num heap pa attr with
                  | none => some none
                  | some child =>
                    match heap[child]? with
                    | none => none
                    | some ch =>
                      if ¬ ch.type.is_structural then some none
                      else if ch.type = .VSA ∨ ch.type = .EVS then
                        let r := strtoul E (p.drop 1)
                        if r.1 = 0 ∨ r.1 ≥ UINT_MAX then some none
                        else if r.2.head? ≠ some '.' then some none
                        else some (some (r.1 % 2 ^ 32, 0, child, r.2))
                      else some (some (vendor, attr, child, p))
              else some (some (vendor, attr, parent, p))
            match dotted with
            | none => none
            | some none => some (-1, heap)
            | some (some (vendor, attr, parent, p)) =>
              let resolved : Option (Option (Nat × Heap)) :=
                if vendor ≠ 0 then
                  match fr_dict_vendor_by_num d vendor with
                  | some _ =>
                    match heap[parent]? with
                    | none => none
                    | some pa =>
                      if pa.type ≠ .VSA ∧ pa.type ≠ .EVS then some none
                      else
                        match fr_dict_attr_child_by_num heap pa vendor with
                        | none => some none
                        | some child => some (some (child, heap))
                  | none =>
                    match vendor_da with
                    | some v =>
                      match heap[parent]? with
                      | none => none
                      | some pa =>
                        let flags : fr_dict_attr_flags_t := { is_unknown := true, type_size := 1, length := 1 }
                        let text := ("Vendor-".data ++ format_u vendor).take (E.FR_DICT_ATTR_MAX_NAME_LEN - 1)
                        let rec0 : fr_dict_attr_t :=
                          { fr_dict_attr_t.zero with attr := vendor, type := .VENDOR, parent := some parent,
                                                     depth := pa.depth + 1, flags := flags,
                                                     name := String.mk text }
                        some (some (v, heap.set v rec0))
                    | none => some none
                else some (some (parent, heap))
              match resolved with
              | none => none
              | some none => some (-1, heap)
              | some (some (parent, heap)) =>
                let walked : Option (Option (Nat × Nat × Nat)) :=
                  if p.head? = some '.' then
                    match fr_dict_attr_by_oid E { d with heap := heap } (p.length + 1) parent vendor (p.drop 1) with
                    | none => none
                    | some (slen, pr, v, a) => if slen < 0 then some none else some (some (pr, v, a))
                  else some (some (parent, vendor, attr))
                match walked with
                | none => none
                | some none => some (-1, heap)
                | some (some (parent, vendor, attr)) =>
                  match da with
                  | none => some (-1, heap)
                  | some a => fr_dict_unknown_from_fields E heap stack a parent vendor attr

/-! ## Names of unknown attributes, as the specification words them -/

/-- A number `fr_dict_unknown_from_oid` takes for an attribute or a vendor: not
0, below `UINT_MAX` and below `ULONG_MAX`. -/
def unknown_number_ok (E : Env) (a : Nat) : Bool := decide (1 ≤ a) && decide (a < UINT_MAX) && decide (a < E.ULONG_MAX)

/-- The numbers `nums` lead from the attribute `r` through known attributes to
a parent under which the number `n` names an unknown attribute, the way
`fr_dict_unknown_from_oid` reads the name `Attr-` followed by the numbers and
`n`: with no number, `r` is the parent and the vendor is 0; else the first
number is a structural child of `r`; when that child is of type VSA or EVS
the second number is a registered vendor with an attribute under it, and the
rest resolves from there with this vendor; otherwise the rest resolves from
the child with vendor 0 (`oid_resolves`). The result is the parent and the
vendor. -/
def unknown_name_resolves (E : Env) (d : fr_dict) (r : Nat) (nums : List Nat) (n : Nat) : Option (Nat × Nat) :=
  match nums with
  | [] => if unknown_number_ok E n then some (r, 0) else none
  | a1 :: rest =>
    if ¬ unknown_number_ok E a1 then none
    else
      match d.heap[r]? with
      | none => none
      | some ra =>
        match fr_dict_attr_child_by_num d.heap ra a1 with
        | none => none
        | some c1 =>
          match d.heap[c1]? with
          | none => none
          | some ch =>
            if ¬ ch.type.is_structural then none
            else if ch.type = .VSA ∨ ch.type = .EVS then
              match rest with
              | [] => none
              | v :: rest2 =>
                if ¬ unknown_number_ok E v then none
                else if (fr_dict_vendor_by_num d v).isNone then none
                else
                  match fr_dict_attr_child_by_num d.heap ch v with
                  | none => none
                  | some c2 => (oid_resolves E d v c2 rest2 n).map (fun pf => (pf, v))
            else (oid_resolves E d 0 c1 rest n).map (fun pf => (pf, 0))

/-- The dictionary with one more zero-filled struct at the end of its heap:
the storage a caller passes for an unknown attribute. -/
def slot_dict (d : fr_dict) : fr_dict := { d with heap := d.heap ++ [fr_dict_attr_t.zero] }

/-- The struct `fr_dict_unknown_from_fields` fills in: an attribute of type
octets flagged `is_unknown` and `is_pointer`, with the number, the vendor, the
parent, the depth and the name given, all other fields zero. -/
def unknown_attr (parent vendor attr depth : Nat) (name : String) : fr_dict_attr_t :=
  { vendor := vendor, attr := attr, type := .OCTETS, parent := some parent, children := none, depth := depth,
    flags := { is_unknown := true, is_pointer := true }, name := name }

/-! ## Unescaping strings (`value.c`) -/

/-- The table `hextab` with the NUL that ends it: `sizeof(hextab)` is 17. -/
def hextab : List Nat := ("0123456789abcdef".data.map Char.toNat) ++ [0]

/-- The C function `tolower` on a byte, in the C locale. -/
def tolower (c : Nat) : Nat := if 65 ≤ c ∧ c ≤ 90 then c + 32 else c

/-- The call `memchr(hextab, tolower(c), sizeof(hextab))` as the offset of the
byte found; `none` for `NULL`. -/
def hextab_find (c : Nat) : Option Nat :=
  if hextab.indexOf (tolower c % 256) < hextab.length then some (hextab.indexOf (tolower c % 256)) else none

/-- The call `sscanf(p, "%3o", &x)` where `p[0]`, `p[1]`, `p[2]` are the decimal
digits `a`, `b`, `c`: the value read when the call returns 1, `none` when the
first digit is not octal. -/
def sscanf_3o (a b c : Nat) : Option Nat :=
  if a ≥ 56 then none
  else if b ≥ 56 then some (a - 48)
  else if c ≥ 56 then some ((a - 48) * 8 + (b - 48))
  else some (((a - 48) * 8 + (b - 48)) * 8 + (c - 48))

/-- The loop of `fr_value_str_unescape` for the quote character `'`. The
memory at `in` is the function `inp`, `p` is the offset of the read pointer
and `out` the bytes written so far; `none` when the fuel runs out before the
loop ends. -/
def unescape_single (inp : Nat → Nat) (inlen quote : Nat) : Nat → Nat → List Nat → Option (List Nat)
  | 0, p, out => if p < inlen then none else some out
  | fuel + 1, p, out =>
    if p < inlen then
      if inp p = 92 ∧ inp (p + 1) = quote then unescape_single inp inlen quote fuel (p + 2) (out ++ [quote])
      else if inp p = 92 ∧ inp (p + 1) = 92 then unescape_single inp inlen quote fuel (p + 2) (out ++ [92])
      else unescape_single inp inlen quote fuel (p + 1) (out ++ [inp p])
    else some out

/-- The statement `switch (*p)` of `fr_value_str_unescape`, run behind a
backslash with `p` on the character after it: the new `p` and the new `c`,
`none` for the jump to `invalid_escape`. When no escape sequence is
recognised, `p` stays and `c` is the backslash. -/
def unescape_switch (inp : Nat → Nat) (inlen quote p : Nat) : Option (Nat × Nat) :=
  if inp p = 114 then some (p + 1, 13)
  else if inp p = 110 then some (p + 1, 10)
  else if inp p = 116 then some (p + 1, 9)
  else if inp p = 92 then some (p + 1, 92)
  else if inp p = quote then some (p + 1, quote)
  else if p + 2 ≥ inlen then none
  else
    let hex : Option Nat :=
      if inp p = 120 then
        match hextab_find (inp (p + 1)), hextab_find (inp (p + 2)) with
        | some h0, some h1 => some ((h0 * 16 + h1) % 256)
        | _, _ => none
      else none
    let c1 := match hex with
      | some v => v
      | none => 92
    let p1 := match hex with
      | some _ => p + 3
      | none => p
    let oct : Option Nat :=
      if 48 ≤ inp p1 ∧ inp p1 ≤ 57 ∧ 48 ≤ inp (p1 + 1) ∧ inp (p1 + 1) ≤ 57 ∧
          48 ≤ inp (p1 + 2) ∧ inp (p1 + 2) ≤ 57 then
        sscanf_3o (inp p1) (inp (p1 + 1)) (inp (p1 + 2))
      else none
    match oct with
    | some x => some (p1 + 3, x % 256)
    | none => some (p1, c1)

/-- The loop of `fr_value_str_unescape` for the other quote characters, with
the label `invalid_escape`, which copies the rest of the input as it is. -/
def unescape_expanded (inp : Nat → Nat) (inlen quote : Nat) : Nat → Nat → List Nat → Option (List Nat)
  | 0, p, out => if p < inlen then none else some out
  | fuel + 1, p0, out =>
    if p0 < inlen then
      let c := inp p0
      let p := p0 + 1
      if c = 92 ∧ p ≥ inlen then some (out ++ [c] ++ (List.range (inlen - p)).map (fun i => inp (p + i)))
      else if c = 92 then
        match unescape_switch inp inlen quote p with
        | none => some (out ++ [c] ++ (List.range (inlen - p)).map (fun i => inp (p + i)))
        | some (p1, c1) => unescape_expanded inp inlen quote fuel p1 (out ++ [c1])
      else unescape_expanded inp inlen quote fuel p (out ++ [c])
    else some out

/-- The function `fr_value_str_unescape`. The memory at `in` is the function
`inp` (the code reads `p[1]` and, behind an escape, `p[0..2]` without a look
at `inlen`); the result is the list of the bytes written at `out`, one after
the other from `out[0]` on, whose length is the value returned. -/
def fr_value_str_unescape (inp : Nat → Nat) (inlen quote : Nat) : Option (List Nat) :=
  if quote = 0 then some ((List.range inlen).map inp)
  else if quote = 39 then unescape_single inp inlen quote inlen 0 []
  else unescape_expanded inp inlen quote inlen 0 []

/-! ## A pair with a value of distinct bytes -/

/-- The encoder state at the start of a call: zeroed memory, the cursor on the
only pair, which carries the `n` bytes 1, 2, ..., 251, 1, 2, ... for the
attribute at heap address `da`. -/
def ramp_state (da n : Nat) : Enc :=
  { mem := Mem.init (fun _ => 0),
    cursor := { vps := [{ da := da, vp_length := n,
                          data := { ptr := some ((List.range n).map (fun i => i % 251 + 1)) } }], pos := 0 },
    tlv_stack := [], g := { salt_offset := 0, rand_calls := 0 } }

/-! ## A dictionary with a struct -/

/-- A dictionary with the Extended attribute 241, the struct 1 under it and the
members 1 (integer), 2 (short) and 3 (byte) of the struct, built by
`fr_dict_attr_add`; the members are at the heap addresses 3, 4 and 5. -/
def struct_dict : fr_dict :=
  let d := fr_dict_init_root "radius"
  let d := (fr_dict_attr_add sample_env d 0 "Extended-Attribute-1" 241 .EXTENDED {}).2
  let d := (fr_dict_attr_add sample_env d 1 "Ext-Struct" 1 .STRUCT {}).2
  let d := (fr_dict_attr_add sample_env d 2 "Member-A" 1 .INTEGER {}).2
  let d := (fr_dict_attr_add sample_env d 2 "Member-B" 2 .SHORT {}).2
  (fr_dict_attr_add sample_env d 2 "Member-C" 3 .BYTE {}).2

/-- A pair of a byte, short or integer attribute at heap address `da` with the
value `v`, of `n` bytes. -/
def scalar_pair (da n v : Nat) : VALUE_PAIR := { da := da, vp_length := n, data := { scalar := v } }

/-! ## A dictionary with User-Password -/

/-- A dictionary with the root attribute User-Password (2), a string with
`encrypt=1`, built by `fr_dict_attr_add`. -/
def password_dict : fr_dict :=
  (fr_dict_attr_add sample_env (fr_dict_init_root "radius") 0 "User-Password" 2 .STRING { encrypt := 1 }).2

/-! ## Fixed-width values, as the specification words them -/

/-- The width in bytes of the fixed-width types of the claim on truncation:
Byte 1, Short 2, Integer, Date and Signed 4, Integer64 8. -/
def fixed_width : PW_TYPE → Option Nat
  | .BYTE => some 1
  | .SHORT => some 2
  | .INTEGER | .DATE | .SIGNED => some 4
  | .INTEGER64 => some 8
  | _ => none

/-- A dictionary with the root attribute NAS-Port (5), an integer, built by
`fr_dict_attr_add`. -/
def nas_port_dict : fr_dict :=
  (fr_dict_attr_add sample_env (fr_dict_init_root "radius") 0 "NAS-Port" 5 .INTEGER {}).2

/-! ## A Tunnel-Password attribute without a tag -/

/-- A dictionary with the root attribute 70, a string with `encrypt=2` and
without `has_tag`, built by `fr_dict_attr_add`. -/
def untagged_tunnel_dict : fr_dict :=
  (fr_dict_attr_add sample_env (fr_dict_init_root "radius") 0 "Tunnel-Secret" 70 .STRING { encrypt := 2 }).2

/-! ## Comparing values (`value.c`) -/

/-- Modelled from the spec: the comparison operators of the enum `FR_TOKEN`
(declared in a header outside `src/`), under the names the source uses;
`T_OTHER` stands for every other token. -/
inductive FR_TOKEN
  | T_OP_CMP_EQ | T_OP_NE | T_OP_LT | T_OP_GT | T_OP_LE | T_OP_GE | T_OTHER
  deriving DecidableEq, Repr

/-- The sign of `memcmp(a, b, n)`: -1, 0 or 1 (the callers read the sign
only). -/
def memcmp (a b : List Nat) : Nat → Int
  | 0 => 0
  | n + 1 =>
    if a.headD 0 % 256 < b.headD 0 % 256 then -1
    else if a.headD 0 % 256 > b.headD 0 % 256 then 1
    else memcmp a.tail b.tail n

/-- The macro `CHECK` of `value_data_cmp` on two members read as numbers. -/
def CHECK (a b : Int) : Int := if a < b then -1 else if a > b then 1 else 0

/-- The function `value_data_cmp`. The arrays of the union have the sizes of
`dict_attr_sizes`: `ether` 6, `ipv6prefix` 18, `ipv4prefix` 6, `ifid` 8 bytes.
The result is `none` for a `NULL` pointer given to `memcmp` and for the type
`decimal`, whose members are floating-point numbers. Modelled from the spec:
the case list `PW_TYPE_BAD` (a macro declared in a header outside `src/`) is
taken to be the types `invalid` and `max`. -/
def value_data_cmp (a_type : PW_TYPE) (a : value_data_t) (b_type : PW_TYPE) (b : value_data_t) : Option Int :=
  if a_type ≠ b_type then some (-2)
  else
    let compare : Option Int :=
      match a_type with
      | .ABINARY | .OCTETS | .STRING =>
        let length := if a.length < b.length then a.length else b.length
        if length ≠ 0 then
          match a.ptr, b.ptr with
          | some x, some y =>
            if memcmp x y length ≠ 0 then some (memcmp x y length)
            else some (to_int (size_sub a.length b.length))
          | _, _ => none
        else some (to_int (size_sub a.length b.length))
      | .BOOLEAN | .BYTE => some (CHECK ((a.scalar % 256 : Nat) : Int) ((b.scalar % 256 : Nat) : Int))
      | .SHORT => some (CHECK ((a.scalar % 65536 : Nat) : Int) ((b.scalar % 65536 : Nat) : Int))
      | .DATE | .INTEGER => some (CHECK ((a.scalar % 2 ^ 32 : Nat) : Int) ((b.scalar % 2 ^ 32 : Nat) : Int))
      | .SIGNED => some (CHECK (to_int a.scalar) (to_int b.scalar))
      | .INTEGER64 => some (CHECK ((a.scalar % 2 ^ 64 : Nat) : Int) ((b.scalar % 2 ^ 64 : Nat) : Int))
      | .DECIMAL => none
      | .ETHERNET => some (memcmp a.raw b.raw 6)
      | .IPV4_ADDR => some (memcmp a.raw b.raw 4)
      | .IPV6_ADDR => some (memcmp a.raw b.raw 16)
      | .IPV6_PREFIX => some (memcmp a.raw b.raw 18)
      | .IPV4_PREFIX => some (memcmp a.raw b.raw 6)
      | .IFID => some (memcmp a.raw b.raw 8)
      | .TIMEVAL | .COMBO_IP_ADDR | .COMBO_IP_PREFIX | .TLV | .STRUCT | .EXTENDED | .LONG_EXTENDED | .VSA
      | .EVS | .VENDOR | .INVALID | .MAX => some (-2)
    match compare, a_type with
    | none, _ => none
    | some c, .TIMEVAL | some c, .COMBO_IP_ADDR | some c, .COMBO_IP_PREFIX | some c, .TLV | some c, .STRUCT
    | some c, .EXTENDED | some c, .LONG_EXTENDED | some c, .VSA | some c, .EVS | some c, .VENDOR
    | some c, .INVALID | some c, .MAX => some c
    | some c, _ => if c > 0 then some 1 else if c < 0 then some (-1) else some 0

/-- The byte loop of `value_data_cidr_cmp_op`: `some r` when the loop returns
`r`, else the values of `i` and `common` it is left with. -/
def cidr_loop (bytes : Nat) (a b : List Nat) : Nat → Nat → Int → Option Bool × Nat × Int
  | 0, i, common => (none, i, common)
  | fuel + 1, i, common =>
    if i < bytes then
      if common = 0 then (some true, i, common)
      else if common < 8 then (none, i, common)
      else if a.getD i 0 % 256 ≠ b.getD i 0 % 256 then (some false, i, common)
      else cidr_loop bytes a b fuel (i + 1) (common - 8)
    else (none, i, common)

/-- The function `value_data_cidr_cmp_op`; `a` and `b` are the bytes at the
two pointers. The result is `none` when `mask <<= (8 - common)` shifts by a
negative count. -/
def value_data_cidr_cmp_op (op : FR_TOKEN) (bytes a_net : Nat) (a : List Nat) (b_net : Nat) (b : List Nat) :
    Option Bool :=
  if a_net % 256 = b_net % 256 then
    if memcmp a b bytes = 0 ∧ (op = .T_OP_CMP_EQ ∨ op = .T_OP_LE ∨ op = .T_OP_GE) then some true
    else some false
  else
    let early : Option Bool :=
      match op with
      | .T_OP_CMP_EQ => some false
      | .T_OP_NE => some true
      | .T_OP_LE | .T_OP_LT => if a_net % 256 < b_net % 256 then some false else none
      | .T_OP_GE | .T_OP_GT => if a_net % 256 > b_net % 256 then some false else none
      | .T_OTHER => some false
    match early with
    | some r => some r
    | none =>
      let common : Int := if a_net % 256 < b_net % 256 then ((a_net % 256 : Nat) : Int) else ((b_net % 256 : Nat) : Int)
      match cidr_loop bytes a b bytes 0 common with
      | (some r, _, _) => some r
      | (none, i, common) =>
        if common > 8 then none
        else
          let mask : Nat := 2 ^ 32 - 1 - (2 ^ (8 - common).toNat - 1)
          some (decide ((a.getD i 0 % 256) &&& mask = (b.getD i 0 % 256) &&& mask))

/-- The function `value_data_cmp_op` for pointers `a` and `b` that are not
`NULL`: 1 for true, 0 for false, -1 on failure; `none` where
`value_data_cmp` or `value_data_cidr_cmp_op` has none. -/
def value_data_cmp_op (op : FR_TOKEN) (a_type : PW_TYPE) (a : value_data_t) (b_type : PW_TYPE) (b : value_data_t) :
    Option Int :=
  let of_bool : Option Bool → Option Int := fun r => r.map (fun x => if x then 1 else 0)
  let cmp : Option Int :=
    match value_data_cmp a_type a b_type b with
    | none => none
    | some compare =>
      if compare < -1 then some (-1)
      else
        match op with
        | .T_OP_CMP_EQ => some (if compare = 0 then 1 else 0)
        | .T_OP_NE => some (if compare ≠ 0 then 1 else 0)
        | .T_OP_LT => some (if compare < 0 then 1 else 0)
        | .T_OP_GT => some (if compare > 0 then 1 else 0)
        | .T_OP_LE => some (if compare ≤ 0 then 1 else 0)
        | .T_OP_GE => some (if compare ≥ 0 then 1 else 0)
        | .T_OTHER => some 0
  match a_type with
  | .IPV4_ADDR =>
    match b_type with
    | .IPV4_ADDR => cmp
    | .IPV4_PREFIX => of_bool (value_data_cidr_cmp_op op 4 32 a.raw (b.raw.getD 1 0) (b.raw.drop 2))
    | _ => some (-1)
  | .IPV4_PREFIX =>
    match b_type with
    | .IPV4_ADDR => of_bool (value_data_cidr_cmp_op op 4 (a.raw.getD 1 0) (a.raw.drop 2) 32 b.raw)
    | .IPV4_PREFIX =>
      of_bool (value_data_cidr_cmp_op op 4 (a.raw.getD 1 0) (a.raw.drop 2) (b.raw.getD 1 0) (b.raw.drop 2))
    | _ => some (-1)
  | .IPV6_ADDR =>
    match b_type with
    | .IPV6_ADDR => cmp
    | .IPV6_PREFIX => of_bool (value_data_cidr_cmp_op op 16 128 a.raw (b.raw.getD 1 0) (b.raw.drop 2))
    | _ => some (-1)
  | .IPV6_PREFIX =>
    match b_type with
    | .IPV6_ADDR => of_bool (value_data_cidr_cmp_op op 16 (a.raw.getD 1 0) (a.raw.drop 2) 128 b.raw)
    | .IPV6_PREFIX =>
      of_bool (value_data_cidr_cmp_op op 16 (a.raw.getD 1 0) (a.raw.drop 2) (b.raw.getD 1 0) (b.raw.drop 2))
    | _ => some (-1)
  | _ => cmp

/-! ## Casting values (`value.c`) -/

/-- The table `dict_attr_sizes` (`dict.c`): the least and the greatest length
of a value of each type; `~0` is the greatest `size_t`, and the types the
initialiser does not name have 0 and 0. -/
def dict_attr_sizes : PW_TYPE → Nat × Nat
  | .INVALID => (SIZE_MOD - 1, 0)
  | .STRING => (0, SIZE_MOD - 1)
  | .INTEGER => (4, 4)
  | .IPV4_ADDR => (4, 4)
  | .DATE => (4, 4)
  | .ABINARY => (32, SIZE_MOD - 1)
  | .OCTETS => (0, SIZE_MOD - 1)
  | .IFID => (8, 8)
  | .IPV6_ADDR => (16, 16)
  | .IPV6_PREFIX => (2, 18)
  | .BYTE => (1, 1)
  | .SHORT => (2, 2)
  | .ETHERNET => (6, 6)
  | .SIGNED => (4, 4)
  | .COMBO_IP_ADDR => (4, 16)
  | .TLV => (2, SIZE_MOD - 1)
  | .EXTENDED => (2, SIZE_MOD - 1)
  | .LONG_EXTENDED => (3, SIZE_MOD - 1)
  | .EVS => (6, SIZE_MOD - 1)
  | .INTEGER64 => (8, 8)
  | .IPV4_PREFIX => (6, 6)
  | .VSA => (4, SIZE_MOD - 1)
  | .VENDOR => (0, 0)
  | .STRUCT => (1, SIZE_MOD - 1)
  | _ => (0, 0)

/-- The array `v4_v6_map` of `value_data_cast`: 10 bytes of 0x00 and 2 bytes
of 0xff. -/
def v4_v6_map : List Nat := [0, 0, 0, 0, 0, 0, 0, 0, 0, 0, 0xff, 0xff]

/-- The in-place bytes of `dst` after its first bytes have been overwritten
with `bytes` (by `memcpy` and byte stores that together cover them); the
bytes behind them stay. -/
def value_data_t.set_bytes (dst : value_data_t) (bytes : List Nat) : value_data_t :=
  { dst with raw := bytes ++ dst.raw.drop bytes.length }

/-- The label `fixed_length` of `value_data_cast`. -/
def cast_fixed_length (dst_type : PW_TYPE) (dst : value_data_t) : Option (Int × value_data_t) :=
  some (0, { dst with length := (dict_attr_sizes dst_type).1 })

/-- The block of `value_data_cast` that converts between IPv4 addresses, IPv6
addresses, IPv4 prefixes and IPv6 prefixes: `some r` when the block returns
or jumps to `fixed_length`, `none` when it falls through to the code behind
it. Modelled from the spec: `fr_cond_assert` (defined outside `src/`) has the
value of its condition. -/
def cast_ip_block (dst : value_data_t) (dst_type src_type : PW_TYPE) (src : value_data_t) :
    Option (Option (Int × value_data_t)) :=
  match dst_type, src_type with
  | .IPV4_ADDR, .IPV6_ADDR =>
    if memcmp src.raw v4_v6_map 12 ≠ 0 then some (some (-1, dst))
    else some (cast_fixed_length dst_type (dst.set_bytes (read_bytes (src.raw.drop 12) 4)))
  | .IPV4_ADDR, .IPV4_PREFIX =>
    if src.raw.getD 1 0 % 256 ≠ 32 then some (some (-1, dst))
    else some (cast_fixed_length dst_type (dst.set_bytes (read_bytes (src.raw.drop 2) 4)))
  | .IPV4_ADDR, .IPV6_PREFIX =>
    if src.raw.getD 1 0 % 256 ≠ 128 then some (some (-1, dst))
    else if memcmp (src.raw.drop 2) v4_v6_map 12 ≠ 0 then some (some (-1, dst))
    else some (cast_fixed_length dst_type (dst.set_bytes (read_bytes (src.raw.drop 14) 4)))
  | .IPV6_ADDR, .IPV4_ADDR =>
    some (cast_fixed_length dst_type (dst.set_bytes (v4_v6_map ++ read_bytes src.raw 4)))
  | .IPV6_ADDR, .IPV4_PREFIX =>
    if src.raw.getD 1 0 % 256 ≠ 32 then some (some (-1, dst))
    else some (cast_fixed_length dst_type (dst.set_bytes (v4_v6_map ++ read_bytes (src.raw.drop 2) 4)))
  | .IPV6_ADDR, .IPV6_PREFIX =>
    if src.raw.getD 1 0 % 256 ≠ 128 then some (some (-1, dst))
    else some (cast_fixed_length dst_type (dst.set_bytes (read_bytes (src.raw.drop 2) 16)))
  | .IPV4_PREFIX, .IPV4_ADDR =>
    some (cast_fixed_length dst_type (dst.set_bytes ([0, 32] ++ read_bytes src.raw 4)))
  | .IPV4_PREFIX, .IPV6_ADDR =>
    if memcmp src.raw v4_v6_map 12 ≠ 0 then some (some (-1, dst))
    else some (cast_fixed_length dst_type (dst.set_bytes ([0, 32] ++ read_bytes (src.raw.drop 12) 4)))
  | .IPV4_PREFIX, .IPV6_PREFIX =>
    if memcmp (src.raw.drop 2) v4_v6_map 12 ≠ 0 then some (some (-1, dst))
    else if ¬ (src.raw.getD 1 0 % 256 ≥ 96) then some (some (-1, dst))
    else
      some (cast_fixed_length dst_type
        (dst.set_bytes ([0, (src.raw.getD 1 0 % 256 - 96) % 256] ++ read_bytes (src.raw.drop 14) 4)))
  | .IPV6_PREFIX, .IPV4_ADDR =>
    some (cast_fixed_length dst_type (dst.set_bytes ([0, 128] ++ v4_v6_map ++ read_bytes src.raw 4)))
  | .IPV6_PREFIX, .IPV4_PREFIX =>
    some (cast_fixed_length dst_type
      (dst.set_bytes ([0, (96 + src.raw.getD 1 0 % 256) % 256] ++ v4_v6_map ++ read_bytes (src.raw.drop 2) 4)))
  | .IPV6_PREFIX, .IPV6_ADDR =>
    some (cast_fixed_length dst_type (dst.set_bytes ([0, 128] ++ read_bytes src.raw 16)))
  | _, _ => none

/-- The function `value_data_cast`: the value returned and the content of
`*dst`. The result is `none` on the paths that leave the model: a string
source (`value_data_from_str`), a destination of type octets or string
(`talloc_memdup`, `value_data_asprint`), an octets source (`value_data_hton`),
the cast from integer64 to signed (it reads the member `integer` of a union
that holds an `integer64`), and the code behind the size check at the end
(`memcpy(&dst, &src, src->length)`). -/
def value_data_cast (dst : value_data_t) (dst_type src_type : PW_TYPE) (src : value_data_t) :
    Option (Int × value_data_t) :=
  if ¬ (dst_type ≠ src_type) then some (-1, dst)
  else if src_type = .STRING then none
  else if dst_type = .OCTETS then none
  else if dst_type = .STRING then none
  else if src_type = .IFID ∧ dst_type = .INTEGER64 then
    cast_fixed_length dst_type
      { dst with scalar := (read_bytes src.raw 8).foldl (fun acc b => acc * 256 + b % 256) 0 }
  else if src_type = .INTEGER64 ∧ dst_type = .ETHERNET then
    if (htonll_bytes (src.scalar % 2 ^ 64)).getD 0 0 ≠ 0 ∨ (htonll_bytes (src.scalar % 2 ^ 64)).getD 1 0 ≠ 0 then
      some (-1, dst)
    else cast_fixed_length dst_type (dst.set_bytes ((htonll_bytes (src.scalar % 2 ^ 64)).drop 2))
  else if dst_type = .INTEGER64 then
    match src_type with
    | .BYTE => cast_fixed_length dst_type { dst with scalar := src.scalar % 256 }
    | .SHORT => cast_fixed_length dst_type { dst with scalar := src.scalar % 65536 }
    | .INTEGER | .DATE => cast_fixed_length dst_type { dst with scalar := src.scalar % 2 ^ 32 }
    | .OCTETS => none
    | _ => some (-1, dst)
  else if dst_type = .INTEGER then
    match src_type with
    | .BYTE => cast_fixed_length dst_type { dst with scalar := src.scalar % 256 }
    | .SHORT => cast_fixed_length dst_type { dst with scalar := src.scalar % 65536 }
    | .OCTETS => none
    | _ => some (-1, dst)
  else if dst_type = .SHORT then
    match src_type with
    | .BYTE => cast_fixed_length dst_type { dst with scalar := src.scalar % 256 }
    | .OCTETS => none
    | _ => some (-1, dst)
  else if dst_type = .SIGNED then
    match src_type with
    | .BYTE => cast_fixed_length dst_type { dst with scalar := src.scalar % 256 }
    | .SHORT => cast_fixed_length dst_type { dst with scalar := src.scalar % 65536 }
    | .INTEGER =>
      if src.scalar % 2 ^ 32 > 2 ^ 31 - 1 then some (-1, dst)
      else cast_fixed_length dst_type { dst with scalar := src.scalar % 2 ^ 32 }
    | .INTEGER64 => none
    | .OCTETS => none
    | _ => some (-1, dst)
  else
    match cast_ip_block dst dst_type src_type src with
    | some r => r
    | none =>
      if src.length < (dict_attr_sizes dst_type).1 ∨ src.length > (dict_attr_sizes dst_type).2 then some (-1, dst)
      else none

/-! ## Theorems -/

/-! ### Memory lemmas -/

theorem Mem.write_byte (m : Mem) (i v j : Nat) :
    (m.write i v).byte j = if j = i then v % 256 else m.byte j := rfl

theorem Mem.read_length (m : Mem) (off n : Nat) : (m.read off n).length = n := by
  simp [Mem.read]

theorem Mem.read_congr (m1 m2 : Mem) (off n : Nat)
    (h : ∀ i, i < n → m1.byte (off + i) = m2.byte (off + i)) : m1.read off n = m2.read off n := by
  unfold Mem.read
  apply List.map_congr_left
  intro i hi
  exact h i (List.mem_range.mp hi)

theorem Mem.read_add (m : Mem) (off a b : Nat) :
    m.read off (a + b) = m.read off a ++ m.read (off + a) b := by
  simp [Mem.read, List.range_add, List.map_append, List.map_map, Function.comp_def, Nat.add_assoc]

theorem Mem.read_getElem (m : Mem) (off n i : Nat) (h : i < (m.read off n).length) :
    (m.read off n)[i] = m.byte (off + i) := by
  simp [Mem.read]

theorem Mem.read_getD (m : Mem) (off n i : Nat) (h : i < n) :
    (m.read off n).getD i 0 = m.byte (off + i) := by
  have h2 : i < (m.read off n).length := by rw [Mem.read_length]; exact h
  rw [List.getD_eq_getElem?_getD, List.getElem?_eq_getElem h2, Mem.read_getElem]; rfl

theorem Mem.store_byte (data : List Nat) (m : Mem) (off j : Nat) :
    (m.store off data).byte j =
      if off ≤ j ∧ j < off + data.length then data.getD (j - off) 0 % 256 else m.byte j := rfl

theorem Mem.xor_loop_byte (off : Nat) (d : List Nat) : ∀ (k : Nat) (m : Mem) (i j : Nat),
    (m.xor_loop off d k i).byte j =
      if i + off ≤ j ∧ j < i + off + k then Nat.xor (m.byte j) (d.getD (j - off) 0) % 256 else m.byte j := by
  intro k
  induction k with
  | zero =>
    intro m i j
    have h : ¬ (i + off ≤ j ∧ j < i + off + 0) := by omega
    rw [if_neg h]; rfl
  | succ k ih =>
    intro m i j
    simp only [Mem.xor_loop, ih, Mem.write_byte]
    by_cases h1 : j = i + off
    · subst h1
      have h2 : ¬ (i + 1 + off ≤ i + off ∧ i + off < i + 1 + off + k) := by omega
      have h3 : i + off ≤ i + off ∧ i + off < i + off + (k + 1) := by omega
      rw [if_neg h2, if_pos h3]
      simp
    · by_cases h2 : i + 1 + off ≤ j ∧ j < i + 1 + off + k
      · have h3 : i + off ≤ j ∧ j < i + off + (k + 1) := by omega
        rw [if_pos h2, if_pos h3, if_neg h1]
      · have h3 : ¬ (i + off ≤ j ∧ j < i + off + (k + 1)) := by omega
        rw [if_neg h2, if_neg h3, if_neg h1]

/-! ### Tunnel-Password salt -/

theorem salt0_value (c r : Nat) :
    ((0x80 ||| ((c &&& 0x0f) <<< 3)) ||| (r &&& 0x07)) % 256 = 128 + 8 * (c % 16) + r % 8 := by
  have h1 : c &&& 0x0f = c % 16 := Nat.and_pow_two_sub_one_eq_mod c 4
  have h2 : r &&& 0x07 = r % 8 := Nat.and_pow_two_sub_one_eq_mod r 3
  rw [h1, h2]
  have hc : c % 16 < 16 := Nat.mod_lt _ (by decide)
  have hr : r % 8 < 8 := Nat.mod_lt _ (by decide)
  generalize c % 16 = a at hc
  generalize r % 8 = b at hr
  interval_cases a <;> interval_cases b <;> rfl

theorem tunnel_loop_byte_lt (E : Env) (secret vector : List Nat) (out freespace : Nat) :
    ∀ (k n : Nat) (m : Mem) (j : Nat), j < out + 2 →
      (tunnel_loop E secret vector out freespace k n m).byte j = m.byte j := by
  intro k
  induction k with
  | zero => intro n m j _; rfl
  | succ k ih =>
    intro n m j hj
    simp only [tunnel_loop]
    rw [ih _ _ _ hj, Mem.xor_loop_byte, if_neg]
    omega

theorem tunnel_loop_inplace_byte_lt (E : Env) (secret vector : List Nat) :
    ∀ (k n : Nat) (m : Mem) (j : Nat), j < 2 →
      (tunnel_loop_inplace E secret vector k n m).byte j = m.byte j := by
  intro k
  induction k with
  | zero => intro n m j _; rfl
  | succ k ih =>
    intro n m j hj
    simp only [tunnel_loop_inplace]
    rw [ih _ _ _ hj, Mem.xor_loop_byte]
    have h : ¬ (0 + (2 + n) ≤ j ∧ j < 0 + (2 + n) + AUTH_PASS_LEN) := by omega
    rw [if_neg h]

theorem pad_loop_byte_lt : ∀ (n len : Nat) (m : Mem) (j : Nat), j < 2 →
    (pad_loop n len m).1.byte j = m.byte j := by
  intro n
  induction n with
  | zero => intro len m j _; rfl
  | succ n ih =>
    intro len m j hj
    simp only [pad_loop]
    rw [ih _ _ _ hj, Mem.write_byte]
    have h : ¬ (j = 2 + len) := by omega
    rw [if_neg h]

theorem make_salt_fst (E : Env) (g : Globals) :
    (make_salt E g).1 = 128 + 8 * (g.salt_offset % 16) + (E.rand g.rand_calls % 2 ^ 32) % 8 := by
  simp only [make_salt, fr_rand]
  exact salt0_value _ _

theorem make_salt_offset (E : Env) (g : Globals) :
    (make_salt E g).2.2.salt_offset = (g.salt_offset + 1) % 2 ^ 32 := rfl

theorem make_salt_lt (E : Env) (g : Globals) : (make_salt E g).1 < 256 ∧ (make_salt E g).2.1 < 256 :=
  ⟨Nat.mod_lt _ (by decide), Nat.mod_lt _ (by decide)⟩

theorem pad_choice_byte_lt (c : Prop) [Decidable c] (a b len : Nat) (m : Mem) (j : Nat) (hj : j < 2) :
    (if c then pad_loop a b m else (m, len)).1.byte j = m.byte j := by
  split
  · exact pad_loop_byte_lt _ _ _ _ hj
  · rfl

theorem Mem.read_two (m : Mem) (off : Nat) : m.read off 2 = [m.byte off, m.byte (off + 1)] := rfl

theorem tunnel_call_run_salt (E : Env) (g : Globals) (c : tunnel_call) :
    (c.run E g).1 = [(make_salt E g).1, (make_salt E g).2.1] ∧ (c.run E g).2 = (make_salt E g).2.2 := by
  have hs := make_salt_lt E g
  cases c with
  | internal m out input inlen freespace secret vector =>
    refine ⟨?_, rfl⟩
    simp only [tunnel_call.run, encode_tunnel_password, Mem.read_two]
    rw [tunnel_loop_byte_lt _ _ _ _ _ _ _ _ _ (by omega), tunnel_loop_byte_lt _ _ _ _ _ _ _ _ _ (by omega)]
    simp [Mem.write_byte, Nat.mod_eq_of_lt hs.1, Nat.mod_eq_of_lt hs.2]
  | api m pwlen secret vector =>
    refine ⟨?_, rfl⟩
    simp only [tunnel_call.run, fr_radius_encode_tunnel_password, Mem.read_two]
    have h2 : ∀ (x : Nat), ¬ (0 = 2 + x * AUTH_PASS_LEN) := by intro x; omega
    have h3 : ∀ (x : Nat), ¬ (0 + 1 = 2 + x * AUTH_PASS_LEN) := by intro x; omega
    rw [Mem.write_byte, Mem.write_byte, if_neg (h2 _), if_neg (h3 _),
      tunnel_loop_inplace_byte_lt _ _ _ _ _ _ _ (by omega), tunnel_loop_inplace_byte_lt _ _ _ _ _ _ _ (by omega),
      pad_choice_byte_lt _ _ _ _ _ _ (by omega), pad_choice_byte_lt _ _ _ _ _ _ (by omega)]
    simp [Mem.write_byte, Nat.mod_eq_of_lt hs.1, Nat.mod_eq_of_lt hs.2]

/-- C7: two successive calls of the Tunnel-Password encoders (either function,
any arguments, any results of the random source) write different 2-byte
salts. -/
theorem tunnel_password_salts_differ (E : Env) (g : Globals) (c1 c2 : tunnel_call) :
    (c1.run E g).1 ≠ (c2.run E (c1.run E g).2).1 := by
  rw [(tunnel_call_run_salt E g c1).1, (tunnel_call_run_salt E g c1).2,
    (tunnel_call_run_salt E _ c2).1]
  intro h
  have h0 := (List.cons.inj h).1
  rw [make_salt_fst, make_salt_fst, make_salt_offset] at h0
  have e : (2 : Nat) ^ 32 = 4294967296 := by norm_num
  rw [e] at h0
  omega

/-! ### User-Password output length -/

theorem encode_password_len (E : Env) (input : List Nat) (n : Nat) (secret vector : List Nat) :
    (encode_password E input n secret vector).2 =
      if n = 0 then 16 else (min n 128 + 15) / 16 * 16 := by
  simp only [encode_password, MAX_PASS_LEN, AUTH_PASS_LEN]
  have h : ∀ x : Nat, x &&& 0x0f = x % 16 := fun x => Nat.and_pow_two_sub_one_eq_mod x 4
  simp only [h, Nat.min_def]
  split_ifs <;> first | omega | contradiction

theorem fr_radius_encode_password_len (E : Env) (m : Mem) (n : Nat) (secret vector : List Nat) :
    (fr_radius_encode_password E m n secret vector).2 =
      if n = 0 then 16 else (min n 128 + 15) / 16 * 16 := by
  simp only [fr_radius_encode_password, password_pad, AUTH_PASS_LEN, Nat.min_def]
  split_ifs <;> simp only [] <;> first | omega | contradiction

/-- C6: the length reported by `encode_password` and by
`fr_radius_encode_password` for an input of `n` bytes is 16 when `n = 0` and
otherwise the least multiple of 16 that is at least `min n 128` (32 for
`n = 17`); it is always a multiple of 16 between 16 and 128. -/
theorem password_output_length (E : Env) (m : Mem) (input : List Nat) (n : Nat) (secret vector : List Nat)
    (hn : n < 2 ^ 31) :
    (fr_radius_encode_password E m n secret vector).2 = (encode_password E input n secret vector).2 ∧
    (n = 0 → (encode_password E input n secret vector).2 = 16) ∧
    (0 < n → min n 128 ≤ (encode_password E input n secret vector).2 ∧
      (encode_password E input n secret vector).2 < min n 128 + 16) ∧
    (n = 17 → (encode_password E input n secret vector).2 = 32) ∧
    16 ∣ (encode_password E input n secret vector).2 ∧
    16 ≤ (encode_password E input n secret vector).2 ∧
    (encode_password E input n secret vector).2 ≤ 128 := by
  have _ := hn
  rw [encode_password_len, fr_radius_encode_password_len]
  simp only [Nat.min_def]
  refine ⟨trivial, ?_, ?_, ?_, ?_, ?_, ?_⟩
  · intro h; simp [h]
  · intro h; rw [if_neg (show ¬ n = 0 by omega)]; split_ifs <;> omega
  · intro h; subst h; rfl
  · split_ifs
    · exact ⟨1, rfl⟩
    · exact Dvd.intro_left _ rfl
    · exact Dvd.intro_left _ rfl
  · split_ifs <;> omega
  · split_ifs <;> omega

theorem password_output_length_witness :
    (17 : Nat) < 2 ^ 31 ∧
    (fr_radius_encode_password sample_env (Mem.init (fun _ => 65)) 17 [115] (List.replicate 16 7)).2 = 32 ∧
    (encode_password sample_env (List.replicate 17 65) 17 [115] (List.replicate 16 7)).2 = 32 := by
  have h := password_output_length sample_env (Mem.init (fun _ => 65)) (List.replicate 17 65) 17 [115]
    (List.replicate 16 7) (by norm_num)
  refine ⟨by norm_num, ?_, h.2.2.2.1 rfl⟩
  rw [h.1]
  exact h.2.2.2.1 rfl

/-! ### User-Password cipher -/

theorem digest_of_length (E : Env) (x : List Nat) : (digest_of E x).length = 16 := by
  simp [digest_of, AUTH_VECTOR_LEN]

theorem digest_of_getD_lt (E : Env) (x : List Nat) (i : Nat) : (digest_of E x).getD i 0 < 256 := by
  unfold digest_of
  rw [List.getD_eq_getElem?_getD]
  by_cases h : i < AUTH_VECTOR_LEN
  · rw [List.getElem?_eq_getElem (by simpa using h)]
    simp only [List.getElem_map, Option.getD_some]
    exact Nat.mod_lt _ (by decide)
  · rw [List.getElem?_eq_none (by simpa using h)]
    simp

theorem xor_loop_read (E : Env) (x : List Nat) (m : Mem) (off : Nat)
    (hm : ∀ i, i < 16 → m.byte (off + i) < 256) :
    (m.xor_loop off (digest_of E x) 16 0).read off 16 = xor_block (m.read off 16) (digest_of E x) := by
  apply List.ext_getElem
  · simp [xor_block, Mem.read_length, digest_of_length]
  · intro i h1 h2
    have hi : i < 16 := by simpa [Mem.read_length] using h1
    have hd : i < (digest_of E x).length := by rw [digest_of_length]; exact hi
    simp only [xor_block, List.getElem_zipWith, Mem.read_getElem, Mem.xor_loop_byte]
    have hc : 0 + off ≤ off + i ∧ off + i < 0 + off + 16 := by omega
    rw [if_pos hc]
    have e : off + i - off = i := by omega
    rw [e]
    have hg : (digest_of E x).getD i 0 = (digest_of E x)[i] := by
      rw [List.getD_eq_getElem?_getD, List.getElem?_eq_getElem hd]; rfl
    have hlt := digest_of_getD_lt E x i
    rw [hg] at hlt ⊢
    have hx : Nat.xor (m.byte (off + i)) ((digest_of E x)[i]) < 2 ^ 8 :=
      Nat.xor_lt_two_pow (hm i hi) hlt
    exact Nat.mod_eq_of_lt hx

theorem password_loop_byte_lt (E : Env) (secret vector : List Nat) (base : Nat) :
    ∀ (k n : Nat) (m : Mem) (j : Nat), j < base + n →
      (password_loop E secret vector base k n m).byte j = m.byte j := by
  intro k
  induction k with
  | zero => intro n m j _; rfl
  | succ k ih =>
    intro n m j hj
    simp only [password_loop]
    rw [ih _ _ _ (by omega), Mem.xor_loop_byte, if_neg]
    omega

theorem password_loop_read (E : Env) (secret vector : List Nat) (base : Nat) :
    ∀ (k n : Nat) (m : Mem), (n = 0 ∨ 16 ≤ n) →
      (∀ i, i < 16 * k → m.byte (base + n + i) < 256) →
      (password_loop E secret vector base k n m).read (base + n) (16 * k) =
        rfc2865_blocks E secret k
          (if n = 0 then read_bytes vector 16 else m.read (base + n - 16) 16)
          (m.read (base + n) (16 * k)) := by
  intro k
  induction k with
  | zero => intro n m _ _; rfl
  | succ k ih =>
    intro n m hn hb
    have e1 : 16 * (k + 1) = 16 + 16 * k := by ring
    simp only [password_loop, rfc2865_blocks, AUTH_PASS_LEN]
    rw [e1, Mem.read_add, Mem.read_add]
    have hlen : (m.read (base + n) 16).length = 16 := Mem.read_length _ _ _
    rw [List.take_left' hlen, List.drop_left' hlen]
    have hctx : (if n = 0 then secret ++ read_bytes vector 16 else secret ++ m.read (base + n - 16) 16) =
        secret ++ (if n = 0 then read_bytes vector 16 else m.read (base + n - 16) 16) := by
      split <;> rfl
    rw [hctx]
    generalize hprev : (if n = 0 then read_bytes vector 16 else m.read (base + n - 16) 16) = prev
    have hfirst : (password_loop E secret vector base k (n + 16)
        (m.xor_loop (base + n) (digest_of E (secret ++ prev)) 16 0)).read (base + n) 16 =
        xor_block (m.read (base + n) 16) (digest_of E (secret ++ prev)) := by
      rw [← xor_loop_read E _ m (base + n) (fun i hi => hb i (by omega))]
      apply Mem.read_congr
      intro i hi
      exact password_loop_byte_lt E secret vector base k (n + 16) _ _ (by omega)
    rw [hfirst]
    congr 1
    have hih := ih (n + 16) (m.xor_loop (base + n) (digest_of E (secret ++ prev)) 16 0) (Or.inr (by omega))
      (by
        intro i hi
        rw [Mem.xor_loop_byte, if_neg (by omega)]
        have := hb (16 + i) (by omega)
        have e : base + n + (16 + i) = base + (n + 16) + i := by ring
        rw [e] at this
        exact this)
    have e2 : base + (n + 16) = base + n + 16 := by ring
    have e3 : base + n + 16 - 16 = base + n := by omega
    rw [e2, if_neg (by omega), e3] at hih
    rw [hih, xor_loop_read E _ m (base + n) (fun i hi => hb i (by omega))]
    congr 1
    apply Mem.read_congr
    intro i hi
    rw [Mem.xor_loop_byte, if_neg (by omega)]

theorem read_bytes_self (v : List Nat) (n : Nat) (h : v.length = n) : read_bytes v n = v := by
  apply List.ext_getElem
  · simp [read_bytes, h]
  · intro i h1 h2
    simp only [read_bytes, List.getElem_map, List.getElem_range]
    rw [List.getD_eq_getElem?_getD, List.getElem?_eq_getElem h2]; rfl

theorem loop_count_mul (k : Nat) : loop_count (16 * k) 16 = k := by
  unfold loop_count; omega

theorem password_loop_cipher (E : Env) (secret vector : List Nat) (m : Mem) (P : List Nat) (k : Nat)
    (hk : P.length = 16 * k) (hP : m.read 0 P.length = P) (hb : ∀ x ∈ P, x < 256)
    (hv : vector.length = 16) :
    (password_loop E secret vector 0 (loop_count P.length AUTH_PASS_LEN) 0 m).read 0 P.length =
      rfc2865_blocks E secret (P.length / 16) vector P := by
  have hbyte : ∀ i, i < 16 * k → m.byte (0 + 0 + i) < 256 := by
    intro i hi
    have hi2 : i < P.length := by omega
    have h1 : m.byte (0 + i) = P.getD i 0 := by
      rw [← Mem.read_getD m 0 P.length i hi2, hP]
    have e : 0 + 0 + i = 0 + i := by omega
    rw [e, h1, List.getD_eq_getElem?_getD, List.getElem?_eq_getElem hi2]
    exact hb _ (List.getElem_mem _)
  have h := password_loop_read E secret vector 0 k 0 m (Or.inl rfl) hbyte
  have e1 : P.length / 16 = k := by omega
  rw [e1, hk, AUTH_PASS_LEN, loop_count_mul]
  rw [hk] at hP
  simpa [hP, read_bytes_self vector 16 hv] using h

theorem list_eq_of_getD (l1 l2 : List Nat) (hl : l1.length = l2.length)
    (h : ∀ i, i < l1.length → l1.getD i 0 = l2.getD i 0) : l1 = l2 := by
  apply List.ext_getElem hl
  intro i h1 h2
  have := h i h1
  rw [List.getD_eq_getElem?_getD, List.getD_eq_getElem?_getD, List.getElem?_eq_getElem h1,
    List.getElem?_eq_getElem h2] at this
  exact this

theorem rfc2865_pad_length (pw : List Nat) :
    (rfc2865_pad pw).length = if pw.length = 0 then 16 else (min pw.length 128 + 15) / 16 * 16 := by
  have hp : (pw.take 128).length = min pw.length 128 := by
    rw [List.length_take, Nat.min_comm]
  simp only [rfc2865_pad, hp]
  by_cases h0 : pw.length = 0
  · have h1 : min pw.length 128 = 0 := by rw [h0]; rfl
    rw [if_pos h1, if_pos h0, List.length_replicate]
  · have h1 : ¬ (min pw.length 128 = 0) := by
      intro h
      rcases Nat.min_eq_zero_iff.mp h with h | h <;> omega
    rw [if_neg h1, if_neg h0, List.length_append, List.length_replicate, hp]
    rw [Nat.min_def]; split_ifs <;> omega

theorem getD_replicate_zero (n i : Nat) : (List.replicate n 0).getD i 0 = 0 := by
  rw [List.getD_eq_getElem?_getD]
  by_cases h : i < n
  · rw [List.getElem?_eq_getElem (by simpa using h)]; simp
  · rw [List.getElem?_eq_none (by simpa using h)]; rfl

theorem rfc2865_pad_getD (pw : List Nat) (i : Nat) :
    (rfc2865_pad pw).getD i 0 = if i < min pw.length 128 then pw.getD i 0 else 0 := by
  simp only [rfc2865_pad]
  split_ifs with h1 h2 h2
  · exfalso; simp only [List.length_take] at h1; omega
  · exact getD_replicate_zero _ _
  · have h3 : i < (pw.take 128).length := by simp only [List.length_take]; omega
    rw [List.getD_append _ _ _ _ h3]
    simp only [List.getD_eq_getElem?_getD, List.getElem?_take]
    rw [if_pos (by omega)]
  · have h3 : (pw.take 128).length ≤ i := by simp only [List.length_take]; omega
    rw [List.getD_append_right _ _ _ _ h3]
    exact getD_replicate_zero _ _

theorem rfc2865_pad_lt (pw : List Nat) (hb : ∀ x ∈ pw, x < 256) : ∀ x ∈ rfc2865_pad pw, x < 256 := by
  intro x hx
  simp only [rfc2865_pad] at hx
  split_ifs at hx
  · rw [List.eq_of_mem_replicate hx]; decide
  · rcases List.mem_append.mp hx with h | h
    · exact hb x (List.mem_of_mem_take h)
    · rw [List.eq_of_mem_replicate h]; decide

theorem read_bytes_getD (data : List Nat) (n i : Nat) (h : i < n) :
    (read_bytes data n).getD i 0 = data.getD i 0 := by
  unfold read_bytes
  rw [List.getD_eq_getElem?_getD, List.getElem?_eq_getElem (by simpa using h)]
  simp

theorem read_eq_of_byte (m : Mem) (P : List Nat) (h : ∀ i, i < P.length → m.byte i = P.getD i 0) :
    m.read 0 P.length = P := by
  apply list_eq_of_getD _ _ (Mem.read_length _ _ _)
  intro i hi
  rw [Mem.read_length] at hi
  rw [Mem.read_getD _ _ _ _ hi, Nat.zero_add]
  exact h i hi

theorem getD_lt_256 (pw : List Nat) (hb : ∀ x ∈ pw, x < 256) (i : Nat) : pw.getD i 0 < 256 := by
  rw [List.getD_eq_getElem?_getD]
  by_cases h : i < pw.length
  · rw [List.getElem?_eq_getElem h]
    exact hb _ (List.getElem_mem _)
  · rw [List.getElem?_eq_none (by omega)]
    decide

theorem encode_password_cipher (E : Env) (secret vector pw : List Nat)
    (hv : vector.length = 16) (hb : ∀ x ∈ pw, x < 256) :
    (encode_password E pw pw.length secret vector).1 = rfc2865_cipher E secret vector pw := by
  have hlen : (encode_password E pw pw.length secret vector).2 = (rfc2865_pad pw).length := by
    rw [encode_password_len, rfc2865_pad_length]
  have hk : ∃ k, (rfc2865_pad pw).length = 16 * k := by
    rw [rfc2865_pad_length]
    split_ifs
    · exact ⟨1, rfl⟩
    · exact ⟨(min pw.length 128 + 15) / 16, Nat.mul_comm _ _⟩
  obtain ⟨k, hk⟩ := hk
  have h128 : (rfc2865_pad pw).length ≤ 128 := by
    rw [rfc2865_pad_length, Nat.min_def]; split_ifs <;> omega
  unfold rfc2865_cipher
  have hlen2 := hlen
  simp only [encode_password] at hlen2 ⊢
  rw [hlen2]
  apply password_loop_cipher E secret vector _ _ k hk _ (rfc2865_pad_lt pw hb) hv
  apply read_eq_of_byte
  intro i hi
  rw [rfc2865_pad_getD]
  have hgl := getD_lt_256 pw hb i
  simp only [MAX_PASS_LEN, Nat.min_def]
  split_ifs <;>
    simp only [Mem.memset, Mem.memcpy, Mem.store_byte, Mem.init, List.length_replicate, read_bytes,
      List.length_map, List.length_range, getD_replicate_zero] <;>
    (try rw [show (List.map (fun i => pw.getD i 0) (List.range pw.length)) = read_bytes pw pw.length from rfl]) <;>
    (try rw [show (List.map (fun i => pw.getD i 0) (List.range 128)) = read_bytes pw 128 from rfl]) <;>
    split_ifs <;>
    first
      | omega
      | rfl
      | (rw [Nat.sub_zero, read_bytes_getD _ _ _ (by omega)]; exact Nat.mod_eq_of_lt hgl)

theorem password_pad_byte (m : Mem) (len i : Nat) :
    (password_pad m len).1.byte i =
      if len ≤ i ∧ i < (password_pad m len).2 then 0 else m.byte i := by
  unfold password_pad
  by_cases h0 : len = 0
  · subst h0
    simp only [if_pos, Mem.memset, Mem.store_byte, List.length_replicate, getD_replicate_zero,
      Nat.zero_mod, AUTH_PASS_LEN]
  · simp only [if_neg h0]
    by_cases h1 : len % AUTH_PASS_LEN ≠ 0
    · simp only [if_pos h1]
      simp only [Mem.memset, Mem.store_byte, List.length_replicate, getD_replicate_zero, Nat.zero_mod]
    · simp only [if_neg h1]
      rw [if_neg (by omega)]

theorem fr_radius_encode_password_cipher (E : Env) (secret vector pw : List Nat) (m : Mem)
    (hv : vector.length = 16) (hb : ∀ x ∈ pw, x < 256) (hm : m.read 0 pw.length = pw) :
    (fr_radius_encode_password E m pw.length secret vector).1.read 0
        (fr_radius_encode_password E m pw.length secret vector).2 =
      rfc2865_cipher E secret vector pw := by
  have hlen : (fr_radius_encode_password E m pw.length secret vector).2 = (rfc2865_pad pw).length := by
    rw [fr_radius_encode_password_len, rfc2865_pad_length]
  have hk : ∃ k, (rfc2865_pad pw).length = 16 * k := by
    rw [rfc2865_pad_length]
    split_ifs
    · exact ⟨1, rfl⟩
    · exact ⟨(min pw.length 128 + 15) / 16, Nat.mul_comm _ _⟩
  obtain ⟨k, hk⟩ := hk
  have hmb : ∀ i, i < pw.length → m.byte i = pw.getD i 0 := by
    intro i hi
    have h := Mem.read_getD m 0 pw.length i hi
    rw [hm, Nat.zero_add] at h
    exact h.symm
  unfold rfc2865_cipher
  have hlen2 := hlen
  simp only [fr_radius_encode_password] at hlen2 ⊢
  rw [hlen2]
  apply password_loop_cipher E secret vector _ _ k hk _ (rfc2865_pad_lt pw hb) hv
  apply read_eq_of_byte
  intro i hi
  rw [rfc2865_pad_getD, password_pad_byte, hlen2]
  simp only [Nat.min_def] at hi ⊢
  split_ifs <;> first | omega | rfl | exact hmb i (by omega)

/-- C5: for every secret, 16-byte request authenticator and password, the
output of `encode_password` and the buffer left by `fr_radius_encode_password`
(over the length it reports) are the RFC 2865 section 5.2 ciphertext of the
password truncated to 128 bytes and zero-padded to a non-zero multiple of 16
bytes, MD5 being an arbitrary function. -/
theorem password_cipher_rfc2865 (E : Env) (secret vector pw : List Nat) (m : Mem)
    (hv : vector.length = 16) (hb : ∀ x ∈ pw, x < 256) (hm : m.read 0 pw.length = pw)
    (hn : pw.length < 2 ^ 31) :
    (encode_password E pw pw.length secret vector).1 = rfc2865_cipher E secret vector pw ∧
    (fr_radius_encode_password E m pw.length secret vector).1.read 0
        (fr_radius_encode_password E m pw.length secret vector).2 =
      rfc2865_cipher E secret vector pw := by
  have _ := hn
  exact ⟨encode_password_cipher E secret vector pw hv hb,
    fr_radius_encode_password_cipher E secret vector pw m hv hb hm⟩

theorem password_cipher_rfc2865_witness :
    (encode_password sample_env [112, 119] 2 [115] (List.replicate 16 7)).1 =
      rfc2865_cipher sample_env [115] (List.replicate 16 7) [112, 119] ∧
    (fr_radius_encode_password sample_env (Mem.init (fun i => [112, 119].getD i 0)) 2 [115]
        (List.replicate 16 7)).1.read 0 16 =
      rfc2865_cipher sample_env [115] (List.replicate 16 7) [112, 119] :=
  password_cipher_rfc2865 sample_env [115] (List.replicate 16 7) [112, 119]
    (Mem.init (fun i => [112, 119].getD i 0)) rfl (by decide) rfl (by norm_num)

/-! ### Long-Extended fragmentation -/

set_option maxRecDepth 100000 in
/-- C1 (the code at the failing input): a Long-Extended attribute with a value of
252 bytes encoded with `outlen = 260`. `fr_radius_encode_pair` returns 260 and
has stored up to offset 509: pass 2 of `attr_shift` moves 251 bytes where one
byte is left to move. -/
theorem long_extended_overrun :
    (fr_radius_encode_pair sample_env long_ext_dict.heap none 20 260 (octets_state 2 252)).map
      (fun r => (r.1, r.2.mem.hi)) = some (260, 510) := by
  decide

/-! ### The cursor check of `fr_radius_encode_pair` -/

/-- C4 (the code at the failing input): for the root attribute Tunnel-Password and
`outlen = 10` the fast path of `fr_radius_encode_pair` returns 0 and leaves the
cursor on the pair it started on. -/
theorem fast_path_returns_zero_without_advancing :
    (fr_radius_encode_pair sample_env tunnel_dict.heap (some accept_ctx) 20 10 (octets_state 1 5)).map
      (fun r => (r.1, r.2.cursor.pos)) = some (0, 0) := by
  decide

/-! ### Sibling chains -/

/-- C8 (the code at the failing input): after `fr_dict_attr_add` of the TLV 1 and then
of the integer 11009 under the root, bin 1 lists the integer 11009 before the
TLV 1: a non-structural attribute before a structural one, a higher number
before a lower one. -/
theorem sibling_chain_not_sorted :
    chain_keys two_sibling_dict.heap (sibling_chain two_sibling_dict.heap 0 1) =
      [(false, 0, 11009), (true, 0, 1)] ∧
    chain_key_le (false, 0, 11009) (true, 0, 1) = false := by
  decide

/-! ### Depth of the combo-ip copies -/

/-- C9 (the code at the failing input): `fr_dict_attr_add` of a combo-ip attribute
under a vendor succeeds and leaves its IPv4 copy, the attribute
`fr_dict_attr_by_type` returns, with no parent and depth 0 although it is not
the root; `fr_dict_verify` fails on it. -/
theorem combo_copy_has_no_parent :
    (fr_dict_attr_add sample_env cisco_dict 2 "Cisco-IP" 4 .COMBO_IP_ADDR {}).1 = 0 ∧
    fr_dict_attr_by_type combo_dict 9 4 .IPV4_ADDR = some 5 ∧
    (combo_dict.heap[5]?).map (fun a => (a.parent, a.depth, a.flags.is_root)) = some (none, 0, false) ∧
    fr_dict_verify sample_env combo_dict.heap 5 = false := by
  decide

/-! ## Vendor-specific attributes: the encoder under a vendor format -/

theorem to_ssize_small (x : Nat) (h : x < 2 ^ 63) : to_ssize x = (x : Int) := by
  unfold to_ssize SIZE_MOD
  have h1 : x % 2 ^ 64 = x := Nat.mod_eq_of_lt (by omega)
  rw [h1, if_pos h]

theorem of_ssize_nat (x : Nat) (h : x < 2 ^ 64) : of_ssize (x : Int) = x := by
  unfold of_ssize SIZE_MOD
  have h1 : ((x : Int) % ((2 ^ 64 : Nat) : Int)) = (x : Int) := by
    apply Int.emod_eq_of_lt (by omega)
    exact_mod_cast h
  rw [h1]
  simp

theorem size_sub_small (a b : Nat) (h1 : b ≤ a) (h2 : a < 2 ^ 64) : size_sub a b = a - b := by
  unfold size_sub SIZE_MOD
  have ha : a % 2 ^ 64 = a := Nat.mod_eq_of_lt h2
  have hb : b % 2 ^ 64 = b := Nat.mod_eq_of_lt (by omega)
  rw [ha, hb]
  have e : a + (2 ^ 64 - b) = (a - b) + 2 ^ 64 := by omega
  rw [e, Nat.add_mod_right]
  exact Nat.mod_eq_of_lt (by omega)

theorem stack_build_vsa (E : Env) (heap : Heap) (si vi li : Nat) (vsa dv leaf : fr_dict_attr_t)
    (P : vsa_path heap si vi li vsa dv leaf) (hmax : 3 ≤ E.FR_DICT_MAX_TLV_STACK) (stack : List (Option Nat)) :
    fr_proto_tlv_stack_build E heap stack (some li) = stack3 E si vi li := by
  simp only [fr_proto_tlv_stack_build, P.hleaf, P.leaf_depth]
  rw [if_neg (by omega)]
  simp [tlv_stack_fill, P.hleaf, P.hdv, P.leaf_parent, P.dv_parent, stack3]

theorem stack3_getD3 (E : Env) (si vi li : Nat) : (stack3 E si vi li).getD 3 none = none := by
  simp only [stack3, List.cons_append, List.nil_append, List.getD_cons_succ]
  rw [List.getD_eq_getElem?_getD]
  cases hh : (List.replicate (E.FR_DICT_MAX_TLV_STACK + 1 - 3) (none : Option Nat))[0]? with
  | none => rfl
  | some x =>
    have := List.getElem?_mem hh
    rw [List.eq_of_mem_replicate this]; rfl

theorem stack3_at (E : Env) (si vi li : Nat) (m : Mem) (c : vp_cursor_t) (g : Globals) :
    (Enc.mk m c (stack3 E si vi li) g).stack_at 0 = some si ∧
    (Enc.mk m c (stack3 E si vi li) g).stack_at 1 = some vi ∧
    (Enc.mk m c (stack3 E si vi li) g).stack_at 2 = some li ∧
    (Enc.mk m c (stack3 E si vi li) g).stack_at 3 = none :=
  ⟨rfl, rfl, rfl, stack3_getD3 E si vi li⟩

theorem Enc.advance_mem (E : Env) (heap : Heap) (s : Enc) : (s.advance E heap).mem = s.mem := rfl

theorem leaf_encode (E : Env) (heap : Heap) (ctx : Option fr_radius_ctx_t) (si vi li : Nat)
    (vsa dv leaf : fr_dict_attr_t) (P : vsa_path heap si vi li vsa dv leaf)
    (c : vp_cursor_t) (vp : VALUE_PAIR) (data : List Nat) (n : Nat)
    (hcur : fr_cursor_current c = some vp) (hda : vp.da = li)
    (hns : leaf.type.is_structural = false) (henc : leaf.flags.encrypt = 0) (htag : leaf.flags.has_tag = false)
    (hsrc : value_source leaf vp = some (data, (n : Int))) (hn : 1 ≤ n)
    {m : Mem} {g : Globals} {fuel out ol : Nat} (hol : n ≤ ol) (hol2 : ol < 2 ^ 63) :
    encode_value E heap ctx (fuel + 1) out ol 2 (Enc.mk m c (stack3 E si vi li) g) =
      some ((n : Int), (Enc.mk (m.memcpy out data n) c (stack3 E si vi li) g).advance E heap) := by
  obtain ⟨h0, h1, h2, h3⟩ := stack3_at E si vi li m c g
  have htlv : leaf.type ≠ .TLV := by intro h; rw [h] at hns; exact absurd hns (by decide)
  have hstr : leaf.type ≠ .STRUCT := by intro h; rw [h] at hns; exact absurd hns (by decide)
  have hn0 : ¬ ((n : Int) = 0) := by omega
  have hgt : ¬ ((n : Int) > to_ssize ol) := by rw [to_ssize_small ol hol2]; omega
  have hof : of_ssize (n : Int) = n := of_ssize_nat n (by omega)
  simp only [encode_value, Enc.da_at, h2, h3, Option.some_bind, P.hleaf, if_neg htlv, if_neg hstr,
    Option.isSome_none, hcur, hda, hns, encode_value_leaf, hsrc, if_neg hn0, if_neg hgt, henc, htag, hof,
    FLAG_ENCRYPT_USER_PASSWORD, FLAG_ENCRYPT_TUNNEL_PASSWORD, FLAG_ENCRYPT_ASCEND_SECRET]
  simp


theorem and_ff (a : Nat) : a &&& 0xff = a % 256 := Nat.and_pow_two_sub_one_eq_mod a 8

theorem Mem.add_byte_byte (m : Mem) (i : Nat) (d : Int) (j : Nat) :
    (m.add_byte i d).byte j = if j = i then ((((m.byte i : Nat) : Int) + d) % 256).toNat % 256 else m.byte j := rfl

theorem Mem.memcpy_byte (m : Mem) (off : Nat) (data : List Nat) (n j : Nat) :
    (m.memcpy off data n).byte j = if off ≤ j ∧ j < off + n then data.getD (j - off) 0 % 256 else m.byte j := by
  unfold Mem.memcpy
  rw [Mem.store_byte]
  have hl : (read_bytes data n).length = n := by simp [read_bytes]
  rw [hl]
  split
  · rename_i h
    rw [read_bytes_getD _ _ _ (by omega)]
  · rfl

theorem read_memcpy (m : Mem) (off : Nat) (data : List Nat) (n : Nat) :
    (m.memcpy off data n).read off n = (read_bytes data n).map (fun b => b % 256) := by
  apply list_eq_of_getD
  · simp [Mem.read_length, read_bytes]
  · intro i hi
    rw [Mem.read_length] at hi
    rw [Mem.read_getD _ _ _ _ hi, Mem.memcpy_byte, if_pos (by omega)]
    have e : off + i - off = i := by omega
    rw [e]
    have h2 : (List.map (fun b => b % 256) (read_bytes data n)).getD i 0 =
        (fun b => b % 256) ((read_bytes data n).getD i 0) :=
      List.getD_map (read_bytes data n) 0 (fun b => b % 256)
    rw [h2, read_bytes_getD _ _ _ hi]

theorem Mem.read_zero (m : Mem) (off : Nat) : m.read off 0 = [] := rfl
theorem Mem.read_succ (m : Mem) (off k : Nat) : m.read off (k + 1) = m.byte off :: m.read (off + 1) k := by
  have h := Mem.read_add m off 1 k
  rw [Nat.add_comm 1 k] at h
  rw [h]
  rfl
theorem Mem.read_lit1 (m : Mem) (off : Nat) : m.read off 1 = [m.byte off] := rfl
theorem Mem.read_lit2 (m : Mem) (off : Nat) : m.read off 2 = [m.byte off, m.byte (off + 1)] := rfl
theorem Mem.read_lit3 (m : Mem) (off : Nat) : m.read off 3 = [m.byte off, m.byte (off + 1), m.byte (off + 2)] := rfl
theorem Mem.read_lit4 (m : Mem) (off : Nat) :
    m.read off 4 = [m.byte off, m.byte (off + 1), m.byte (off + 2), m.byte (off + 3)] := rfl
theorem Mem.read_lit5 (m : Mem) (off : Nat) :
    m.read off 5 = [m.byte off, m.byte (off + 1), m.byte (off + 2), m.byte (off + 3), m.byte (off + 4)] := rfl
theorem Mem.read_lit6 (m : Mem) (off : Nat) :
    m.read off 6 = [m.byte off, m.byte (off + 1), m.byte (off + 2), m.byte (off + 3), m.byte (off + 4),
      m.byte (off + 5)] := rfl

theorem read_add_byte_lt (m : Mem) (i : Nat) (d : Int) (off n : Nat) (h : i < off) :
    (m.add_byte i d).read off n = m.read off n := by
  apply Mem.read_congr
  intro k _
  rw [Mem.add_byte_byte, if_neg (by omega)]

theorem read_frame (m1 m2 : Mem) (off n : Nat) (data : List Nat)
    (h : ∀ j, off ≤ j → j < off + n → m1.byte j = m2.byte j) (h2 : m2.read off n = data) :
    m1.read off n = data := by
  rw [← h2]
  apply Mem.read_congr
  intro i hi
  exact h _ (by omega) (by omega)

theorem be_bytes_one (v : Nat) : be_bytes 1 v = [v % 256] := by
  simp [be_bytes, List.range_succ]

theorem be_bytes_two (v : Nat) : be_bytes 2 v = [v / 256 % 256, v % 256] := by
  simp [be_bytes, List.range_succ]

theorem be_bytes_four (v : Nat) :
    be_bytes 4 v = [v / 16777216 % 256, v / 65536 % 256, v / 256 % 256, v % 256] := by
  simp [be_bytes, List.range_succ]

theorem vendor_attr_encode (E : Env) (heap : Heap) (ctx : Option fr_radius_ctx_t) (si vi li : Nat)
    (vsa dv leaf : fr_dict_attr_t) (P : vsa_path heap si vi li vsa dv leaf)
    (c : vp_cursor_t) (vp : VALUE_PAIR) (data : List Nat) (n f ol : Nat) (m : Mem) (g : Globals)
    (hcur : fr_cursor_current c = some vp) (hda : vp.da = li)
    (hns : leaf.type.is_structural = false) (henc : leaf.flags.encrypt = 0) (htag : leaf.flags.has_tag = false)
    (hsrc : value_source leaf vp = some (data, (n : Int))) (hn : 1 ≤ n)
    (hT : dv.flags.type_size = 1 ∨ dv.flags.type_size = 2 ∨ dv.flags.type_size = 4)
    (hL : dv.flags.length = 0 ∨ dv.flags.length = 1 ∨ dv.flags.length = 2)
    (hv : leaf.vendor ≠ 0)
    (ha : leaf.attr < 2 ^ (8 * dv.flags.type_size)) (ha4 : leaf.attr < 2 ^ 24)
    (hol : dv.flags.type_size + dv.flags.length + n ≤ ol) (hol2 : ol ≤ 249) :
    ∃ s1, encode_vendor_attr_hdr E heap ctx (f + 2) 6 ol 1 (Enc.mk m c (stack3 E si vi li) g) =
        some (((dv.flags.type_size + dv.flags.length + n : Nat) : Int), s1) ∧
      s1.cursor = fr_cursor_next c ∧
      (∀ j, j < 6 → s1.mem.byte j = m.byte j) ∧
      s1.mem.read 6 (dv.flags.type_size + dv.flags.length + n) =
        be_bytes dv.flags.type_size leaf.attr ++
        (if dv.flags.length = 0 then [] else be_bytes dv.flags.length (dv.flags.type_size + dv.flags.length + n)) ++
        (read_bytes data n).map (fun b => b % 256) := by
  obtain ⟨h0, h1, h2, h3⟩ := stack3_at E si vi li m c g
  have htlv : leaf.type ≠ .TLV := by intro h; rw [h] at hns; exact absurd hns (by decide)
  have hle := @leaf_encode E heap ctx si vi li vsa dv leaf P c vp data n hcur hda hns henc htag hsrc hn
  have hn0 : ¬ ((n : Int) ≤ 0) := by omega
  have hs : ∀ k, k ≤ ol → size_sub ol k = ol - k := fun k hk => size_sub_small _ _ hk (by omega)
  have hbyte : ∀ k : Nat, k + n < 256 → (((k : Int) + (n : Int)) % 256).toNat % 256 = k + n := by
    intro k hk
    have e : ((k : Int) + (n : Int)) = ((k + n : Nat) : Int) := by push_cast; rfl
    rw [e]
    have e2 : (((k + n : Nat) : Int) % 256) = ((k + n : Nat) : Int) := Int.emod_eq_of_lt (by omega) (by omega)
    rw [e2, Int.toNat_ofNat]
    exact Nat.mod_eq_of_lt hk
  rcases hT with hT | hT | hT <;> rcases hL with hL | hL | hL
  all_goals simp only [hT, hL] at ha hol ⊢
  case inl.inr.inl =>
    have hnotgt : ¬ leaf.attr > 255 := by omega
    simp only [encode_vendor_attr_hdr, Enc.da_at, h1, h2, Option.some_bind, P.hdv, P.hleaf, P.dv_type, hT, hL,
      htlv, ne_eq, not_true_eq_false, not_false_eq_true, if_false, if_true, true_and, false_and, and_false,
      and_true, reduceCtorEq, Nat.reduceAdd, encode_rfc_hdr_internal, hns, Bool.false_eq_true, hv, false_or,
      hnotgt, (show ¬ (ol ≤ 2) by omega), (show ¬ (ol > 255) by omega)]
    simp (disch := omega) only [hs]
    rw [hle (by omega) (by omega)]
    simp only [if_neg hn0]
    have hret : ∀ mm : Mem, (((mm.write 7 2).memcpy 8 data n).add_byte 7 (n : Int)).byte 7 = 2 + n := by
      intro mm
      simp only [Mem.memcpy_byte, Mem.write_byte, Mem.add_byte_byte, Nat.reduceAdd]
      simp +decide
      have h := hbyte 2 (by omega)
      simp only [Nat.cast_ofNat] at h
      exact h
    simp only [Enc.advance_mem, hret]
    refine ⟨_, rfl, rfl, ?_, ?_⟩
    · intro j hj
      simp only [Enc.advance_mem, Mem.memcpy_byte, Mem.write_byte, Mem.add_byte_byte]
      repeat (rw [if_neg (by omega)])
    · rw [Nat.add_comm _ n, Nat.add_comm, Mem.read_add]
      simp only [Mem.read_lit1, Mem.read_lit2, Enc.advance_mem, Nat.reduceAdd, List.append_nil]
      refine congr (congrArg HAppend.hAppend ?_) ?_
      · simp only [Mem.memcpy_byte, Mem.write_byte, Mem.add_byte_byte, and_ff, be_bytes_one, Nat.reduceAdd]
        all_goals (simp +decide [hbyte]; try omega)
      · rw [read_add_byte_lt _ _ _ _ _ (by omega)]; exact read_memcpy _ _ _ _
  all_goals
    simp only [encode_vendor_attr_hdr, Enc.da_at, h1, h2, Option.some_bind, P.hdv, P.hleaf, P.dv_type, hT, hL,
      htlv, ne_eq, not_true_eq_false, not_false_eq_true, if_false, if_true, true_and, false_and, and_false,
      and_true, reduceCtorEq, OfNat.ofNat_ne_one, OfNat.one_ne_ofNat, OfNat.ofNat_ne_zero, Nat.reduceEqDiff,
      (show ¬ (ol > 255) by omega), Nat.reduceAdd]
    simp (disch := omega) only [hs]
    rw [hle (by omega) (by omega)]
    simp only [if_neg hn0]
    simp only [Nat.cast_add, Nat.cast_one, Nat.cast_zero, Nat.cast_ofNat, add_zero, Nat.add_zero]
    refine ⟨_, rfl, rfl, ?_, ?_⟩
    · intro j hj
      simp only [Enc.advance_mem, Mem.memcpy_byte, Mem.write_byte, Mem.add_byte_byte]
      repeat (rw [if_neg (by omega)])
    · rw [Nat.add_comm _ n, Nat.add_comm, Mem.read_add]
      simp only [Mem.read_lit1, Mem.read_lit2, Mem.read_lit3, Mem.read_lit4, Mem.read_lit5, Mem.read_lit6,
        Enc.advance_mem, Nat.reduceAdd, List.append_nil]
      refine congr (congrArg HAppend.hAppend ?_) ?_
      · simp only [Mem.memcpy_byte, Mem.write_byte, Mem.add_byte_byte, and_ff, be_bytes_one, be_bytes_two,
          be_bytes_four, Nat.shiftRight_eq_div_pow, Nat.reducePow, Nat.reduceAdd, Nat.reduceLeDiff,
          Nat.reduceEqDiff, if_true, if_false, false_and, and_false, Nat.mod_mod, List.cons_append,
          List.nil_append, List.append_nil, Nat.zero_mod, OfNat.ofNat_ne_one, OfNat.one_ne_ofNat,
          OfNat.ofNat_ne_zero, ne_eq, not_true_eq_false, not_false_eq_true, Nat.le_refl, Nat.lt_irrefl,
          Nat.add_eq_left, Nat.add_eq_right, Nat.one_ne_zero, Nat.succ_ne_self, Nat.reduceLTLE,
          Nat.reduceSub, Nat.reduceMod, Nat.reduceDiv]
        all_goals (simp +decide [hbyte]; try omega)
      · first
          | exact read_memcpy _ _ _ _
          | (rw [read_add_byte_lt _ _ _ _ _ (by omega)]; exact read_memcpy _ _ _ _)

theorem htonl_bytes_eq (v : Nat) : htonl_bytes v = be_bytes 4 v := by
  simp [htonl_bytes, be_bytes_four]

theorem add_byte_value (b k : Nat) (h : b + k < 256) : ((((b : Nat) : Int) + ((k : Nat) : Int)) % 256).toNat % 256 = b + k := by
  have e : ((b : Int) + (k : Int)) = ((b + k : Nat) : Int) := by push_cast; rfl
  rw [e]
  have e2 : (((b + k : Nat) : Int) % 256) = ((b + k : Nat) : Int) := Int.emod_eq_of_lt (by omega) (by omega)
  rw [e2, Int.toNat_ofNat]
  exact Nat.mod_eq_of_lt h

theorem vsa_hdr_encode (E : Env) (heap : Heap) (ctx : Option fr_radius_ctx_t) (si vi li : Nat)
    (vsa dv leaf : fr_dict_attr_t) (P : vsa_path heap si vi li vsa dv leaf)
    (c : vp_cursor_t) (vp : VALUE_PAIR) (data : List Nat) (n f ol : Nat) (m : Mem) (g : Globals)
    (hcur : fr_cursor_current c = some vp) (hda : vp.da = li)
    (hns : leaf.type.is_structural = false) (henc : leaf.flags.encrypt = 0) (htag : leaf.flags.has_tag = false)
    (hsrc : value_source leaf vp = some (data, (n : Int))) (hn : 1 ≤ n)
    (hT : dv.flags.type_size = 1 ∨ dv.flags.type_size = 2 ∨ dv.flags.type_size = 4)
    (hL : dv.flags.length = 0 ∨ dv.flags.length = 1 ∨ dv.flags.length = 2)
    (hv : leaf.vendor ≠ 0) (hw : vsa.vendor ≠ E.VENDORPEC_WIMAX)
    (ha : leaf.attr < 2 ^ (8 * dv.flags.type_size)) (ha4 : leaf.attr < 2 ^ 24)
    (hol : 6 + (dv.flags.type_size + dv.flags.length + n) ≤ ol) (hol2 : ol ≤ 255) :
    ∃ s1, encode_vsa_hdr E heap ctx (f + 2) 0 ol 0 (Enc.mk m c (stack3 E si vi li) g) =
        some (((6 + (dv.flags.type_size + dv.flags.length + n) : Nat) : Int), s1) ∧
      s1.cursor = fr_cursor_next c ∧
      s1.mem.read 0 (6 + (dv.flags.type_size + dv.flags.length + n)) =
        [26, 6 + (dv.flags.type_size + dv.flags.length + n)] ++ be_bytes 4 (dv.attr % 2 ^ 32) ++
        (be_bytes dv.flags.type_size leaf.attr ++
        (if dv.flags.length = 0 then [] else be_bytes dv.flags.length (dv.flags.type_size + dv.flags.length + n)) ++
        (read_bytes data n).map (fun b => b % 256)) := by
  obtain ⟨h0, h1, h2, h3⟩ := stack3_at E si vi li (((m.write 0 26).write 1 6).store 2 (htonl_bytes (dv.attr % 2 ^ 32))) c g
  obtain ⟨h0', h1', -, -⟩ := stack3_at E si vi li m c g
  obtain ⟨s1, e1, ecur, eframe, eread⟩ := vendor_attr_encode E heap ctx si vi li vsa dv leaf P c vp data n f (ol - 6)
    (((m.write 0 26).write 1 6).store 2 (htonl_bytes (dv.attr % 2 ^ 32))) g hcur hda hns henc htag hsrc hn hT hL hv
    ha ha4 (by omega) (by omega)
  generalize hk : dv.flags.type_size + dv.flags.length + n = k at *
  have hlt : ¬ (ol < 6) := by omega
  have hgt : ¬ (ol > 255) := by omega
  have hneg : ¬ (((k : Nat) : Int) < 0) := by omega
  simp only [encode_vsa_hdr, Enc.da_at, h0', h1', Option.some_bind, P.hvsa, P.hdv, P.vsa_type, P.dv_type, ne_eq,
    not_true_eq_false, if_false, if_neg hw, if_neg hlt, if_neg hgt, Nat.zero_add,
    size_sub_small ol 6 (by omega) (by omega), PW_VENDOR_SPECIFIC, e1, if_neg hneg]
  have hb1 : s1.mem.byte 1 = 6 := by
    rw [eframe 1 (by omega)]
    rfl
  have hret : (s1.mem.add_byte 1 (k : Int)).byte 1 = 6 + k := by
    rw [Mem.add_byte_byte, if_pos rfl, hb1]
    exact add_byte_value 6 k (by omega)
  rw [hret]
  refine ⟨_, rfl, ecur, ?_⟩
  rw [Mem.read_add]
  refine congr (congrArg HAppend.hAppend ?_) ?_
  · rw [Mem.read_lit6]
    simp only [Nat.zero_add, hret, Mem.add_byte_byte]
    simp only [eframe _ (by omega : 0 < 6), eframe _ (by omega : 2 < 6), eframe _ (by omega : 3 < 6),
      eframe _ (by omega : 4 < 6), eframe _ (by omega : 5 < 6), ← htonl_bytes_eq]
    simp [Mem.store_byte, Mem.write_byte, htonl_bytes]
  · rw [Nat.zero_add, read_add_byte_lt _ _ _ _ _ (by omega)]
    exact eread

theorem cursor_next_of_current (c : vp_cursor_t) (vp : VALUE_PAIR) (h : fr_cursor_current c = some vp) :
    fr_cursor_next c = { c with pos := c.pos + 1 } := by
  unfold fr_cursor_current at h
  have hlt : c.pos < c.vps.length := by
    by_contra hc
    rw [List.getElem?_eq_none (by omega)] at h
    exact absurd h (by simp)
  unfold fr_cursor_next
  rw [if_pos hlt]

theorem vsa_pair_encode (E : Env) (heap : Heap) (ctx : Option fr_radius_ctx_t) (si vi li : Nat)
    (vsa dv leaf : fr_dict_attr_t) (P : vsa_path heap si vi li vsa dv leaf)
    (s : Enc) (vp : VALUE_PAIR) (data : List Nat) (n fuel outlen : Nat)
    (hmax : 3 ≤ E.FR_DICT_MAX_TLV_STACK) (hfuel : 2 ≤ fuel)
    (hcur : fr_cursor_current s.cursor = some vp) (hda : vp.da = li) (hlen : vp.vp_length ≠ 0)
    (hns : leaf.type.is_structural = false) (henc : leaf.flags.encrypt = 0) (htag : leaf.flags.has_tag = false)
    (hsrc : value_source leaf vp = some (data, (n : Int))) (hn : 1 ≤ n)
    (hT : dv.flags.type_size = 1 ∨ dv.flags.type_size = 2 ∨ dv.flags.type_size = 4)
    (hL : dv.flags.length = 0 ∨ dv.flags.length = 1 ∨ dv.flags.length = 2)
    (hv : leaf.vendor ≠ 0) (hlw : leaf.vendor ≠ E.VENDORPEC_WIMAX) (hw : vsa.vendor ≠ E.VENDORPEC_WIMAX)
    (ha : leaf.attr < 2 ^ (8 * dv.flags.type_size)) (ha4 : leaf.attr < 2 ^ 24)
    (hol : 6 + (dv.flags.type_size + dv.flags.length + n) ≤ outlen)
    (hol2 : 6 + (dv.flags.type_size + dv.flags.length + n) ≤ 255) :
    ∃ s1, fr_radius_encode_pair E heap ctx fuel outlen s =
        some (((6 + (dv.flags.type_size + dv.flags.length + n) : Nat) : Int), s1) ∧
      s1.cursor = { s.cursor with pos := s.cursor.pos + 1 } ∧
      s1.mem.read 0 (6 + (dv.flags.type_size + dv.flags.length + n)) =
        [26, 6 + (dv.flags.type_size + dv.flags.length + n)] ++ be_bytes 4 (dv.attr % 2 ^ 32) ++
        (be_bytes dv.flags.type_size leaf.attr ++
        (if dv.flags.length = 0 then [] else be_bytes dv.flags.length (dv.flags.type_size + dv.flags.length + n)) ++
        (read_bytes data n).map (fun b => b % 256)) := by
  obtain ⟨m, c, stack, g⟩ := s
  obtain ⟨f, rfl⟩ : ∃ f, fuel = f + 2 := ⟨fuel - 2, by omega⟩
  simp only at hcur
  obtain ⟨s1, e1, ecur, eread⟩ := vsa_hdr_encode E heap ctx si vi li vsa dv leaf P c vp data n f
    (if outlen > 255 then 255 else outlen) m g hcur hda hns henc htag hsrc hn hT hL hv hw ha ha4
    (by split <;> omega) (by split <;> omega)
  have hnext := cursor_next_of_current c vp hcur
  obtain ⟨h0, -, -, -⟩ := stack3_at E si vi li m c g
  have hol3 : ¬ (outlen ≤ 2) := by omega
  have hdepth : ¬ (leaf.depth > E.FR_DICT_MAX_TLV_STACK) := by rw [P.leaf_depth]; omega
  have hroot : ¬ (dv.flags.is_root = true ∧ ¬ leaf.flags.concat = true ∧ leaf.type ≠ .TLV) := by
    rw [P.dv_not_root]; simp
  have hpos : ¬ (s1.cursor.pos = c.pos) := by rw [ecur, hnext]; simp
  have hneg : ¬ (((6 + (dv.flags.type_size + dv.flags.length + n) : Nat) : Int) < 0) := by omega
  refine ⟨s1, ?_, by rw [ecur, hnext], eread⟩
  simp only [fr_radius_encode_pair, if_neg hol3, hcur, hda, P.hleaf, if_neg hdepth, hv, false_and, if_false, hlen,
    P.leaf_parent, Option.some_bind, P.hdv, hroot, stack_build_vsa E heap si vi li vsa dv leaf P hmax, Enc.da_at,
    h0, P.hvsa, P.vsa_type, if_neg hlw, e1, if_neg hneg, if_neg hpos]

/-- C3: for a vendor node `dv` with PEN `dv.attr` (non-zero, below 2^32, not
WiMAX, propagated to the leaf as `leaf.vendor`) and format
`(T, L) = (dv.flags.type_size, dv.flags.length)` with `T` in {1,2,4} and `L` in
{0,1,2}, and a non-structural, untagged, unencrypted leaf sub-attribute with
number `a < 2^(8T)` (`a < 2^24` when `T = 4`) carried by the current pair, whose
length is not zero and whose encoded value is the `n >= 1` bytes `data` with
`6+T+L+n <= min(outlen, 255)`, `fr_radius_encode_pair` returns `6+T+L+n`,
advances the cursor by one pair and writes the byte 26, the total length, the
PEN as 4 big-endian bytes, `a` as `T` big-endian bytes, the sub-length `T+L+n`
as `L` big-endian bytes when `L > 0`, then the `n` value bytes; the value of an
Integer is its 4 big-endian bytes. -/
theorem vsa_pair_layout (E : Env) (heap : Heap) (ctx : Option fr_radius_ctx_t) (si vi li : Nat)
    (vsa dv leaf : fr_dict_attr_t) (P : vsa_path heap si vi li vsa dv leaf)
    (s : Enc) (vp : VALUE_PAIR) (data : List Nat) (n fuel outlen : Nat)
    (hmax : 3 ≤ E.FR_DICT_MAX_TLV_STACK) (hfuel : 2 ≤ fuel)
    (hcur : fr_cursor_current s.cursor = some vp) (hda : vp.da = li) (hlen : vp.vp_length ≠ 0)
    (hpen : leaf.vendor = dv.attr) (hp0 : dv.attr ≠ 0) (hp32 : dv.attr < 2 ^ 32)
    (hpw : dv.attr ≠ E.VENDORPEC_WIMAX) (hw : vsa.vendor ≠ E.VENDORPEC_WIMAX)
    (hT : dv.flags.type_size = 1 ∨ dv.flags.type_size = 2 ∨ dv.flags.type_size = 4)
    (hL : dv.flags.length = 0 ∨ dv.flags.length = 1 ∨ dv.flags.length = 2)
    (hns : leaf.type.is_structural = false) (henc : leaf.flags.encrypt = 0) (htag : leaf.flags.has_tag = false)
    (ha : leaf.attr < 2 ^ (8 * dv.flags.type_size)) (ha4 : dv.flags.type_size = 4 → leaf.attr < 2 ^ 24)
    (hsrc : value_source leaf vp = some (data, (n : Int))) (hn : 1 ≤ n)
    (hfit : 6 + dv.flags.type_size + dv.flags.length + n ≤ min outlen 255) :
    ∃ s1, fr_radius_encode_pair E heap ctx fuel outlen s =
        some (((6 + dv.flags.type_size + dv.flags.length + n : Nat) : Int), s1) ∧
      s1.cursor.vps = s.cursor.vps ∧ s1.cursor.pos = s.cursor.pos + 1 ∧
      s1.mem.read 0 (6 + dv.flags.type_size + dv.flags.length + n) =
        [26, 6 + dv.flags.type_size + dv.flags.length + n] ++ be_bytes 4 dv.attr ++
        be_bytes dv.flags.type_size leaf.attr ++
        (if dv.flags.length = 0 then [] else be_bytes dv.flags.length (dv.flags.type_size + dv.flags.length + n)) ++
        (read_bytes data n).map (fun b => b % 256) ∧
      (leaf.type = .INTEGER →
        n = 4 ∧ (read_bytes data n).map (fun b => b % 256) = be_bytes 4 (vp.data.scalar % 2 ^ 32)) := by
  have ha24 : leaf.attr < 2 ^ 24 := by
    rcases hT with h | h | h
    · rw [h] at ha; simp only [Nat.reducePow, Nat.reduceMul] at ha ⊢; omega
    · rw [h] at ha; simp only [Nat.reducePow, Nat.reduceMul] at ha ⊢; omega
    · exact ha4 h
  have hfit1 : 6 + dv.flags.type_size + dv.flags.length + n ≤ outlen := le_trans hfit (Nat.min_le_left _ _)
  have hfit2 : 6 + dv.flags.type_size + dv.flags.length + n ≤ 255 := le_trans hfit (Nat.min_le_right _ _)
  obtain ⟨s1, e1, ecur, eread⟩ := vsa_pair_encode E heap ctx si vi li vsa dv leaf P s vp data n fuel outlen hmax
    hfuel hcur hda hlen hns henc htag hsrc hn hT hL (by rw [hpen]; exact hp0) (by rw [hpen]; exact hpw) hw ha ha24
    (by omega) (by omega)
  have eassoc : 6 + (dv.flags.type_size + dv.flags.length + n) = 6 + dv.flags.type_size + dv.flags.length + n := by
    omega
  rw [eassoc] at e1 eread
  rw [Nat.mod_eq_of_lt hp32] at eread
  refine ⟨s1, e1, by rw [ecur], by rw [ecur], ?_, ?_⟩
  · rw [eread]
    simp only [List.append_assoc]
  · intro hint
    simp only [value_source, hint, Option.some.injEq, Prod.mk.injEq] at hsrc
    obtain ⟨hd, hn4⟩ := hsrc
    have hn4 : n = 4 := by omega
    refine ⟨hn4, ?_⟩
    rw [← hd, hn4, ← htonl_bytes_eq]
    simp [read_bytes, htonl_bytes, List.range_succ]

theorem cisco_vsa_path :
    vsa_path cisco_dict.heap 1 2 3 (cisco_dict.heap.getD 1 fr_dict_attr_t.zero)
      (cisco_dict.heap.getD 2 fr_dict_attr_t.zero) (cisco_dict.heap.getD 3 fr_dict_attr_t.zero) :=
  ⟨by rfl, by rfl, by rfl, by decide, by decide, by decide, by decide, by decide, by decide⟩

theorem vsa_pair_layout_witness :
    ∃ s1, fr_radius_encode_pair sample_env cisco_dict.heap none 2 300 (integer_state 3 0xDEADBEEF) =
        some (12, s1) ∧ s1.cursor.pos = 1 ∧
      s1.mem.read 0 12 = [26, 12, 0, 0, 0, 9, 3, 6, 0xDE, 0xAD, 0xBE, 0xEF] := by
  obtain ⟨s1, e, -, hp, hr, -⟩ := vsa_pair_layout sample_env cisco_dict.heap none 1 2 3 _ _ _ cisco_vsa_path
    (integer_state 3 0xDEADBEEF) { da := 3, vp_length := 4, data := { scalar := 0xDEADBEEF } }
    (htonl_bytes (0xDEADBEEF % 2 ^ 32)) 4 2 300 (by decide) (by decide) (by rfl) (by rfl) (by decide) (by decide)
    (by decide) (by decide) (by decide) (by decide) (by decide) (by decide) (by decide) (by decide) (by decide)
    (by decide) (by decide) (by rfl) (by decide) (by decide)
  exact ⟨s1, e, hp, hr⟩

/-- C2 (counterexample): for the integer sub-attribute 3 of the vendor with PEN 9
and format 1,1, value 0x01020304, buffer of 12 bytes, `fr_radius_encode_pair`
returns 12 and writes `1A 0C 00 00 00 09 03 06 01 02 03 04`: the second byte is
0x0C, not 0x0A. -/
theorem cisco_vsa_second_byte_is_12 :
    (fr_radius_encode_pair sample_env cisco_dict.heap none 2 12 (integer_state 3 0x01020304)).map
        (fun r => (r.1, r.2.mem.read 0 12)) =
      some (12, [0x1A, 0x0C, 0x00, 0x00, 0x00, 0x09, 0x03, 0x06, 0x01, 0x02, 0x03, 0x04]) ∧
    (fr_radius_encode_pair sample_env cisco_dict.heap none 2 12 (integer_state 3 0x01020304)).map
        (fun r => r.2.mem.read 0 12) ≠
      some [0x1A, 0x0A, 0x00, 0x00, 0x00, 0x09, 0x03, 0x06, 0x01, 0x02, 0x03, 0x04] := by
  decide

/-- C2 (amended): for every buffer length of at least 12, every packet context,
every initial buffer content and TLV-stack content, encoding the pair of the
integer sub-attribute 3 of the vendor with PEN 9 and format 1,1 with the value
0x01020304 returns 12, moves the cursor to the next pair and writes exactly
`1A 0C 00 00 00 09 03 06 01 02 03 04`. -/
theorem cisco_vsa_bytes (ctx : Option fr_radius_ctx_t) (fuel outlen : Nat) (m : Mem)
    (stack : List (Option Nat)) (g : Globals) (hfuel : 2 ≤ fuel) (hout : 12 ≤ outlen) :
    ∃ s1, fr_radius_encode_pair sample_env cisco_dict.heap ctx fuel outlen
          { integer_state 3 0x01020304 with mem := m, tlv_stack := stack, g := g } = some (12, s1) ∧
      s1.cursor.pos = 1 ∧
      s1.mem.read 0 12 = [0x1A, 0x0C, 0x00, 0x00, 0x00, 0x09, 0x03, 0x06, 0x01, 0x02, 0x03, 0x04] := by
  obtain ⟨s1, e, hc, hr⟩ := vsa_pair_encode sample_env cisco_dict.heap ctx 1 2 3 _ _ _ cisco_vsa_path
    { integer_state 3 0x01020304 with mem := m, tlv_stack := stack, g := g }
    { da := 3, vp_length := 4, data := { scalar := 0x01020304 } }
    (htonl_bytes (0x01020304 % 2 ^ 32)) 4 fuel outlen (by decide) hfuel (by rfl) (by rfl) (by decide) (by decide)
    (by decide) (by decide) (by rfl) (by decide) (by decide) (by decide) (by decide) (by decide) (by decide)
    (by decide) (by decide) (le_trans (by decide) hout) (by decide)
  refine ⟨s1, e, by rw [hc]; rfl, ?_⟩
  rw [show (12 : Nat) = 6 + ((cisco_dict.heap.getD 2 fr_dict_attr_t.zero).flags.type_size +
    (cisco_dict.heap.getD 2 fr_dict_attr_t.zero).flags.length + 4) by decide, hr]
  decide

theorem cisco_vsa_bytes_witness :
    (2 ≤ 2 ∧ 12 ≤ 12) ∧
    ∃ s1, fr_radius_encode_pair sample_env cisco_dict.heap (some accept_ctx) 2 12
          { integer_state 3 0x01020304 with mem := Mem.init (fun _ => 255), tlv_stack := [none], g := ⟨3, 7⟩ } =
        some (12, s1) ∧
      s1.cursor.pos = 1 ∧
      s1.mem.read 0 12 = [0x1A, 0x0C, 0x00, 0x00, 0x00, 0x09, 0x03, 0x06, 0x01, 0x02, 0x03, 0x04] :=
  ⟨by decide, cisco_vsa_bytes (some accept_ctx) 2 12 (Mem.init (fun _ => 255)) [none] ⟨3, 7⟩ (by decide) (by decide)⟩

/-! ### OID strings: printing and parsing -/

theorem digit_char (k : Nat) (h : k < 10) :
    isdigit (Char.ofNat (48 + k)) = true ∧ (Char.ofNat (48 + k)).toNat - 48 = k := by
  interval_cases k <;> exact ⟨by decide, by decide⟩

theorem isdigit_not_space (c : Char) (h : isdigit c = true) : isspace c = false := by
  simp only [isdigit, Bool.and_eq_true, decide_eq_true_eq] at h
  simp only [isspace, Bool.or_eq_false_iff, Bool.and_eq_false_iff, beq_eq_false_iff_ne, decide_eq_false_iff_not]
  omega

theorem isdigit_not_dot (c : Char) (h : isdigit c = true) : c ≠ '.' ∧ c ≠ '-' ∧ c ≠ '+' := by
  refine ⟨?_, ?_, ?_⟩ <;> (intro e; rw [e] at h; revert h; decide)

theorem u_digits_spec : ∀ (fuel n : Nat) (acc : List Char), n < 10 ^ fuel → 1 ≤ fuel →
    ∃ ds : List Char, u_digits fuel n acc = ds ++ acc ∧ ds ≠ [] ∧ ds.length ≤ fuel ∧
      (∀ c ∈ ds, isdigit c = true) ∧
      ∀ v, ds.foldl (fun v c => 10 * v + (c.toNat - 48)) v = v * 10 ^ ds.length + n := by
  intro fuel
  induction fuel with
  | zero => intro n acc _ h; omega
  | succ f ih =>
    intro n acc hn _
    have hd := digit_char (n % 10) (Nat.mod_lt _ (by omega))
    unfold u_digits
    split
    · rename_i h0
      refine ⟨[Char.ofNat (48 + n % 10)], rfl, by simp, by simp, ?_, ?_⟩
      · intro c hc
        rw [List.mem_singleton] at hc
        rw [hc]; exact hd.1
      · intro v
        simp only [List.foldl_cons, List.foldl_nil, List.length_singleton, pow_one, hd.2]
        omega
    · rename_i h0
      have hf : 1 ≤ f := by
        rcases f with _ | f
        · simp at hn; omega
        · omega
      have hlt : n / 10 < 10 ^ f := by
        rw [Nat.div_lt_iff_lt_mul (by omega)]
        rw [pow_succ] at hn
        exact hn
      obtain ⟨ds, e, hne, hlen, hdig, hval⟩ := ih (n / 10) (Char.ofNat (48 + n % 10) :: acc) hlt hf
      refine ⟨ds ++ [Char.ofNat (48 + n % 10)], by rw [e]; simp, by simp, by simp; omega, ?_, ?_⟩
      · intro c hc
        rw [List.mem_append, List.mem_singleton] at hc
        rcases hc with hc | hc
        · exact hdig c hc
        · rw [hc]; exact hd.1
      · intro v
        rw [List.foldl_append, hval v]
        simp only [List.foldl_cons, List.foldl_nil, List.length_append, List.length_singleton, hd.2, pow_succ]
        have := Nat.div_add_mod n 10
        nlinarith [this]

theorem strtoul_digits_append (rest : List Char) (hr : rest = [] ∨ rest.head? = some '.') :
    ∀ (ds : List Char), (∀ c ∈ ds, isdigit c = true) → ∀ v,
      strtoul_digits (ds ++ rest) v = (ds.foldl (fun v c => 10 * v + (c.toNat - 48)) v, rest) := by
  intro ds
  induction ds with
  | nil =>
    intro _ v
    rcases rest with _ | ⟨c, cs⟩
    · rfl
    · rcases hr with hr | hr
      · exact absurd hr (by simp)
      · simp only [List.head?_cons, Option.some.injEq] at hr
        rw [hr]
        rfl
  | cons c cs ih =>
    intro hd v
    have hc := hd c (List.mem_cons_self _ _)
    simp only [List.cons_append, strtoul_digits, hc, if_true, List.foldl_cons]
    exact ih (fun x hx => hd x (List.mem_cons_of_mem _ hx)) _

theorem format_u_digits (a : Nat) (h32 : a < 2 ^ 32) :
    ∃ (c : Char) (cs : List Char), format_u a = c :: cs ∧ (c :: cs).length ≤ 10 ∧
      (∀ x ∈ c :: cs, isdigit x = true) ∧
      (c :: cs).foldl (fun v c => 10 * v + (c.toNat - 48)) 0 = a := by
  obtain ⟨ds, e, hne, hlen, hdig, hval⟩ := u_digits_spec 10 (a % 2 ^ 32) [] (by omega) (by omega)
  rw [List.append_nil] at e
  rcases ds with _ | ⟨c, cs⟩
  · exact absurd rfl hne
  · refine ⟨c, cs, e, hlen, hdig, ?_⟩
    rw [hval 0, Nat.mod_eq_of_lt h32]
    omega

theorem strtoul_format (E : Env) (a : Nat) (rest : List Char) (h32 : a < 2 ^ 32) (hU : a < E.ULONG_MAX)
    (hr : rest = [] ∨ rest.head? = some '.') : strtoul E (format_u a ++ rest) = (a, rest) := by
  obtain ⟨c, cs, e, -, hdig, hval⟩ := format_u_digits a h32
  have hc := hdig c (List.mem_cons_self _ _)
  have hsp := isdigit_not_space c hc
  obtain ⟨-, hm, hp⟩ := isdigit_not_dot c hc
  have hdw : List.dropWhile isspace (c :: cs ++ rest) = c :: cs ++ rest := by
    simp only [List.cons_append, List.dropWhile_cons, hsp]
    rfl
  have hsd := strtoul_digits_append rest hr (c :: cs) hdig 0
  rw [hval] at hsd
  have hgt : ¬ (a > E.ULONG_MAX) := by omega
  unfold strtoul
  simp only [e, hdw]
  simp only [List.cons_append, List.head?_cons, beq_iff_eq, Option.some.injEq, hm, hp, or_self, if_false,
    Option.map_some', hc, if_true]
  rw [← List.cons_append, hsd]
  simp only [hgt, if_false]

theorem oid_component_format (E : Env) (a : Nat) (rest : List Char) (h32 : a < 2 ^ 32) (hU : a < E.ULONG_MAX)
    (hr : rest = [] ∨ rest.head? = some '.') :
    fr_dict_oid_component E (format_u a ++ rest) = (0, a, rest) := by
  obtain ⟨c, cs, e, -, -, -⟩ := format_u_digits a h32
  have hlen : ¬ (rest.length = (format_u a ++ rest).length) := by
    rw [e]; simp; omega
  have hne : ¬ (a = E.ULONG_MAX) := by omega
  unfold fr_dict_oid_component
  simp only [strtoul_format E a rest h32 hU hr, hlen, hne, or_self, if_false, Nat.mod_eq_of_lt h32]
  rcases rest with _ | ⟨x, xs⟩
  · rfl
  · rcases hr with hr | hr
    · exact absurd hr (by simp)
    · simp only [List.head?_cons, Option.some.injEq] at hr
      simp [hr]

theorem oid_text_cons_cons (a b : Nat) (r : List Nat) :
    oid_text (a :: b :: r) = format_u a ++ '.' :: oid_text (b :: r) := by
  simp [oid_text]

theorem oid_text_single (a : Nat) : oid_text [a] = format_u a := by
  simp [oid_text]

theorem format_u_length_pos (a : Nat) : 0 < (format_u a).length := by
  obtain ⟨ds, e, hne, -, -, -⟩ := u_digits_spec 10 (a % 2 ^ 32) [] (by omega) (by omega)
  rw [List.append_nil] at e
  unfold format_u
  rw [e]
  exact List.length_pos.mpr hne

theorem format_u_length_le (a : Nat) : (format_u a).length ≤ 10 := by
  obtain ⟨ds, e, -, hlen, -, -⟩ := u_digits_spec 10 (a % 2 ^ 32) [] (by omega) (by omega)
  rw [List.append_nil] at e
  unfold format_u
  rw [e]
  exact hlen

theorem oid_text_length_pos (a : Nat) (r : List Nat) : 0 < (oid_text (a :: r)).length := by
  have := format_u_length_pos a
  simp only [oid_text, List.length_append]
  omega

theorem attr_of_some (heap : Heap) (n : Nat) (a : fr_dict_attr_t) (h : heap[n]? = some a) :
    attr_of heap n = a.attr := by
  simp [attr_of, h]

theorem by_oid_leaf (E : Env) (d : fr_dict) (fuel p vendor num : Nat) (pa : fr_dict_attr_t)
    (hp : d.heap[p]? = some pa) (hs : pa.type.is_structural = true)
    (hv : ¬ (pa.flags.is_root = true ∧ vendor = 0 ∧ num = PW_VENDOR_SPECIFIC))
    (h255 : pa.type = .VENDOR ∨ pa.flags.is_root = true ∨ num ≤ 255)
    (h32 : num < 2 ^ 32) (hU : num < E.ULONG_MAX) :
    fr_dict_attr_by_oid E d (fuel + 1) p vendor (format_u num) =
      some (((format_u num).length : Int), p, vendor, num) := by
  have hc := oid_component_format E num [] h32 hU (Or.inl rfl)
  rw [List.append_nil] at hc
  have h255n : ¬ (pa.type ≠ .VENDOR ∧ ¬ pa.flags.is_root = true ∧ num > 255) := by
    rintro ⟨h1, h2, h3⟩
    rcases h255 with h | h | h
    · exact h1 h
    · exact h2 h
    · omega
  simp only [fr_dict_attr_by_oid, hc, hp, if_neg hv, hs, not_true_eq_false, if_false, if_neg h255n,
    List.length_nil, Nat.sub_zero]
  simp

theorem oid_text_cons_ne (a : Nat) (l : List Nat) (h : l ≠ []) :
    oid_text (a :: l) = format_u a ++ '.' :: oid_text l := by
  rcases l with _ | ⟨b, r⟩
  · exact absurd rfl h
  · exact oid_text_cons_cons a b r

theorem tree_chain_append (heap : Heap) : ∀ (l1 l2 : List Nat) (p dep : Nat),
    tree_chain heap p dep (l1 ++ l2) →
      tree_chain heap p dep l1 ∧ tree_chain heap (l1.getLast?.getD p) (dep + l1.length) l2 := by
  intro l1
  induction l1 with
  | nil => intro l2 p dep h; exact ⟨trivial, by simpa using h⟩
  | cons n rest ih =>
    intro l2 p dep h
    obtain ⟨hn, hr⟩ := h
    obtain ⟨h1, h2⟩ := ih l2 n (dep + 1) hr
    refine ⟨⟨hn, h1⟩, ?_⟩
    have e : (n :: rest).getLast?.getD p = rest.getLast?.getD n := by
      rcases rest with _ | ⟨x, xs⟩
      · rfl
      · rw [List.getLast?_cons_cons]
        cases hh : (x :: xs).getLast? with
        | none => simp at hh
        | some y => rfl
    rw [e]
    have e2 : dep + (n :: rest).length = dep + 1 + rest.length := by simp; omega
    rw [e2]
    exact h2

theorem tlv_stack_fill_chain (heap : Heap) (p dep : Nat) : ∀ (l : List Nat) (n : Nat) (acc : List (Option Nat)),
    tree_chain heap p dep (l ++ [n]) →
      tlv_stack_fill heap (l.length + 1) (some n) acc = (l ++ [n]).map some ++ acc := by
  intro l
  induction l using List.reverseRecOn with
  | nil =>
    intro n acc _
    simp [tlv_stack_fill]
  | append_singleton l m ih =>
    intro n acc h
    obtain ⟨h1, h2⟩ := tree_chain_append heap (l ++ [m]) [n] p dep h
    obtain ⟨⟨a, ha, hpar, -⟩, -⟩ := h2
    have hpar2 : a.parent = some m := by
      rw [hpar]
      simp [List.getLast?_append]
    have e := ih m (some n :: acc) h1
    simp only [List.length_append, List.length_singleton]
    rw [tlv_stack_fill]
    simp only [Option.some_bind, ha, hpar2, e]
    simp

theorem stack_getD_mid (done r : List Nat) (n : Nat) (tailn : List (Option Nat)) :
    ((done ++ n :: r).map some ++ tailn).getD done.length none = some n := by
  rw [List.getD_eq_getElem?_getD, List.map_append, List.append_assoc,
    List.getElem?_append_right (by simp)]
  simp

theorem print_loop_chain (heap : Heap) (tailn : List (Option Nat)) (outlen : Nat) :
    ∀ (rem done : List Nat) (buf : List Char) (fuel : Nat),
    (∀ n ∈ rem, ∃ a, heap[n]? = some a) → rem.length < fuel → buf.length + 11 * rem.length < outlen →
    dict_print_attr_oid_loop heap ((done ++ rem).map some ++ tailn) (done ++ rem).length outlen fuel
        done.length buf =
      some ((buf ++ ((rem.map (attr_of heap)).map (fun b => '.' :: format_u b)).flatten).length,
        buf ++ ((rem.map (attr_of heap)).map (fun b => '.' :: format_u b)).flatten) := by
  intro rem
  induction rem with
  | nil =>
    intro done buf fuel _ hfuel _
    obtain ⟨f, rfl⟩ : ∃ f, fuel = f + 1 := ⟨fuel - 1, by simp at hfuel; omega⟩
    simp [dict_print_attr_oid_loop]
  | cons n r ih =>
    intro done buf fuel hheap hfuel hout
    obtain ⟨f, rfl⟩ : ∃ f, fuel = f + 1 := ⟨fuel - 1, by omega⟩
    obtain ⟨a, ha⟩ := hheap n (List.mem_cons_self _ _)
    have hlen := format_u_length_le a.attr
    have hi : done.length < (done ++ n :: r).length := by simp
    have hge : ¬ (buf.length + ('.' :: format_u a.attr).length ≥ outlen) := by
      simp only [List.length_cons] at hout ⊢
      omega
    have e := ih (done ++ [n]) (buf ++ '.' :: format_u a.attr) f
      (fun x hx => hheap x (List.mem_cons_of_mem _ hx)) (by simp at hfuel; omega)
      (by simp only [List.length_append, List.length_cons] at hout ⊢; omega)
    have e1 : done ++ [n] ++ r = done ++ n :: r := by simp
    have e2 : (done ++ [n]).length = done.length + 1 := by simp
    rw [e1, e2] at e
    rw [dict_print_attr_oid_loop]
    simp only [if_pos hi, stack_getD_mid, Option.some_bind, ha, if_neg hge, e]
    simp only [List.map_cons, List.flatten_cons, attr_of_some _ _ _ ha, List.append_assoc, List.cons_append]

theorem tree_chain_mem (heap : Heap) : ∀ (l : List Nat) (p dep : Nat), tree_chain heap p dep l →
    ∀ n ∈ l, ∃ a, heap[n]? = some a := by
  intro l
  induction l with
  | nil => intro p dep _ n hn; simp at hn
  | cons x rest ih =>
    intro p dep h n hn
    obtain ⟨⟨a, ha, -, -⟩, hr⟩ := h
    rcases List.mem_cons.mp hn with e | e
    · exact ⟨a, by rw [e]; exact ha⟩
    · exact ih x (dep + 1) hr n e

theorem print_oid_path (E : Env) (heap : Heap) (p : Nat) (pre : List Nat) (da : Nat)
    (stack : List (Option Nat)) (out0 : List Char) (outlen : Nat)
    (h : tree_chain heap p 0 (pre ++ [da])) (hdepth : pre.length + 1 ≤ E.FR_DICT_MAX_TLV_STACK)
    (hout : 11 * (pre.length + 1) < outlen) :
    dict_print_attr_oid E heap stack out0 outlen none da =
      some ((oid_text ((pre ++ [da]).map (attr_of heap))).length, oid_text ((pre ++ [da]).map (attr_of heap))) := by
  obtain ⟨-, ⟨a, ha, -, hadepth⟩, -⟩ := tree_chain_append heap pre [da] p 0 h
  rw [Nat.zero_add] at hadepth
  have hfill := tlv_stack_fill_chain heap p 0 pre da [] h
  rw [List.append_nil] at hfill
  have hmem := tree_chain_mem heap _ p 0 h
  have hlenl : (pre ++ [da]).length = pre.length + 1 := by simp
  obtain ⟨n1, rest, hl⟩ : ∃ n1 rest, pre ++ [da] = n1 :: rest := List.exists_cons_of_ne_nil (by simp)
  rw [hl] at hfill hmem hlenl ⊢
  obtain ⟨a1, ha1⟩ := hmem n1 (List.mem_cons_self _ _)
  have hlen1 := format_u_length_le a1.attr
  have hrl : rest.length = pre.length := by simp at hlenl; omega
  have h0 : ¬ (outlen = 0) := by omega
  have hd : ¬ (a.depth > E.FR_DICT_MAX_TLV_STACK) := by omega
  have hge : ¬ ((format_u a1.attr).length ≥ outlen) := by omega
  have hloop := print_loop_chain heap (List.replicate (E.FR_DICT_MAX_TLV_STACK + 1 - a.depth) none) outlen rest [n1]
    (format_u a1.attr) (a.depth + 1) (fun x hx => hmem x (List.mem_cons_of_mem _ hx)) (by omega) (by omega)
  have hg0 := stack_getD_mid [] rest n1 (List.replicate (E.FR_DICT_MAX_TLV_STACK + 1 - a.depth) none)
  simp only [List.nil_append, List.length_nil, List.singleton_append, List.length_cons, List.length_singleton,
    Nat.zero_add] at hloop hg0
  rw [hrl, ← hadepth] at hloop
  rw [← hadepth] at hfill
  unfold dict_print_attr_oid
  simp only [if_neg h0, reduceCtorEq, if_false, ha, fr_proto_tlv_stack_build, if_neg hd, hfill]
  simp only [hg0, Option.some_bind, ha1, if_neg hge, Nat.zero_add, hloop]
  simp only [oid_text, List.map_cons, attr_of_some _ _ _ ha1]

/-- C14: with `outlen > 2` and an attribute depth within the stack limit,
`fr_radius_encode_pair` returns 0, leaves the buffer as it is and moves the
cursor to the next pair when the attribute of the current pair is in the
standard space (vendor 0) with a number above 255, or when the value has
length 0 and the attribute is not the standard-space Chargeable-User-Identity
or Message-Authenticator. -/
theorem skipped_pair_returns_zero (E : Env) (heap : Heap) (ctx : Option fr_radius_ctx_t)
    (fuel outlen : Nat) (s : Enc) (vp : VALUE_PAIR) (vpda : fr_dict_attr_t)
    (hout : 2 < outlen) (hcur : fr_cursor_current s.cursor = some vp) (hda : heap[vp.da]? = some vpda)
    (hdepth : vpda.depth ≤ E.FR_DICT_MAX_TLV_STACK)
    (hskip : (vpda.vendor = 0 ∧ vpda.attr > 255) ∨
      (vp.vp_length = 0 ∧ ¬ (vpda.vendor = 0 ∧
        (vpda.attr = E.PW_CHARGEABLE_USER_IDENTITY ∨ vpda.attr = PW_MESSAGE_AUTHENTICATOR)))) :
    fr_radius_encode_pair E heap ctx fuel outlen s =
      some (0, { s with cursor := { s.cursor with pos := s.cursor.pos + 1 } }) := by
  have hnext := cursor_next_of_current s.cursor vp hcur
  have h1 : ¬ (outlen ≤ 2) := by omega
  have h2 : ¬ (vpda.depth > E.FR_DICT_MAX_TLV_STACK) := by omega
  unfold fr_radius_encode_pair
  simp only [if_neg h1, hcur, hda, if_neg h2, hnext]
  by_cases h3 : vpda.vendor = 0 ∧ vpda.attr > 255
  · rw [if_pos h3]
  · rw [if_neg h3]
    rcases hskip with h | ⟨h4, h5⟩
    · exact absurd h h3
    · have h6 : vp.vp_length = 0 ∧ (vpda.vendor ≠ 0 ∨
          (vpda.attr ≠ E.PW_CHARGEABLE_USER_IDENTITY ∧ vpda.attr ≠ PW_MESSAGE_AUTHENTICATOR)) := by
        refine ⟨h4, ?_⟩
        by_cases hv : vpda.vendor = 0
        · right
          exact ⟨fun e => h5 ⟨hv, Or.inl e⟩, fun e => h5 ⟨hv, Or.inr e⟩⟩
        · left; exact hv
      rw [if_pos h6]

theorem skipped_pair_returns_zero_witness :
    fr_radius_encode_pair sample_env two_sibling_dict.heap none 0 3 (octets_state 2 7) =
        some (0, { octets_state 2 7 with cursor := { (octets_state 2 7).cursor with pos := 1 } }) ∧
    fr_radius_encode_pair sample_env cisco_dict.heap none 0 3 (octets_state 3 0) =
        some (0, { octets_state 3 0 with cursor := { (octets_state 3 0).cursor with pos := 1 } }) :=
  ⟨skipped_pair_returns_zero sample_env two_sibling_dict.heap none 0 3 (octets_state 2 7)
      { da := 2, vp_length := 7, data := { ptr := some (List.replicate 7 65) } }
      (two_sibling_dict.heap.getD 2 fr_dict_attr_t.zero) (by decide) (by rfl) (by rfl) (by decide)
      (Or.inl (by decide)),
   skipped_pair_returns_zero sample_env cisco_dict.heap none 0 3 (octets_state 3 0)
      { da := 3, vp_length := 0, data := { ptr := some (List.replicate 0 65) } }
      (cisco_dict.heap.getD 3 fr_dict_attr_t.zero) (by decide) (by rfl) (by rfl) (by decide)
      (Or.inr (by decide))⟩

/-! ### The fast path and the general path of `fr_radius_encode_pair` -/

theorem encode_pair_general_path_eq (E : Env) (heap : Heap) (ctx : Option fr_radius_ctx_t)
    (fuel outlen : Nat) (s : Enc) (vp : VALUE_PAIR) (vpda par : fr_dict_attr_t)
    (hout : 2 < outlen) (hcur : fr_cursor_current s.cursor = some vp) (hda : heap[vp.da]? = some vpda)
    (hdepth : vpda.depth ≤ E.FR_DICT_MAX_TLV_STACK) (h255 : ¬ (vpda.vendor = 0 ∧ vpda.attr > 255))
    (hlen : vp.vp_length ≠ 0) (hpar : vpda.parent.bind (fun i => heap[i]?) = some par)
    (hslow : ¬ (par.flags.is_root = true ∧ ¬ vpda.flags.concat = true ∧ vpda.type ≠ .TLV)) :
    fr_radius_encode_pair E heap ctx fuel outlen s =
      encode_pair_general_path E heap ctx fuel outlen vp vpda s := by
  have h1 : ¬ (outlen ≤ 2) := by omega
  have h2 : ¬ (vpda.depth > E.FR_DICT_MAX_TLV_STACK) := by omega
  unfold fr_radius_encode_pair encode_pair_general_path
  simp only [if_neg h1, hcur, hda, if_neg h2, if_neg h255, hlen, false_and, if_false, hpar, if_neg hslow]

/-- C15 (the code at the failing input): the root attribute Ascend-Send-Secret
(string, `encrypt=3`) with a 5-byte value and `outlen = 255` takes the fast
path, on which `fr_radius_encode_pair` returns 0 with the cursor still on the
pair; the general path returns -1 for the same input. -/
theorem fast_path_differs_from_general_path :
    (ascend_dict.heap[1]?).bind (fun a => (a.parent.bind (fun i => ascend_dict.heap[i]?)).map
      (fun p => (p.flags.is_root, a.flags.concat, decide (a.type = .TLV)))) = some (true, false, false) ∧
    (fr_radius_encode_pair sample_env ascend_dict.heap (some accept_ctx) 20 255 (octets_state 1 5)).map
      (fun r => (r.1, r.2.cursor.pos)) = some (0, 0) ∧
    (encode_pair_general_path sample_env ascend_dict.heap (some accept_ctx) 20 255
      { da := 1, vp_length := 5, data := { ptr := some (List.replicate 5 65) } }
      (ascend_dict.heap.getD 1 fr_dict_attr_t.zero) (octets_state 1 5)).map
      (fun r => (r.1, r.2.cursor.pos)) = some (-1, 0) := by
  decide

/-! ### Attributes with the `concat` flag: free space -/

set_option maxRecDepth 100000 in
/-- C18 (the code at the failing input): the root attribute EAP-Message (octets,
`concat`) with a value of 300 bytes and `outlen = 258`. `encode_concat`, and
`fr_radius_encode_pair` through it, return 260 and have stored up to offset
259: the loop subtracts from `outlen` the data bytes of a fragment but not its
2 header bytes. -/
theorem concat_overrun :
    (encode_concat sample_env concat_dict.heap 0 258 0
        { octets_state 1 300 with tlv_stack := [some 1, none] }).map
      (fun r => (r.1, r.2.mem.hi)) = some (260, 260) ∧
    (fr_radius_encode_pair sample_env concat_dict.heap none 2 258 (octets_state 1 300)).map
      (fun r => (r.1, r.2.mem.hi)) = some (260, 260) := by
  decide

/-! ### Sub-attributes of a TLV -/

/-- C19 (the code at the failing input): the TLV attribute 100 with the string
sub-attributes 1 and 2; the cursor holds the pair of sub-attribute 1 with the
value `A` and the pair of sub-attribute 2 with an empty value.
`fr_radius_encode_pair` consumes both pairs, writes `64 02 01 03 41 02 02` and
returns 0: the record of the first pair is not part of the returned bytes and
the length byte of the TLV is left at 2. -/
theorem tlv_children_dropped :
    (fr_radius_encode_pair sample_env tlv_dict.heap none 20 255
        (pairs_state [string_pair 2 [0x41], string_pair 3 []])).map
      (fun r => (r.1, r.2.cursor.pos, r.2.mem.read 0 7)) =
      some (0, 2, [0x64, 0x02, 0x01, 0x03, 0x41, 0x02, 0x02]) := by
  decide

/-! ### Tags -/

theorem encode_value_at_leaf (E : Env) (heap : Heap) (ctx : Option fr_radius_ctx_t) (fuel out outlen depth : Nat)
    (s : Enc) (di : Nat) (da : fr_dict_attr_t) (vp : VALUE_PAIR)
    (hst : s.stack_at depth = some di) (hda : heap[di]? = some da) (htop : s.stack_at (depth + 1) = none)
    (hcur : fr_cursor_current s.cursor = some vp) (hvp : vp.da = di)
    (hns : da.type.is_structural = false) :
    encode_value E heap ctx (fuel + 1) out outlen depth s = encode_value_leaf E heap ctx out outlen da vp s := by
  have htlv : da.type ≠ .TLV := by intro h; rw [h] at hns; exact absurd hns (by decide)
  have hstr : da.type ≠ .STRUCT := by intro h; rw [h] at hns; exact absurd hns (by decide)
  simp only [encode_value, Enc.da_at, hst, Option.some_bind, hda, if_neg htlv, if_neg hstr, htop,
    Option.isSome_none, Bool.false_eq_true, if_false, hcur, hvp, ne_eq, not_true_eq_false, hns]

theorem min_as_if (a b : Nat) : (if (a : Int) > (b : Int) then (b : Int) else (a : Int)) = ((min a b : Nat) : Int) := by
  split
  · rw [Nat.min_eq_right (by omega)]
  · rw [Nat.min_eq_left (by omega)]

theorem tag_byte_lt (t : Int) : tag_byte t < 256 := by
  unfold tag_byte
  have h1 : 0 ≤ t % 256 := Int.emod_nonneg t (by norm_num)
  have h2 : t % 256 < 256 := Int.emod_lt_of_pos t (by norm_num)
  omega

theorem tag_byte_of_byte (t : Int) (h0 : 0 ≤ t) (h1 : t < 256) : (tag_byte t : Int) = t := by
  unfold tag_byte
  rw [Int.emod_eq_of_lt h0 h1]
  exact Int.toNat_of_nonneg h0

theorem to_ssize_min (a b : Nat) (hb : b < 2 ^ 63) :
    (if (a : Int) > to_ssize b then to_ssize b else (a : Int)) = ((min a b : Nat) : Int) := by
  rw [to_ssize_small b hb]
  exact min_as_if a b

theorem of_ssize_min (a b : Nat) (hb : b < 2 ^ 63) : of_ssize ((min a b : Nat) : Int) = min a b :=
  of_ssize_nat _ (by have := Nat.min_le_right a b; omega)

/-- C20: for an unencrypted attribute with `has_tag` at the top of the TLV
stack, `encode_value` with room for at least one byte encodes a String pair
with a valid tag `t` as the byte `t` followed by the first
`min(L, outlen - 1)` bytes of the string, and (with room for 4 bytes) an
Integer pair with a valid tag as the byte `t` followed by the low 24 bits of
the integer in big-endian order; when the tag of the pair is not valid the
String is encoded as its first `min(L, outlen)` bytes and the Integer as its 4
big-endian bytes, without a tag byte. The byte stored for a tag in 0..255 is
the tag itself. -/
theorem tagged_value_layout (E : Env) (heap : Heap) (ctx : Option fr_radius_ctx_t)
    (fuel out outlen depth : Nat) (s : Enc) (di : Nat) (da : fr_dict_attr_t) (vp : VALUE_PAIR)
    (hst : s.stack_at depth = some di) (hda : heap[di]? = some da) (htop : s.stack_at (depth + 1) = none)
    (hcur : fr_cursor_current s.cursor = some vp) (hvp : vp.da = di)
    (henc : da.flags.encrypt = 0) (htag : da.flags.has_tag = true)
    (hout1 : 1 ≤ outlen) (hout : outlen < 2 ^ 63) :
    (da.type = .STRING → ∀ data, vp.data.ptr = some data → 1 ≤ vp.vp_length →
      (E.TAG_VALID vp.tag = true → ∃ s1,
        encode_value E heap ctx (fuel + 1) out outlen depth s =
          some (((min vp.vp_length (outlen - 1) + 1 : Nat) : Int), s1) ∧
        s1.mem.read out (min vp.vp_length (outlen - 1) + 1) =
          tag_byte vp.tag :: (read_bytes data (min vp.vp_length (outlen - 1))).map (fun b => b % 256)) ∧
      (E.TAG_VALID vp.tag = false → ∃ s1,
        encode_value E heap ctx (fuel + 1) out outlen depth s =
          some (((min vp.vp_length outlen : Nat) : Int), s1) ∧
        s1.mem.read out (min vp.vp_length outlen) =
          (read_bytes data (min vp.vp_length outlen)).map (fun b => b % 256))) ∧
    (da.type = .INTEGER → 4 ≤ outlen →
      (E.TAG_VALID vp.tag = true → ∃ s1,
        encode_value E heap ctx (fuel + 1) out outlen depth s = some (4, s1) ∧
        s1.mem.read out 4 =
          [tag_byte vp.tag, vp.data.scalar % 2 ^ 32 / 2 ^ 16 % 256, vp.data.scalar % 2 ^ 32 / 2 ^ 8 % 256,
            vp.data.scalar % 2 ^ 32 % 256]) ∧
      (E.TAG_VALID vp.tag = false → ∃ s1,
        encode_value E heap ctx (fuel + 1) out outlen depth s = some (4, s1) ∧
        s1.mem.read out 4 = be_bytes 4 (vp.data.scalar % 2 ^ 32))) ∧
    (0 ≤ vp.tag → vp.tag < 256 → (tag_byte vp.tag : Int) = vp.tag) := by
  refine ⟨?_, ?_, tag_byte_of_byte vp.tag⟩
  · intro hty data hptr hL
    have hns : da.type.is_structural = false := by rw [hty]; rfl
    have hleaf := encode_value_at_leaf E heap ctx fuel out outlen depth s di da vp hst hda htop hcur hvp hns
    have hL0 : ¬ ((vp.vp_length : Int) = 0) := by omega
    have hmin1 : min (min vp.vp_length outlen) (outlen - 1) = min vp.vp_length (outlen - 1) := by
      simp only [Nat.min_def]; split_ifs <;> omega
    have h01 : ¬ ((0 : Nat) = 1) := by decide
    constructor
    · intro hvalid
      have key : encode_value_leaf E heap ctx out outlen da vp s =
          some (((min vp.vp_length (outlen - 1) + 1 : Nat) : Int),
            (Enc.mk ((s.mem.write out (tag_byte vp.tag)).memcpy (out + 1) data (min vp.vp_length (outlen - 1)))
              s.cursor s.tlv_stack s.g).advance E heap) := by
        simp only [encode_value_leaf, value_source, hty, hptr, Option.map_some', if_neg hL0, henc,
          ne_eq, not_true_eq_false, false_and, if_false, FLAG_ENCRYPT_USER_PASSWORD,
          FLAG_ENCRYPT_TUNNEL_PASSWORD, FLAG_ENCRYPT_ASCEND_SECRET, OfNat.zero_ne_ofNat, htag, hvalid, and_self,
          if_true, to_ssize_min _ _ hout, size_sub_small outlen 1 hout1 (by omega),
          to_ssize_min _ _ (show outlen - 1 < 2 ^ 63 by omega), hmin1, h01,
          of_ssize_min _ _ (show outlen - 1 < 2 ^ 63 by omega)]
        rfl
      refine ⟨_, by rw [hleaf, key], ?_⟩
      simp only [Enc.advance_mem]
      rw [Mem.read_succ, read_memcpy, Mem.memcpy_byte, if_neg (by omega), Mem.write_byte, if_pos rfl,
        Nat.mod_eq_of_lt (tag_byte_lt _)]
    · intro hvalid
      have key : encode_value_leaf E heap ctx out outlen da vp s =
          some (((min vp.vp_length outlen : Nat) : Int),
            (Enc.mk (s.mem.memcpy out data (min vp.vp_length outlen)) s.cursor s.tlv_stack s.g).advance
              E heap) := by
        simp only [encode_value_leaf, value_source, hty, hptr, Option.map_some', if_neg hL0, henc,
          ne_eq, not_true_eq_false, false_and, if_false, FLAG_ENCRYPT_USER_PASSWORD,
          FLAG_ENCRYPT_TUNNEL_PASSWORD, FLAG_ENCRYPT_ASCEND_SECRET, OfNat.zero_ne_ofNat, htag, hvalid,
          Bool.false_eq_true, and_false, to_ssize_min _ _ hout, h01, of_ssize_min _ _ hout]
      refine ⟨_, by rw [hleaf, key], ?_⟩
      simp only [Enc.advance_mem]
      exact read_memcpy _ _ _ _
  · intro hty hout4
    have hns : da.type.is_structural = false := by rw [hty]; rfl
    have hleaf := encode_value_at_leaf E heap ctx fuel out outlen depth s di da vp hst hda htop hcur hvp hns
    have h4 : (if (4 : Int) > to_ssize outlen then to_ssize outlen else 4) = ((4 : Nat) : Int) := by
      rw [to_ssize_small outlen hout]
      split
      · omega
      · rfl
    have hof : of_ssize ((4 : Nat) : Int) = 4 := of_ssize_nat 4 (by norm_num)
    have h01 : ¬ ((0 : Nat) = 1) := by decide
    have h40 : ¬ (((4 : Nat) : Int) = 0) := by decide
    have h40b : ¬ ((4 : Int) = 0) := by decide
    constructor
    · intro hvalid
      have key : encode_value_leaf E heap ctx out outlen da vp s =
          some (((4 : Nat) : Int),
            (Enc.mk (s.mem.memcpy out (tag_byte vp.tag :: (htonl_bytes (vp.data.scalar % 2 ^ 32)).drop 1) 4)
              s.cursor s.tlv_stack s.g).advance E heap) := by
        simp only [encode_value_leaf, value_source, hty, henc, ne_eq, not_true_eq_false, false_and, if_false,
          FLAG_ENCRYPT_USER_PASSWORD, FLAG_ENCRYPT_TUNNEL_PASSWORD, FLAG_ENCRYPT_ASCEND_SECRET,
          OfNat.zero_ne_ofNat, htag, hvalid, and_self, if_true, h4, reduceCtorEq, h01, h40, h40b, hof]
      refine ⟨_, by rw [hleaf, key]; rfl, ?_⟩
      simp only [Enc.advance_mem]
      rw [read_memcpy]
      have := tag_byte_lt vp.tag
      simp [read_bytes, htonl_bytes, List.range_succ, Nat.mod_eq_of_lt this]
    · intro hvalid
      have key : encode_value_leaf E heap ctx out outlen da vp s =
          some (((4 : Nat) : Int),
            (Enc.mk (s.mem.memcpy out (htonl_bytes (vp.data.scalar % 2 ^ 32)) 4) s.cursor s.tlv_stack
              s.g).advance E heap) := by
        simp only [encode_value_leaf, value_source, hty, henc, ne_eq, not_true_eq_false, false_and, if_false,
          FLAG_ENCRYPT_USER_PASSWORD, FLAG_ENCRYPT_TUNNEL_PASSWORD, FLAG_ENCRYPT_ASCEND_SECRET,
          OfNat.zero_ne_ofNat, htag, hvalid, Bool.false_eq_true, and_false, h4, h01, h40, h40b, hof]
      refine ⟨_, by rw [hleaf, key]; rfl, ?_⟩
      simp only [Enc.advance_mem]
      rw [read_memcpy, ← htonl_bytes_eq]
      simp [read_bytes, htonl_bytes, List.range_succ]

theorem tagged_value_layout_witness :
    (∃ s1, encode_value sample_env tagged_dict.heap none 1 0 10 0
        (leaf_state { da := 2, vp_length := 3, tag := 5, data := { ptr := some [97, 98, 99] } }) =
          some (4, s1) ∧ s1.mem.read 0 4 = [5, 97, 98, 99]) ∧
    (∃ s1, encode_value sample_env tagged_dict.heap none 1 0 10 0
        (leaf_state { da := 1, vp_length := 4, tag := 5, data := { scalar := 0x01020304 } }) =
          some (4, s1) ∧ s1.mem.read 0 4 = [5, 2, 3, 4]) ∧
    (∃ s1, encode_value sample_env tagged_dict.heap none 1 0 10 0
        (leaf_state { da := 1, vp_length := 4, tag := 0, data := { scalar := 0x01020304 } }) =
          some (4, s1) ∧ s1.mem.read 0 4 = [1, 2, 3, 4]) :=
  ⟨((tagged_value_layout sample_env tagged_dict.heap none 0 0 10 0
        (leaf_state { da := 2, vp_length := 3, tag := 5, data := { ptr := some [97, 98, 99] } }) 2
        (tagged_dict.heap.getD 2 fr_dict_attr_t.zero)
        { da := 2, vp_length := 3, tag := 5, data := { ptr := some [97, 98, 99] } }
        (by rfl) (by rfl) (by rfl) (by rfl) (by rfl) (by decide) (by decide) (by decide) (by decide)).1
      (by decide) [97, 98, 99] rfl (by decide)).1 (by decide),
   ((tagged_value_layout sample_env tagged_dict.heap none 0 0 10 0
        (leaf_state { da := 1, vp_length := 4, tag := 5, data := { scalar := 0x01020304 } }) 1
        (tagged_dict.heap.getD 1 fr_dict_attr_t.zero)
        { da := 1, vp_length := 4, tag := 5, data := { scalar := 0x01020304 } }
        (by rfl) (by rfl) (by rfl) (by rfl) (by rfl) (by decide) (by decide) (by decide) (by decide)).2.1
      (by decide) (by decide)).1 (by decide),
   ((tagged_value_layout sample_env tagged_dict.heap none 0 0 10 0
        (leaf_state { da := 1, vp_length := 4, tag := 0, data := { scalar := 0x01020304 } }) 1
        (tagged_dict.heap.getD 1 fr_dict_attr_t.zero)
        { da := 1, vp_length := 4, tag := 0, data := { scalar := 0x01020304 } }
        (by rfl) (by rfl) (by rfl) (by rfl) (by rfl) (by decide) (by decide) (by decide) (by decide)).2.1
      (by decide) (by decide)).2 (by decide)⟩

/-! ### Plain RFC attributes -/

theorem leaf_plain_string (E : Env) (heap : Heap) (ctx : Option fr_radius_ctx_t) (out outlen : Nat)
    (da : fr_dict_attr_t) (vp : VALUE_PAIR) (s : Enc) (data : List Nat)
    (hty : da.type = .STRING ∨ da.type = .OCTETS) (hfix : da.flags.length = 0)
    (henc : da.flags.encrypt = 0) (htag : da.flags.has_tag = false)
    (hptr : vp.data.ptr = some data) (hL : 1 ≤ vp.vp_length) (hout : outlen < 2 ^ 63) :
    encode_value_leaf E heap ctx out outlen da vp s =
      some (((min vp.vp_length outlen : Nat) : Int),
        (Enc.mk (s.mem.memcpy out data (min vp.vp_length outlen)) s.cursor s.tlv_stack s.g).advance E heap) := by
  have hL0 : ¬ ((vp.vp_length : Int) = 0) := by omega
  have h01 : ¬ ((0 : Nat) = 1) := by decide
  rcases hty with hty | hty
  all_goals
    simp only [encode_value_leaf, value_source, hty, hptr, Option.map_some', if_neg hL0, henc, hfix,
      ne_eq, not_true_eq_false, false_and, if_false, FLAG_ENCRYPT_USER_PASSWORD,
      FLAG_ENCRYPT_TUNNEL_PASSWORD, FLAG_ENCRYPT_ASCEND_SECRET, OfNat.zero_ne_ofNat, htag,
      Bool.false_eq_true, to_ssize_min _ _ hout, h01, of_ssize_min _ _ hout]

/-- C16: for a pair whose attribute is a root-level, non-concat, untagged,
unencrypted String or Octets attribute without a fixed dictionary length,
with number `a` in 1..255 other than Message-Authenticator, a value of
`L >= 1` bytes and `outlen >= 3`, `fr_radius_encode_pair` returns `2 + n` with
`n = min(L, min(outlen, 255) - 2)`, moves the cursor to the next pair and
writes the byte `a`, the length byte `2 + n` and the first `n` bytes of the
value. -/
theorem plain_rfc_layout (E : Env) (heap : Heap) (ctx : Option fr_radius_ctx_t) (fuel outlen : Nat)
    (s : Enc) (vp : VALUE_PAIR) (da par : fr_dict_attr_t) (pi : Nat) (data : List Nat)
    (hfuel : 2 ≤ fuel) (hout : 3 ≤ outlen)
    (hcur : fr_cursor_current s.cursor = some vp) (hda : heap[vp.da]? = some da)
    (hdepth : da.depth ≤ E.FR_DICT_MAX_TLV_STACK)
    (hpar : da.parent = some pi) (hpi : heap[pi]? = some par) (hroot : par.flags.is_root = true)
    (hconcat : da.flags.concat = false) (htag : da.flags.has_tag = false) (henc : da.flags.encrypt = 0)
    (hty : da.type = .STRING ∨ da.type = .OCTETS) (hfix : da.flags.length = 0)
    (ha1 : 1 ≤ da.attr) (ha255 : da.attr ≤ 255) (hma : da.attr ≠ PW_MESSAGE_AUTHENTICATOR)
    (hptr : vp.data.ptr = some data) (hL : 1 ≤ vp.vp_length) :
    ∃ s1, fr_radius_encode_pair E heap ctx fuel outlen s =
        some (((2 + min vp.vp_length (min outlen 255 - 2) : Nat) : Int), s1) ∧
      s1.cursor = { s.cursor with pos := s.cursor.pos + 1 } ∧
      s1.mem.read 0 (2 + min vp.vp_length (min outlen 255 - 2)) =
        da.attr :: (2 + min vp.vp_length (min outlen 255 - 2)) ::
          (read_bytes data (min vp.vp_length (min outlen 255 - 2))).map (fun b => b % 256) := by
  obtain ⟨f, rfl⟩ : ∃ f, fuel = f + 2 := ⟨fuel - 2, by omega⟩
  have hnext := cursor_next_of_current s.cursor vp hcur
  have hns : da.type.is_structural = false := by
    rcases hty with h | h <;> rw [h] <;> rfl
  have htlv : da.type ≠ .TLV := by intro h; rw [h] at hns; exact absurd hns (by decide)
  generalize hal : (if outlen > 255 then 255 else outlen) = al
  have hal2 : al = min outlen 255 := by
    rw [← hal]; simp only [Nat.min_def]; split_ifs <;> omega
  have hal3 : 3 ≤ al ∧ al ≤ 255 := by
    rw [hal2]; simp only [Nat.min_def]; split_ifs <;> omega
  generalize hn : min vp.vp_length (al - 2) = n
  have hn2 : n ≤ al - 2 := by rw [← hn]; exact Nat.min_le_right _ _
  rw [← hal2, hn]
  have h1 : ¬ (outlen ≤ 2) := by omega
  have h2 : ¬ (da.depth > E.FR_DICT_MAX_TLV_STACK) := by omega
  have h3 : ¬ (da.vendor = 0 ∧ da.attr > 255) := by omega
  have h4 : vp.vp_length ≠ 0 := by omega
  have h5 : ¬ ((da.vendor = 0 ∧ da.attr = 0) ∨ da.attr > 255) := by omega
  have h6 : ¬ (da.vendor = 0 ∧ da.attr = PW_MESSAGE_AUTHENTICATOR) := fun h => hma h.2
  have h7 : ¬ (al ≤ 2) := by omega
  have h8 : ¬ (al > 255) := by omega
  have hfast : par.flags.is_root = true ∧ ¬ da.flags.concat = true ∧ da.type ≠ .TLV :=
    ⟨hroot, by rw [hconcat]; decide, htlv⟩
  have hleafv := encode_value_at_leaf E heap ctx f 2 (al - 2) 0
    (Enc.mk ((s.mem.write 0 (da.attr &&& 0xff)).write 1 2) s.cursor (some vp.da :: none :: s.tlv_stack.drop 2) s.g)
    vp.da da vp rfl hda rfl hcur rfl hns
  have hleaf := leaf_plain_string E heap ctx 2 (al - 2) da vp
    (Enc.mk ((s.mem.write 0 (da.attr &&& 0xff)).write 1 2) s.cursor (some vp.da :: none :: s.tlv_stack.drop 2) s.g)
    data hty hfix henc htag hptr hL (by omega)
  rw [hn] at hleaf
  have hpos : ¬ (((n : Nat) : Int) ≤ 0) := by
    have : 1 ≤ n := by rw [← hn]; exact Nat.le_min.mpr ⟨hL, by omega⟩
    omega
  unfold fr_radius_encode_pair
  simp only [if_neg h1, hcur, hda, if_neg h2, if_neg h3, h4, false_and, if_false, hpar, Option.some_bind, hpi,
    if_pos hfast, hal, encode_rfc_hdr, Enc.da_at, Enc.stack_at, List.getD_cons_zero, hns, Bool.false_eq_true,
    if_neg h5, if_neg h6, encode_rfc_hdr_internal, if_neg h7, if_neg h8, Nat.zero_add,
    size_sub_small al 2 (by omega) (by omega), hleafv, hleaf, if_neg hpos]
  have hret : ((((s.mem.write 0 (da.attr &&& 0xff)).write 1 2).memcpy 2 data n).add_byte 1 (n : Int)).byte 1 =
      2 + n := by
    rw [Mem.add_byte_byte, if_pos rfl, Mem.memcpy_byte, if_neg (by omega), Mem.write_byte, if_pos rfl]
    exact add_byte_value 2 n (by omega)
  simp only [Enc.advance_mem, hret]
  refine ⟨_, rfl, ?_, ?_⟩
  · show (Enc.advance E heap _).cursor = _
    simp only [Enc.advance, hnext]
  · have hb0 : ((((s.mem.write 0 (da.attr &&& 0xff)).write 1 2).memcpy 2 data n).add_byte 1 (n : Int)).byte 0 =
        da.attr := by
      rw [Mem.add_byte_byte, if_neg (by omega), Mem.memcpy_byte, if_neg (by omega), Mem.write_byte,
        if_neg (by omega), Mem.write_byte, if_pos rfl, and_ff, Nat.mod_mod, Nat.mod_eq_of_lt (by omega)]
    have hrd : ((((s.mem.write 0 (da.attr &&& 0xff)).write 1 2).memcpy 2 data n).add_byte 1 (n : Int)).read 2 n =
        (read_bytes data n).map (fun b => b % 256) := by
      rw [read_add_byte_lt _ _ _ _ _ (by omega), read_memcpy]
    have e : 2 + n = n + 1 + 1 := by omega
    rw [e, Mem.read_succ, Mem.read_succ]
    simp only [Nat.zero_add, Nat.reduceAdd]
    rw [hb0, hret, hrd, Nat.add_comm 2 n]

theorem plain_rfc_layout_witness :
    ∃ s1, fr_radius_encode_pair sample_env user_name_dict.heap none 2 4
        (pairs_state [string_pair 1 [97, 98, 99]]) = some (4, s1) ∧
      s1.cursor = { vps := [string_pair 1 [97, 98, 99]], pos := 1 } ∧
      s1.mem.read 0 4 = [1, 4, 97, 98] :=
  plain_rfc_layout sample_env user_name_dict.heap none 2 4 (pairs_state [string_pair 1 [97, 98, 99]])
    (string_pair 1 [97, 98, 99]) (user_name_dict.heap.getD 1 fr_dict_attr_t.zero)
    (user_name_dict.heap.getD 0 fr_dict_attr_t.zero) 0 [97, 98, 99]
    (by decide) (by decide) (by rfl) (by rfl) (by decide) (by rfl) (by rfl) (by decide) (by decide)
    (by decide) (by decide) (by decide) (by decide) (by decide) (by decide) (by decide) (by rfl) (by decide)

/-! ### Attributes with the `concat` flag: the records -/

theorem value_chunks_cons (v : List Nat) (h : v ≠ []) :
    value_chunks v = v.take 253 :: value_chunks (v.drop 253) := by
  have hl : 1 ≤ v.length := List.length_pos.mpr h
  have hc : (v.length + 252) / 253 = ((v.drop 253).length + 252) / 253 + 1 := by
    rw [List.length_drop]; omega
  unfold value_chunks
  rw [hc, List.range_succ_eq_map, List.map_cons, List.map_map]
  congr 1
  apply List.map_congr_left
  intro i _
  simp only [Function.comp, List.drop_drop]
  congr 2
  omega

theorem value_chunks_nil : value_chunks [] = [] := rfl

theorem value_chunks_flatten : ∀ (n : Nat) (v : List Nat), v.length ≤ n → (value_chunks v).flatten = v := by
  intro n
  induction n with
  | zero =>
    intro v h
    have : v = [] := List.length_eq_zero.mp (by omega)
    rw [this]; rfl
  | succ k ih =>
    intro v h
    by_cases hv : v = []
    · rw [hv]; rfl
    · have hl : 1 ≤ v.length := List.length_pos.mpr hv
      rw [value_chunks_cons v hv, List.flatten_cons, ih (v.drop 253) (by rw [List.length_drop]; omega),
        List.take_append_drop]

theorem read_bytes_add (data : List Nat) (a b : Nat) :
    read_bytes data (a + b) = read_bytes data a ++ read_bytes (data.drop a) b := by
  unfold read_bytes
  rw [List.range_add, List.map_append, List.map_map]
  congr 1
  apply List.map_congr_left
  intro i _
  simp only [Function.comp, List.getD_eq_getElem?_getD, List.getElem?_drop]

theorem read_bytes_length (data : List Nat) (n : Nat) : (read_bytes data n).length = n := by
  simp [read_bytes]

theorem chunk_split (d : List Nat) (p len : Nat) (hlen : 1 ≤ len) :
    ((read_bytes (d.drop p) len).map (fun b => b % 256)).take 253 =
        (read_bytes (d.drop p) (min len 253)).map (fun b => b % 256) ∧
    ((read_bytes (d.drop p) len).map (fun b => b % 256)).drop 253 =
        (read_bytes (d.drop (p + min len 253)) (len - min len 253)).map (fun b => b % 256) := by
  have e : len = min len 253 + (len - min len 253) := by
    have := Nat.min_le_left len 253; omega
  have hs : (read_bytes (d.drop p) len).map (fun b => b % 256) =
      (read_bytes (d.drop p) (min len 253)).map (fun b => b % 256) ++
      (read_bytes (d.drop (p + min len 253)) (len - min len 253)).map (fun b => b % 256) := by
    conv_lhs => rw [e]
    rw [read_bytes_add, List.map_append, List.drop_drop]
  have hA : ((read_bytes (d.drop p) (min len 253)).map (fun b => b % 256)).length = min len 253 := by
    rw [List.length_map, read_bytes_length]
  rw [hs]
  by_cases h253 : len ≤ 253
  · have hm : min len 253 = len := Nat.min_eq_left h253
    have hB : (read_bytes (d.drop (p + min len 253)) (len - min len 253)).map (fun b => b % 256) = [] := by
      rw [hm, Nat.sub_self]; rfl
    rw [hB, List.append_nil]
    constructor
    · exact List.take_of_length_le (by rw [hA]; omega)
    · exact List.drop_of_length_le (by rw [hA]; omega)
  · have hm : min len 253 = 253 := Nat.min_eq_right (by omega)
    rw [hm] at hA ⊢
    exact ⟨List.take_left' hA, List.drop_left' hA⟩

theorem concat_records_nil (a : Nat) : concat_records a [] = [] := rfl

theorem concat_records_cons (a : Nat) (v : List Nat) (h : v ≠ []) :
    concat_records a v = a :: (2 + (v.take 253).length) :: (v.take 253 ++ concat_records a (v.drop 253)) := by
  unfold concat_records
  rw [value_chunks_cons v h]
  simp

theorem encode_concat_loop_records (a : Nat) (d : List Nat) (ha : a ≤ 255) :
    ∀ (fuel : Nat) (m : Mem) (ptr p len outlen : Nat), len < fuel → (len = 0 ∨ len + 2 ≤ outlen) →
      outlen < 2 ^ 64 →
      ∃ m1, encode_concat_loop (some a) (some d) fuel m ptr p len outlen =
          some (m1, ptr + (len + 2 * ((len + 252) / 253))) ∧
        (∀ j, j < ptr → m1.byte j = m.byte j) ∧
        m1.read ptr (len + 2 * ((len + 252) / 253)) =
          concat_records a ((read_bytes (d.drop p) len).map (fun b => b % 256)) := by
  intro fuel
  induction fuel with
  | zero => intro m ptr p len outlen h; omega
  | succ k ih =>
    intro m ptr p len outlen hfuel hroom hout
    by_cases h0 : len = 0
    · subst h0
      refine ⟨m, ?_, fun _ _ => rfl, ?_⟩
      · simp [encode_concat_loop]
      · have e0 : 0 + 2 * ((0 + 252) / 253) = 0 := by norm_num
        have e1 : (read_bytes (d.drop p) 0).map (fun b => b % 256) = [] := by simp [read_bytes]
        rw [e0, e1, concat_records_nil]
        rfl
    · have hroom2 : len + 2 ≤ outlen := by omega
      have h2 : ¬ (outlen ≤ 2) := by omega
      generalize hleft : min len 253 = left
      have hl1 : 1 ≤ left := by rw [← hleft]; exact Nat.le_min.mpr ⟨by omega, by omega⟩
      have hl2 : left ≤ 253 := by rw [← hleft]; exact Nat.min_le_right _ _
      have hl3 : left ≤ len := by rw [← hleft]; exact Nat.min_le_left _ _
      have hleft1 : (if len > 253 then 253 else len) = left := by
        rw [← hleft]; simp only [Nat.min_def]; split_ifs <;> omega
      have hnl : ¬ (outlen < left + 2) := by omega
      have hb1 : ((((m.write ptr (a &&& 0xff)).write (ptr + 1) 2).memcpy (ptr + 2) (d.drop p) left).add_byte
          (ptr + 1) (left : Int)).byte (ptr + 1) = 2 + left := by
        rw [Mem.add_byte_byte, if_pos rfl, Mem.memcpy_byte, if_neg (by omega), Mem.write_byte, if_pos rfl]
        exact add_byte_value 2 left (by omega)
      have hb0 : ((((m.write ptr (a &&& 0xff)).write (ptr + 1) 2).memcpy (ptr + 2) (d.drop p) left).add_byte
          (ptr + 1) (left : Int)).byte ptr = a := by
        rw [Mem.add_byte_byte, if_neg (by omega), Mem.memcpy_byte, if_neg (by omega), Mem.write_byte,
          if_neg (by omega), Mem.write_byte, if_pos rfl, and_ff, Nat.mod_mod, Nat.mod_eq_of_lt (by omega)]
      have hrd : ((((m.write ptr (a &&& 0xff)).write (ptr + 1) 2).memcpy (ptr + 2) (d.drop p) left).add_byte
          (ptr + 1) (left : Int)).read (ptr + 2) left = (read_bytes (d.drop p) left).map (fun b => b % 256) := by
        rw [read_add_byte_lt _ _ _ _ _ (by omega), read_memcpy]
      obtain ⟨m1, e1, hframe, hread⟩ := ih
        ((((m.write ptr (a &&& 0xff)).write (ptr + 1) 2).memcpy (ptr + 2) (d.drop p) left).add_byte
          (ptr + 1) (left : Int)) (ptr + (2 + left)) (p + left) (len - left) (outlen - left)
        (by omega) (by omega) (by omega)
      have htot : ptr + (2 + left) + (len - left + 2 * ((len - left + 252) / 253)) =
          ptr + (len + 2 * ((len + 252) / 253)) := by
        rw [← hleft]; simp only [Nat.min_def]; split_ifs <;> omega
      have htot2 : len + 2 * ((len + 252) / 253) = (2 + left) + (len - left + 2 * ((len - left + 252) / 253)) := by
        omega
      obtain ⟨hsplit1, hsplit2⟩ := chunk_split d p len (by omega)
      rw [hleft] at hsplit1 hsplit2
      have hne : (read_bytes (d.drop p) len).map (fun b => b % 256) ≠ [] := by
        intro h
        have := congrArg List.length h
        rw [List.length_map, read_bytes_length] at this
        simp at this
        omega
      refine ⟨m1, ?_, ?_, ?_⟩
      · rw [encode_concat_loop]
        simp only [if_neg h0, if_neg h2, hleft1, if_neg hnl, hb1, size_sub_small outlen left (by omega) hout, e1,
          htot]
      · intro j hj
        rw [hframe j (by omega), Mem.add_byte_byte, if_neg (by omega), Mem.memcpy_byte, if_neg (by omega),
          Mem.write_byte, if_neg (by omega), Mem.write_byte, if_neg (by omega)]
      · rw [htot2, Mem.read_add, hread, concat_records_cons _ _ hne, hsplit1, hsplit2, List.length_map,
          read_bytes_length]
        have e2 : 2 + left = left + 1 + 1 := by omega
        have hf0 := hframe ptr (by omega)
        have hf1 := hframe (ptr + 1) (by omega)
        have hfr : m1.read (ptr + 2) left = (read_bytes (d.drop p) left).map (fun b => b % 256) := by
          rw [← hrd]
          apply Mem.read_congr
          intro i hi
          exact hframe _ (by omega)
        conv_lhs => rw [e2, Mem.read_succ, Mem.read_succ, hf0, hf1, hb0, hb1]
        simp only [Nat.add_assoc, Nat.reduceAdd, hfr, List.cons_append]

theorem value_chunks_shape (v : List Nat) :
    (value_chunks v).length = (v.length + 252) / 253 ∧
    (∀ i, i + 1 < (v.length + 252) / 253 → ((value_chunks v).getD i []).length = 253) ∧
    (∀ c ∈ value_chunks v, 1 ≤ c.length ∧ c.length ≤ 253) := by
  refine ⟨by simp [value_chunks], ?_, ?_⟩
  · intro i hi
    have hi2 : i < (List.range ((v.length + 252) / 253)).length := by rw [List.length_range]; omega
    unfold value_chunks
    rw [List.getD_eq_getElem?_getD, List.getElem?_map, List.getElem?_eq_getElem hi2, List.getElem_range]
    simp only [Option.map_some', Option.getD_some, List.length_take, List.length_drop]
    omega
  · intro c hc
    unfold value_chunks at hc
    rw [List.mem_map] at hc
    obtain ⟨i, hi, rfl⟩ := hc
    rw [List.mem_range] at hi
    simp only [List.length_take, List.length_drop]
    omega

theorem stack_build_depth_one (E : Env) (heap : Heap) (stack : List (Option Nat)) (i : Nat)
    (da : fr_dict_attr_t) (hda : heap[i]? = some da) (hdepth : da.depth = 1)
    (hmax : 1 ≤ E.FR_DICT_MAX_TLV_STACK) :
    fr_proto_tlv_stack_build E heap stack (some i) =
      some i :: List.replicate (E.FR_DICT_MAX_TLV_STACK + 1 - 1) none := by
  have hd : ¬ (1 > E.FR_DICT_MAX_TLV_STACK) := by omega
  simp only [fr_proto_tlv_stack_build, hda, hdepth, if_neg hd, tlv_stack_fill, List.singleton_append]

/-- C17: for an Octets attribute of depth 1 (a child of the root) with the
`concat` flag and a number `a <= 255`, a value of `L >= 1` bytes and `outlen >= L + 2 * ceil(L / 253)`,
`fr_radius_encode_pair` returns `L + 2 * ceil(L / 253)`, moves the cursor to
the next pair and writes one record per piece of the value, each made of the
byte `a`, the length byte `2 + n_i` and the `n_i` bytes of the piece. The
pieces are `ceil(L / 253)` in number, every one but the last holds 253 bytes,
each holds between 1 and 253 bytes, and concatenated in order they are the
value. -/
theorem concat_layout (E : Env) (heap : Heap) (ctx : Option fr_radius_ctx_t) (fuel outlen : Nat)
    (s : Enc) (vp : VALUE_PAIR) (da par : fr_dict_attr_t) (pi : Nat) (data : List Nat)
    (hmax : 1 ≤ E.FR_DICT_MAX_TLV_STACK)
    (hcur : fr_cursor_current s.cursor = some vp) (hda : heap[vp.da]? = some da)
    (hdepth : da.depth = 1) (hpar : da.parent = some pi) (hpi : heap[pi]? = some par)
    (hty : da.type = .OCTETS) (hconcat : da.flags.concat = true) (ha : da.attr ≤ 255)
    (hptr : vp.data.ptr = some data) (hL : 1 ≤ vp.vp_length)
    (hout : vp.vp_length + 2 * ((vp.vp_length + 252) / 253) ≤ outlen) (hout2 : outlen < 2 ^ 64) :
    ∃ s1, fr_radius_encode_pair E heap ctx fuel outlen s =
        some (((vp.vp_length + 2 * ((vp.vp_length + 252) / 253) : Nat) : Int), s1) ∧
      s1.cursor = { s.cursor with pos := s.cursor.pos + 1 } ∧
      s1.mem.read 0 (vp.vp_length + 2 * ((vp.vp_length + 252) / 253)) =
        concat_records da.attr ((read_bytes data vp.vp_length).map (fun b => b % 256)) ∧
      (value_chunks ((read_bytes data vp.vp_length).map (fun b => b % 256))).flatten =
        (read_bytes data vp.vp_length).map (fun b => b % 256) ∧
      (value_chunks ((read_bytes data vp.vp_length).map (fun b => b % 256))).length =
        (vp.vp_length + 252) / 253 ∧
      (∀ i, i + 1 < (vp.vp_length + 252) / 253 →
        ((value_chunks ((read_bytes data vp.vp_length).map (fun b => b % 256))).getD i []).length = 253) ∧
      (∀ c ∈ value_chunks ((read_bytes data vp.vp_length).map (fun b => b % 256)),
        1 ≤ c.length ∧ c.length ≤ 253) := by
  have hvl : ((read_bytes data vp.vp_length).map (fun b => b % 256)).length = vp.vp_length := by
    rw [List.length_map, read_bytes_length]
  obtain ⟨hc1, hc2, hc3⟩ := value_chunks_shape ((read_bytes data vp.vp_length).map (fun b => b % 256))
  rw [hvl] at hc1 hc2
  have hnext := cursor_next_of_current s.cursor vp hcur
  obtain ⟨m1, e1, -, hread⟩ := encode_concat_loop_records da.attr data ha (vp.vp_length + 1) s.mem 0 0
    vp.vp_length outlen (by omega) (Or.inr (by omega)) hout2
  rw [Nat.zero_add] at e1
  rw [List.drop_zero] at hread
  have h1 : ¬ (outlen ≤ 2) := by omega
  have h2 : ¬ (da.depth > E.FR_DICT_MAX_TLV_STACK) := by omega
  have h3 : ¬ (da.vendor = 0 ∧ da.attr > 255) := by omega
  have h4 : vp.vp_length ≠ 0 := by omega
  have hslow : ¬ (par.flags.is_root = true ∧ ¬ da.flags.concat = true ∧ da.type ≠ .TLV) := by
    rintro ⟨-, h, -⟩; exact h hconcat
  have hneg : ¬ (((vp.vp_length + 2 * ((vp.vp_length + 252) / 253) : Nat) : Int) - ((0 : Nat) : Int) < 0) := by
    omega
  have hpos : ¬ (s.cursor.pos + 1 = s.cursor.pos) := by omega
  refine ⟨(Enc.mk m1 s.cursor (some vp.da :: List.replicate (E.FR_DICT_MAX_TLV_STACK + 1 - 1) none)
    s.g).advance E heap, ?_, ?_, hread, value_chunks_flatten _ _ (le_refl _), hc1, hc2, hc3⟩
  · unfold fr_radius_encode_pair
    simp only [if_neg h1, hcur, hda, if_neg h2, if_neg h3, h4, false_and, if_false, hpar, Option.some_bind, hpi,
      if_neg hslow, stack_build_depth_one E heap s.tlv_stack vp.da da hda hdepth hmax, Enc.da_at, Enc.stack_at,
      List.getD_cons_zero, hty, hconcat, if_true, encode_concat, Option.map_some', hptr, e1, if_neg hneg]
    simp only [Enc.advance, hnext, if_neg hpos, Nat.cast_zero, sub_zero, not_true_eq_false, false_and,
      and_false, if_false]
  · simp only [Enc.advance, hnext]

set_option maxRecDepth 100000 in
theorem concat_layout_witness :
    ∃ s1, fr_radius_encode_pair sample_env concat_dict.heap none 0 258 (octets_state 1 254) =
        some (258, s1) ∧ s1.cursor.pos = 1 ∧
      s1.mem.read 0 258 = (79 :: 255 :: List.replicate 253 65) ++ [79, 3, 65] := by
  obtain ⟨s1, e, hc, hr, -⟩ := concat_layout sample_env concat_dict.heap none 0 258 (octets_state 1 254)
    { da := 1, vp_length := 254, data := { ptr := some (List.replicate 254 65) } }
    (concat_dict.heap.getD 1 fr_dict_attr_t.zero) (concat_dict.heap.getD 0 fr_dict_attr_t.zero) 0
    (List.replicate 254 65) (by decide) (by rfl) (by rfl) (by decide) (by rfl) (by rfl) (by decide)
    (by decide) (by decide) (by rfl) (by decide) (by decide) (by decide)
  refine ⟨s1, e, by rw [hc]; rfl, ?_⟩
  have hv : concat_records (concat_dict.heap.getD 1 fr_dict_attr_t.zero).attr
      ((read_bytes (List.replicate 254 65) 254).map (fun b => b % 256)) =
      (79 :: 255 :: List.replicate 253 65) ++ [79, 3, 65] := by decide
  rw [← hv]
  exact hr

theorem attr_add_success_shape (E : Env) (d d1 : fr_dict) (parent : Nat) (par : fr_dict_attr_t)
    (name : String) (attr : Int) (type : PW_TYPE) (flags : fr_dict_attr_flags_t)
    (hp : d.heap[parent]? = some par) (hattr : attr ≠ -1)
    (hadd : fr_dict_attr_add E d parent name attr type flags = (0, d1)) :
    0 ≤ attr ∧ name.data.length < E.FR_DICT_ATTR_MAX_NAME_LEN ∧
    ∃ (heap0 : Heap) (par1 node0 : fr_dict_attr_t) (extra : List fr_dict_attr_t) (rest : List Nat),
      d1.heap = fr_dict_attr_child_add ((heap0 ++ [node0]) ++ extra) parent d.heap.length ∧
      d1.attributes_by_name = d.heap.length :: rest ∧
      heap0.length = d.heap.length ∧ heap0[parent]? = some par1 ∧ par1.type = par.type ∧
      par1.depth = par.depth ∧ par1.children = par.children ∧
      node0.name = name ∧ node0.attr = attr.toNat % 2 ^ 32 := by
  unfold fr_dict_attr_add at hadd
  rw [hp] at hadd
  simp only at hadd
  by_cases h1 : name.data.length ≥ E.FR_DICT_ATTR_MAX_NAME_LEN
  · rw [if_pos h1] at hadd; simp at hadd
  rw [if_neg h1] at hadd
  by_cases h2 : fr_dict_valid_name name < 0
  · rw [if_pos h2] at hadd; simp at hadd
  rw [if_neg h2] at hadd
  split at hadd
  · simp at hadd
  split at hadd
  · simp at hadd
  · rename_i heq
    exfalso
    revert heq
    split_ifs <;> simp
  rename_i a fl m heq
  have ha : a = attr ∧ fl = flags := by
    revert heq
    split_ifs <;> simp <;> intro h1 h2 _ <;> exact ⟨h1.symm, h2.symm⟩
  obtain ⟨rfl, rfl⟩ := ha
  clear heq
  split at hadd
  · simp at hadd
  rename_i hneg
  have h0 : 0 ≤ a := by omega
  refine ⟨h0, by omega, ?_⟩
  clear h1 h2 hattr
  have hlt : parent < d.heap.length := by
    rcases Nat.lt_or_ge parent d.heap.length with h | h
    · exact h
    · rw [List.getElem?_eq_none h] at hp; cases hp
  split at hadd <;> (
    split at hadd
    · simp at hadd
    split at hadd
    · simp at hadd
    split at hadd
    · simp at hadd
    split at hadd
    · simp at hadd
    rename_i dd hchk
    have hdd : dd.heap.length = d.heap.length ∧ ∃ par1, dd.heap[parent]? = some par1 ∧
        par1.type = par.type ∧ par1.depth = par.depth ∧ par1.children = par.children := by
      revert hchk
      split_ifs
      · simp
      · simp
      · intro h
        simp only [Option.some.injEq] at h
        subst h
        exact ⟨by simp, _, List.getElem?_set_self hlt, rfl, rfl, rfl⟩
      · intro h
        simp only [Option.some.injEq] at h
        subst h
        exact ⟨rfl, par, hp, rfl, rfl, rfl⟩
    obtain ⟨hlen, par1, hp1, ht, hd, hc⟩ := hdd
    clear hchk
    repeat' (split at hadd)
    all_goals try (simp at hadd; done)
    all_goals (simp only [Prod.mk.injEq, true_and] at hadd; subst hadd)
    all_goals simp only [fr_dict_attr_alloc]
    all_goals first
      | exact ⟨dd.heap, par1, _, [], _, by rw [List.append_nil, hlen], by rw [hlen], hlen, hp1, ht, hd, hc,
          by rfl, by rfl⟩
      | exact ⟨dd.heap, par1, _, _, _, by rw [hlen], by rw [hlen], hlen, hp1, ht, hd, hc, by rfl, by rfl⟩)

theorem chain_insert_find (H1 H2 : Heap) (c : fr_dict_attr_t) (n a : Nat)
    (hn : ∃ x, H2[n]? = some x ∧ x.attr = a)
    (hsame : ∀ (i : Nat) (bin : fr_dict_attr_t), H1[i]? = some bin →
      ∃ b2 : fr_dict_attr_t, H2[i]? = some b2 ∧ b2.attr = bin.attr)
    (hc : c.attr = a) (l : List Nat) :
    (chain_insert H1 c n l).find? (fun i => match H2[i]? with
      | some x => x.attr == a
      | none => false) = some n := by
  obtain ⟨x, hx, hxa⟩ := hn
  have hhead : ∀ t : List Nat, (n :: t).find? (fun i => match H2[i]? with
      | some x => x.attr == a
      | none => false) = some n := by
    intro t
    simp [List.find?, hx, hxa]
  induction l with
  | nil => exact hhead []
  | cons b rest ih =>
    unfold chain_insert
    cases hb : H1[b]? with
    | none => exact hhead _
    | some bin =>
      simp only
      split_ifs with h1 h2 h3
      · exact hhead _
      · exact hhead _
      · exact hhead _
      · obtain ⟨b2, hb2, hattr⟩ := hsame b bin hb
        have hne : (b2.attr == a) = false := by
          rw [hattr, ← hc]
          simp only [beq_eq_false_iff_ne, ne_eq]
          omega
        rw [List.find?, hb2]
        simp only [hne]
        exact ih

theorem child_add_lookup (heap0 : Heap) (par1 node0 : fr_dict_attr_t) (extra : List fr_dict_attr_t)
    (parent : Nat) (hp1 : heap0[parent]? = some par1) (hs : par1.type.is_structural = true) :
    ∃ p2 node, (fr_dict_attr_child_add ((heap0 ++ [node0]) ++ extra) parent heap0.length)[parent]? = some p2 ∧
      (fr_dict_attr_child_add ((heap0 ++ [node0]) ++ extra) parent heap0.length)[heap0.length]? = some node ∧
      fr_dict_attr_child_by_num (fr_dict_attr_child_add ((heap0 ++ [node0]) ++ extra) parent heap0.length)
        p2 node0.attr = some heap0.length ∧
      node.name = node0.name ∧ node.attr = node0.attr ∧ node.parent = some parent ∧
      node.depth = par1.depth + 1 := by
  have hlt : parent < heap0.length := by
    rcases Nat.lt_or_ge parent heap0.length with h | h
    · exact h
    · rw [List.getElem?_eq_none h] at hp1; cases hp1
  have hH : ((heap0 ++ [node0]) ++ extra)[parent]? = some par1 := by
    rw [List.append_assoc, List.getElem?_append_left hlt]; exact hp1
  have hN : ((heap0 ++ [node0]) ++ extra)[heap0.length]? = some node0 := by
    rw [List.append_assoc, List.getElem?_append_right (Nat.le_refl _)]
    simp
  have hlen : heap0.length < ((heap0 ++ [node0]) ++ extra).length := by
    simp only [List.length_append, List.length_singleton]; omega
  generalize (heap0 ++ [node0]) ++ extra = H at hH hN hlen
  have hne : parent ≠ heap0.length := by omega
  have hlenp : parent < H.length := by omega
  unfold fr_dict_attr_child_add
  rw [hH, hN]
  simp only
  have e1 : ∀ (c p2 : fr_dict_attr_t), ((H.set heap0.length c).set parent p2)[parent]? = some p2 := by
    intro c p2
    rw [List.getElem?_set_self (by simp only [List.length_set]; exact hlenp)]
  have e2 : ∀ (c p2 : fr_dict_attr_t), ((H.set heap0.length c).set parent p2)[heap0.length]? = some c := by
    intro c p2
    rw [List.getElem?_set_ne hne, List.getElem?_set_self hlen]
  refine ⟨_, _, e1 _ _, e2 _ _, ?_, rfl, rfl, rfl, rfl⟩
  unfold fr_dict_attr_child_by_num
  simp only [hs, if_true]
  apply chain_insert_find
  · exact ⟨_, e2 _ _, rfl⟩
  · intro i bin hi
    by_cases hip : i = parent
    · subst hip
      rw [List.getElem?_set_ne (Ne.symm hne), hH] at hi
      cases hi
      exact ⟨_, e1 _ _, rfl⟩
    · rw [List.getElem?_set_ne (Ne.symm hip)]
      exact ⟨bin, hi, rfl⟩
  · rfl

theorem name_eq_length (a b : String) (h : name_eq a b = true) : a.data.length = b.data.length := by
  unfold name_eq at h
  have h2 := congrArg List.length (eq_of_beq h)
  simpa using h2

/-- C11: after a successful `fr_dict_attr_add` with an explicit number (not the
marker -1) under a parent of a structural type, `fr_dict_attr_child_by_num` on
the parent as it then is and the number returns the new node, which is at the
address the heap had as its size and carries the name, the number, the parent
and the depth of the parent plus 1; `fr_dict_attr_by_name` returns the same
node for every spelling of the name that equals it without case. -/
theorem attr_add_then_lookup (E : Env) (d d1 : fr_dict) (parent : Nat) (par : fr_dict_attr_t)
    (name : String) (attr : Int) (type : PW_TYPE) (flags : fr_dict_attr_flags_t)
    (hp : d.heap[parent]? = some par) (hs : par.type.is_structural = true)
    (hattr : attr ≠ -1) (hint : attr < 2 ^ 31)
    (hadd : fr_dict_attr_add E d parent name attr type flags = (0, d1)) :
    ∃ (par1 node : fr_dict_attr_t), d1.heap[parent]? = some par1 ∧ d1.heap[d.heap.length]? = some node ∧
      fr_dict_attr_child_by_num d1.heap par1 attr.toNat = some d.heap.length ∧
      node.name = name ∧ (node.attr : Int) = attr ∧ node.parent = some parent ∧
      node.depth = par.depth + 1 ∧
      ∀ name2 : String, name_eq name name2 = true → fr_dict_attr_by_name E d1 name2 = some d.heap.length := by
  obtain ⟨h0, hlen, heap0, par1, node0, extra, rest, hheap, hby, hl0, hp1, ht, hd, _, hn, ha⟩ :=
    attr_add_success_shape E d d1 parent par name attr type flags hp hattr hadd
  obtain ⟨p2, node, e1, e2, e3, e4, e5, e6, e7⟩ :=
    child_add_lookup heap0 par1 node0 extra parent hp1 (by rw [ht]; exact hs)
  rw [hl0, ← hheap] at e1 e2 e3
  have hmod : attr.toNat % 2 ^ 32 = attr.toNat := Nat.mod_eq_of_lt (by omega)
  rw [ha, hmod] at e3 e5
  refine ⟨p2, node, e1, e2, e3, e4.trans hn, ?_, e6, by rw [e7, hd], ?_⟩
  · rw [e5]; omega
  · intro name2 h2
    have hl2 := name_eq_length name name2 h2
    unfold fr_dict_attr_by_name
    rw [hby, List.take_of_length_le (by omega)]
    simp only [List.find?, e2, e4, hn]
    have : name_eq name (String.mk name2.data) = true := h2
    rw [this]

theorem attr_add_then_lookup_witness :
    ∃ (par1 node : fr_dict_attr_t), user_name_dict.heap[0]? = some par1 ∧
      user_name_dict.heap[(fr_dict_init_root "radius").heap.length]? = some node ∧
      fr_dict_attr_child_by_num user_name_dict.heap par1 (1 : Int).toNat =
        some (fr_dict_init_root "radius").heap.length ∧
      node.name = "User-Name" ∧ (node.attr : Int) = 1 ∧ node.parent = some 0 ∧
      node.depth = 0 + 1 ∧
      ∀ name2 : String, name_eq "User-Name" name2 = true →
        fr_dict_attr_by_name sample_env user_name_dict name2 = some (fr_dict_init_root "radius").heap.length :=
  attr_add_then_lookup sample_env (fr_dict_init_root "radius") user_name_dict 0
    { fr_dict_attr_t.zero with name := "radius", type := .TLV,
                               flags := { is_root := true, type_size := 1, length := 1 } }
    "User-Name" 1 .STRING {} rfl rfl (by decide) (by decide) rfl

theorem attr_add_root_not_positive (E : Env) (d : fr_dict) (parent : Nat) (par : fr_dict_attr_t)
    (name : String) (attr : Int) (type : PW_TYPE) (flags : fr_dict_attr_flags_t)
    (hp : d.heap[parent]? = some par) (hroot : par.flags.is_root = true)
    (h0 : attr ≤ 0) (h1 : attr ≠ -1) :
    fr_dict_attr_add E d parent name attr type flags = (-1, d) := by
  unfold fr_dict_attr_add
  rw [hp]
  simp only [hroot, h1, h0, if_true, if_false]
  split_ifs <;> rfl

theorem bad_line_argv :
    fr_dict_str_to_argv "ATTRIBUTE Bad 0 integer".data MAX_ARGV =
      ["ATTRIBUTE".data, "Bad".data, "0".data, "integer".data] := by
  decide

theorem bad_line_process (E : Env) (d : fr_dict) (parent : Nat) (par : fr_dict_attr_t)
    (hp : d.heap[parent]? = some par) (hroot : par.flags.is_root = true) :
    dict_read_process_attribute E d parent 0 ["Bad".data, "0".data, "integer".data] = some (-1, d) := by
  have hnum : dict_read_sscanf_i "0".data = some 0 := by decide
  have hty : attribute_type_field "integer".data = some (.INTEGER, 0) := by decide
  have hadd := attr_add_root_not_positive E d parent par "Bad" (to_int 0) .INTEGER { length := 0 } hp hroot
    (by decide) (by decide)
  unfold dict_read_process_attribute
  simp +decide [hnum, hty, hadd]

/-- C13: `fr_dict_attr_add` under a parent that is the root of the dictionary
(flag `is_root`), with a number at most 0 that is not the marker -1, returns -1
and leaves the dictionary as it was: no node is added. The line
`ATTRIBUTE Bad 0 integer` is such a call: `fr_dict_parse_str` returns -1 for it,
with that parent given or with no parent given and the root of the dictionary
taken, and the dictionary is as it was. -/
theorem root_attr_not_positive_rejected (E : Env) (d : fr_dict) (parent : Nat) (par : fr_dict_attr_t)
    (hp : d.heap[parent]? = some par) (hroot : par.flags.is_root = true) :
    (∀ (name : String) (attr : Int) (type : PW_TYPE) (flags : fr_dict_attr_flags_t),
      attr ≤ 0 → attr ≠ -1 → fr_dict_attr_add E d parent name attr type flags = (-1, d)) ∧
    fr_dict_parse_str E d "ATTRIBUTE Bad 0 integer" (some parent) 0 = some (-1, d) ∧
    (d.root = parent → fr_dict_parse_str E d "ATTRIBUTE Bad 0 integer" none 0 = some (-1, d)) := by
  have hline : ∀ p : Option Nat, p.getD d.root = parent →
      fr_dict_parse_str E d "ATTRIBUTE Bad 0 integer" p 0 = some (-1, d) := by
    intro p hpar
    unfold fr_dict_parse_str
    rw [bad_line_argv]
    simp only
    rw [if_neg (by decide), if_pos (by decide), hpar]
    exact bad_line_process E d parent par hp hroot
  exact ⟨fun name attr type flags h0 h1 => attr_add_root_not_positive E d parent par name attr type flags hp hroot h0 h1,
    hline (some parent) rfl, fun h => hline none h⟩

theorem root_attr_not_positive_rejected_witness :
    (∀ (name : String) (attr : Int) (type : PW_TYPE) (flags : fr_dict_attr_flags_t),
      attr ≤ 0 → attr ≠ -1 →
        fr_dict_attr_add sample_env user_name_dict 0 name attr type flags = (-1, user_name_dict)) ∧
    fr_dict_parse_str sample_env user_name_dict "ATTRIBUTE Bad 0 integer" (some 0) 0 =
      some (-1, user_name_dict) ∧
    (user_name_dict.root = 0 →
      fr_dict_parse_str sample_env user_name_dict "ATTRIBUTE Bad 0 integer" none 0 =
        some (-1, user_name_dict)) :=
  root_attr_not_positive_rejected sample_env user_name_dict 0 (user_name_dict.heap.getD 0 fr_dict_attr_t.zero)
    (by rfl) (by decide)

/-- C12 (counterexample): on a dictionary holding only its root, the line
`ATTRIBUTE Test-Attr 25 string` is accepted (the attribute is then found by
its name), but the line `VALUE Test-Attr Foo 1` after it returns -1, because
`fr_dict_enum_add` takes values only for attributes of type byte, short or
integer; afterwards `fr_dict_enum_by_name` finds no entry Foo. -/
theorem value_line_rejected_for_string_attribute :
    (fr_dict_parse_str sample_env (fr_dict_init_root "radius") "ATTRIBUTE Test-Attr 25 string" none 0).map
        (fun r => (r.1, (fr_dict_attr_by_name sample_env r.2 "Test-Attr").bind
          (fun i => r.2.heap[i]?.map (fun a => (a.attr, a.type))))) =
      some (0, some (25, PW_TYPE.STRING)) ∧
    ((fr_dict_parse_str sample_env (fr_dict_init_root "radius") "ATTRIBUTE Test-Attr 25 string" none 0).bind
        (fun r => fr_dict_parse_str sample_env r.2 "VALUE Test-Attr Foo 1" none 0)).map
        (fun r => (r.1, fr_dict_enum_by_name sample_env r.2 (fr_dict_attr_by_name sample_env r.2 "Test-Attr") "Foo")) =
      some (-1, none) := by
  decide

/-- C12 (amended): on a dictionary holding only its root, the line
`ATTRIBUTE Test-Attr 25 integer` and then the line `VALUE Test-Attr Foo 1` both
return 0, and afterwards `fr_dict_enum_by_name` for the attribute Test-Attr and
the name Foo returns an entry of that attribute (heap address 1) whose value
is 1. -/
theorem value_line_accepted_for_integer_attribute :
    (fr_dict_parse_str sample_env (fr_dict_init_root "radius") "ATTRIBUTE Test-Attr 25 integer" none 0).map
        (fun r => (r.1, fr_dict_attr_by_name sample_env r.2 "Test-Attr",
          (fr_dict_attr_by_name sample_env r.2 "Test-Attr").bind
            (fun i => r.2.heap[i]?.map (fun a => (a.attr, a.type))))) =
      some (0, some 1, some (25, PW_TYPE.INTEGER)) ∧
    ((fr_dict_parse_str sample_env (fr_dict_init_root "radius") "ATTRIBUTE Test-Attr 25 integer" none 0).bind
        (fun r => fr_dict_parse_str sample_env r.2 "VALUE Test-Attr Foo 1" none 0)).map
        (fun r => (r.1, fr_dict_enum_by_name sample_env r.2 (fr_dict_attr_by_name sample_env r.2 "Test-Attr") "Foo")) =
      some (0, some { da := some 1, name := "Foo", value := 1 }) := by
  decide

/-! ### The authenticator of the Tunnel-Password cipher -/

/-- C21 (counterexample): for the root attribute Tunnel-Password (69, tagged,
`encrypt=2`) and a packet of code Access-Request (1), `encode_value` returns
-1 when the context has no original packet; with an original packet it
writes the bytes that an Accounting-Request (code 4) produces when its own
authenticator is the authenticator of that original, not the bytes the
authenticator of the Access-Request itself gives. -/
theorem access_request_needs_original :
    (encode_value sample_env tunnel_dict.heap (some (code_ctx PW_CODE_ACCESS_REQUEST (List.replicate 16 9) none))
        5 0 255 0 (leaf_state (string_pair 1 [65, 66, 67]))).map (fun r => r.1) = some (-1) ∧
    (encode_value sample_env tunnel_dict.heap
        (some (code_ctx PW_CODE_ACCESS_REQUEST (List.replicate 16 9) (some (List.replicate 16 7))))
        5 0 255 0 (leaf_state (string_pair 1 [65, 66, 67]))).map (fun r => (r.1, r.2.mem.read 0 19)) =
      (encode_value sample_env tunnel_dict.heap
        (some (code_ctx PW_CODE_ACCOUNTING_REQUEST (List.replicate 16 7) none))
        5 0 255 0 (leaf_state (string_pair 1 [65, 66, 67]))).map (fun r => (r.1, r.2.mem.read 0 19)) ∧
    (encode_value sample_env tunnel_dict.heap
        (some (code_ctx PW_CODE_ACCESS_REQUEST (List.replicate 16 9) (some (List.replicate 16 7))))
        5 0 255 0 (leaf_state (string_pair 1 [65, 66, 67]))).map (fun r => (r.1, r.2.mem.read 0 19)) ≠
      (encode_value sample_env tunnel_dict.heap
        (some (code_ctx PW_CODE_ACCOUNTING_REQUEST (List.replicate 16 9) none))
        5 0 255 0 (leaf_state (string_pair 1 [65, 66, 67]))).map (fun r => (r.1, r.2.mem.read 0 19)) := by
  decide

/-- C21 (amended): in `encode_value`, for a leaf attribute with
`encrypt = FLAG_ENCRYPT_TUNNEL_PASSWORD`, a value of non-zero length and room
for 18 bytes plus the tag: when the packet code is Accounting-Request,
Disconnect-Request or CoA-Request the cipher `encode_tunnel_password` is run
with the authenticator of the current packet, whether or not there is an
original packet; for every other code (Access-Request, Access-Accept,
Access-Reject, Access-Challenge and the rest) the call returns -1 when there is
no original packet and else runs the cipher with the authenticator of the
original packet. -/
theorem tunnel_password_authenticator (E : Env) (heap : Heap) (c : fr_radius_ctx_t) (fuel out outlen depth : Nat)
    (s : Enc) (di : Nat) (da : fr_dict_attr_t) (vp : VALUE_PAIR) (data : List Nat) (len : Int)
    (hst : s.stack_at depth = some di) (hda : heap[di]? = some da) (htop : s.stack_at (depth + 1) = none)
    (hcur : fr_cursor_current s.cursor = some vp) (hvp : vp.da = di)
    (hns : da.type.is_structural = false)
    (henc : da.flags.encrypt = FLAG_ENCRYPT_TUNNEL_PASSWORD)
    (hsrc : value_source da vp = some (data, len)) (hlen : len ≠ 0)
    (hout : 18 + (if da.flags.has_tag = true then 1 else 0) ≤ outlen) :
    ((c.packet.code = PW_CODE_ACCOUNTING_REQUEST ∨ c.packet.code = PW_CODE_DISCONNECT_REQUEST ∨
        c.packet.code = PW_CODE_COA_REQUEST) →
      encode_value E heap (some c) (fuel + 1) out outlen depth s =
        some (((encode_tunnel_password E s.g
            (s.mem.write out (if E.TAG_VALID vp.tag then tag_byte vp.tag else E.TAG_NONE)) (out + 1) data
            (of_ssize (if len > to_ssize outlen then to_ssize outlen else len)) (size_sub outlen 1) c.secret
            c.packet.vector).2.1 : Int) + (if da.flags.has_tag = true then 1 else 0),
          (Enc.mk (encode_tunnel_password E s.g
            (s.mem.write out (if E.TAG_VALID vp.tag then tag_byte vp.tag else E.TAG_NONE)) (out + 1) data
            (of_ssize (if len > to_ssize outlen then to_ssize outlen else len)) (size_sub outlen 1) c.secret
            c.packet.vector).1 s.cursor s.tlv_stack (encode_tunnel_password E s.g
            (s.mem.write out (if E.TAG_VALID vp.tag then tag_byte vp.tag else E.TAG_NONE)) (out + 1) data
            (of_ssize (if len > to_ssize outlen then to_ssize outlen else len)) (size_sub outlen 1) c.secret
            c.packet.vector).2.2).advance E heap)) ∧
    (¬ (c.packet.code = PW_CODE_ACCOUNTING_REQUEST ∨ c.packet.code = PW_CODE_DISCONNECT_REQUEST ∨
        c.packet.code = PW_CODE_COA_REQUEST) →
      (c.original = none → encode_value E heap (some c) (fuel + 1) out outlen depth s = some (-1, s)) ∧
      (∀ orig : RADIUS_PACKET, c.original = some orig →
        encode_value E heap (some c) (fuel + 1) out outlen depth s =
          some (((encode_tunnel_password E s.g
              (if da.flags.has_tag = true then
                s.mem.write out (if E.TAG_VALID vp.tag then tag_byte vp.tag else E.TAG_NONE) else s.mem)
              (out + (if da.flags.has_tag = true then 1 else 0)) data
              (of_ssize (if len > to_ssize outlen then to_ssize outlen else len))
              (size_sub outlen (if da.flags.has_tag = true then 1 else 0)) c.secret orig.vector).2.1 : Int) +
              (if da.flags.has_tag = true then 1 else 0),
            (Enc.mk (encode_tunnel_password E s.g
              (if da.flags.has_tag = true then
                s.mem.write out (if E.TAG_VALID vp.tag then tag_byte vp.tag else E.TAG_NONE) else s.mem)
              (out + (if da.flags.has_tag = true then 1 else 0)) data
              (of_ssize (if len > to_ssize outlen then to_ssize outlen else len))
              (size_sub outlen (if da.flags.has_tag = true then 1 else 0)) c.secret orig.vector).1
              s.cursor s.tlv_stack (encode_tunnel_password E s.g
              (if da.flags.has_tag = true then
                s.mem.write out (if E.TAG_VALID vp.tag then tag_byte vp.tag else E.TAG_NONE) else s.mem)
              (out + (if da.flags.has_tag = true then 1 else 0)) data
              (of_ssize (if len > to_ssize outlen then to_ssize outlen else len))
              (size_sub outlen (if da.flags.has_tag = true then 1 else 0)) c.secret orig.vector).2.2).advance
              E heap))) := by
  have hleaf := encode_value_at_leaf E heap (some c) fuel out outlen depth s di da vp hst hda htop hcur hvp hns
  have h1 : ¬ (FLAG_ENCRYPT_TUNNEL_PASSWORD ≠ 0 ∧ (some c).isNone = true) := by simp
  have h2 : ¬ (FLAG_ENCRYPT_TUNNEL_PASSWORD = FLAG_ENCRYPT_USER_PASSWORD) := by decide
  have h3 : ¬ (outlen < 18 + (if da.flags.has_tag = true then 1 else 0)) := by omega
  rw [hleaf]
  unfold encode_value_leaf
  simp only [hsrc, if_neg hlen, if_neg h1, if_neg h2, henc, if_true, if_neg h3]
  refine ⟨fun hc => ?_, fun hc => ⟨fun ho => ?_, fun orig ho => ?_⟩⟩
  · rw [if_pos hc]
    by_cases ht : da.flags.has_tag = true <;> simp [ht]
  · rw [if_neg hc, ho]
  · rw [if_neg hc, ho]
    by_cases ht : da.flags.has_tag = true <;> simp [ht]

theorem tunnel_password_authenticator_witness :
    ∃ r, encode_value sample_env tunnel_dict.heap
      (some (code_ctx PW_CODE_ACCOUNTING_REQUEST (List.replicate 16 9) none)) (4 + 1) 0 255 0
      (leaf_state (string_pair 1 [65, 66, 67])) = some r ∧ r.1 = 19 :=
  ⟨_, (tunnel_password_authenticator sample_env tunnel_dict.heap
    (code_ctx PW_CODE_ACCOUNTING_REQUEST (List.replicate 16 9) none) 4 0 255 0
    (leaf_state (string_pair 1 [65, 66, 67])) 1 (tunnel_dict.heap.getD 1 fr_dict_attr_t.zero)
    (string_pair 1 [65, 66, 67]) [65, 66, 67] 3 (by rfl) (by rfl) (by rfl) (by rfl) (by rfl) (by decide)
    (by decide) (by rfl) (by decide) (by decide)).1 (Or.inl rfl), by decide⟩

/-! ### Characters of attribute names -/

/-- C22 (the code at the failing input): `fr_dict_valid_name` returns minus the
offset of the first character that is not allowed, which is 0 when that
character is the first one: every such name passes for valid. The name `#Bad`
is accepted by `fr_dict_valid_name` and by `fr_dict_attr_add`, which adds the
attribute; so is the name ` a b` with two blanks. The table also differs from
the set of the claim: `Foo:Bar` is rejected at offset 3 and not added, and
`Foo/Bar` is accepted and added. -/
theorem invalid_first_character_accepted :
    (∀ (c : Char) (cs : List Char), fr_dict_attr_allowed_chars (c.toNat % 256) = false →
      fr_dict_valid_name (String.mk (c :: cs)) = 0) ∧
    fr_dict_valid_name "#Bad" = 0 ∧
    ((fr_dict_attr_add sample_env (fr_dict_init_root "radius") 0 "#Bad" 10 .STRING {}).1 = 0 ∧
      ((fr_dict_attr_add sample_env (fr_dict_init_root "radius") 0 "#Bad" 10 .STRING {}).2.heap.map
        (fun a => (a.name, a.attr))) = [("radius", 0), ("#Bad", 10)]) ∧
    (fr_dict_attr_add sample_env (fr_dict_init_root "radius") 0 " a b" 10 .STRING {}).1 = 0 ∧
    fr_dict_valid_name "Foo:Bar" = -3 ∧
    (fr_dict_attr_add sample_env (fr_dict_init_root "radius") 0 "Foo:Bar" 10 .STRING {}).1 = -1 ∧
    fr_dict_valid_name "Foo/Bar" = 0 ∧
    (fr_dict_attr_add sample_env (fr_dict_init_root "radius") 0 "Foo/Bar" 10 .STRING {}).1 = 0 := by
  refine ⟨?_, by decide, by decide, by decide, by decide, by decide, by decide, by decide⟩
  intro c cs h
  simp [fr_dict_valid_name, fr_dict_valid_name_from, h]

theorem attr_add_success_flags (E : Env) (d d1 : fr_dict) (parent : Nat) (par : fr_dict_attr_t)
    (name : String) (attr : Int) (type : PW_TYPE) (flags : fr_dict_attr_flags_t)
    (hp : d.heap[parent]? = some par)
    (hnode : attr ≠ -1 ∨ par.flags.is_root = false ∨ fr_dict_attr_by_name E d name = none)
    (hadd : fr_dict_attr_add E d parent name attr type flags = (0, d1)) :
    ∃ (a : Int) (m : Nat) (fl flB flC : fr_dict_attr_flags_t) (heap0 : Heap) (par1 node0 : fr_dict_attr_t)
      (extra : List fr_dict_attr_t) (rest : List Nat),
      d1.heap = fr_dict_attr_child_add ((heap0 ++ [node0]) ++ extra) parent d.heap.length ∧
      d1.attributes_by_name = d.heap.length :: rest ∧ d1.max_attr = m ∧
      heap0.length = d.heap.length ∧ heap0[parent]? = some par1 ∧ par1.type = par.type ∧
      par1.depth = par.depth ∧ par1.children = par.children ∧
      node0.name = name ∧ node0.attr = a.toNat % 2 ^ 32 ∧ node0.type = type ∧ node0.flags = flC ∧
      0 ≤ a ∧
      (((par.flags.is_root = false ∨ attr ≠ -1) ∧ a = attr ∧ fl = flags) ∨
        (par.flags.is_root = true ∧ attr = -1 ∧ a = (((d.max_attr + 1) % 2 ^ 32 : Nat) : Int) ∧
          fl = { flags with internal := true } ∧ m = (d.max_attr + 1) % 2 ^ 32)) ∧
      attr_add_flag_error E d.heap par parent a type
        (if par.flags.is_root = true ∧ par.flags.type_size = 1 ∧ a ≥ 3000 ∧ a < 4000 then
          { fl with internal := true } else fl) = false ∧
      attr_add_parent_check { d with max_attr := m } par parent a type
        (if par.flags.is_root = true ∧ par.flags.type_size = 1 ∧ a ≥ 3000 ∧ a < 4000 then
          { fl with internal := true } else fl) = some flB ∧
      attr_add_force_length par a type flB = some flC := by
  unfold fr_dict_attr_add at hadd
  rw [hp] at hadd
  simp only at hadd
  by_cases h1 : name.data.length ≥ E.FR_DICT_ATTR_MAX_NAME_LEN
  · rw [if_pos h1] at hadd; simp at hadd
  rw [if_neg h1] at hadd
  by_cases h2 : fr_dict_valid_name name < 0
  · rw [if_pos h2] at hadd; simp at hadd
  rw [if_neg h2] at hadd
  by_cases h3 : flags.type_size ≠ 0 ∧ ((type ≠ .TLV ∧ type ≠ .VENDOR) ∨
      (flags.type_size ≠ 1 ∧ flags.type_size ≠ 2 ∧ flags.type_size ≠ 4))
  · rw [if_pos h3] at hadd; simp at hadd
  rw [if_neg h3] at hadd
  have hlt : parent < d.heap.length := by
    rcases Nat.lt_or_ge parent d.heap.length with h | h
    · exact h
    · rw [List.getElem?_eq_none h] at hp; cases hp
  split at hadd
  · simp at hadd
  · rename_i heq
    exfalso
    revert heq
    split_ifs with c1 c2 c3 c4 c5 <;> simp
    rcases hnode with h | h | h
    · exact absurd c2 h
    · rw [h] at c1; cases c1
    · rw [h] at c3; simp at c3
  rename_i a fl m heq
  have hnum : ((par.flags.is_root = false ∨ attr ≠ -1) ∧ a = attr ∧ fl = flags) ∨
      (par.flags.is_root = true ∧ attr = -1 ∧ a = (((d.max_attr + 1) % 2 ^ 32 : Nat) : Int) ∧
        fl = { flags with internal := true } ∧ m = (d.max_attr + 1) % 2 ^ 32) := by
    revert heq
    split_ifs with c1 c2 c3 c4 c5
    · simp
    · simp only [Option.some.injEq, Prod.mk.injEq]
      rintro ⟨e1, e2, e3⟩
      exact Or.inr ⟨c1, c2, e1.symm, e2.symm, e3.symm⟩
    · simp
    · simp only [Option.some.injEq, Prod.mk.injEq]
      rintro ⟨e1, e2, e3⟩
      exact Or.inl ⟨Or.inr c2, e1.symm, e2.symm⟩
    · simp only [Option.some.injEq, Prod.mk.injEq]
      rintro ⟨e1, e2, e3⟩
      exact Or.inl ⟨Or.inr c2, e1.symm, e2.symm⟩
    · simp only [Option.some.injEq, Prod.mk.injEq]
      rintro ⟨e1, e2, e3⟩
      exact Or.inl ⟨Or.inl (by simpa using c1), e1.symm, e2.symm⟩
  clear heq
  split at hadd
  · simp at hadd
  rename_i hneg
  have h0 : 0 ≤ a := by omega
  split at hadd <;> (
    rename_i hcond
    split at hadd
    · simp at hadd
    rename_i hflag
    split at hadd
    · simp at hadd
    rename_i x1 flB hB
    split at hadd
    · simp at hadd
    rename_i x2 flC hC
    split at hadd
    · simp at hadd
    rename_i chk dd hchk
    have hdd : dd.heap.length = d.heap.length ∧ dd.max_attr = m ∧ ∃ par1, dd.heap[parent]? = some par1 ∧
        par1.type = par.type ∧ par1.depth = par.depth ∧ par1.children = par.children := by
      revert hchk
      split_ifs
      · simp
      · simp
      · intro h
        simp only [Option.some.injEq] at h
        subst h
        exact ⟨by simp, rfl, _, List.getElem?_set_self hlt, rfl, rfl, rfl⟩
      · intro h
        simp only [Option.some.injEq] at h
        subst h
        exact ⟨rfl, rfl, par, hp, rfl, rfl, rfl⟩
    obtain ⟨hlen, hmax, par1, hp1, ht, hd, hc⟩ := hdd
    clear hchk
    have hflag2 := Bool.eq_false_iff.mpr hflag
    repeat' (split at hadd)
    all_goals try (simp at hadd; done)
    all_goals (simp only [Prod.mk.injEq, true_and] at hadd; subst hadd)
    all_goals simp only [fr_dict_attr_alloc]
    all_goals first
      | exact ⟨a, m, fl, flB, flC, dd.heap, par1, _, [], _, by rw [List.append_nil, hlen], by rw [hlen], hmax,
          hlen, hp1, ht, hd, hc, by rfl, by rfl, by rfl, by rfl, h0, hnum,
          by rw [if_pos hcond]; exact hflag2, by rw [if_pos hcond]; exact hB, hC⟩
      | exact ⟨a, m, fl, flB, flC, dd.heap, par1, _, _, _, by rw [hlen], by rw [hlen], hmax,
          hlen, hp1, ht, hd, hc, by rfl, by rfl, by rfl, by rfl, h0, hnum,
          by rw [if_pos hcond]; exact hflag2, by rw [if_pos hcond]; exact hB, hC⟩
      | exact ⟨a, m, fl, flB, flC, dd.heap, par1, _, [], _, by rw [List.append_nil, hlen], by rw [hlen], hmax,
          hlen, hp1, ht, hd, hc, by rfl, by rfl, by rfl, by rfl, h0, hnum,
          by rw [if_neg hcond]; exact hflag2, by rw [if_neg hcond]; exact hB, hC⟩
      | exact ⟨a, m, fl, flB, flC, dd.heap, par1, _, _, _, by rw [hlen], by rw [hlen], hmax,
          hlen, hp1, ht, hd, hc, by rfl, by rfl, by rfl, by rfl, h0, hnum,
          by rw [if_neg hcond]; exact hflag2, by rw [if_neg hcond]; exact hB, hC⟩)

theorem parent_check_internal (d : fr_dict) (par : fr_dict_attr_t) (pi : Nat) (a : Int) (type : PW_TYPE)
    (f g : fr_dict_attr_flags_t) (h : attr_add_parent_check d par pi a type f = some g) :
    g.internal = f.internal := by
  unfold attr_add_parent_check at h
  cases type <;> simp only at h <;> (repeat' (split at h)) <;>
    first
      | (simp only [Option.some.injEq] at h; subst h; rfl)
      | (simp at h)

theorem force_length_internal (par : fr_dict_attr_t) (a : Int) (type : PW_TYPE)
    (f g : fr_dict_attr_flags_t) (h : attr_add_force_length par a type f = some g) :
    g.internal = f.internal := by
  unfold attr_add_force_length at h
  cases type <;> simp only at h <;> (repeat' (split at h)) <;>
    first
      | (simp only [Option.some.injEq] at h; subst h; rfl)
      | (simp at h)

theorem child_add_new_node (heap0 : Heap) (par1 node0 : fr_dict_attr_t) (extra : List fr_dict_attr_t)
    (parent : Nat) (hp1 : heap0[parent]? = some par1) :
    (fr_dict_attr_child_add ((heap0 ++ [node0]) ++ extra) parent heap0.length)[heap0.length]? =
      some { node0 with parent := some parent, depth := par1.depth + 1 } := by
  have hlt : parent < heap0.length := by
    rcases Nat.lt_or_ge parent heap0.length with h | h
    · exact h
    · rw [List.getElem?_eq_none h] at hp1; cases hp1
  have hH : ((heap0 ++ [node0]) ++ extra)[parent]? = some par1 := by
    rw [List.append_assoc, List.getElem?_append_left hlt]; exact hp1
  have hN : ((heap0 ++ [node0]) ++ extra)[heap0.length]? = some node0 := by
    rw [List.append_assoc, List.getElem?_append_right (Nat.le_refl _)]
    simp
  have hlen : heap0.length < ((heap0 ++ [node0]) ++ extra).length := by
    simp only [List.length_append, List.length_singleton]; omega
  generalize (heap0 ++ [node0]) ++ extra = H at hH hN hlen
  have hne : parent ≠ heap0.length := by omega
  unfold fr_dict_attr_child_add
  rw [hH, hN]
  simp only
  rw [List.getElem?_set_ne hne, List.getElem?_set_self hlen]

/-! ### Automatic attribute numbers -/

/-- C23 (counterexample): on a dictionary holding only its root, where no
attribute above 256 was added, the first `fr_dict_attr_add` with the marker -1
gives the new attribute the number 257, not 256 (it is flagged internal); the
next one gets 258. -/
theorem first_auto_number_is_257 :
    (fr_dict_attr_add sample_env (fr_dict_init_root "radius") 0 "Auto-One" (-1) .STRING {}).1 = 0 ∧
    (fr_dict_attr_add sample_env (fr_dict_init_root "radius") 0 "Auto-One" (-1) .STRING {}).2.heap.map
      (fun a => (a.name, a.attr, a.flags.internal)) = [("radius", 0, false), ("Auto-One", 257, true)] ∧
    (fr_dict_attr_add sample_env
      (fr_dict_attr_add sample_env (fr_dict_init_root "radius") 0 "Auto-One" (-1) .STRING {}).2
      0 "Auto-Two" (-1) .STRING {}).2.heap.map
      (fun a => (a.name, a.attr, a.flags.internal)) =
        [("radius", 0, false), ("Auto-One", 257, true), ("Auto-Two", 258, true)] := by
  decide

/-- C23 (amended): the counter `max_attr` of `fr_dict_attr_add` starts at 256.
For a parent flagged as root and the marker -1: when the name is not in the
dictionary and the call returns 0, the new attribute (at the address the heap
had as its size) carries the name, the number `max_attr + 1` (as an `unsigned
int`), the flag `internal` and the parent, and the counter holds that number
afterwards, so that the first such attribute is 257 and each following one gets
the next number; when the name is in the dictionary (and is shorter than the
limit, made of allowed characters, and no format is given), the call returns 0
and leaves the dictionary as it is. -/
theorem auto_number_follows_max_attr (E : Env) (d : fr_dict) (parent : Nat) (par : fr_dict_attr_t)
    (name : String) (type : PW_TYPE) (flags : fr_dict_attr_flags_t)
    (hp : d.heap[parent]? = some par) (hroot : par.flags.is_root = true) :
    (∀ n : String, (fr_dict_init_root n).max_attr = 256) ∧
    (∀ d1 : fr_dict, fr_dict_attr_by_name E d name = none →
      fr_dict_attr_add E d parent name (-1) type flags = (0, d1) →
      ∃ node : fr_dict_attr_t, d1.heap[d.heap.length]? = some node ∧ node.name = name ∧
        node.attr = (d.max_attr + 1) % 2 ^ 32 ∧ node.flags.internal = true ∧ node.parent = some parent ∧
        d1.max_attr = (d.max_attr + 1) % 2 ^ 32) ∧
    ((fr_dict_attr_by_name E d name).isSome = true → name.data.length < E.FR_DICT_ATTR_MAX_NAME_LEN →
      0 ≤ fr_dict_valid_name name → flags.type_size = 0 →
      fr_dict_attr_add E d parent name (-1) type flags = (0, d)) := by
  refine ⟨fun _ => rfl, ?_, ?_⟩
  · intro d1 hnew hadd
    obtain ⟨a, m, fl, flB, flC, heap0, par1, node0, extra, rest, hheap, -, hmax, hl0, hp1, -, -, -, hn, ha,
      -, hfl, -, hnum, -, hB, hC⟩ :=
      attr_add_success_flags E d d1 parent par name (-1) type flags hp (Or.inr (Or.inr hnew)) hadd
    rcases hnum with ⟨h, -, -⟩ | ⟨-, -, ea, efl, em⟩
    · rcases h with h | h
      · rw [hroot] at h; cases h
      · exact absurd rfl h
    · have hnode := child_add_new_node heap0 par1 node0 extra parent hp1
      rw [hl0, ← hheap] at hnode
      have hint : flC.internal = true := by
        rw [force_length_internal par a type flB flC hC,
          parent_check_internal _ par parent a type _ flB hB]
        split
        · rfl
        · rw [efl]
      refine ⟨_, hnode, hn, ?_, ?_, rfl, by rw [hmax, em]⟩
      · show node0.attr = _
        rw [ha, ea, Int.toNat_ofNat, Nat.mod_mod]
      · show node0.flags.internal = true
        rw [hfl]; exact hint
  · intro hex hlen hval hts
    unfold fr_dict_attr_add
    rw [hp]
    have h1 : ¬ (name.data.length ≥ E.FR_DICT_ATTR_MAX_NAME_LEN) := by omega
    have h2 : ¬ (fr_dict_valid_name name < 0) := by omega
    simp only [if_neg h1, if_neg h2, hts, ne_eq, not_true_eq_false, false_and, if_false, hroot, if_true, hex]

theorem auto_number_follows_max_attr_witness :
    ∃ node : fr_dict_attr_t,
      (fr_dict_attr_add sample_env user_name_dict 0 "Auto-One" (-1) .STRING {}).2.heap[user_name_dict.heap.length]? =
        some node ∧ node.name = "Auto-One" ∧
      node.attr = (user_name_dict.max_attr + 1) % 2 ^ 32 ∧ node.flags.internal = true ∧
      node.parent = some 0 ∧
      (fr_dict_attr_add sample_env user_name_dict 0 "Auto-One" (-1) .STRING {}).2.max_attr =
        (user_name_dict.max_attr + 1) % 2 ^ 32 :=
  (auto_number_follows_max_attr sample_env user_name_dict 0 (user_name_dict.heap.getD 0 fr_dict_attr_t.zero)
    "Auto-One" .STRING {} (by rfl) (by decide)).2.1 _ (by decide) rfl

theorem attr_add_fails_of_flag_error (E : Env) (d : fr_dict) (parent : Nat) (par : fr_dict_attr_t)
    (name : String) (attr : Int) (type : PW_TYPE) (flags : fr_dict_attr_flags_t)
    (hp : d.heap[parent]? = some par)
    (hnode : attr ≠ -1 ∨ par.flags.is_root = false ∨ fr_dict_attr_by_name E d name = none)
    (herr : ∀ (a : Int) (fl : fr_dict_attr_flags_t), fl.length = flags.length →
      attr_add_flag_error E d.heap par parent a type fl = true) :
    (fr_dict_attr_add E d parent name attr type flags).1 = -1 := by
  unfold fr_dict_attr_add
  rw [hp]
  simp only
  by_cases h1 : name.data.length ≥ E.FR_DICT_ATTR_MAX_NAME_LEN
  · rw [if_pos h1]
  rw [if_neg h1]
  by_cases h2 : fr_dict_valid_name name < 0
  · rw [if_pos h2]
  rw [if_neg h2]
  by_cases h3 : flags.type_size ≠ 0 ∧ ((type ≠ .TLV ∧ type ≠ .VENDOR) ∨
      (flags.type_size ≠ 1 ∧ flags.type_size ≠ 2 ∧ flags.type_size ≠ 4))
  · rw [if_pos h3]
  rw [if_neg h3]
  split
  · rfl
  · rename_i heq
    exfalso
    revert heq
    split_ifs with c1 c2 c3 c4 c5 <;> simp
    rcases hnode with h | h | h
    · exact absurd c2 h
    · rw [h] at c1; cases c1
    · rw [h] at c3; simp at c3
  rename_i a fl m heq
  have hfl : fl.length = flags.length := by
    revert heq
    split_ifs <;> simp <;> intro _ h _ <;> rw [← h]
  split
  · rfl
  rw [if_pos (herr a _ (by split <;> simp [hfl]))]

theorem length_flag_error (E : Env) (heap : Heap) (par : fr_dict_attr_t) (pi : Nat) (a : Int)
    (type : PW_TYPE) (fl : fr_dict_attr_flags_t) (k : Nat) (hk : fixed_size type = some k)
    (hl : fl.length ≠ 0) : attr_add_flag_error E heap par pi a type fl = true := by
  have h1 : ¬ (type = .TLV ∨ type = .VENDOR) := by
    rintro (h | h) <;> rw [h] at hk <;> cases hk
  have h2 : type ≠ .OCTETS := by
    intro h; rw [h] at hk; cases hk
  unfold attr_add_flag_error
  simp [hl, h1, h2]

theorem force_length_fixed (par : fr_dict_attr_t) (a : Int) (type : PW_TYPE) (f g : fr_dict_attr_flags_t)
    (k : Nat) (hk : fixed_size type = some k) (h : attr_add_force_length par a type f = some g) :
    g.length = k := by
  unfold attr_add_force_length at h
  cases type <;> simp only [fixed_size, Option.some.injEq] at hk <;> try (exact absurd hk (by simp))
  all_goals (simp only [Option.some.injEq] at h; subst h; exact hk)

theorem attr_add_fixed_succeeds (E : Env) (d : fr_dict) (parent : Nat) (par : fr_dict_attr_t)
    (name : String) (attr : Int) (type : PW_TYPE) (k : Nat)
    (hp : d.heap[parent]? = some par) (hk : fixed_size type = some k)
    (hroot : par.flags.is_root = true) (hpt : par.type = .TLV)
    (hlen : name.data.length < E.FR_DICT_ATTR_MAX_NAME_LEN) (hval : 0 ≤ fr_dict_valid_name name)
    (h0 : 0 < attr) (h255 : attr ≤ 255) (hnew : fr_dict_attr_by_name E d name = none) :
    (fr_dict_attr_add E d parent name attr type {}).1 = 0 := by
  have h1 : ¬ (name.data.length ≥ E.FR_DICT_ATTR_MAX_NAME_LEN) := by omega
  have h2 : ¬ (fr_dict_valid_name name < 0) := by omega
  have h3 : ¬ (attr = -1) := by omega
  have h4 : ¬ (attr ≤ 0) := by omega
  have h5 : ¬ (attr < 0) := by omega
  have h6 : ¬ (attr ≥ 3000) := by omega
  have h7 : ¬ (attr > 255) := by omega
  have herr : attr_add_flag_error E d.heap par parent attr type {} = false := by
    unfold attr_add_flag_error
    simp [h7]
  have hold : d.attributes_by_name.find? (fun i => match d.heap[i]? with
      | some a => name_eq a.name name
      | none => false) = none := by
    unfold fr_dict_attr_by_name at hnew
    rw [List.take_of_length_le (by omega)] at hnew
    exact hnew
  unfold fr_dict_attr_add
  rw [hp]
  simp only [if_neg h1, if_neg h2, hroot, if_true, if_neg h3, if_neg h4, if_neg h5, h6, false_and, and_false,
    if_false, herr, Bool.false_eq_true, hpt, hold]
  cases type <;> simp only [fixed_size, Option.some.injEq] at hk <;> try (exact absurd hk (by simp))
  all_goals (
    simp only [attr_add_parent_check, attr_add_force_length, ne_eq, not_true_eq_false, false_and, if_false]
    by_cases hmx : attr.toNat > d.max_attr
    · simp only [if_pos hmx, if_neg h5, true_and, h6, false_and, and_false, if_false, herr,
        Bool.false_eq_true, reduceCtorEq]
      generalize hg : List.find? _ d.attributes_by_name = old
      have ho : old = none := by rw [← hg]; exact hold
      subst ho
      rfl
    · simp only [if_neg hmx, if_neg h5, true_and, h6, false_and, and_false, if_false, herr,
        Bool.false_eq_true, reduceCtorEq]
      generalize hg : List.find? _ d.attributes_by_name = old
      have ho : old = none := by rw [← hg]; exact hold
      subst ho
      rfl)

/-! ### The length of the fixed-size types -/

/-- C24 (counterexample): on a dictionary holding only its root, `fr_dict_attr_add`
of the integer attribute 10 with `flags.length = 4` returns -1 and adds
nothing ("the 'length' flag can only be set for attributes of type 'octets'"),
while the same call with `flags.length = 0` returns 0 and stores the length
4. -/
theorem length_flag_rejected_for_integer :
    (fr_dict_attr_add sample_env (fr_dict_init_root "radius") 0 "Test-Int" 10 .INTEGER { length := 4 }).1 = -1 ∧
    (fr_dict_attr_add sample_env (fr_dict_init_root "radius") 0 "Test-Int" 10 .INTEGER
      { length := 4 }).2.heap.length = 1 ∧
    (fr_dict_attr_add sample_env (fr_dict_init_root "radius") 0 "Test-Int" 10 .INTEGER { length := 0 }).1 = 0 ∧
    (fr_dict_attr_add sample_env (fr_dict_init_root "radius") 0 "Test-Int" 10 .INTEGER
      { length := 0 }).2.heap.map (fun a => (a.name, a.attr, a.flags.length)) =
        [("radius", 0, 1), ("Test-Int", 10, 4)] := by
  decide

/-- C24 (amended): for a fixed-size type (Byte 1, Short 2, Integer, Date,
IPv4Addr and Signed 4, Integer64 8, IfId 8, Ethernet 6, IPv6Addr 16) and a
call of `fr_dict_attr_add` that is to add a node (the number is not the marker
-1, or the parent is not the root, or the name is new): when the caller
passes a `flags.length` other than 0 the call returns -1; when the call
returns 0 the caller passed `flags.length = 0` and the node stored at the
address the heap had as its size has the type and, as `flags.length`, the
canonical size of the type. The call does return 0 when the flags are all
clear, the parent is a TLV flagged as root, the number is in 1..255 and the
name is new, shorter than the limit and made of allowed characters. -/
theorem fixed_size_length_forced (E : Env) (d : fr_dict) (parent : Nat) (par : fr_dict_attr_t)
    (name : String) (attr : Int) (type : PW_TYPE) (flags : fr_dict_attr_flags_t) (k : Nat)
    (hp : d.heap[parent]? = some par) (hk : fixed_size type = some k)
    (hnode : attr ≠ -1 ∨ par.flags.is_root = false ∨ fr_dict_attr_by_name E d name = none) :
    (flags.length ≠ 0 → (fr_dict_attr_add E d parent name attr type flags).1 = -1) ∧
    (∀ d1 : fr_dict, fr_dict_attr_add E d parent name attr type flags = (0, d1) →
      flags.length = 0 ∧
      ∃ node : fr_dict_attr_t, d1.heap[d.heap.length]? = some node ∧ node.name = name ∧ node.type = type ∧
        node.flags.length = k) ∧
    (flags = {} → par.flags.is_root = true → par.type = .TLV → 0 < attr → attr ≤ 255 →
      name.data.length < E.FR_DICT_ATTR_MAX_NAME_LEN → 0 ≤ fr_dict_valid_name name →
      fr_dict_attr_by_name E d name = none → (fr_dict_attr_add E d parent name attr type flags).1 = 0) := by
  have hfail : flags.length ≠ 0 → (fr_dict_attr_add E d parent name attr type flags).1 = -1 := by
    intro hl
    apply attr_add_fails_of_flag_error E d parent par name attr type flags hp hnode
    intro a fl hfl
    exact length_flag_error E d.heap par parent a type fl k hk (by rw [hfl]; exact hl)
  refine ⟨hfail, ?_, ?_⟩
  rotate_left
  · intro hf hroot hpt h0 h255 hlen hval hnew
    rw [hf]
    exact attr_add_fixed_succeeds E d parent par name attr type k hp hk hroot hpt hlen hval h0 h255 hnew
  intro d1 hadd
  have hzero : flags.length = 0 := by
    by_contra hl
    have h := hfail hl
    rw [hadd] at h
    simp at h
  refine ⟨hzero, ?_⟩
  obtain ⟨a, m, fl, flB, flC, heap0, par1, node0, extra, rest, hheap, -, -, hl0, hp1, -, -, -, hn, -,
    hty, hfl, -, -, -, -, hC⟩ := attr_add_success_flags E d d1 parent par name attr type flags hp hnode hadd
  have hnode := child_add_new_node heap0 par1 node0 extra parent hp1
  rw [hl0, ← hheap] at hnode
  refine ⟨_, hnode, hn, hty, ?_⟩
  show node0.flags.length = k
  rw [hfl]
  exact force_length_fixed par a type flB flC k hk hC

theorem fixed_size_length_forced_witness :
    ∃ node : fr_dict_attr_t,
      (fr_dict_attr_add sample_env user_name_dict 0 "NAS-MAC" 30 .ETHERNET {}).2.heap[user_name_dict.heap.length]? =
        some node ∧ node.name = "NAS-MAC" ∧ node.type = .ETHERNET ∧ node.flags.length = 6 :=
  ((fixed_size_length_forced sample_env user_name_dict 0 (user_name_dict.heap.getD 0 fr_dict_attr_t.zero)
    "NAS-MAC" 30 .ETHERNET {} 6 (by rfl) (by rfl) (Or.inl (by decide))).2.1 _ rfl).2

/-! ### Values entered twice -/

/-- C26 (the code at the failing input): the lines `VALUE Small Big 300` and
`ATTRIBUTE Small 30 byte` followed by the fixup loop of `fr_dict_init` (which
returns 0) leave the pair (Big, 300) of the byte attribute Small in both
indexes, where `fr_dict_enum_by_name` finds it; `fr_dict_enum_add` of this
same pair for the attribute Small then returns -1, the two indexes staying
as they were. In the dictionary where the pair (Foo, 1) of the integer
attribute Test-Attr was entered by `fr_dict_enum_add` itself, adding the pair
again returns 0 and adding the name with the value 2 returns -1. -/
theorem present_pair_out_of_range_rejected :
    ((read_lines sample_env ["VALUE Small Big 300", "ATTRIBUTE Small 30 byte"] (fr_dict_init_root "radius")).bind
        (fun r => fr_dict_init_fixup sample_env r.2)).map (fun r => r.1) = some 0 ∧
    ((read_lines sample_env ["VALUE Small Big 300", "ATTRIBUTE Small 30 byte"] (fr_dict_init_root "radius")).bind
        (fun r => fr_dict_init_fixup sample_env r.2)).map (fun r => enum_types r.2 r.2.values_by_name) =
      some [("Big", some PW_TYPE.BYTE, 300)] ∧
    ((read_lines sample_env ["VALUE Small Big 300", "ATTRIBUTE Small 30 byte"] (fr_dict_init_root "radius")).bind
        (fun r => fr_dict_init_fixup sample_env r.2)).map (fun r => enum_types r.2 r.2.values_by_da) =
      some [("Big", some PW_TYPE.BYTE, 300)] ∧
    (((read_lines sample_env ["VALUE Small Big 300", "ATTRIBUTE Small 30 byte"] (fr_dict_init_root "radius")).bind
        (fun r => fr_dict_init_fixup sample_env r.2)).bind
        (fun r => fr_dict_enum_add sample_env r.2 "Small" "Big" 300)).map (fun r => r.1) = some (-1) ∧
    (((read_lines sample_env ["VALUE Small Big 300", "ATTRIBUTE Small 30 byte"] (fr_dict_init_root "radius")).bind
        (fun r => fr_dict_init_fixup sample_env r.2)).bind
        (fun r => fr_dict_enum_add sample_env r.2 "Small" "Big" 300)).map
        (fun r => enum_types r.2 r.2.values_by_name) = some [("Big", some PW_TYPE.BYTE, 300)] ∧
    (((read_lines sample_env ["VALUE Small Big 300", "ATTRIBUTE Small 30 byte"] (fr_dict_init_root "radius")).bind
        (fun r => fr_dict_init_fixup sample_env r.2)).bind
        (fun r => fr_dict_enum_add sample_env r.2 "Small" "Big" 300)).map
        (fun r => enum_types r.2 r.2.values_by_da) = some [("Big", some PW_TYPE.BYTE, 300)] ∧
    (((read_lines sample_env ["VALUE Small Big 300", "ATTRIBUTE Small 30 byte"] (fr_dict_init_root "radius")).bind
        (fun r => fr_dict_init_fixup sample_env r.2)).bind
        (fun r => fr_dict_enum_by_name sample_env r.2 (fr_dict_attr_by_name sample_env r.2 "Small") "Big")).map
        (fun e => (e.name, e.value)) = some ("Big", 300) ∧
    enum_types enum_dict enum_dict.values_by_name = [("Foo", some PW_TYPE.INTEGER, 1)] ∧
    (fr_dict_enum_add sample_env enum_dict "Test-Attr" "Foo" 1).map (fun r => r.1) = some 0 ∧
    (fr_dict_enum_add sample_env enum_dict "Test-Attr" "Foo" 2).map (fun r => r.1) = some (-1) := by
  refine ⟨by decide, by decide, by decide, by decide, by decide, by decide, by decide, by decide, by decide,
    by decide⟩

/-! ### Values entered before their attribute -/

/-- C27 (the code at the failing input): the lines `VALUE Test-Attr Foo 1`,
`VALUE Small Big 300`, `ATTRIBUTE Test-Attr 25 string`, `ATTRIBUTE Small 30 byte`
are all accepted (the two values wait in the fixup list), the fixup loop of
`fr_dict_init` returns 0 and leaves the list empty, and afterwards both tables
hold the value Foo of the string attribute and the value Big = 300 of the
byte attribute. With the attributes first, the line `VALUE Test-Attr Foo 1` is
rejected. -/
theorem deferred_values_not_checked :
    (read_lines sample_env ["VALUE Test-Attr Foo 1", "VALUE Small Big 300", "ATTRIBUTE Test-Attr 25 string",
        "ATTRIBUTE Small 30 byte"] (fr_dict_init_root "radius")).map (fun r => (r.1, r.2.enum_fixup.length)) =
      some (0, 2) ∧
    ((read_lines sample_env ["VALUE Test-Attr Foo 1", "VALUE Small Big 300", "ATTRIBUTE Test-Attr 25 string",
        "ATTRIBUTE Small 30 byte"] (fr_dict_init_root "radius")).bind
        (fun r => fr_dict_init_fixup sample_env r.2)).map
        (fun r => (r.1, r.2.enum_fixup.length)) = some (0, 0) ∧
    ((read_lines sample_env ["VALUE Test-Attr Foo 1", "VALUE Small Big 300", "ATTRIBUTE Test-Attr 25 string",
        "ATTRIBUTE Small 30 byte"] (fr_dict_init_root "radius")).bind
        (fun r => fr_dict_init_fixup sample_env r.2)).map (fun r => enum_types r.2 r.2.values_by_name) =
      some [("Foo", some PW_TYPE.STRING, 1), ("Big", some PW_TYPE.BYTE, 300)] ∧
    ((read_lines sample_env ["VALUE Test-Attr Foo 1", "VALUE Small Big 300", "ATTRIBUTE Test-Attr 25 string",
        "ATTRIBUTE Small 30 byte"] (fr_dict_init_root "radius")).bind
        (fun r => fr_dict_init_fixup sample_env r.2)).map (fun r => enum_types r.2 r.2.values_by_da) =
      some [("Foo", some PW_TYPE.STRING, 1), ("Big", some PW_TYPE.BYTE, 300)] ∧
    (read_lines sample_env ["ATTRIBUTE Test-Attr 25 string", "ATTRIBUTE Small 30 byte", "VALUE Test-Attr Foo 1"]
        (fr_dict_init_root "radius")).map (fun r => (r.1, r.2.values_by_name.length)) = some (-1, 0) := by
  refine ⟨by decide, by decide, by decide, by decide, by decide⟩

/-! ### The parents of Vendor-Specific and vendor attributes -/

/-- C25 (the code at the failing input): `BEGIN-VENDOR` makes its attributes
with `fr_dict_attr_alloc` and `fr_dict_attr_child_add`, without the checks of
`fr_dict_attr_add`. After `fr_dict_attr_add` of the octets attribute
Vendor-Specific (26) under the root, `BEGIN-VENDOR Cisco` puts the vendor
attribute 9 under that octets attribute. And after `BEGIN-VENDOR Cisco`, a
second `BEGIN-VENDOR Other` with no `END-VENDOR` before it puts a new
attribute 26 of type VSA under the vendor attribute of Cisco, at depth 3. -/
theorem begin_vendor_skips_parent_checks :
    (dict_begin_vendor
      (fr_dict_attr_add sample_env (fr_dict_vendor_add (fr_dict_init_root "radius") "Cisco" 9).2 0
        "Vendor-Specific" 26 .OCTETS {}).2 0 "Cisco").2.heap.map (fun a => (a.attr, a.type, a.parent)) =
      [(0, PW_TYPE.TLV, none), (26, PW_TYPE.OCTETS, some 0), (9, PW_TYPE.VENDOR, some 1)] ∧
    (dict_begin_vendor
      (fr_dict_vendor_add (fr_dict_vendor_add (fr_dict_init_root "radius") "Cisco" 9).2 "Other" 11).2
      0 "Cisco").1 = some 2 ∧
    (dict_begin_vendor
      (dict_begin_vendor
        (fr_dict_vendor_add (fr_dict_vendor_add (fr_dict_init_root "radius") "Cisco" 9).2 "Other" 11).2
        0 "Cisco").2 2 "Other").2.heap.map (fun a => (a.attr, a.type, a.parent)) =
      [(0, PW_TYPE.TLV, none), (26, PW_TYPE.VSA, some 0), (9, PW_TYPE.VENDOR, some 1),
        (26, PW_TYPE.VSA, some 2), (11, PW_TYPE.VENDOR, some 3)] := by
  refine ⟨by decide, by decide, by decide⟩

/-! ### Common ancestors -/

/-- C28 (the code at the failing input): in the dictionary with the TLVs First
and Second under the root and the string Leaf under Second,
`fr_dict_parent_common(First, Leaf, true)` returns the root, which is neither
`NULL` nor First, although First is not an ancestor of Leaf (the parent of Leaf
is Second, whose parent is the root); and with the root as first argument the
function returns `NULL`, with `is_ancestor` false or true, although the root
is an ancestor of Leaf. For Second and Leaf it returns Second. -/
theorem parent_common_not_the_ancestor :
    two_tlv_dict.heap.map (fun a => (a.name, a.parent, a.depth)) =
      [("radius", none, 0), ("First", some 0, 1), ("Second", some 0, 1), ("Leaf", some 2, 2)] ∧
    fr_dict_parent_common two_tlv_dict.heap (some 1) (some 3) true = some (some 0) ∧
    fr_dict_parent_common two_tlv_dict.heap (some 0) (some 3) false = some none ∧
    fr_dict_parent_common two_tlv_dict.heap (some 0) (some 3) true = some none ∧
    fr_dict_parent_common two_tlv_dict.heap (some 2) (some 3) true = some (some 2) := by
  refine ⟨by decide, by decide, by decide, by decide, by decide⟩

theorem oid_component_ok_iff (E : Env) (vendor : Nat) (pa : fr_dict_attr_t) (num : Nat)
    (h : oid_component_ok E vendor pa num = true) :
    pa.type.is_structural = true ∧ ¬ (pa.flags.is_root = true ∧ vendor = 0 ∧ num = PW_VENDOR_SPECIFIC) ∧
      (pa.type = .VENDOR ∨ pa.flags.is_root = true ∨ num ≤ 255) ∧ num < 2 ^ 32 ∧ num < E.ULONG_MAX := by
  simp only [oid_component_ok, Bool.and_eq_true, Bool.or_eq_true, decide_eq_true_eq, beq_iff_eq,
    Bool.not_eq_true', Bool.and_eq_false_iff, Bool.or_eq_true, beq_eq_false_iff_ne, ne_eq] at h
  obtain ⟨⟨⟨⟨hs, hv⟩, h255⟩, h32⟩, hU⟩ := h
  refine ⟨hs, ?_, ?_, h32, hU⟩
  · rintro ⟨h1, h2, h3⟩
    rcases hv with (hv | hv) | hv
    · rw [h1] at hv; cases hv
    · exact hv h2
    · exact hv h3
  · rcases h255 with (h | h) | h
    · exact Or.inl h
    · exact Or.inr (Or.inl h)
    · exact Or.inr (Or.inr h)

theorem by_oid_resolves (E : Env) (d : fr_dict) (vendor : Nat) : ∀ (nums : List Nat) (p last pf fuel : Nat),
    oid_resolves E d vendor p nums last = some pf → nums.length + 1 ≤ fuel →
    fr_dict_attr_by_oid E d fuel p vendor (oid_text (nums ++ [last])) =
      some (((oid_text (nums ++ [last])).length : Int), pf, vendor, last) := by
  intro nums
  induction nums with
  | nil =>
    intro p last pf fuel h hfuel
    obtain ⟨f, rfl⟩ : ∃ f, fuel = f + 1 := ⟨fuel - 1, by omega⟩
    simp only [oid_resolves] at h
    cases hp : d.heap[p]? with
    | none => simp [hp] at h
    | some pa =>
      simp only [hp] at h
      split at h
      · rename_i hok
        obtain ⟨hs, hv, h255, h32, hU⟩ := oid_component_ok_iff E vendor pa last hok
        simp only [Option.some.injEq] at h
        subst h
        simp only [List.nil_append, oid_text_single]
        exact by_oid_leaf E d f p vendor last pa hp hs hv h255 h32 hU
      · cases h
  | cons n rest ih =>
    intro p last pf fuel h hfuel
    obtain ⟨f, rfl⟩ : ∃ f, fuel = f + 1 := ⟨fuel - 1, by omega⟩
    have hne : rest ++ [last] ≠ [] := by simp
    simp only [oid_resolves] at h
    cases hp : d.heap[p]? with
    | none => simp [hp] at h
    | some pa =>
      simp only [hp] at h
      split at h
      · rename_i hok
        obtain ⟨hs, hv, h255, h32, hU⟩ := oid_component_ok_iff E vendor pa n hok
        cases hchild : fr_dict_attr_child_by_num d.heap pa n with
        | none => simp [hchild] at h
        | some c =>
          simp only [hchild] at h
          have e := ih c last pf f h (by simp at hfuel; omega)
          have hc := oid_component_format E n ('.' :: oid_text (rest ++ [last])) h32 hU (Or.inr rfl)
          have h255n : ¬ (pa.type ≠ .VENDOR ∧ ¬ pa.flags.is_root = true ∧ n > 255) := by
            rintro ⟨h1, h2, h3⟩
            rcases h255 with h | h | h
            · exact h1 h
            · exact h2 h
            · omega
          have hpos : ¬ (((oid_text (rest ++ [last])).length : Int) ≤ 0) := by
            obtain ⟨b, r, hb⟩ := List.exists_cons_of_ne_nil hne
            rw [hb]
            have := oid_text_length_pos b r
            omega
          simp only [List.cons_append, oid_text_cons_ne _ _ hne]
          rw [fr_dict_attr_by_oid]
          simp only [hc, hp, if_neg hv, hs, not_true_eq_false, if_false, if_neg h255n, if_true, hchild, e,
            if_neg hpos, true_and, lt_self_iff_false]
          simp
          omega
      · cases h

/-! ### OID strings that end in a new number -/

/-- C29: let the components `nums` of a dotted OID string resolve one after
the other through existing structural children, starting at `*parent`, to
the attribute `pf`, no component being the number 26 read at a root with
vendor 0, every number under a parent that is neither vendor nor root being at
most 255, all numbers fitting an `unsigned int` below `ULONG_MAX`, and let
`last` be a further such number under `pf`, whether or not `pf` has a child of
that number. Then `fr_dict_attr_by_oid`, given enough fuel for the recursion,
returns the full length of the string, which is positive, sets `*attr` to
`last` and `*parent` to `pf` (to `*parent` itself for a string of one
component), and leaves the vendor as it was. -/
theorem oid_with_new_leaf (E : Env) (d : fr_dict) (vendor : Nat) (nums : List Nat) (p last pf fuel : Nat)
    (h : oid_resolves E d vendor p nums last = some pf) (hfuel : nums.length + 1 ≤ fuel) :
    fr_dict_attr_by_oid E d fuel p vendor (oid_text (nums ++ [last])) =
      some (((oid_text (nums ++ [last])).length : Int), pf, vendor, last) ∧
    0 < (oid_text (nums ++ [last])).length ∧ (nums = [] → pf = p) := by
  refine ⟨by_oid_resolves E d vendor nums p last pf fuel h hfuel, ?_, ?_⟩
  · obtain ⟨b, r, hb⟩ := List.exists_cons_of_ne_nil (show nums ++ [last] ≠ [] by simp)
    rw [hb]
    exact oid_text_length_pos b r
  · intro hn
    subst hn
    simp only [oid_resolves] at h
    cases hp : d.heap[p]? with
    | none => simp [hp] at h
    | some pa =>
      simp only [hp] at h
      split at h
      · exact (Option.some.inj h).symm
      · cases h

theorem oid_with_new_leaf_witness :
    fr_dict_attr_by_oid sample_env long_ext_dict 2 0 0 (oid_text ([245] ++ [77])) =
      some (((oid_text ([245] ++ [77])).length : Int), 1, 0, 77) ∧
    0 < (oid_text ([245] ++ [77])).length ∧ (([245] : List Nat) = [] → 1 = 0) :=
  oid_with_new_leaf sample_env long_ext_dict 0 [245] 0 77 1 2 (by decide) (by decide)

theorem tree_chain_frame (heap : Heap) (s : Nat) (x : fr_dict_attr_t) : ∀ (l : List Nat) (p dep : Nat),
    tree_chain heap p dep l → s ∉ l → tree_chain (heap.set s x) p dep l := by
  intro l
  induction l with
  | nil => intro p dep _ _; trivial
  | cons n rest ih =>
    intro p dep h hs
    obtain ⟨⟨a, ha, hpar, hdep⟩, hr⟩ := h
    have hne : s ≠ n := fun e => hs (by rw [e]; exact List.mem_cons_self _ _)
    refine ⟨⟨a, ?_, hpar, hdep⟩, ih n (dep + 1) hr (fun hm => hs (List.mem_cons_of_mem _ hm))⟩
    rw [List.getElem?_set_ne hne]
    exact ha

theorem tree_chain_snoc (heap : Heap) : ∀ (l : List Nat) (p dep x : Nat) (a : fr_dict_attr_t),
    tree_chain heap p dep l → heap[x]? = some a → a.parent = some (l.getLast?.getD p) →
    a.depth = dep + l.length + 1 → tree_chain heap p dep (l ++ [x]) := by
  intro l
  induction l with
  | nil =>
    intro p dep x a _ hx hpar hdep
    exact ⟨⟨a, hx, by simpa using hpar, by simpa using hdep⟩, trivial⟩
  | cons n rest ih =>
    intro p dep x a h hx hpar hdep
    obtain ⟨hn, hr⟩ := h
    refine ⟨hn, ih n (dep + 1) x a hr hx ?_ ?_⟩
    · rw [hpar]
      rcases rest with _ | ⟨y, ys⟩
      · rfl
      · rw [List.getLast?_cons_cons]
        cases hh : (y :: ys).getLast? with
        | none => simp at hh
        | some z => rfl
    · rw [hdep]; simp only [List.length_cons]; omega

theorem tree_chain_parent_some (heap : Heap) : ∀ (l : List Nat) (p dep : Nat), tree_chain heap p dep l →
    ∀ n ∈ l, ∃ a q, heap[n]? = some a ∧ a.parent = some q := by
  intro l
  induction l with
  | nil => intro p dep _ n hn; simp at hn
  | cons x rest ih =>
    intro p dep h n hn
    obtain ⟨⟨a, ha, hpar, -⟩, hr⟩ := h
    rcases List.mem_cons.mp hn with e | e
    · exact ⟨a, p, by rw [e]; exact ha, hpar⟩
    · exact ih x (dep + 1) hr n e

theorem zero_slot_not_in_chain (heap : Heap) (l : List Nat) (p dep s : Nat) (h : tree_chain heap p dep l)
    (hs : heap[s]? = some fr_dict_attr_t.zero) : s ∉ l := by
  intro hm
  obtain ⟨a, q, ha, hpar⟩ := tree_chain_parent_some heap l p dep h s hm
  rw [hs] at ha
  cases ha
  cases hpar

theorem attr_of_frame (heap : Heap) (s : Nat) (x : fr_dict_attr_t) (l : List Nat) (hs : s ∉ l) :
    l.map (attr_of (heap.set s x)) = l.map (attr_of heap) := by
  apply List.map_congr_left
  intro n hn
  have hne : s ≠ n := fun e => hs (by rw [e]; exact hn)
  simp only [attr_of, List.getElem?_set_ne hne]

theorem set_same (heap : Heap) (s : Nat) (x : fr_dict_attr_t) (h : heap[s]? = some x) : heap.set s x = heap := by
  apply List.ext_getElem?
  intro i
  by_cases e : s = i
  · subst e
    rw [h]
    have hlt : s < heap.length := by
      rcases Nat.lt_or_ge s heap.length with hl | hl
      · exact hl
      · rw [List.getElem?_eq_none hl] at h; cases h
    exact List.getElem?_set_self hlt
  · exact List.getElem?_set_ne e

theorem valid_name_from_allowed : ∀ (cs : List Char) (i : Nat),
    (∀ c ∈ cs, fr_dict_attr_allowed_chars (c.toNat % 256) = true) → fr_dict_valid_name_from cs i = 0 := by
  intro cs
  induction cs with
  | nil => intro i _; rfl
  | cons c rest ih =>
    intro i h
    have hc := h c (List.mem_cons_self _ _)
    simp only [fr_dict_valid_name_from, hc, not_true_eq_false, if_false]
    exact ih (i + 1) (fun x hx => h x (List.mem_cons_of_mem _ hx))

theorem isdigit_allowed (c : Char) (h : isdigit c = true) : fr_dict_attr_allowed_chars (c.toNat % 256) = true := by
  simp only [isdigit, Bool.and_eq_true, decide_eq_true_eq] at h
  simp only [fr_dict_attr_allowed_chars, decide_eq_true_eq]
  omega

theorem format_u_allowed (a : Nat) (h32 : a < 2 ^ 32) :
    ∀ c ∈ format_u a, fr_dict_attr_allowed_chars (c.toNat % 256) = true := by
  obtain ⟨c, cs, e, -, hdig, -⟩ := format_u_digits a h32
  intro x hx
  rw [e] at hx
  exact isdigit_allowed x (hdig x hx)

theorem oid_text_allowed : ∀ (l : List Nat), (∀ a ∈ l, a < 2 ^ 32) →
    ∀ c ∈ oid_text l, fr_dict_attr_allowed_chars (c.toNat % 256) = true := by
  intro l
  induction l with
  | nil => intro _ c hc; simp [oid_text] at hc
  | cons a rest ih =>
    intro h c hc
    rcases rest with _ | ⟨b, r⟩
    · rw [oid_text_single] at hc
      exact format_u_allowed a (h a (List.mem_cons_self _ _)) c hc
    · rw [oid_text_cons_cons] at hc
      rcases List.mem_append.mp hc with hc | hc
      · exact format_u_allowed a (h a (List.mem_cons_self _ _)) c hc
      · rcases List.mem_cons.mp hc with hc | hc
        · rw [hc]; decide
        · exact ih (fun x hx => h x (List.mem_cons_of_mem _ hx)) c hc

theorem attr_name_valid (l : List Nat) (h : ∀ a ∈ l, a < 2 ^ 32) :
    fr_dict_valid_name (String.mk ("Attr-".data ++ oid_text l)) = 0 := by
  unfold fr_dict_valid_name
  apply valid_name_from_allowed
  intro c hc
  rcases List.mem_append.mp hc with hc | hc
  · have hpre : ∀ x ∈ "Attr-".data, fr_dict_attr_allowed_chars (x.toNat % 256) = true := by decide
    exact hpre c hc
  · exact oid_text_allowed l h c hc

theorem attr_prefix_match (t : List Char) : strncasecmp_eq ("Attr-".data ++ t) "Attr-" = true := by
  unfold strncasecmp_eq
  rw [List.take_left']
  · simp
  · rfl

theorem tree_chain_last (heap : Heap) : ∀ (l : List Nat) (p dep : Nat), tree_chain heap p dep l → l ≠ [] →
    ∃ a, heap[l.getLast?.getD p]? = some a ∧ a.depth = dep + l.length := by
  intro l
  induction l with
  | nil => intro p dep _ h; exact absurd rfl h
  | cons n rest ih =>
    intro p dep h _
    obtain ⟨⟨a, ha, -, hdep⟩, hr⟩ := h
    rcases rest with _ | ⟨y, ys⟩
    · exact ⟨a, by simpa using ha, by simpa using hdep⟩
    · obtain ⟨b, hb, hbd⟩ := ih n (dep + 1) hr (by simp)
      refine ⟨b, ?_, by rw [hbd]; simp only [List.length_cons]; omega⟩
      rw [List.getLast?_cons_cons]
      cases hh : (y :: ys).getLast? with
      | none => simp at hh
      | some z =>
        rw [hh] at hb
        exact hb

theorem unknown_from_fields_name (E : Env) (heap : Heap) (stack : List (Option Nat)) (s r parent vendor n : Nat)
    (cs : List Nat) (pa : fr_dict_attr_t)
    (hs : heap[s]? = some fr_dict_attr_t.zero) (hchain : tree_chain heap r 0 cs)
    (hpar : parent = cs.getLast?.getD r) (hp : heap[parent]? = some pa) (hpd : pa.depth = cs.length)
    (hdepth : cs.length + 1 ≤ E.FR_DICT_MAX_TLV_STACK)
    (hbuf : 11 * (cs.length + 1) + 5 < E.FR_DICT_ATTR_MAX_NAME_LEN)
    (hn : n < 2 ^ 32) (hv : vendor < 2 ^ 32) :
    fr_dict_unknown_from_fields E heap stack s parent vendor n =
      some (0, (heap.set s (unknown_attr parent vendor n (cs.length + 1) "")).set s
        (unknown_attr parent vendor n (cs.length + 1)
          (String.mk ("Attr-".data ++ oid_text (cs.map (attr_of heap) ++ [n]))))) := by
  have hlt : s < heap.length := by
    rcases Nat.lt_or_ge s heap.length with hl | hl
    · exact hl
    · rw [List.getElem?_eq_none hl] at hs; cases hs
  have hnotin := zero_slot_not_in_chain heap cs r 0 s hchain hs
  have hcond : ¬ (s ≥ heap.length ∨ E.FR_DICT_ATTR_MAX_NAME_LEN ≤ 5) := by omega
  have hc1 := tree_chain_frame heap s (unknown_attr parent vendor n (cs.length + 1) "") cs r 0 hchain hnotin
  have hc2 := tree_chain_snoc _ cs r 0 s _ hc1 (List.getElem?_set_self hlt)
    (show (unknown_attr parent vendor n (cs.length + 1) "").parent = _ by rw [hpar]; rfl)
    (show (unknown_attr parent vendor n (cs.length + 1) "").depth = _ by simp [unknown_attr])
  have hprint := print_oid_path E _ r cs s stack [] (E.FR_DICT_ATTR_MAX_NAME_LEN - 5) hc2 hdepth (by omega)
  have htext : (cs ++ [s]).map (attr_of (heap.set s (unknown_attr parent vendor n (cs.length + 1) ""))) =
      cs.map (attr_of heap) ++ [n] := by
    rw [List.map_append, attr_of_frame heap s _ cs hnotin]
    simp [attr_of, List.getElem?_set_self hlt, unknown_attr]
  rw [htext] at hprint
  unfold fr_dict_unknown_from_fields
  simp only [hp, if_neg hcond, Nat.mod_eq_of_lt hn, Nat.mod_eq_of_lt hv, hpd]
  split
  · rename_i heq
    have e := hprint.symm.trans heq
    cases e
  · rename_i r heq
    have e := hprint.symm.trans heq
    simp only [Option.some.injEq] at e
    subst e
    rfl

theorem oid_text_length_ge : ∀ (l : List Nat), l.length ≤ (oid_text l).length := by
  intro l
  induction l with
  | nil => simp [oid_text]
  | cons a rest ih =>
    rcases rest with _ | ⟨b, r⟩
    · rw [oid_text_single]
      have := format_u_length_pos a
      simp only [List.length_singleton]
      omega
    · rw [oid_text_cons_cons]
      have := format_u_length_pos a
      simp only [List.length_cons, List.length_append] at ih ⊢
      omega

theorem oid_resolves_bounds (E : Env) (d : fr_dict) (vendor : Nat) : ∀ (nums : List Nat) (p last pf : Nat),
    oid_resolves E d vendor p nums last = some pf → ∀ a ∈ nums ++ [last], a < 2 ^ 32 := by
  intro nums
  induction nums with
  | nil =>
    intro p last pf h a ha
    simp only [List.nil_append, List.mem_singleton] at ha
    subst ha
    simp only [oid_resolves] at h
    cases hp : d.heap[p]? with
    | none => simp [hp] at h
    | some pa =>
      simp only [hp] at h
      split at h
      · rename_i hok
        exact (oid_component_ok_iff E vendor pa a hok).2.2.2.1
      · cases h
  | cons n rest ih =>
    intro p last pf h a ha
    simp only [oid_resolves] at h
    cases hp : d.heap[p]? with
    | none => simp [hp] at h
    | some pa =>
      simp only [hp] at h
      split at h
      · rename_i hok
        cases hchild : fr_dict_attr_child_by_num d.heap pa n with
        | none => simp [hchild] at h
        | some c =>
          simp only [hchild] at h
          rcases List.mem_cons.mp ha with e | e
          · rw [e]; exact (oid_component_ok_iff E vendor pa n hok).2.2.2.1
          · exact ih c last pf h a e
      · cases h

theorem unknown_number_ok_iff (E : Env) (a : Nat) (h : unknown_number_ok E a = true) :
    1 ≤ a ∧ a < UINT_MAX ∧ a < E.ULONG_MAX ∧ a < 2 ^ 32 := by
  simp only [unknown_number_ok, Bool.and_eq_true, decide_eq_true_eq, UINT_MAX] at h
  simp only [UINT_MAX]
  omega

theorem unknown_from_oid_plain (E : Env) (d : fr_dict) (stack : List (Option Nat)) (s r n : Nat)
    (hs : d.heap[s]? = some fr_dict_attr_t.zero) (hok : unknown_number_ok E n = true) :
    fr_dict_unknown_from_oid E d stack none (some s) r (String.mk ("Attr-".data ++ oid_text ([] ++ [n]))) =
      fr_dict_unknown_from_fields E d.heap stack s r 0 n := by
  obtain ⟨h1, hU32, hU, h32⟩ := unknown_number_ok_iff E n hok
  have hvalid := attr_name_valid [n] (by intro a ha; simp at ha; omega)
  have hst := strtoul_format E n [] h32 hU (Or.inl rfl)
  rw [List.append_nil] at hst
  have hpre := attr_prefix_match (format_u n)
  have hdrop : ("Attr-".data ++ format_u n).drop 5 = format_u n := List.drop_left' rfl
  simp only [List.nil_append, oid_text_single] at hvalid ⊢
  unfold fr_dict_unknown_from_oid
  simp only [hvalid, lt_self_iff_false, if_false, set_same d.heap s _ hs, hpre, not_true_eq_false, hdrop, hst]
  have hc1 : ¬ (n = 0 ∨ n ≥ UINT_MAX) := by omega
  simp only [if_neg hc1, List.head?_nil, reduceCtorEq, if_false, ne_eq, not_true_eq_false, false_and, and_false,
    or_self, Nat.mod_eq_of_lt h32]

theorem unknown_from_oid_tlv (E : Env) (d : fr_dict) (stack : List (Option Nat)) (s r a1 n c1 pf : Nat)
    (rest : List Nat) (ra ch : fr_dict_attr_t)
    (hs : d.heap[s]? = some fr_dict_attr_t.zero) (hok : unknown_number_ok E a1 = true)
    (hr : d.heap[r]? = some ra) (hc : fr_dict_attr_child_by_num d.heap ra a1 = some c1)
    (hch : d.heap[c1]? = some ch) (hstr : ch.type.is_structural = true)
    (hnv : ¬ (ch.type = .VSA ∨ ch.type = .EVS))
    (hres : oid_resolves E d 0 c1 rest n = some pf) :
    fr_dict_unknown_from_oid E d stack none (some s) r
        (String.mk ("Attr-".data ++ oid_text (a1 :: (rest ++ [n])))) =
      fr_dict_unknown_from_fields E d.heap stack s pf 0 n := by
  obtain ⟨h1, hU32, hU, h32⟩ := unknown_number_ok_iff E a1 hok
  have hb := oid_resolves_bounds E d 0 rest c1 n pf hres
  have hne : rest ++ [n] ≠ [] := by simp
  have hvalid := attr_name_valid (a1 :: (rest ++ [n])) (by
    intro a ha
    rcases List.mem_cons.mp ha with e | e
    · rw [e]; exact h32
    · exact hb a e)
  have hst := strtoul_format E a1 ('.' :: oid_text (rest ++ [n])) h32 hU (Or.inr rfl)
  have hpre := attr_prefix_match (format_u a1 ++ '.' :: oid_text (rest ++ [n]))
  have hdrop : ("Attr-".data ++ (format_u a1 ++ '.' :: oid_text (rest ++ [n]))).drop 5 =
      format_u a1 ++ '.' :: oid_text (rest ++ [n]) := List.drop_left' rfl
  have hoid := by_oid_resolves E d 0 rest c1 n pf (('.' :: oid_text (rest ++ [n])).length + 1) hres (by
    have := oid_text_length_ge (rest ++ [n])
    simp only [List.length_append, List.length_singleton, List.length_cons] at this ⊢
    omega)
  have hc1 : ¬ (a1 = 0 ∨ a1 ≥ UINT_MAX) := by omega
  have hpos : ¬ (((oid_text (rest ++ [n])).length : Int) < 0) := by omega
  simp only [oid_text_cons_ne _ _ hne] at hvalid ⊢
  unfold fr_dict_unknown_from_oid
  simp only [hvalid, lt_self_iff_false, if_false, set_same d.heap s _ hs, hpre, not_true_eq_false, hdrop, hst,
    if_neg hc1, List.head?_cons, reduceCtorEq, ne_eq, not_true_eq_false, false_and, and_false, true_and,
    or_self, Nat.mod_eq_of_lt h32, if_true, hr, hc, hch, hstr, if_neg hnv, List.drop_succ_cons, List.drop_zero,
    hoid, if_neg hpos]

theorem unknown_from_oid_vsa (E : Env) (d : fr_dict) (stack : List (Option Nat)) (s r a1 v n c1 c2 pf : Nat)
    (rest : List Nat) (ra ch : fr_dict_attr_t)
    (hs : d.heap[s]? = some fr_dict_attr_t.zero) (hok : unknown_number_ok E a1 = true)
    (hr : d.heap[r]? = some ra) (hc : fr_dict_attr_child_by_num d.heap ra a1 = some c1)
    (hch : d.heap[c1]? = some ch) (hstr : ch.type.is_structural = true)
    (hv : ch.type = .VSA ∨ ch.type = .EVS) (hvok : unknown_number_ok E v = true)
    (hdv : (fr_dict_vendor_by_num d v).isSome = true)
    (hc2 : fr_dict_attr_child_by_num d.heap ch v = some c2)
    (hres : oid_resolves E d v c2 rest n = some pf) :
    fr_dict_unknown_from_oid E d stack none (some s) r
        (String.mk ("Attr-".data ++ oid_text (a1 :: v :: (rest ++ [n])))) =
      fr_dict_unknown_from_fields E d.heap stack s pf v n := by
  obtain ⟨h1, hU32, hU, h32⟩ := unknown_number_ok_iff E a1 hok
  obtain ⟨hv1, hvU32, hvU, hv32⟩ := unknown_number_ok_iff E v hvok
  have hb := oid_resolves_bounds E d v rest c2 n pf hres
  have hne : rest ++ [n] ≠ [] := by simp
  have hvalid := attr_name_valid (a1 :: v :: (rest ++ [n])) (by
    intro a ha
    rcases List.mem_cons.mp ha with e | e
    · rw [e]; exact h32
    · rcases List.mem_cons.mp e with e | e
      · rw [e]; exact hv32
      · exact hb a e)
  have hst := strtoul_format E a1 ('.' :: (format_u v ++ '.' :: oid_text (rest ++ [n]))) h32 hU (Or.inr rfl)
  have hst2 := strtoul_format E v ('.' :: oid_text (rest ++ [n])) hv32 hvU (Or.inr rfl)
  have hpre := attr_prefix_match (format_u a1 ++ '.' :: (format_u v ++ '.' :: oid_text (rest ++ [n])))
  have hdrop : ("Attr-".data ++ (format_u a1 ++ '.' :: (format_u v ++ '.' :: oid_text (rest ++ [n])))).drop 5 =
      format_u a1 ++ '.' :: (format_u v ++ '.' :: oid_text (rest ++ [n])) := List.drop_left' rfl
  have hoid := by_oid_resolves E d v rest c2 n pf (('.' :: oid_text (rest ++ [n])).length + 1) hres (by
    have := oid_text_length_ge (rest ++ [n])
    simp only [List.length_append, List.length_singleton, List.length_cons] at this ⊢
    omega)
  have hc1 : ¬ (a1 = 0 ∨ a1 ≥ UINT_MAX) := by omega
  have hcv : ¬ (v = 0 ∨ v ≥ UINT_MAX) := by omega
  have hv0 : ¬ (v = 0) := by omega
  have hvge : ¬ (v ≥ UINT_MAX) := by omega
  have hpos : ¬ (((oid_text (rest ++ [n])).length : Int) < 0) := by omega
  have hty : ¬ (ch.type ≠ .VSA ∧ ch.type ≠ .EVS) := by
    rintro ⟨ha, hb2⟩
    rcases hv with h | h
    · exact ha h
    · exact hb2 h
  obtain ⟨dv, hdv2⟩ := Option.isSome_iff_exists.mp hdv
  simp only [oid_text_cons_cons, oid_text_cons_ne _ _ hne] at hvalid ⊢
  unfold fr_dict_unknown_from_oid
  simp only [hvalid, lt_self_iff_false, if_false, set_same d.heap s _ hs, hpre, not_true_eq_false, hdrop, hst,
    if_neg hc1, List.head?_cons, reduceCtorEq, ne_eq, not_true_eq_false, false_and, and_false, true_and,
    or_self, Nat.mod_eq_of_lt h32, Nat.mod_eq_of_lt hv32, if_true, hr, hc, hch, hstr, if_pos hv,
    List.drop_succ_cons, List.drop_zero, hst2, if_neg hcv, hv0, false_or, hvge, hdv2, hty, hc2, hoid, not_false_eq_true,
    if_neg hpos]

theorem oid_resolves_last_bound (E : Env) (d : fr_dict) (vendor : Nat) (nums : List Nat) (p last pf : Nat)
    (h : oid_resolves E d vendor p nums last = some pf) : last < 2 ^ 32 :=
  oid_resolves_bounds E d vendor nums p last pf h last (by simp)

theorem unknown_from_oid_of_resolves (E : Env) (d : fr_dict) (stack : List (Option Nat)) (s r n parent vendor : Nat)
    (nums : List Nat) (hs : d.heap[s]? = some fr_dict_attr_t.zero)
    (hres : unknown_name_resolves E d r nums n = some (parent, vendor)) :
    fr_dict_unknown_from_oid E d stack none (some s) r (String.mk ("Attr-".data ++ oid_text (nums ++ [n]))) =
      fr_dict_unknown_from_fields E d.heap stack s parent vendor n ∧ n < 2 ^ 32 ∧ vendor < 2 ^ 32 := by
  unfold unknown_name_resolves at hres
  rcases nums with _ | ⟨a1, rest⟩
  · simp only at hres
    split at hres
    · rename_i hok
      simp only [Option.some.injEq, Prod.mk.injEq] at hres
      obtain ⟨rfl, rfl⟩ := hres
      exact ⟨unknown_from_oid_plain E d stack s r n hs hok, (unknown_number_ok_iff E n hok).2.2.2, by norm_num⟩
    · cases hres
  · simp only at hres
    split at hres
    · cases hres
    rename_i hok
    simp only [Bool.not_eq_true, Bool.not_eq_false] at hok
    cases hr : d.heap[r]? with
    | none => simp [hr] at hres
    | some ra =>
      simp only [hr] at hres
      cases hc : fr_dict_attr_child_by_num d.heap ra a1 with
      | none => simp [hc] at hres
      | some c1 =>
        simp only [hc] at hres
        cases hch : d.heap[c1]? with
        | none => simp [hch] at hres
        | some ch =>
          simp only [hch] at hres
          split at hres
          · cases hres
          rename_i hstr
          simp only [Bool.not_eq_true, Bool.not_eq_false] at hstr
          split at hres
          · rename_i hv
            rcases rest with _ | ⟨v, rest2⟩
            · cases hres
            · simp only at hres
              split at hres
              · cases hres
              rename_i hvok
              simp only [Bool.not_eq_true, Bool.not_eq_false] at hvok
              split at hres
              · cases hres
              rename_i hdv
              simp only [Option.isNone_iff_eq_none, ← ne_eq, Option.ne_none_iff_isSome] at hdv
              cases hc2 : fr_dict_attr_child_by_num d.heap ch v with
              | none => simp [hc2] at hres
              | some c2 =>
                simp only [hc2, Option.map_eq_some', Prod.mk.injEq] at hres
                obtain ⟨pf, hpf, rfl, rfl⟩ := hres
                exact ⟨unknown_from_oid_vsa E d stack s r a1 v n c1 c2 pf rest2 ra ch hs hok hr hc hch
                  hstr hv hvok hdv hc2 hpf, oid_resolves_last_bound E d v rest2 c2 n pf hpf,
                  (unknown_number_ok_iff E v hvok).2.2.2⟩
          · rename_i hv
            simp only [Option.map_eq_some', Prod.mk.injEq] at hres
            obtain ⟨pf, hpf, rfl, rfl⟩ := hres
            exact ⟨unknown_from_oid_tlv E d stack s r a1 n c1 pf rest ra ch hs hok hr hc hch hstr hv hpf,
              oid_resolves_last_bound E d 0 rest c1 n pf hpf, by norm_num⟩

/-- C30 (counterexample): under the known attribute User-Name (a string, number
1) of the root, `fr_dict_unknown_from_fields` with the number 5 builds the
unknown attribute named `Attr-1.5` with User-Name as parent, and
`fr_dict_unknown_from_oid` at the root returns -1 for this name and leaves the
struct zeroed; the same holds under the Vendor-Specific attribute with the
vendor 0 and the name `Attr-26.5`. -/
theorem unknown_name_under_leaf_not_parsed :
    (fr_dict_unknown_from_fields sample_env (slot_dict user_name_dict).heap [] 2 1 0 5).map
        (fun r => (r.1, (r.2[2]?).map (fun a => (a.name, a.parent, a.vendor, a.attr)))) =
      some (0, some ("Attr-1.5", some 1, 0, 5)) ∧
    (fr_dict_unknown_from_oid sample_env (slot_dict user_name_dict) [] none (some 2) 0 "Attr-1.5").map
        (fun r => (r.1, (r.2[2]?).map (fun a => (a.name, a.parent, a.vendor, a.attr)))) =
      some (-1, some ("", none, 0, 0)) ∧
    (fr_dict_unknown_from_fields sample_env (slot_dict cisco_dict).heap [] 4 1 0 5).map
        (fun r => (r.1, (r.2[4]?).map (fun a => (a.name, a.parent, a.vendor, a.attr)))) =
      some (0, some ("Attr-26.5", some 1, 0, 5)) ∧
    (fr_dict_unknown_from_oid sample_env (slot_dict cisco_dict) [] none (some 4) 0 "Attr-26.5").map
        (fun r => (r.1, (r.2[4]?).map (fun a => (a.name, a.parent, a.vendor, a.attr)))) =
      some (-1, some ("", none, 0, 0)) := by
  refine ⟨by decide, by decide, by decide, by decide⟩

/-- C30 (amended): let `cs` be a chain of known attributes from the root `r`
down to `parent` (the root itself when the chain is empty) whose numbers,
followed by `n`, resolve the way `fr_dict_unknown_from_oid` reads them
(`unknown_name_resolves`) to `parent` and `vendor`, within the depth of the
TLV stack and with room for the name. Then `fr_dict_unknown_from_fields`
returns 0 and builds the unknown attribute of type octets named `Attr-`
followed by the dotted numbers, and `fr_dict_unknown_from_oid` at the root
returns 0 for that name and builds the same attribute, with the same parent,
vendor and number. -/
theorem unknown_name_round_trip (E : Env) (d : fr_dict) (stack : List (Option Nat)) (s r n parent vendor : Nat)
    (cs : List Nat) (ra : fr_dict_attr_t)
    (hs : d.heap[s]? = some fr_dict_attr_t.zero) (hr : d.heap[r]? = some ra) (hrd : ra.depth = 0)
    (hchain : tree_chain d.heap r 0 cs) (hpar : parent = cs.getLast?.getD r)
    (hres : unknown_name_resolves E d r (cs.map (attr_of d.heap)) n = some (parent, vendor))
    (hdepth : cs.length + 1 ≤ E.FR_DICT_MAX_TLV_STACK)
    (hbuf : 11 * (cs.length + 1) + 5 < E.FR_DICT_ATTR_MAX_NAME_LEN) :
    ∃ heap1, fr_dict_unknown_from_fields E d.heap stack s parent vendor n = some (0, heap1) ∧
      heap1[s]? = some (unknown_attr parent vendor n (cs.length + 1)
        (String.mk ("Attr-".data ++ oid_text (cs.map (attr_of d.heap) ++ [n])))) ∧
      fr_dict_unknown_from_oid E d stack none (some s) r
        (String.mk ("Attr-".data ++ oid_text (cs.map (attr_of d.heap) ++ [n]))) = some (0, heap1) := by
  obtain ⟨hoid, hn, hv⟩ := unknown_from_oid_of_resolves E d stack s r n parent vendor _ hs hres
  have hlt : s < d.heap.length := by
    rcases Nat.lt_or_ge s d.heap.length with hl | hl
    · exact hl
    · rw [List.getElem?_eq_none hl] at hs; cases hs
  have hpa : ∃ pa, d.heap[parent]? = some pa ∧ pa.depth = cs.length := by
    rcases cs with _ | ⟨c, rest⟩
    · refine ⟨ra, ?_, by simpa using hrd⟩
      rw [hpar]
      simpa using hr
    · obtain ⟨a, ha, hd⟩ := tree_chain_last d.heap (c :: rest) r 0 hchain (by simp)
      exact ⟨a, by rw [hpar]; exact ha, by rw [hd]; simp⟩
  obtain ⟨pa, hp, hpd⟩ := hpa
  have hf := unknown_from_fields_name E d.heap stack s r parent vendor n cs pa hs hchain hpar hp hpd hdepth hbuf
    hn hv
  refine ⟨_, hf, ?_, hoid.trans hf⟩
  exact List.getElem?_set_self (by simpa using hlt)

theorem unknown_name_round_trip_witness :
    ∃ heap1, fr_dict_unknown_from_fields sample_env (slot_dict cisco_dict).heap [] 4 2 9 5 = some (0, heap1) ∧
      heap1[4]? = some (unknown_attr 2 9 5 3 "Attr-26.9.5") ∧
      fr_dict_unknown_from_oid sample_env (slot_dict cisco_dict) [] none (some 4) 0 "Attr-26.9.5" =
        some (0, heap1) :=
  unknown_name_round_trip sample_env (slot_dict cisco_dict) [] 4 0 5 2 9 [1, 2]
    _ rfl rfl rfl ⟨⟨_, rfl, rfl, rfl⟩, ⟨_, rfl, rfl, rfl⟩, trivial⟩
    rfl (by decide) (by decide) (by decide)

theorem unescape_single_bound (inp : Nat → Nat) (inlen quote : Nat) : ∀ (fuel p : Nat) (out : List Nat),
    inlen - p ≤ fuel →
    ∃ r, unescape_single inp inlen quote fuel p out = some r ∧ r.length ≤ out.length + (inlen - p) := by
  intro fuel
  induction fuel with
  | zero =>
    intro p out h
    have hp : ¬ p < inlen := by omega
    exact ⟨out, by simp [unescape_single, hp], by omega⟩
  | succ k ih =>
    intro p out h
    rw [unescape_single]
    by_cases hp : p < inlen
    · rw [if_pos hp]
      split
      · obtain ⟨r, hr, hl⟩ := ih (p + 2) (out ++ [quote]) (by omega)
        exact ⟨r, hr, by simp only [List.length_append, List.length_singleton] at hl; omega⟩
      · split
        · obtain ⟨r, hr, hl⟩ := ih (p + 2) (out ++ [92]) (by omega)
          exact ⟨r, hr, by simp only [List.length_append, List.length_singleton] at hl; omega⟩
        · obtain ⟨r, hr, hl⟩ := ih (p + 1) (out ++ [inp p]) (by omega)
          exact ⟨r, hr, by simp only [List.length_append, List.length_singleton] at hl; omega⟩
    · rw [if_neg hp]
      exact ⟨out, rfl, by omega⟩

theorem unescape_switch_forward (inp : Nat → Nat) (inlen quote p p1 c1 : Nat)
    (h : unescape_switch inp inlen quote p = some (p1, c1)) : p ≤ p1 := by
  unfold unescape_switch at h
  split at h
  · simp only [Option.some.injEq, Prod.mk.injEq] at h; omega
  split at h
  · simp only [Option.some.injEq, Prod.mk.injEq] at h; omega
  split at h
  · simp only [Option.some.injEq, Prod.mk.injEq] at h; omega
  split at h
  · simp only [Option.some.injEq, Prod.mk.injEq] at h; omega
  split at h
  · simp only [Option.some.injEq, Prod.mk.injEq] at h; omega
  split at h
  · cases h
  dsimp only at h
  split at h
  · simp only [Option.some.injEq, Prod.mk.injEq] at h
    obtain ⟨h1, -⟩ := h
    rw [← h1]
    split <;> omega
  · simp only [Option.some.injEq, Prod.mk.injEq] at h
    obtain ⟨h1, -⟩ := h
    rw [← h1]
    split <;> omega

theorem unescape_expanded_bound (inp : Nat → Nat) (inlen quote : Nat) : ∀ (fuel p : Nat) (out : List Nat),
    inlen - p ≤ fuel →
    ∃ r, unescape_expanded inp inlen quote fuel p out = some r ∧ r.length ≤ out.length + (inlen - p) := by
  intro fuel
  induction fuel with
  | zero =>
    intro p out h
    have hp : ¬ p < inlen := by omega
    exact ⟨out, by simp [unescape_expanded, hp], by omega⟩
  | succ k ih =>
    intro p out h
    have step : ∀ (q : Nat) (b : Nat), p < q → p < inlen →
        ∃ r, unescape_expanded inp inlen quote k q (out ++ [b]) = some r ∧
          r.length ≤ out.length + (inlen - p) := by
      intro q b hq hlt
      obtain ⟨r, hr, hl⟩ := ih q (out ++ [b]) (by omega)
      exact ⟨r, hr, by simp only [List.length_append, List.length_singleton] at hl; omega⟩
    have inval : p < inlen →
        (out ++ [inp p] ++ (List.range (inlen - (p + 1))).map (fun i => inp (p + 1 + i))).length ≤
          out.length + (inlen - p) := by
      intro hlt
      simp only [List.length_append, List.length_singleton, List.length_map, List.length_range]
      omega
    rw [unescape_expanded]
    by_cases hp : p < inlen
    · rw [if_pos hp]
      dsimp only
      split
      · exact ⟨_, rfl, inval hp⟩
      · split
        · split
          · exact ⟨_, rfl, inval hp⟩
          · rename_i p1 c1 hsw
            exact step p1 c1 (by have := unescape_switch_forward inp inlen quote _ _ _ hsw; omega) hp
        · exact step _ _ (by omega) hp
    · rw [if_neg hp]
      exact ⟨out, rfl, by omega⟩

/-- C31: for every content of the memory at `in`, every input length and every
quote character, `fr_value_str_unescape` ends and returns (and writes) at
most `inlen` bytes; with the NUL quote character the bytes written are the
`inlen` bytes of the input. -/
theorem unescape_never_longer (inp : Nat → Nat) (inlen quote : Nat) :
    ∃ out, fr_value_str_unescape inp inlen quote = some out ∧ out.length ≤ inlen ∧
      (quote = 0 → out = (List.range inlen).map inp) := by
  unfold fr_value_str_unescape
  by_cases h0 : quote = 0
  · rw [if_pos h0]
    exact ⟨_, rfl, by simp, fun _ => rfl⟩
  · rw [if_neg h0]
    by_cases h1 : quote = 39
    · rw [if_pos h1]
      obtain ⟨r, hr, hl⟩ := unescape_single_bound inp inlen quote inlen 0 [] (by omega)
      exact ⟨r, hr, by simpa using hl, fun h => absurd h h0⟩
    · rw [if_neg h1]
      obtain ⟨r, hr, hl⟩ := unescape_expanded_bound inp inlen quote inlen 0 [] (by omega)
      exact ⟨r, hr, by simpa using hl, fun h => absurd h h0⟩

set_option maxRecDepth 1000000 in
/-- C32 (the code at the failing input): a Long-Extended attribute with a value
of 503 bytes (1, 2, ..., 251, 1, 2, ..., 251, 1) encoded with `outlen = 1000`.
`fr_radius_encode_pair` returns 515 and leaves three fragments, at the offsets
0, 255 and 510, of the lengths 255, 255 and 5, the first two with the flag
0x80; the payload of the third fragment is the byte 0, not the last byte 1 of
the value: pass 2 of `attr_shift` has moved 251 bytes up where 252 were
left to move. -/
theorem long_extended_third_fragment_lost :
    (fr_radius_encode_pair sample_env long_ext_dict.heap none 20 1000 (ramp_state 2 503)).map
      (fun r => (r.1, r.2.mem.read 0 4, r.2.mem.read 255 4, r.2.mem.read 510 5, r.2.mem.read 505 5)) =
      some (515, [245, 255, 1, 128], [245, 255, 1, 128], [245, 5, 1, 0, 0], [247, 248, 249, 250, 251]) := by
  decide

/-! ### Missing members of a struct -/

set_option maxRecDepth 100000 in
/-- C33 (the code at the failing input): the struct 1 of the Extended attribute
241 has the members 1 (integer, 4 bytes), 2 (short) and 3 (byte); the only
pair is one of member 3. With `outlen = 100` the member 1 is missing, exists
and fits in the 97 bytes that remain, and `encode_struct` writes no zero
byte for it and stops: `fr_radius_encode_pair` returns 0, has written the
three header bytes only and has moved the cursor past the pair. With
`outlen = 6` three bytes remain, `encode_struct` writes the four zero bytes
of member 1 at the offsets 3 to 6 and returns 4: `fr_radius_encode_pair`
returns 7. With the pairs of the members 1 and 3 and `outlen = 100` the
record holds member 1 only and the cursor has gone past both pairs. -/
theorem struct_missing_member_not_filled :
    struct_dict.heap.map (fun a => (a.name, a.attr, a.type, a.parent, a.flags.length)) =
      [("radius", 0, PW_TYPE.TLV, none, 1), ("Extended-Attribute-1", 241, PW_TYPE.EXTENDED, some 0, 0),
        ("Ext-Struct", 1, PW_TYPE.STRUCT, some 1, 7), ("Member-A", 1, PW_TYPE.INTEGER, some 2, 4),
        ("Member-B", 2, PW_TYPE.SHORT, some 2, 2), ("Member-C", 3, PW_TYPE.BYTE, some 2, 1)] ∧
    (fr_radius_encode_pair sample_env struct_dict.heap none 20 100 (pairs_state [scalar_pair 5 1 7])).map
      (fun r => (r.1, r.2.mem.hi, r.2.mem.read 0 8, r.2.cursor.pos)) =
      some (0, 3, [241, 3, 1, 0, 0, 0, 0, 0], 1) ∧
    (fr_radius_encode_pair sample_env struct_dict.heap none 20 6 (pairs_state [scalar_pair 5 1 7])).map
      (fun r => (r.1, r.2.mem.hi, r.2.mem.read 0 8, r.2.cursor.pos)) =
      some (7, 7, [241, 7, 1, 0, 0, 0, 0, 0], 1) ∧
    (fr_radius_encode_pair sample_env struct_dict.heap none 20 100
        (pairs_state [scalar_pair 3 4 0x01020304, scalar_pair 5 1 7])).map
      (fun r => (r.1, r.2.mem.hi, r.2.mem.read 0 8, r.2.cursor.pos)) =
      some (7, 7, [241, 7, 1, 1, 2, 3, 4, 0], 2) := by
  refine ⟨by decide, by decide, by decide, by decide⟩

/-! ### Words and comments of a dictionary line -/

/-- C34 (the code at the failing input): in the line
`ATTRIBUTE Foo 1 string # comment` the words `#` and `comment` behind the `#`
are returned as the fifth and sixth token, and in the line
`ATTRIBUTE Foo#Bar 1 string` the second token is `Foo#Bar` and two more
tokens follow it. The test for `#` sits at the top of the loop, before the
blanks are skipped: the line `# comment` gives no token, and the line
`  # comment`, with two blanks in front, gives the tokens `#` and
`comment`. -/
theorem hash_inside_line_is_a_word :
    fr_dict_str_to_argv "ATTRIBUTE Foo 1 string # comment".data MAX_ARGV =
      ["ATTRIBUTE".data, "Foo".data, "1".data, "string".data, "#".data, "comment".data] ∧
    fr_dict_str_to_argv "ATTRIBUTE Foo#Bar 1 string".data MAX_ARGV =
      ["ATTRIBUTE".data, "Foo#Bar".data, "1".data, "string".data] ∧
    fr_dict_str_to_argv "# comment".data MAX_ARGV = [] ∧
    fr_dict_str_to_argv "  # comment".data MAX_ARGV = ["#".data, "comment".data] := by
  refine ⟨by decide, by decide, by decide, by decide⟩

/-! ### The size of the output buffer -/

set_option maxRecDepth 100000 in
/-- C35 (the code at the failing input): the root attribute User-Password
(string, `encrypt=1`) with a value of 5 bytes in an Access-Request.
With `outlen = 10`, and with `outlen = 3`, `fr_radius_encode_pair` returns 18
and has written the 18 bytes at the offsets 0 to 17: `encode_password` pads
the value to 16 bytes and copies them to `out` without a look at the space
left. -/
theorem password_written_past_outlen :
    (fr_radius_encode_pair sample_env password_dict.heap
        (some (code_ctx PW_CODE_ACCESS_REQUEST (List.replicate 16 9) none)) 20 10
        (pairs_state [string_pair 1 [65, 66, 67, 68, 69]])).map
      (fun r => (r.1, r.2.mem.hi, r.2.mem.read 0 2, r.2.cursor.pos)) = some (18, 18, [2, 18], 1) ∧
    (fr_radius_encode_pair sample_env password_dict.heap
        (some (code_ctx PW_CODE_ACCESS_REQUEST (List.replicate 16 9) none)) 20 3
        (pairs_state [string_pair 1 [65, 66, 67, 68, 69]])).map
      (fun r => (r.1, r.2.mem.hi, r.2.mem.read 0 2, r.2.cursor.pos)) = some (18, 18, [2, 18], 1) := by
  refine ⟨by decide, by decide⟩

/-! ### Values of a fixed width -/

theorem fixed_width_source (da : fr_dict_attr_t) (vp : VALUE_PAIR) (w : Nat) (hw : fixed_width da.type = some w) :
    ∃ data, value_source da vp = some (data, (w : Int)) ∧ data.length = w ∧ 1 ≤ w ∧ w ≤ 8 ∧
      da.type.is_structural = false := by
  unfold fixed_width at hw
  split at hw <;> rename_i hty
  · cases hw
    exact ⟨[vp.data.scalar % 256], by simp only [value_source, hty]; rfl, rfl, by omega, by omega,
      by rw [hty]; rfl⟩
  · cases hw
    exact ⟨[(vp.data.scalar % 65536 / 256) % 256, vp.data.scalar % 65536 % 256],
      by simp only [value_source, hty]; rfl, rfl, by omega, by omega, by rw [hty]; rfl⟩
  · cases hw
    exact ⟨_, by simp only [value_source, hty]; rfl, by simp [htonl_bytes], by omega, by omega, by rw [hty]; rfl⟩
  · cases hw
    exact ⟨_, by simp only [value_source, hty]; rfl, by simp [htonl_bytes], by omega, by omega, by rw [hty]; rfl⟩
  · cases hw
    exact ⟨_, by simp only [value_source, hty]; rfl, by simp [htonl_bytes], by omega, by omega, by rw [hty]; rfl⟩
  · cases hw
    exact ⟨_, by simp only [value_source, hty]; rfl, by simp [htonll_bytes, htonl_bytes], by omega, by omega, by rw [hty]; rfl⟩
  · cases hw

theorem leaf_plain_source (E : Env) (heap : Heap) (ctx : Option fr_radius_ctx_t) (out outlen : Nat)
    (da : fr_dict_attr_t) (vp : VALUE_PAIR) (s : Enc) (data : List Nat) (w : Nat)
    (hsrc : value_source da vp = some (data, (w : Int)))
    (henc : da.flags.encrypt = 0) (htag : da.flags.has_tag = false)
    (hL : 1 ≤ w) (hout : outlen < 2 ^ 63) :
    encode_value_leaf E heap ctx out outlen da vp s =
      some (((min w outlen : Nat) : Int),
        (Enc.mk (s.mem.memcpy out data (min w outlen)) s.cursor s.tlv_stack s.g).advance E heap) := by
  have hL0 : ¬ ((w : Int) = 0) := by omega
  have h01 : ¬ ((0 : Nat) = 1) := by decide
  simp only [encode_value_leaf, hsrc, if_neg hL0, henc,
    ne_eq, not_true_eq_false, false_and, if_false, FLAG_ENCRYPT_USER_PASSWORD,
    FLAG_ENCRYPT_TUNNEL_PASSWORD, FLAG_ENCRYPT_ASCEND_SECRET, OfNat.zero_ne_ofNat, htag,
    Bool.false_eq_true, to_ssize_min _ _ hout, h01, of_ssize_min _ _ hout]
/-- C36 (counterexample): the root attribute NAS-Port (integer) with the value
0x01020304 and `outlen = 5`: `fr_radius_encode_pair` returns 5 and writes the
record 5, 5, 1, 2, 3, whose value is the first three bytes of the integer, and
moves the cursor past the pair. -/
theorem integer_truncated_at_small_outlen :
    (fr_radius_encode_pair sample_env nas_port_dict.heap none 2 5 (integer_state 1 0x01020304)).map
      (fun r => (r.1, r.2.mem.read 0 5, r.2.cursor.pos)) = some (5, [5, 5, 1, 2, 3], 1) := by
  decide

/-- C36 (amended): for a pair (of non-zero length) whose attribute is a
root-level, untagged, unencrypted attribute of a fixed-width type (Byte 1,
Short 2, Integer, Date and Signed 4, Integer64 8 bytes, the width `w`), with
number `a` in 1..255 other than Message-Authenticator, and `outlen >= 3`,
`fr_radius_encode_pair` returns `2 + n` with `n = min(w, min(outlen, 255) - 2)`,
moves the cursor to the next pair and writes the byte `a`, the length byte
`2 + n` and the first `n` of the `w` bytes of the value: the full width when
`outlen >= 2 + w`, a truncated value when `outlen` is smaller. -/
theorem fixed_width_layout (E : Env) (heap : Heap) (ctx : Option fr_radius_ctx_t) (fuel outlen : Nat)
    (s : Enc) (vp : VALUE_PAIR) (da par : fr_dict_attr_t) (pi : Nat) (w : Nat)
    (hfuel : 2 ≤ fuel) (hout : 3 ≤ outlen)
    (hcur : fr_cursor_current s.cursor = some vp) (hda : heap[vp.da]? = some da)
    (hdepth : da.depth ≤ E.FR_DICT_MAX_TLV_STACK)
    (hpar : da.parent = some pi) (hpi : heap[pi]? = some par) (hroot : par.flags.is_root = true)
    (hconcat : da.flags.concat = false) (htag : da.flags.has_tag = false) (henc : da.flags.encrypt = 0)
    (hw : fixed_width da.type = some w)
    (ha1 : 1 ≤ da.attr) (ha255 : da.attr ≤ 255) (hma : da.attr ≠ PW_MESSAGE_AUTHENTICATOR)
    (hL : 1 ≤ vp.vp_length) :
    ∃ s1 data, value_source da vp = some (data, (w : Int)) ∧ data.length = w ∧
      fr_radius_encode_pair E heap ctx fuel outlen s =
        some (((2 + min w (min outlen 255 - 2) : Nat) : Int), s1) ∧
      s1.cursor = { s.cursor with pos := s.cursor.pos + 1 } ∧
      s1.mem.read 0 (2 + min w (min outlen 255 - 2)) =
        da.attr :: (2 + min w (min outlen 255 - 2)) ::
          (data.take (min w (min outlen 255 - 2))).map (fun b => b % 256) ∧
      (2 + w ≤ outlen → min w (min outlen 255 - 2) = w) := by
  obtain ⟨data, hsrc, hdl, hw1, hw8, hns⟩ := fixed_width_source da vp w hw
  obtain ⟨f, rfl⟩ : ∃ f, fuel = f + 2 := ⟨fuel - 2, by omega⟩
  have hnext := cursor_next_of_current s.cursor vp hcur
  have htlv : da.type ≠ .TLV := by intro h; rw [h] at hns; exact absurd hns (by decide)
  have hlast : 2 + w ≤ outlen → min w (min outlen 255 - 2) = w := by
    intro h
    simp only [Nat.min_def]
    split_ifs <;> omega
  generalize hal : (if outlen > 255 then 255 else outlen) = al
  have hal2 : al = min outlen 255 := by
    rw [← hal]; simp only [Nat.min_def]; split_ifs <;> omega
  have hal3 : 3 ≤ al ∧ al ≤ 255 := by
    rw [hal2]; simp only [Nat.min_def]; split_ifs <;> omega
  rw [← hal2] at hlast ⊢
  generalize hn : min w (al - 2) = n at hlast ⊢
  have hn2 : n ≤ al - 2 := by rw [← hn]; exact Nat.min_le_right _ _
  have hnw : n ≤ w := by rw [← hn]; exact Nat.min_le_left _ _
  have h1 : ¬ (outlen ≤ 2) := by omega
  have h2 : ¬ (da.depth > E.FR_DICT_MAX_TLV_STACK) := by omega
  have h3 : ¬ (da.vendor = 0 ∧ da.attr > 255) := by omega
  have h4 : vp.vp_length ≠ 0 := by omega
  have h5 : ¬ ((da.vendor = 0 ∧ da.attr = 0) ∨ da.attr > 255) := by omega
  have h6 : ¬ (da.vendor = 0 ∧ da.attr = PW_MESSAGE_AUTHENTICATOR) := fun h => hma h.2
  have h7 : ¬ (al ≤ 2) := by omega
  have h8 : ¬ (al > 255) := by omega
  have hfast : par.flags.is_root = true ∧ ¬ da.flags.concat = true ∧ da.type ≠ .TLV :=
    ⟨hroot, by rw [hconcat]; decide, htlv⟩
  have hleafv := encode_value_at_leaf E heap ctx f 2 (al - 2) 0
    (Enc.mk ((s.mem.write 0 (da.attr &&& 0xff)).write 1 2) s.cursor (some vp.da :: none :: s.tlv_stack.drop 2) s.g)
    vp.da da vp rfl hda rfl hcur rfl hns
  have hleaf := leaf_plain_source E heap ctx 2 (al - 2) da vp
    (Enc.mk ((s.mem.write 0 (da.attr &&& 0xff)).write 1 2) s.cursor (some vp.da :: none :: s.tlv_stack.drop 2) s.g)
    data w hsrc henc htag hw1 (by omega)
  rw [hn] at hleaf
  have hpos : ¬ (((n : Nat) : Int) ≤ 0) := by
    have : 1 ≤ n := by rw [← hn]; exact Nat.le_min.mpr ⟨hw1, by omega⟩
    omega
  have htake : read_bytes data n = data.take n := by
    apply list_eq_of_getD
    · simp [read_bytes, hdl, hnw]
    · intro i hi
      simp only [read_bytes, List.length_map, List.length_range] at hi
      simp only [read_bytes, List.getD_eq_getElem?_getD, List.getElem?_map, List.getElem?_range hi,
        Option.map_some', Option.getD_some, List.getElem?_take_of_lt hi]
  suffices hmain : ∃ s1, fr_radius_encode_pair E heap ctx (f + 2) outlen s = some (((2 + n : Nat) : Int), s1) ∧
      s1.cursor = { s.cursor with pos := s.cursor.pos + 1 } ∧
      s1.mem.read 0 (2 + n) = da.attr :: (2 + n) :: (data.take n).map (fun b => b % 256) by
    obtain ⟨s1, e1, e2, e3⟩ := hmain
    exact ⟨s1, data, hsrc, hdl, e1, e2, e3, hlast⟩
  unfold fr_radius_encode_pair
  simp only [if_neg h1, hcur, hda, if_neg h2, if_neg h3, h4, false_and, if_false, hpar, Option.some_bind, hpi,
    if_pos hfast, hal, encode_rfc_hdr, Enc.da_at, Enc.stack_at, List.getD_cons_zero, hns, Bool.false_eq_true,
    if_neg h5, if_neg h6, encode_rfc_hdr_internal, if_neg h7, if_neg h8, Nat.zero_add,
    size_sub_small al 2 (by omega) (by omega), hleafv, hleaf, if_neg hpos]
  have hret : ((((s.mem.write 0 (da.attr &&& 0xff)).write 1 2).memcpy 2 data n).add_byte 1 (n : Int)).byte 1 =
      2 + n := by
    rw [Mem.add_byte_byte, if_pos rfl, Mem.memcpy_byte, if_neg (by omega), Mem.write_byte, if_pos rfl]
    exact add_byte_value 2 n (by omega)
  simp only [Enc.advance_mem, hret]
  refine ⟨_, rfl, ?_, ?_⟩
  · show (Enc.advance E heap _).cursor = _
    simp only [Enc.advance, hnext]
  · have hb0 : ((((s.mem.write 0 (da.attr &&& 0xff)).write 1 2).memcpy 2 data n).add_byte 1 (n : Int)).byte 0 =
        da.attr := by
      rw [Mem.add_byte_byte, if_neg (by omega), Mem.memcpy_byte, if_neg (by omega), Mem.write_byte,
        if_neg (by omega), Mem.write_byte, if_pos rfl, and_ff, Nat.mod_mod, Nat.mod_eq_of_lt (by omega)]
    have hrd : ((((s.mem.write 0 (da.attr &&& 0xff)).write 1 2).memcpy 2 data n).add_byte 1 (n : Int)).read 2 n =
        (read_bytes data n).map (fun b => b % 256) := by
      rw [read_add_byte_lt _ _ _ _ _ (by omega), read_memcpy]
    have e : 2 + n = n + 1 + 1 := by omega
    rw [e, Mem.read_succ, Mem.read_succ]
    simp only [Nat.zero_add, Nat.reduceAdd]
    rw [hb0, hret, hrd, htake, Nat.add_comm 2 n]

theorem fixed_width_layout_witness :
    ∃ s1 data, value_source (nas_port_dict.heap.getD 1 fr_dict_attr_t.zero)
        { da := 1, vp_length := 4, data := { scalar := 0x01020304 } } = some (data, ((4 : Nat) : Int)) ∧
      data.length = 4 ∧
      fr_radius_encode_pair sample_env nas_port_dict.heap none 2 6 (integer_state 1 0x01020304) =
        some (((2 + min 4 (min 6 255 - 2) : Nat) : Int), s1) ∧
      s1.cursor = { (integer_state 1 0x01020304).cursor with pos := (integer_state 1 0x01020304).cursor.pos + 1 } ∧
      s1.mem.read 0 (2 + min 4 (min 6 255 - 2)) =
        (nas_port_dict.heap.getD 1 fr_dict_attr_t.zero).attr :: (2 + min 4 (min 6 255 - 2)) ::
          (data.take (min 4 (min 6 255 - 2))).map (fun b => b % 256) ∧
      (2 + 4 ≤ 6 → min 4 (min 6 255 - 2) = 4) :=
  fixed_width_layout sample_env nas_port_dict.heap none 2 6 (integer_state 1 0x01020304)
    { da := 1, vp_length := 4, data := { scalar := 0x01020304 } } (nas_port_dict.heap.getD 1 fr_dict_attr_t.zero)
    (nas_port_dict.heap.getD 0 fr_dict_attr_t.zero) 0 4
    (by decide) (by decide) (by rfl) (by rfl) (by decide) (by rfl) (by rfl) (by decide) (by decide)
    (by decide) (by decide) (by rfl) (by decide) (by decide) (by decide) (by decide)

/-! ### The length of an encoded Tunnel-Password -/

set_option maxRecDepth 100000 in
/-- C37 (the code at the failing input): the root attribute 70 (string,
`encrypt=2`, no `has_tag`) with a value of 3 bytes. In an Accounting-Request
`encode_value` writes 19 bytes, a tag byte 0 at `out[0]`, the 2 salt bytes and
16 bytes of cipher text at the offsets 1 to 18, and returns 18; the record of
`fr_radius_encode_pair` has the length 20 and ends one byte before the last
byte written. In an Access-Accept the same value gives 18 bytes written and
18 returned. -/
theorem untagged_tunnel_password_length :
    untagged_tunnel_dict.heap.map (fun a => (a.name, a.attr, a.type, a.flags.encrypt, a.flags.has_tag)) =
      [("radius", 0, PW_TYPE.TLV, 0, false), ("Tunnel-Secret", 70, PW_TYPE.STRING, 2, false)] ∧
    (encode_value sample_env untagged_tunnel_dict.heap
        (some (code_ctx PW_CODE_ACCOUNTING_REQUEST (List.replicate 16 9) none)) 5 0 255 0
        (leaf_state (string_pair 1 [65, 66, 67]))).map (fun r => (r.1, r.2.mem.hi, r.2.mem.read 0 3)) =
      some (18, 19, [0, 128, 0]) ∧
    (fr_radius_encode_pair sample_env untagged_tunnel_dict.heap
        (some (code_ctx PW_CODE_ACCOUNTING_REQUEST (List.replicate 16 9) none)) 5 255
        (pairs_state [string_pair 1 [65, 66, 67]])).map (fun r => (r.1, r.2.mem.hi, r.2.mem.read 0 5)) =
      some (20, 21, [70, 20, 0, 128, 0]) ∧
    (encode_value sample_env untagged_tunnel_dict.heap
        (some (code_ctx 2 (List.replicate 16 9) (some (List.replicate 16 9)))) 5 0 255 0
        (leaf_state (string_pair 1 [65, 66, 67]))).map (fun r => (r.1, r.2.mem.hi, r.2.mem.read 0 3)) =
      some (18, 18, [128, 0, 149]) := by
  refine ⟨by decide, by decide, by decide, by decide⟩

/-! ### A call of `fr_dict_attr_add` that fails -/

/-- C38 (the code at the failing input): the struct Ext-Struct has the members
Member-A (1, integer), Member-B (2, short) and Member-C (3, byte) and the
length 7. `fr_dict_attr_add` of a byte attribute 4 under it with the name
Member-A, which member 1 has, returns -1 (duplicate attribute name) and adds
no attribute, and afterwards the `flags.length` of the struct is 8: the
length of the rejected child has been added to it. -/
theorem failed_add_changes_struct_length :
    struct_dict.heap.map (fun a => (a.name, a.attr, a.flags.length)) =
      [("radius", 0, 1), ("Extended-Attribute-1", 241, 0), ("Ext-Struct", 1, 7), ("Member-A", 1, 4),
        ("Member-B", 2, 2), ("Member-C", 3, 1)] ∧
    (fr_dict_attr_add sample_env struct_dict 2 "Member-A" 4 .BYTE {}).1 = -1 ∧
    (fr_dict_attr_add sample_env struct_dict 2 "Member-A" 4 .BYTE {}).2.heap.map
      (fun a => (a.name, a.attr, a.flags.length)) =
      [("radius", 0, 1), ("Extended-Attribute-1", 241, 0), ("Ext-Struct", 1, 8), ("Member-A", 1, 4),
        ("Member-B", 2, 2), ("Member-C", 3, 1)] := by
  refine ⟨by decide, by decide, by decide⟩

/-! ### The operators `==` and `!=` on prefixes -/

/-- C39 (the code at the failing input): for the IPv4 prefixes 10.0.0.0/8 and
24.0.0.0/8, which have the same prefix length and differ in the address,
`value_data_cmp_op` returns 0 (false) for the operator `==` and 0 (false)
for the operator `!=` as well. For the prefixes 10.0.0.0/8 and 10.1.0.0/16,
of different prefix lengths, it returns 0 for `==` and 1 for `!=`, and for
the IPv4 addresses 10.0.0.0 and 24.0.0.0 it returns 0 for `==` and 1 for
`!=`. -/
theorem prefix_ne_not_negation_of_eq :
    value_data_cmp_op .T_OP_CMP_EQ .IPV4_PREFIX { raw := [0, 8, 10, 0, 0, 0], length := 6 }
      .IPV4_PREFIX { raw := [0, 8, 24, 0, 0, 0], length := 6 } = some 0 ∧
    value_data_cmp_op .T_OP_NE .IPV4_PREFIX { raw := [0, 8, 10, 0, 0, 0], length := 6 }
      .IPV4_PREFIX { raw := [0, 8, 24, 0, 0, 0], length := 6 } = some 0 ∧
    value_data_cmp_op .T_OP_CMP_EQ .IPV4_PREFIX { raw := [0, 8, 10, 0, 0, 0], length := 6 }
      .IPV4_PREFIX { raw := [0, 16, 10, 1, 0, 0], length := 6 } = some 0 ∧
    value_data_cmp_op .T_OP_NE .IPV4_PREFIX { raw := [0, 8, 10, 0, 0, 0], length := 6 }
      .IPV4_PREFIX { raw := [0, 16, 10, 1, 0, 0], length := 6 } = some 1 ∧
    value_data_cmp_op .T_OP_CMP_EQ .IPV4_ADDR { raw := [10, 0, 0, 0], length := 4 }
      .IPV4_ADDR { raw := [24, 0, 0, 0], length := 4 } = some 0 ∧
    value_data_cmp_op .T_OP_NE .IPV4_ADDR { raw := [10, 0, 0, 0], length := 4 }
      .IPV4_ADDR { raw := [24, 0, 0, 0], length := 4 } = some 1 := by
  refine ⟨by decide, by decide, by decide, by decide, by decide, by decide⟩

/-! ### Casts between IPv4 and IPv6 values -/

theorem cast_ip_reaches_block (dst : value_data_t) (dst_type src_type : PW_TYPE) (src : value_data_t)
    (r : Option (Int × value_data_t))
    (hd : dst_type = .IPV4_ADDR ∨ dst_type = .IPV6_ADDR ∨ dst_type = .IPV4_PREFIX ∨ dst_type = .IPV6_PREFIX)
    (hs : src_type = .IPV4_ADDR ∨ src_type = .IPV6_ADDR ∨ src_type = .IPV4_PREFIX ∨ src_type = .IPV6_PREFIX)
    (hne : dst_type ≠ src_type) (hb : cast_ip_block dst dst_type src_type src = some r) :
    value_data_cast dst dst_type src_type src = r := by
  unfold value_data_cast
  have h1 : ¬ ¬ (dst_type ≠ src_type) := not_not_intro hne
  have h2 : ¬ (src_type = .STRING) := by rcases hs with h | h | h | h <;> rw [h] <;> decide
  have h3 : ¬ (dst_type = .OCTETS) := by rcases hd with h | h | h | h <;> rw [h] <;> decide
  have h4 : ¬ (dst_type = .STRING) := by rcases hd with h | h | h | h <;> rw [h] <;> decide
  have h5 : ¬ (src_type = .IFID ∧ dst_type = .INTEGER64) := by
    rintro ⟨h, -⟩; rcases hs with h' | h' | h' | h' <;> rw [h'] at h <;> cases h
  have h6 : ¬ (src_type = .INTEGER64 ∧ dst_type = .ETHERNET) := by
    rintro ⟨h, -⟩; rcases hs with h' | h' | h' | h' <;> rw [h'] at h <;> cases h
  have h7 : ¬ (dst_type = .INTEGER64) := by rcases hd with h | h | h | h <;> rw [h] <;> decide
  have h8 : ¬ (dst_type = .INTEGER) := by rcases hd with h | h | h | h <;> rw [h] <;> decide
  have h9 : ¬ (dst_type = .SHORT) := by rcases hd with h | h | h | h <;> rw [h] <;> decide
  have h10 : ¬ (dst_type = .SIGNED) := by rcases hd with h | h | h | h <;> rw [h] <;> decide
  rw [if_neg h1, if_neg h2, if_neg h3, if_neg h4, if_neg h5, if_neg h6, if_neg h7, if_neg h8, if_neg h9,
    if_neg h10, hb]

theorem read_bytes_prefix (addr rest : List Nat) (n : Nat) (ha : addr.length = n) :
    read_bytes (addr ++ rest) n = addr := by
  apply List.ext_getElem
  · simp [read_bytes, ha]
  · intro i h1 h2
    simp only [read_bytes, List.getElem_map, List.getElem_range]
    rw [List.getD_eq_getElem?_getD, List.getElem?_append_left (by omega), List.getElem?_eq_getElem h2]; rfl

theorem memcmp_map_prefix (rest : List Nat) : memcmp (v4_v6_map ++ rest) v4_v6_map 12 = 0 := by
  simp [memcmp, v4_v6_map]

theorem cast_v4_addr_to_v6 (dst src : value_data_t) (h4 : src.raw.length = 4) :
    value_data_cast dst .IPV6_ADDR .IPV4_ADDR src =
      some (0, { dst with raw := v4_v6_map ++ src.raw ++ dst.raw.drop 16, length := 16 }) := by
  apply cast_ip_reaches_block _ _ _ _ _ (by decide) (by decide) (by decide)
  simp only [cast_ip_block, cast_fixed_length, value_data_t.set_bytes, dict_attr_sizes,
    read_bytes_self src.raw 4 h4, List.length_append, h4]
  rfl

theorem cast_v6_addr_to_v4 (dst src : value_data_t) (addr rest : List Nat) (ha : addr.length = 4)
    (hs : src.raw = v4_v6_map ++ addr ++ rest) :
    value_data_cast dst .IPV4_ADDR .IPV6_ADDR src =
      some (0, { dst with raw := addr ++ dst.raw.drop 4, length := 4 }) := by
  apply cast_ip_reaches_block _ _ _ _ _ (by decide) (by decide) (by decide)
  have hm : memcmp src.raw v4_v6_map 12 = 0 := by
    rw [hs, List.append_assoc]
    exact memcmp_map_prefix _
  have hd : read_bytes (src.raw.drop 12) 4 = addr := by
    rw [hs]
    have e : (v4_v6_map ++ addr ++ rest).drop 12 = addr ++ rest := by simp [v4_v6_map]
    rw [e]
    exact read_bytes_prefix addr rest 4 ha
  simp only [cast_ip_block, hm, ne_eq, not_true_eq_false, if_false, cast_fixed_length, value_data_t.set_bytes,
    dict_attr_sizes, hd, ha]

theorem cast_v4_prefix_to_v6 (dst src : value_data_t) (p : Nat) (addr : List Nat) (ha : addr.length = 4)
    (hs : src.raw = 0 :: p :: addr) (hp : p ≤ 32) :
    value_data_cast dst .IPV6_PREFIX .IPV4_PREFIX src =
      some (0, { dst with raw := 0 :: (96 + p) :: (v4_v6_map ++ addr) ++ dst.raw.drop 18, length := 2 }) := by
  apply cast_ip_reaches_block _ _ _ _ _ (by decide) (by decide) (by decide)
  have h1 : (96 + p % 256) % 256 = 96 + p := by omega
  have hd : read_bytes (src.raw.drop 2) 4 = addr := by
    rw [hs]
    exact read_bytes_self addr 4 ha
  have hb : src.raw.getD 1 0 = p := by rw [hs]; rfl
  have hl : ([0, 96 + p] ++ v4_v6_map ++ addr).length = 18 := by simp [v4_v6_map, ha]
  simp only [cast_ip_block, cast_fixed_length, value_data_t.set_bytes, dict_attr_sizes, hd, hb, h1, hl]
  rfl

theorem cast_v6_prefix_to_v4 (dst src : value_data_t) (p : Nat) (addr rest : List Nat) (ha : addr.length = 4)
    (hs : src.raw = 0 :: (96 + p) :: (v4_v6_map ++ addr) ++ rest) (hp : p ≤ 32) :
    value_data_cast dst .IPV4_PREFIX .IPV6_PREFIX src =
      some (0, { dst with raw := 0 :: p :: addr ++ dst.raw.drop 6, length := 6 }) := by
  apply cast_ip_reaches_block _ _ _ _ _ (by decide) (by decide) (by decide)
  have hm : memcmp (src.raw.drop 2) v4_v6_map 12 = 0 := by
    rw [hs]
    have e : (0 :: (96 + p) :: (v4_v6_map ++ addr) ++ rest).drop 2 = v4_v6_map ++ (addr ++ rest) := by
      simp [v4_v6_map]
    rw [e]
    exact memcmp_map_prefix _
  have hb : src.raw.getD 1 0 = 96 + p := by rw [hs]; rfl
  have h1 : (96 + p) % 256 = 96 + p := by omega
  have h2 : (96 + p - 96) % 256 = p := by omega
  have h3 : ¬ ¬ (96 + p ≥ 96) := by omega
  have hd : read_bytes (src.raw.drop 14) 4 = addr := by
    rw [hs]
    have e : (0 :: (96 + p) :: (v4_v6_map ++ addr) ++ rest).drop 14 = addr ++ rest := by simp [v4_v6_map]
    rw [e]
    exact read_bytes_prefix addr rest 4 ha
  have hl : ([0, p] ++ addr).length = 6 := by simp [ha]
  simp only [cast_ip_block, hm, ne_eq, not_true_eq_false, if_false, hb, h1, h2, if_neg h3, cast_fixed_length,
    value_data_t.set_bytes, dict_attr_sizes, hd, hl]
  rfl
/-- C40: for every IPv4 address (4 in-place bytes), `value_data_cast` to an
IPv6 address returns 0 and gives the 12 bytes of the mapping prefix
`::ffff:0:0/96` followed by the address, with the length 16, and the cast of
that value back to an IPv4 address returns 0 and gives the original 4 bytes
with the length 4. Likewise an IPv4 prefix with the reserved byte 0, the
prefix length `p` (at most 32) and 4 address bytes is cast to the IPv6 prefix
with the reserved byte 0, the prefix length `96 + p`, the mapping prefix and
the address, and the cast of that value back to an IPv4 prefix returns 0 and
gives the original 6 bytes with the length 6. -/
theorem ipv4_ipv6_cast_round_trip (dst dst2 src srcp : value_data_t) (p : Nat) (addr : List Nat)
    (h4 : src.raw.length = 4) (ha : addr.length = 4) (hs : srcp.raw = 0 :: p :: addr) (hp : p ≤ 32) :
    (∃ d6 d4, value_data_cast dst .IPV6_ADDR .IPV4_ADDR src = some (0, d6) ∧ d6.length = 16 ∧
        d6.raw.take 16 = v4_v6_map ++ src.raw ∧
        value_data_cast dst2 .IPV4_ADDR .IPV6_ADDR d6 = some (0, d4) ∧ d4.length = 4 ∧
        d4.raw.take 4 = src.raw) ∧
    (∃ d6 d4, value_data_cast dst .IPV6_PREFIX .IPV4_PREFIX srcp = some (0, d6) ∧
        d6.raw.take 18 = 0 :: (96 + p) :: (v4_v6_map ++ addr) ∧
        value_data_cast dst2 .IPV4_PREFIX .IPV6_PREFIX d6 = some (0, d4) ∧ d4.length = 6 ∧
        d4.raw.take 6 = srcp.raw) := by
  constructor
  · refine ⟨_, _, cast_v4_addr_to_v6 dst src h4, rfl, ?_,
      cast_v6_addr_to_v4 dst2 _ src.raw (dst.raw.drop 16) h4 rfl, rfl, ?_⟩
    · show (v4_v6_map ++ src.raw ++ dst.raw.drop 16).take 16 = _
      rw [List.take_left' (by simp [v4_v6_map, h4])]
    · show (src.raw ++ dst2.raw.drop 4).take 4 = _
      rw [List.take_left' h4]
  · refine ⟨_, _, cast_v4_prefix_to_v6 dst srcp p addr ha hs hp, ?_,
      cast_v6_prefix_to_v4 dst2 _ p addr (dst.raw.drop 18) ha rfl hp, rfl, ?_⟩
    · show (0 :: (96 + p) :: (v4_v6_map ++ addr) ++ dst.raw.drop 18).take 18 = _
      rw [List.take_left' (by simp [v4_v6_map, ha])]
    · show (0 :: p :: addr ++ dst2.raw.drop 6).take 6 = _
      rw [List.take_left' (by simp [ha]), hs]

theorem ipv4_ipv6_cast_round_trip_witness :
    (∃ d6 d4, value_data_cast {} .IPV6_ADDR .IPV4_ADDR { raw := [192, 168, 1, 2], length := 4 } = some (0, d6) ∧
        d6.length = 16 ∧ d6.raw.take 16 = v4_v6_map ++ [192, 168, 1, 2] ∧
        value_data_cast {} .IPV4_ADDR .IPV6_ADDR d6 = some (0, d4) ∧ d4.length = 4 ∧
        d4.raw.take 4 = [192, 168, 1, 2]) ∧
    (∃ d6 d4, value_data_cast {} .IPV6_PREFIX .IPV4_PREFIX { raw := [0, 24, 10, 1, 2, 0], length := 6 } =
          some (0, d6) ∧
        d6.raw.take 18 = 0 :: (96 + 24) :: (v4_v6_map ++ [10, 1, 2, 0]) ∧
        value_data_cast {} .IPV4_PREFIX .IPV6_PREFIX d6 = some (0, d4) ∧ d4.length = 6 ∧
        d4.raw.take 6 = [0, 24, 10, 1, 2, 0]) :=
  ipv4_ipv6_cast_round_trip {} {} { raw := [192, 168, 1, 2], length := 4 }
    { raw := [0, 24, 10, 1, 2, 0], length := 6 } 24 [10, 1, 2, 0] rfl rfl rfl (by decide)

end FR
